import Mathlib

/-!
# SPI NOR flash benchmark firmware: verification development

Shallow embedding of the parts of the firmware that the specification makes
claims about, followed by the theorems that settle each claim.

Conventions of the embedding

* `uint8_t` values are natural numbers below 256, `uint32_t` values are natural
  numbers reduced modulo `2 ^ 32` wherever the C arithmetic can wrap.
* A file on the SD card is the list of its bytes; a FatFs `FRESULT` is a natural
  number (`FR_OK = 0`, `FR_DISK_ERR = 1`, `FR_INT_ERR = 2`).
* A C string held in a buffer is the part of the buffer before its first NUL.
* `double` values are modelled by exact rationals.
-/

namespace Firmware

/-! ## FatFs result codes and line reading -/

/-- FatFs result code `FR_OK`. -/
def FR_OK : Nat := 0

/-- FatFs result code `FR_DISK_ERR`. -/
def FR_DISK_ERR : Nat := 1

/-- FatFs result code `FR_INT_ERR`. -/
def FR_INT_ERR : Nat := 2

/-- Inner loop of FatFs `f_gets` (byte configuration, no CR stripping): copy bytes
from the file into the buffer until a line feed has been stored, the room in the
buffer is used up, or the file ends.  Returns the bytes stored and the unread
rest of the file. -/
def f_gets_go : Nat → List Nat → List Nat × List Nat
  | 0, rest => ([], rest)
  | _ + 1, [] => ([], [])
  | room + 1, c :: rest =>
    if c = 10 then ([c], rest)
    else ((c :: (f_gets_go room rest).1), (f_gets_go room rest).2)

/-- FatFs `f_gets (buff, len, fp)` on a file with contents `data` and read pointer
`pos`: stores at most `len - 1` bytes (room is kept for the terminating NUL) and
returns `none` (the C `NULL`) when nothing could be read, otherwise the bytes
stored and the new read pointer. -/
def f_gets (len : Nat) (data : List Nat) (pos : Nat) : Option (List Nat × Nat) :=
  let line := (f_gets_go (len - 1) (data.drop pos)).1
  if line = [] then none else some (line, pos + line.length)

/-- The C string stored in a buffer: the bytes before the first NUL. -/
def cstr (buf : List Nat) : List Nat := buf.takeWhile (fun c => c != 0)

/-- C `strstr (hay, needle) != NULL` on C strings given as byte lists without NUL. -/
def strstr : List Nat → List Nat → Bool
  | [], needle => needle.isEmpty
  | c :: hay, needle => needle.isPrefixOf (c :: hay) || strstr hay needle

/-- The bytes of an ASCII string literal. -/
def bytes (s : String) : List Nat := s.toList.map Char.toNat

/-- C `isspace` in the "C" locale: space, `\t`, `\n`, `\v`, `\f`, `\r`. -/
def isspace (c : Nat) : Bool := c == 32 || (decide (9 ≤ c) && decide (c ≤ 13))

/-- C `tolower` in the "C" locale. -/
def tolower (c : Nat) : Nat := if 65 ≤ c ∧ c ≤ 90 then c + 32 else c

/-- C `strcasecmp` on C strings: the difference of the first pair of bytes that
differ after `tolower`, `0` when there is none. -/
def strcasecmp : List Nat → List Nat → Int
  | [], [] => 0
  | [], b :: _ => 0 - (tolower b : Int)
  | a :: _, [] => (tolower a : Int)
  | a :: as, b :: bs =>
    if tolower a = tolower b then strcasecmp as bs else (tolower a : Int) - (tolower b : Int)

/-- All lines `f_gets` returns when called again and again from read pointer
`pos` until it returns `NULL` (at most `fuel` calls). -/
def f_gets_all (len : Nat) (data : List Nat) : Nat → Nat → List (List Nat)
  | 0, _ => []
  | fuel + 1, pos =>
    match f_gets len data pos with
    | none => []
    | some (line, pos') => line :: f_gets_all len data fuel pos'

/-! ## `Project/csvlog.c` -/

namespace csvlog

/-- The bytes of the C string literal `"SESSION_START"`. -/
def SESSION_START : List Nat := [83, 69, 83, 83, 73, 79, 78, 95, 83, 84, 65, 82, 84]

/-- The test of `csv_erase_last_session` on a line just read:
`line[0]=='#' && strstr(line, "SESSION_START")`. -/
def is_marker (line : List Nat) : Bool :=
  (line.headD 0 == 35) && strstr (cstr line) SESSION_START

/-- The scanning loop of `csv_erase_last_session`: `for (;;)` reading one line per
iteration with a 256 byte buffer and remembering the position in front of the
last marker line.  `none` means the iteration budget `fuel` ran out before the
end of the file was reached. -/
def scan_markers (data : List Nat) : Nat → Nat → Nat → Option Nat
  | 0, _, _ => none
  | fuel + 1, pos, last_marker_pos =>
    match f_gets 256 data pos with
    | none => some last_marker_pos
    | some (line, pos') =>
      scan_markers data fuel pos' (if is_marker line then pos else last_marker_pos)

/-- `csv_erase_last_session`: returns the `FRESULT` and the contents of
`results.csv` afterwards.  `fr_mount`, `fr_open`, `fr_lseek` and `fr_truncate` are
the results the FatFs calls `f_mount`, `f_open`, `f_lseek` and `f_truncate`
report; `f_truncate` cuts the file at the read/write pointer when it succeeds.
Every `f_gets` consumes at least one byte, so `file.length + 1` iterations always
reach the end of the file. -/
def csv_erase_last_session (fr_mount fr_open fr_lseek fr_truncate : Nat)
    (file : List Nat) : Option (Nat × List Nat) :=
  if fr_mount ≠ FR_OK then some (fr_mount, file)
  else if fr_open ≠ FR_OK then some (fr_open, file)
  else
    -- skip header
    let pos0 := match f_gets 256 file 0 with
      | none => 0
      | some (_, p) => p
    match scan_markers file (file.length + 1) pos0 0 with
    | none => none
    | some last_marker_pos =>
      if last_marker_pos = 0 then some (FR_OK, file)
      else if fr_lseek ≠ FR_OK then some (fr_lseek, file)
      else if fr_truncate ≠ FR_OK then some (fr_truncate, file)
      else some (FR_OK, file.take last_marker_pos)

/-- Position in front of the last line among `lines` (the first of which starts at
byte `pos`) whose first 255 bytes pass the marker test; `last` when there is
none. -/
def lastMarkerPos : Nat → List (List Nat) → Nat → Nat
  | _, [], last => last
  | pos, l :: ls, last =>
    lastMarkerPos (pos + l.length) ls (if is_marker (l.take 255) then pos else last)

/-- A text line of the log as it lies in the file: a body of characters (no line
feed, no NUL), then the line feed, at most 256 bytes in all, which covers every
line whose text without the line end (LF or CR LF) is shorter than 255
characters. -/
def IsLine (l : List Nat) : Prop :=
  ∃ body : List Nat, l = body ++ [10] ∧ 10 ∉ body ∧ 0 ∉ body ∧ l.length ≤ 256

/-- A session marker in the words of the specification: a line that starts with
`#` and contains `SESSION_START`. -/
def IsSessionMarker (l : List Nat) : Prop :=
  l.head? = some 35 ∧ SESSION_START <:+: l

end csvlog

/-! ## `Projectv3/bench/analyze.c`: scoring and the top-3 list -/

namespace analyze

/-- The C struct `chip_ref_t`: one row of the reference catalog.  Text fields are
byte strings, `double` fields are rationals. -/
structure chip_ref_t where
  model : List Nat
  company : List Nat
  family : List Nat
  cap_mbit : ℚ
  jedec : List Nat
  jedec_mfg : Nat
  jedec_dev : Nat
  typ_erase_ms : ℚ
  max_erase_ms : ℚ
  typ_erase32_ms : ℚ
  max_erase32_ms : ℚ
  typ_erase64_ms : ℚ
  max_erase64_ms : ℚ
  max_read_mhz : ℚ
  typ_prog_ms : ℚ
  max_prog_ms : ℚ
  read_50_mb_s : ℚ
  v_range : List Nat
  endurance : ℚ
  deriving DecidableEq

/-- A `chip_ref_t` after `memset (&ref, 0, sizeof ref)`. -/
def chip_ref_zero : chip_ref_t :=
  ⟨[], [], [], 0, [], 0, 0, 0, 0, 0, 0, 0, 0, 0, 0, 0, 0, [], 0⟩

/-- The local struct `hit_t` of `identify_chip_from_bench_12mhz`. -/
structure hit_t where
  ref : chip_ref_t
  score : ℚ
  deriving DecidableEq

/-- The score `1e99` every slot of `best` starts with. -/
def SENTINEL : ℚ := 10 ^ 99

/-- The initial `best[3]`: every slot has score `1e99` and a zeroed row. -/
def best_init : List hit_t := List.replicate 3 ⟨chip_ref_zero, SENTINEL⟩

/-- Scoring weight `w_erase`. -/
def w_erase : ℚ := 1

/-- Scoring weight `w_prog`. -/
def w_prog : ℚ := 1

/-- Scoring weight `w_read`. -/
def w_read : ℚ := 7 / 10

/-- Distance component `d_erase = fabs(e_ms - typ_erase_ms) / fmax(1.0, typ_erase_ms)`. -/
def d_erase (e_ms : ℚ) (r : chip_ref_t) : ℚ :=
  |e_ms - r.typ_erase_ms| / max 1 r.typ_erase_ms

/-- Distance component `d_prog = fabs(prog_ms_meas - typ_prog_ms) / fmax(0.1, typ_prog_ms)`. -/
def d_prog (prog_ms_meas : ℚ) (r : chip_ref_t) : ℚ :=
  |prog_ms_meas - r.typ_prog_ms| / max (1 / 10) r.typ_prog_ms

/-- Distance component `d_read`: relative read error when the row's
`read_50_mb_s` exceeds `0.01`, else `0.0`. -/
def d_read (read50_mb_s_meas : ℚ) (r : chip_ref_t) : ℚ :=
  if r.read_50_mb_s > 1 / 100 then |read50_mb_s_meas - r.read_50_mb_s| / r.read_50_mb_s
  else 0

/-- The JEDEC block of the scoring loop, applied to the running `score`:
`if (live_mfg || live_dev) { if (r.jedec_mfg || r.jedec_dev) { if (equal)
score -= 0.25; else score += 100.0; } }`. -/
def jedec_influence (live_mfg live_dev : Nat) (r : chip_ref_t) (score : ℚ) : ℚ :=
  if live_mfg ≠ 0 ∨ live_dev ≠ 0 then
    if r.jedec_mfg ≠ 0 ∨ r.jedec_dev ≠ 0 then
      if r.jedec_mfg = live_mfg ∧ r.jedec_dev = live_dev then score - 1 / 4
      else score + 100
    else score
  else score

/-- The score the loop body of `identify_chip_from_bench_12mhz` computes for an
accepted row: weighted distance, JEDEC influence, and the blend applied when the
write measurement is unreliable. -/
def row_score (e_ms prog_ms_meas read50_mb_s_meas : ℚ) (live_mfg live_dev : Nat)
    (write_unreliable : Bool) (r : chip_ref_t) : ℚ :=
  let score := w_erase * d_erase e_ms r + w_prog * d_prog prog_ms_meas r
    + w_read * d_read read50_mb_s_meas r
  let score := jedec_influence live_mfg live_dev r score
  if write_unreliable then score - w_prog * d_prog prog_ms_meas r + 15 / 100 * d_prog prog_ms_meas r
  else score

/-- The shifting loop `for (int j=2;j>i;j--) best[j] = best[j-1];`, started at
index `j`. -/
def shift_down (i : Nat) : Nat → List hit_t → List hit_t
  | 0, best => best
  | j + 1, best =>
    if i < j + 1 then
      match best[j]? with
      | some h => shift_down i j (best.set (j + 1) h)
      | none => best
    else best

/-- The insertion loop `for (int i=0;i<3;i++){ if (score < best[i].score) { shift;
best[i].score = score; best[i].ref = r; break; } }`, with `n` iterations left
and the loop variable at `i`. -/
def top3_scan (score : ℚ) (r : chip_ref_t) : Nat → Nat → List hit_t → List hit_t
  | 0, _, best => best
  | n + 1, i, best =>
    match best[i]? with
    | some h =>
      if score < h.score then (shift_down i 2 best).set i ⟨r, score⟩
      else top3_scan score r n (i + 1) best
    | none => best

/-- One pass of "Maintain Top-3 lowest scores" for a row `r` with score `score`. -/
def top3_update (score : ℚ) (r : chip_ref_t) (best : List hit_t) : List hit_t :=
  top3_scan score r 3 0 best

/-- The array `best` after the `while` loop of `identify_chip_from_bench_12mhz`
has scored the accepted rows `rows` in catalog order. -/
def identify_best (e_ms prog_ms_meas read50_mb_s_meas : ℚ) (live_mfg live_dev : Nat)
    (write_unreliable : Bool) (rows : List chip_ref_t) : List hit_t :=
  rows.foldl
    (fun best r =>
      top3_update
        (row_score e_ms prog_ms_meas read50_mb_s_meas live_mfg live_dev write_unreliable r)
        r best)
    best_init

/-- The slots the final printing loop reports: it skips every slot with
`best[i].score >= 1e99`. -/
def reported (best : List hit_t) : List hit_t :=
  best.filter (fun h => !decide (h.score ≥ SENTINEL))

/-- Insert `x` behind every entry whose score is not above its own, that is in
front of the first entry with a strictly larger score. -/
def insertBehindEquals (x : hit_t) : List hit_t → List hit_t
  | [] => [x]
  | b :: l => if x.score < b.score then x :: b :: l else b :: insertBehindEquals x l

/-- The three slots of `best` when the rows seen so far, sorted, are `l`: the first
three of `l`, then untouched sentinel slots. -/
def padded (l : List hit_t) : List hit_t :=
  l.take 3 ++ List.replicate (3 - min 3 l.length) ⟨chip_ref_zero, SENTINEL⟩

/-- Ordering of hits by score, lower first. -/
def scoreLe (a b : hit_t) : Prop := a.score ≤ b.score

instance : DecidableRel scoreLe := fun a b => inferInstanceAs (Decidable (a.score ≤ b.score))

instance : IsTotal hit_t scoreLe := ⟨fun a b => le_total a.score b.score⟩

instance : IsTrans hit_t scoreLe := ⟨fun _ _ _ h1 h2 => le_trans h1 h2⟩

/-- The rows `rows` with their scores, in catalog order. -/
def scored (e_ms prog_ms_meas read50_mb_s_meas : ℚ) (live_mfg live_dev : Nat)
    (write_unreliable : Bool) (rows : List chip_ref_t) : List hit_t :=
  rows.map (fun r =>
    ⟨r, row_score e_ms prog_ms_meas read50_mb_s_meas live_mfg live_dev write_unreliable r⟩)

end analyze

/-! ## `Projectv3/bench/analyze.c`: reading `benchmark.csv` -/

namespace analyze

/-- `strip_bom`: drop a leading UTF-8 byte order mark. -/
def strip_bom (s : List Nat) : List Nat :=
  match s with
  | 0xEF :: 0xBB :: 0xBF :: rest => rest
  | _ => s

/-- `remove_all_quotes`: drop every double quote. -/
def remove_all_quotes (s : List Nat) : List Nat := s.filter (fun c => c != 34)

/-- `trim_spaces_crlf`: strip trailing CR/LF, then leading white space, then
trailing white space. -/
def trim_spaces_crlf (s : List Nat) : List Nat :=
  let s1 := s.rdropWhile (fun c => c == 13 || c == 10)
  let s2 := s1.dropWhile isspace
  s2.rdropWhile isspace

/-- Put a byte in front of the field being collected. -/
def cons_field (c : Nat) : List (List Nat) → List (List Nat)
  | [] => [[c]]
  | f :: fs => (c :: f) :: fs

/-- The scanning loop of `csv_split_simple_keep_empty`: a double quote toggles
`in_quotes`, a comma outside quotes ends the current field (it is overwritten
with NUL) and starts the next one.  Returns every field of the line. -/
def split_scan : Bool → List Nat → List (List Nat)
  | _, [] => [[]]
  | in_quotes, c :: cs =>
    if c = 34 then cons_field c (split_scan (!in_quotes) cs)
    else if c = 44 ∧ in_quotes = false then [] :: split_scan in_quotes cs
    else cons_field c (split_scan in_quotes cs)

/-- `csv_split_simple_keep_empty (line, cols, max_cols)`: the fields stored in
`cols` (the returned count is the length of the list).  Only the first
`max_cols` field starts are recorded; every recorded field is trimmed. -/
def csv_split_simple_keep_empty (line : List Nat) (max_cols : Nat) : List (List Nat) :=
  let line := trim_spaces_crlf (remove_all_quotes (strip_bom line))
  ((split_scan false line).take max_cols).map trim_spaces_crlf

/-- Inner loop of `find_col_multi` for one alternative name: the first index
`i < n` with `!strcasecmp(hdr[i], alt)`. -/
def find_col (hdr : List (List Nat)) (alt : List Nat) : Option Nat :=
  hdr.findIdx? (fun h => strcasecmp h alt == 0)

/-- `find_col_multi`: the first alternative name that occurs in the header
decides; `none` stands for the C result `-1`. -/
def find_col_multi (hdr : List (List Nat)) : List (List Nat) → Option Nat
  | [] => none
  | alt :: alts =>
    match find_col hdr alt with
    | some i => some i
    | none => find_col_multi hdr alts

/-- `to_dflt0`: `(s && *s) ? strtod(s, NULL) : 0.0`; a `NULL` pointer is `none`. -/
def to_dflt0 (strtod : List Nat → ℚ) : Option (List Nat) → ℚ
  | some (c :: cs) => strtod (c :: cs)
  | _ => 0

/-- The four output parameters of `load_bench_12mhz`. -/
structure bench_out where
  avg_erase_ms : ℚ
  avg_write_kBps : ℚ
  avg_readseq_kBps : ℚ
  verify_errors : Nat
  deriving DecidableEq

/-- The column indices `load_bench_12mhz` finds in the header. -/
structure bench_cols where
  i_hz : Nat
  i_erase : Nat
  i_wk : Nat
  i_rk : Nat
  i_ver : Nat
  deriving DecidableEq

/-- Body of the data-row loop of `load_bench_12mhz` for one line read by
`f_gets`, on the state `(found, outputs)`.  `col[i]` is `NULL` for `i` at or
beyond the count; `strtoul` and `strtod` are the C library functions, and
passing `NULL` to `strtoul` is undefined behaviour (`none`). -/
def load_row (strtoul : List Nat → Nat) (strtod : List Nat → ℚ) (ix : bench_cols)
    (line : List Nat) (st : Bool × bench_out) : Option (Bool × bench_out) :=
  let col := csv_split_simple_keep_empty (cstr line) 16
  if col.length ≤ ix.i_ver then some st   -- not enough columns
  else
    match col[ix.i_hz]?, col[ix.i_ver]? with
    | some s_hz, some s_ver =>
      let hz := strtoul s_hz % 2 ^ 32
      let e_ms := to_dflt0 strtod col[ix.i_erase]?
      let w_kB := to_dflt0 strtod col[ix.i_wk]?
      let r_kB := to_dflt0 strtod col[ix.i_rk]?
      let verr := strtoul s_ver % 2 ^ 32
      if hz = 12000000 then some (true, ⟨e_ms, w_kB, r_kB, verr⟩) else some st
    | _, _ => none

/-- The loop `while (f_gets(line, sizeof line, &f))` of `load_bench_12mhz`, with
`fuel` iterations allowed. -/
def load_rows (strtoul : List Nat → Nat) (strtod : List Nat → ℚ) (ix : bench_cols)
    (data : List Nat) : Nat → Nat → Bool × bench_out → Option (Bool × bench_out)
  | 0, _, _ => none
  | fuel + 1, pos, st =>
    match f_gets 256 data pos with
    | none => some st
    | some (line, pos') =>
      match load_row strtoul strtod ix line st with
      | none => none
      | some st' => load_rows strtoul strtod ix data fuel pos' st'

/-- Alternative header names for the clock column. -/
def ALT_HZ : List (List Nat) := [bytes "spi_hz", bytes "hz"]

/-- Alternative header names for the erase time column. -/
def ALT_ERASE : List (List Nat) := [bytes "avg_erase_ms", bytes "erase_ms"]

/-- Alternative header names for the write throughput column. -/
def ALT_WK : List (List Nat) := [bytes "avg_write256_kBps", bytes "avg_write_kBps"]

/-- Alternative header names for the sequential read throughput column. -/
def ALT_RK : List (List Nat) := [bytes "avg_readseq_kBps", bytes "avg_read_kBps"]

/-- Alternative header names for the verify error column. -/
def ALT_VER : List (List Nat) :=
  [bytes "verify_errors", bytes "total_verify_errors", bytes "total_verify_errs"]

/-- `load_bench_12mhz` on `benchmark.csv` with contents `file`: the returned
`bool` and the values of the four output parameters afterwards (`out0` are their
values before the call).  `fr_mount` and `fr_open` are the results of `f_mount`
and `f_open`.  `none`: undefined behaviour, or the iteration budget of the row
loop (`file.length + 1`, one more than the bytes there are to read) ran out. -/
def load_bench_12mhz (strtoul : List Nat → Nat) (strtod : List Nat → ℚ)
    (fr_mount fr_open : Nat) (file : List Nat) (out0 : bench_out) :
    Option (Bool × bench_out) :=
  if fr_mount ≠ FR_OK then some (false, out0)
  else if fr_open ≠ FR_OK then some (false, out0)
  else
    match f_gets 256 file 0 with
    | none => some (false, out0)
    | some (line, pos) =>
      let hdr := csv_split_simple_keep_empty (cstr line) 16
      if hdr.length ≤ 0 then some (false, out0)
      else
        match find_col_multi hdr ALT_HZ, find_col_multi hdr ALT_ERASE,
            find_col_multi hdr ALT_WK, find_col_multi hdr ALT_RK,
            find_col_multi hdr ALT_VER with
        | some i_hz, some i_erase, some i_wk, some i_rk, some i_ver =>
          load_rows strtoul strtod ⟨i_hz, i_erase, i_wk, i_rk, i_ver⟩ file
            (file.length + 1) pos (false, out0)
        | _, _, _, _, _ => some (false, out0)

/-- Header order A of `benchmark.csv` (no leading time stamp column). -/
def HEADER_A : List Nat :=
  bytes "jedec_hex,spi_hz,avg_erase_ms,avg_write256_kBps,avg_readseq_kBps,avg_readrand_MBps,verify_errors\r\n"

/-- Header order B of `benchmark.csv` (leading `timestamp_ms` column). -/
def HEADER_B : List Nat :=
  bytes "timestamp_ms,jedec_hex,spi_hz,avg_erase_ms,avg_write256_kBps,avg_readseq_kBps,avg_readrand_MBps,verify_errors\r\n"

/-- The field of a data row in the column whose header name is `name`. -/
def column (header : List Nat) (name : String) (row : List (List Nat)) : List Nat :=
  row.getD ((csv_split_simple_keep_empty header 16).indexOf (bytes name)) []

/-- A data row has enough columns when it has at least as many fields as the
header. -/
def enough_columns (header : List Nat) (row : List (List Nat)) : Bool :=
  decide ((csv_split_simple_keep_empty header 16).length ≤ row.length)

/-- The data rows of the file that count: enough columns and `spi_hz` equal to
12000000 (as `strtoul` reads the field, converted to `uint32_t`). -/
def rows_12mhz (strtoul : List Nat → Nat) (header rest : List Nat) : List (List (List Nat)) :=
  ((f_gets_all 256 rest (rest.length + 1) 0).map
      (fun line => csv_split_simple_keep_empty (cstr line) 16)).filter
    (fun row => enough_columns header row
      && decide (strtoul (column header "spi_hz" row) % 2 ^ 32 = 12000000))

/-- The outputs taken from a data row by header name. -/
def row_values (strtoul : List Nat → Nat) (strtod : List Nat → ℚ) (header : List Nat)
    (row : List (List Nat)) : bench_out :=
  ⟨to_dflt0 strtod (some (column header "avg_erase_ms" row)),
   to_dflt0 strtod (some (column header "avg_write256_kBps" row)),
   to_dflt0 strtod (some (column header "avg_readseq_kBps" row)),
   strtoul (column header "verify_errors" row) % 2 ^ 32⟩

end analyze

/-! ## `Projectv3/src/flash.c`: SPI transport

The transport functions (`read_status`, `write_enable`, `wait_wip_clear`,
`read_data`, `page_program`, `sector_erase_4k`) have the same text in
`Projectv3/src/flash.c` and `IS13FinalProjectCode/spi_flash/src/flash.c`. -/

namespace flash

/-- `FLASH_PAGE_SIZE`. -/
def FLASH_PAGE_SIZE : Nat := 256

/-- `FLASH_ERASE_SIZE`. -/
def FLASH_ERASE_SIZE : Nat := 4096

/-- What the firmware does on the SPI bus, one entry per call of a bus primitive:
driving chip select low or high, `spi_write_blocking` (bytes sent),
`spi_read_blocking` (the byte sent repeatedly, the bytes received) and
`spi_write_read_blocking` (bytes sent, bytes received). -/
inductive BusEvent where
  | cs_low : BusEvent
  | cs_high : BusEvent
  | write (src : List Nat) : BusEvent
  | read (tx : Nat) (dst : List Nat) : BusEvent
  | write_read (src dst : List Nat) : BusEvent
  deriving DecidableEq

/-- A device on the SPI bus, with states `σ`: how it reacts to chip select going
low, to chip select going high, and to one byte clocked to it (the byte it
returns at the same time). -/
structure SpiDevice (σ : Type) where
  select : σ → σ
  deselect : σ → σ
  clock : σ → Nat → σ × Nat

/-- The bus as the firmware sees it: the state of the device and the trace of
everything done on the bus so far. -/
structure Bus (σ : Type) where
  dev : σ
  trace : List BusEvent

variable {σ : Type}

/-- Clock the bytes `src` to the device one after the other; every byte received
is stored in a `uint8_t`. -/
def clock_bytes (D : SpiDevice σ) : σ → List Nat → σ × List Nat
  | s, [] => (s, [])
  | s, t :: ts =>
    ((clock_bytes D (D.clock s t).1 ts).1,
      ((D.clock s t).2 % 256) :: (clock_bytes D (D.clock s t).1 ts).2)

/-- `cs_low`. -/
def cs_low (D : SpiDevice σ) (b : Bus σ) : Bus σ :=
  ⟨D.select b.dev, b.trace ++ [BusEvent.cs_low]⟩

/-- `cs_high`. -/
def cs_high (D : SpiDevice σ) (b : Bus σ) : Bus σ :=
  ⟨D.deselect b.dev, b.trace ++ [BusEvent.cs_high]⟩

/-- Pico SDK `spi_write_blocking (spi0, src, len)`. -/
def spi_write_blocking (D : SpiDevice σ) (src : List Nat) (b : Bus σ) : Bus σ :=
  ⟨(clock_bytes D b.dev src).1, b.trace ++ [BusEvent.write src]⟩

/-- Pico SDK `spi_read_blocking (spi0, tx, dst, len)`: the new bus and `dst`. -/
def spi_read_blocking (D : SpiDevice σ) (tx : Nat) (len : Nat) (b : Bus σ) :
    Bus σ × List Nat :=
  (⟨(clock_bytes D b.dev (List.replicate len tx)).1,
      b.trace ++ [BusEvent.read tx (clock_bytes D b.dev (List.replicate len tx)).2]⟩,
    (clock_bytes D b.dev (List.replicate len tx)).2)

/-- Pico SDK `spi_write_read_blocking (spi0, src, dst, len)`: the new bus and
`dst`. -/
def spi_write_read_blocking (D : SpiDevice σ) (src : List Nat) (b : Bus σ) :
    Bus σ × List Nat :=
  (⟨(clock_bytes D b.dev src).1,
      b.trace ++ [BusEvent.write_read src (clock_bytes D b.dev src).2]⟩,
    (clock_bytes D b.dev src).2)

/-- `read_status (which)`: the new bus and the returned byte `rx[1]`. -/
def read_status (D : SpiDevice σ) (which : Nat) (b : Bus σ) : Bus σ × Nat :=
  let b1 := cs_low D b
  let r := spi_write_read_blocking D [which, 0] b1
  (cs_high D r.1, r.2.getD 1 0)

/-- `write_enable`. -/
def write_enable (D : SpiDevice σ) (b : Bus σ) : Bus σ :=
  cs_high D (spi_write_blocking D [0x06] (cs_low D b))

/-- `wait_wip_clear`: `while (read_status(0x05) & 1) { sleep_ms(1); }`.  The C loop
has no bound; `none` means that it is still polling after `fuel` status reads. -/
def wait_wip_clear (D : SpiDevice σ) : Nat → Bus σ → Option (Bus σ)
  | 0, _ => none
  | fuel + 1, b =>
    if (read_status D 0x05 b).2 &&& 1 ≠ 0 then wait_wip_clear D fuel (read_status D 0x05 b).1
    else some (read_status D 0x05 b).1

/-- The command header `{opcode, (uint8_t)(addr>>16), (uint8_t)(addr>>8), (uint8_t)addr}`. -/
def cmd_hdr (opcode addr : Nat) : List Nat :=
  [opcode, (addr >>> 16) % 256, (addr >>> 8) % 256, addr % 256]

/-- `read_data (addr, buf, len)`: the new bus and the contents of `buf`. -/
def read_data (D : SpiDevice σ) (addr len : Nat) (b : Bus σ) : Bus σ × List Nat :=
  let b1 := spi_write_blocking D (cmd_hdr 0x03 addr) (cs_low D b)
  let r := spi_read_blocking D 0x00 len b1
  (cs_high D r.1, r.2)

/-- `page_program (addr, data, len)`, with `data` the `len` bytes to send. -/
def page_program (D : SpiDevice σ) (fuel : Nat) (addr : Nat) (data : List Nat) (b : Bus σ) :
    Option (Bus σ) :=
  let b1 := write_enable D b
  let b2 := spi_write_blocking D (cmd_hdr 0x02 addr) (cs_low D b1)
  let b3 := cs_high D (spi_write_blocking D data b2)
  wait_wip_clear D fuel b3

/-- `sector_erase_4k (addr)`. -/
def sector_erase_4k (D : SpiDevice σ) (fuel : Nat) (addr : Nat) (b : Bus σ) : Option (Bus σ) :=
  let b1 := write_enable D b
  let b2 := cs_high D (spi_write_blocking D (cmd_hdr 0x20 addr) (cs_low D b1))
  wait_wip_clear D fuel b2

/-! ### The SD card side -/

/-- The file a backup is written to, as FatFs presents it: the results of
`f_mount` and `f_open`, and for `f_write`, `f_sync` and `f_close` the result as a
function of the bytes already in the file (`f_write` also gets the bytes offered
and returns the number of bytes it accepted). -/
structure SdSink where
  fr_mount : Nat
  fr_open : Nat
  f_write : List Nat → List Nat → Nat × Nat
  f_sync : List Nat → Nat
  f_close : List Nat → Nat

/-- The file a restore reads, as FatFs presents it: the results of `f_mount`,
`f_stat` and `f_open`, the size `f_size`, and `f_read` as a function of the read
pointer and the number of bytes asked for (result code and bytes delivered). -/
structure SdSource where
  fr_mount : Nat
  fr_stat : Nat
  fr_open : Nat
  f_size : Nat
  f_read : Nat → Nat → Nat × List Nat

/-- A file with contents `content` that is found, opens and reads without error. -/
def SdSource.ofBytes (content : List Nat) : SdSource :=
  { fr_mount := FR_OK, fr_stat := FR_OK, fr_open := FR_OK, f_size := content.length,
    f_read := fun pos want => (FR_OK, (content.drop pos).take want) }

/-! ### Backup -/

/-- The loop of `flash_backup_to_file`:
`for (uint32_t addr = 0; addr < flash_bytes; addr += sizeof buf)` with a 4096 byte
buffer, on the state (`fr`, bytes in the file, bus).  `none`: more than `fuel`
iterations. -/
def backup_loop (D : SpiDevice σ) (sink : SdSink) (flash_bytes : Nat) :
    Nat → Nat → Nat → List Nat → Bus σ → Option (Nat × List Nat × Bus σ)
  | 0, _, _, _, _ => none
  | fuel + 1, addr, fr, file, b =>
    if addr < flash_bytes then
      let chunk := if flash_bytes - addr > 4096 then 4096 else flash_bytes - addr
      let r := read_data D addr chunk b
      let w := sink.f_write file r.2
      let bw := min w.2 chunk
      if w.1 ≠ FR_OK ∨ bw ≠ chunk then
        some ((if w.1 = FR_OK then FR_INT_ERR else w.1), file ++ r.2.take bw, r.1)
      else backup_loop D sink flash_bytes fuel ((addr + 4096) % 2 ^ 32) w.1
        (file ++ r.2.take bw) r.1
    else some (fr, file, b)

/-- `flash_backup_to_file (path, flash_bytes)`: the result code, the contents of
the file at `path` afterwards (`old` before the call; `f_open` with
`FA_CREATE_ALWAYS` empties it) and the bus. -/
def flash_backup_to_file (D : SpiDevice σ) (fuel : Nat) (sink : SdSink) (old : List Nat)
    (flash_bytes : Nat) (b : Bus σ) : Option (Nat × List Nat × Bus σ) :=
  if sink.fr_mount ≠ FR_OK then some (sink.fr_mount, old, b)
  else if sink.fr_open ≠ FR_OK then some (sink.fr_open, old, b)
  else backup_loop D sink flash_bytes fuel 0 sink.fr_open [] b

/-! ### Restore -/

/-- The page loop of `flash_restore_from_file`:
`for (uint32_t off = 0; off < br; off += FLASH_PAGE_SIZE)`. -/
def program_pages (D : SpiDevice σ) (fuel : Nat) (base : Nat) (buf : List Nat) :
    Nat → Nat → Bus σ → Option (Bus σ)
  | 0, _, _ => none
  | n + 1, off, b =>
    if off < buf.length then
      let page := if buf.length - off > FLASH_PAGE_SIZE then FLASH_PAGE_SIZE
        else buf.length - off
      match page_program D fuel ((base + off) % 2 ^ 32) ((buf.drop off).take page) b with
      | none => none
      | some b' => program_pages D fuel base buf n ((off + FLASH_PAGE_SIZE) % 2 ^ 32) b'
    else some b

/-- The sector loop of `flash_restore_from_file`:
`for (uint32_t base = 0; base < todo; base += FLASH_ERASE_SIZE)`, on the state
(`base`, file read pointer, `fr`, bus); `buf` holds the `br` bytes `f_read`
delivered. -/
def restore_loop (D : SpiDevice σ) (fuel : Nat) (sd : SdSource) (todo : Nat) (verify : Bool) :
    Nat → Nat → Nat → Nat → Bus σ → Option (Nat × Bus σ)
  | 0, _, _, _, _ => none
  | n + 1, base, fptr, fr, b =>
    if base < todo then
      let want := if (base + FLASH_ERASE_SIZE) % 2 ^ 32 > todo then todo - base
        else FLASH_ERASE_SIZE
      let rd := sd.f_read fptr want
      let buf := rd.2.take want
      if rd.1 ≠ FR_OK then some (rd.1, b)
      else if buf.length = 0 then some (FR_INT_ERR, b)
      else
        match sector_erase_4k D fuel base b with
        | none => none
        | some b1 =>
          match program_pages D fuel base buf fuel 0 b1 with
          | none => none
          | some b2 =>
            if verify then
              if (read_data D base buf.length b2).2 ≠ buf then
                some (FR_INT_ERR, (read_data D base buf.length b2).1)
              else restore_loop D fuel sd todo verify n ((base + FLASH_ERASE_SIZE) % 2 ^ 32)
                (fptr + buf.length) rd.1 (read_data D base buf.length b2).1
            else restore_loop D fuel sd todo verify n ((base + FLASH_ERASE_SIZE) % 2 ^ 32)
              (fptr + buf.length) rd.1 b2
    else some (fr, b)

/-- `flash_restore_from_file (path, flash_bytes, verify)`: the result code and the
bus afterwards. -/
def flash_restore_from_file (D : SpiDevice σ) (fuel : Nat) (sd : SdSource)
    (flash_bytes : Nat) (verify : Bool) (b : Bus σ) : Option (Nat × Bus σ) :=
  if sd.fr_mount ≠ FR_OK then some (sd.fr_mount, b)
  else if sd.fr_stat ≠ FR_OK then some (sd.fr_stat, b)
  else if sd.fr_open ≠ FR_OK then some (sd.fr_open, b)
  else if sd.f_size % 2 ^ 32 = 0 then some (FR_INT_ERR, b)
  else
    restore_loop D fuel sd
      (if sd.f_size % 2 ^ 32 > flash_bytes then flash_bytes else sd.f_size % 2 ^ 32)
      verify fuel 0 0 sd.fr_open b

/-! ### Reading the bus trace as a sequence of flash commands -/

/-- Grouping of bus events into exchanges: the transfers made while chip select
is low, and the exchanges completed so far.  Transfers made while chip select
is high reach no device and are left out. -/
def group_step (st : Option (List BusEvent) × List (List BusEvent)) (e : BusEvent) :
    Option (List BusEvent) × List (List BusEvent) :=
  match st.1, e with
  | none, BusEvent.cs_low => (some [], st.2)
  | none, _ => (none, st.2)
  | some cur, BusEvent.cs_high => (none, st.2 ++ [cur])
  | some cur, BusEvent.cs_low => (some cur, st.2)
  | some cur, e => (some (cur ++ [e]), st.2)

/-- The completed exchanges of a run of bus events that starts with chip select
high. -/
def exchanges (evs : List BusEvent) : List (List BusEvent) :=
  (evs.foldl group_step (none, [])).2

/-- The run of bus events `evs` starts and ends with chip select high and consists
of the exchanges `xs`. -/
def Emits (evs : List BusEvent) (xs : List (List BusEvent)) : Prop :=
  ∀ acc, evs.foldl group_step (none, acc) = (none, acc ++ xs)

/-- The flash commands of the SPI NOR command set the firmware uses, as they
appear on the bus; addresses are the three address bytes read big-endian. -/
inductive FlashCmd where
  | write_enable : FlashCmd
  | read_status (which value : Nat) : FlashCmd
  | read (addr : Nat) (data : List Nat) : FlashCmd
  | program (addr : Nat) (data : List Nat) : FlashCmd
  | erase (addr : Nat) : FlashCmd
  | other (x : List BusEvent) : FlashCmd
  deriving DecidableEq

/-- The flash command an exchange carries. -/
def classify : List BusEvent → FlashCmd
  | [BusEvent.write [0x06]] => FlashCmd.write_enable
  | [BusEvent.write_read [which, _] rx] => FlashCmd.read_status which (rx.getD 1 0)
  | [BusEvent.write [0x03, a2, a1, a0], BusEvent.read _ dst] =>
    FlashCmd.read (a2 * 65536 + a1 * 256 + a0) dst
  | [BusEvent.write [0x02, a2, a1, a0], BusEvent.write data] =>
    FlashCmd.program (a2 * 65536 + a1 * 256 + a0) data
  | [BusEvent.write [0x20, a2, a1, a0]] => FlashCmd.erase (a2 * 65536 + a1 * 256 + a0)
  | x => FlashCmd.other x

/-- The flash commands a run of bus events carries. -/
def commands (evs : List BusEvent) : List FlashCmd := (exchanges evs).map classify

/-- The payload of a page program command, nothing for any other command. -/
def program_payload : FlashCmd → List Nat
  | FlashCmd.program _ data => data
  | _ => []

/-- A command that changes the flash: sector erase or page program. -/
def is_erase_or_program : FlashCmd → Bool
  | FlashCmd.program _ _ => true
  | FlashCmd.erase _ => true
  | _ => false

/-! ### The ideal NOR device -/

/-- State of the ideal NOR flash: the cells (one byte per address), the write
enable latch, the number of status reads that will still report a write in
progress, and the bytes received since chip select went low. -/
structure Nor where
  mem : Nat → Fin 256
  wel : Bool
  busy : Nat
  cmd : List Nat

/-- The address the three address bytes of a command denote. -/
def addr24 (a2 a1 a0 : Nat) : Nat := (a2 % 256) * 65536 + (a1 % 256) * 256 + a0 % 256

/-- Status register 1 of the ideal NOR: bit 0 write in progress, bit 1 write enable
latch. -/
def nor_status (s : Nor) : Nat := (if s.busy > 0 then 1 else 0) + (if s.wel then 2 else 0)

/-- Sector erase: every cell of the 4 KB sector that holds `a` becomes `0xFF`. -/
def nor_erase (mem : Nat → Fin 256) (a : Nat) : Nat → Fin 256 :=
  fun x => if x / 4096 = a / 4096 then 255 else mem x

/-- The cell after `a` for page programming: the address wraps inside the 256 byte
page. -/
def nor_next (a : Nat) : Nat := a / 256 * 256 + (a + 1) % 256

/-- Page program: starting at `a`, each payload byte is stored into its cell,
where programming can only clear bits (an erased cell takes the byte as it is). -/
def nor_program (mem : Nat → Fin 256) : Nat → List Nat → Nat → Fin 256
  | _, [] => mem
  | a, d :: ds =>
    nor_program (fun x => if x = a then ⟨((mem a).val &&& d) % 256, Nat.mod_lt _ (by decide)⟩
      else mem x) (nor_next a) ds

/-- The ideal NOR device of the round-trip property: reads (`0x03`) return the
stored bytes, sector erase (`0x20`) and page program (`0x02`) act when chip
select goes high and the write enable latch (`0x06`) is set, and afterwards
status reads (`0x05`) report a write in progress `tErase` respectively `tProg`
more times. -/
def nor (tErase tProg : Nat) : SpiDevice Nor where
  select := fun s => { s with cmd := [] }
  clock := fun s tx =>
    ({ s with cmd := s.cmd ++ [tx] },
      match s.cmd with
      | 0x03 :: a2 :: a1 :: a0 :: rest => (s.mem ((addr24 a2 a1 a0 + rest.length) % 2 ^ 24)).val
      | 0x05 :: _ => nor_status s
      | _ => 0)
  deselect := fun s =>
    match s.cmd with
    | [0x06] => { s with wel := true, cmd := [] }
    | [0x20, a2, a1, a0] =>
      if s.wel then
        { mem := nor_erase s.mem (addr24 a2 a1 a0), wel := false, busy := tErase, cmd := [] }
      else { s with cmd := [] }
    | 0x02 :: a2 :: a1 :: a0 :: d :: ds =>
      if s.wel then
        { mem := nor_program s.mem (addr24 a2 a1 a0) (d :: ds), wel := false, busy := tProg,
          cmd := [] }
      else { s with cmd := [] }
    | 0x05 :: _ => { s with busy := s.busy - 1, cmd := [] }
    | _ => { s with cmd := [] }

/-- The bytes of the ideal NOR in `[a, a + n)`. -/
def nor_bytes (mem : Nat → Fin 256) (a n : Nat) : List Nat :=
  (List.range n).map (fun i => (mem (a + i)).val)

/-! ### What a restore is expected to issue -/

/-- A command that accesses the flash array: read, page program or sector erase
(write enable and status reads do not). -/
def is_flash_access : FlashCmd → Bool
  | FlashCmd.read _ _ => true
  | FlashCmd.program _ _ => true
  | FlashCmd.erase _ => true
  | _ => false

/-- The flash array accesses a run of bus events carries, in order. -/
def flash_cmds (evs : List BusEvent) : List FlashCmd :=
  (commands evs).filter is_flash_access

/-- The run of bus events `evs` starts and ends with chip select high and its flash
array accesses are `cs`. -/
def Issues (evs : List BusEvent) (cs : List FlashCmd) : Prop :=
  ∃ xs, Emits evs xs ∧ (xs.map classify).filter is_flash_access = cs

/-- The bytes of the file that belong to sector `k` when `todo` bytes are restored. -/
def sector_buf (file : List Nat) (todo k : Nat) : List Nat :=
  (file.drop (4096 * k)).take (min 4096 (todo - 4096 * k))

/-- The page programs for a sector buffer `buf` at `base`: one per started 256
byte page, in address order. -/
def page_cmds (base : Nat) (buf : List Nat) : List FlashCmd :=
  (List.range ((buf.length + 255) / 256)).map
    (fun j => FlashCmd.program (base + 256 * j) ((buf.drop (256 * j)).take 256))

/-- The flash accesses for one sector: erase, the page programs, and with `verify`
the read-back that returned `rb`. -/
def sector_cmds (verify : Bool) (base : Nat) (buf rb : List Nat) : List FlashCmd :=
  FlashCmd.erase base :: page_cmds base buf ++ (if verify then [FlashCmd.read base rb] else [])

/-- The flash accesses for the sectors `k, ..., m - 1` of a restore of `todo` bytes
of `file` when every read-back returns what was written. -/
def restore_cmds (verify : Bool) (file : List Nat) (todo k m : Nat) : List FlashCmd :=
  (List.range' k (m - k)).flatMap
    (fun j => sector_cmds verify (4096 * j) (sector_buf file todo j) (sector_buf file todo j))

/-- The address of a flash array access (`0` for other commands). -/
def cmd_addr : FlashCmd → Nat
  | FlashCmd.read a _ => a
  | FlashCmd.program a _ => a
  | FlashCmd.erase a => a
  | _ => 0

/-- A device without memory: it answers every byte with `0`, so its status
register never shows a write in progress and every read returns zeros. -/
def zero_device : SpiDevice Unit :=
  { select := fun s => s, deselect := fun s => s, clock := fun s _ => (s, 0) }

/-- The bus events of restoring the one byte file `[1]` with verification on
`zero_device`: erase, one page program, and a read-back that returns `0`. -/
def one_byte_restore_trace : List BusEvent :=
  [BusEvent.cs_low, BusEvent.write [0x06], BusEvent.cs_high,
    BusEvent.cs_low, BusEvent.write [0x20, 0, 0, 0], BusEvent.cs_high,
    BusEvent.cs_low, BusEvent.write_read [0x05, 0] [0, 0], BusEvent.cs_high,
    BusEvent.cs_low, BusEvent.write [0x06], BusEvent.cs_high,
    BusEvent.cs_low, BusEvent.write [0x02, 0, 0, 0], BusEvent.write [1], BusEvent.cs_high,
    BusEvent.cs_low, BusEvent.write_read [0x05, 0] [0, 0], BusEvent.cs_high,
    BusEvent.cs_low, BusEvent.write [0x03, 0, 0, 0], BusEvent.read 0 [0], BusEvent.cs_high]

/-- A byte of a buffer as a flash cell. -/
def cell_of (buf : List Nat) (i : Nat) : Fin 256 :=
  ⟨buf.getD i 0 % 256, Nat.mod_lt _ (by decide)⟩

/-- The cells after the sector at `base` has been erased and the first `n` bytes of
`buf` have been programmed into it: those bytes, then erased cells up to the end
of the sector, the old contents `mem` everywhere else. -/
def restored_sector (mem : Nat → Fin 256) (base : Nat) (buf : List Nat) (n : Nat) :
    Nat → Fin 256 :=
  fun x =>
    if base ≤ x ∧ x < base + n then cell_of buf (x - base)
    else if base ≤ x ∧ x < base + 4096 then 255
    else mem x

/-- The cells after the first `todo` bytes of `file` have been restored: those
bytes, then erased cells up to the end of the last sector touched, the old
contents `mem` behind it. -/
def restored (mem : Nat → Fin 256) (file : List Nat) (todo : Nat) : Nat → Fin 256 :=
  fun x =>
    if x < todo then cell_of file x
    else if x < (todo + 4095) / 4096 * 4096 then 255
    else mem x

/-- The cells while a restore is under way, after sectors `0, ..., k - 1`. -/
def partly_restored (mem : Nat → Fin 256) (file : List Nat) (todo k : Nat) : Nat → Fin 256 :=
  fun x => if x < 4096 * k then restored mem file todo x else mem x

/-- The bytes a run of bus events programs into the flash: the payloads of its
page program commands, in the order they were issued. -/
def programmed (evs : List BusEvent) : List Nat :=
  ((flash_cmds evs).map program_payload).flatten

end flash

/-! ## `IS13FinalProjectCode/spi_flash/src/flash.c`: backup -/

namespace flash_is13

open flash

variable {σ : Type}

/-- The loop of `flash_backup_to_file`:
`for (uint32_t addr = 0; addr < flash_bytes; addr += sizeof(buf))` with a 512 byte
buffer, on the state (`fr`, bytes in the file, bus); every exit by
`goto cleanup` and the normal end of the loop return that state.  `none`: more
than `fuel` iterations. -/
def backup_loop (D : SpiDevice σ) (sink : SdSink) (flash_bytes : Nat) :
    Nat → Nat → Nat → List Nat → Bus σ → Option (Nat × List Nat × Bus σ)
  | 0, _, _, _, _ => none
  | fuel + 1, addr, fr, file, b =>
    if addr < flash_bytes then
      let chunk := if flash_bytes - addr > 512 then 512 else flash_bytes - addr
      let r := read_data D addr chunk b
      let w := sink.f_write file r.2
      let bw := min w.2 chunk
      let file' := file ++ r.2.take bw
      if w.1 ≠ FR_OK then some (w.1, file', r.1)
      else if bw ≠ chunk then some (FR_DISK_ERR, file', r.1)
      else if addr % (64 * 1024) = 0 then
        if sink.f_sync file' ≠ FR_OK then some (sink.f_sync file', file', r.1)
        else backup_loop D sink flash_bytes fuel ((addr + 512) % 2 ^ 32) (sink.f_sync file')
          file' r.1
      else backup_loop D sink flash_bytes fuel ((addr + 512) % 2 ^ 32) w.1 file' r.1
    else some (fr, file, b)

/-- `flash_backup_to_file (path, flash_bytes)`: the result code, the contents of
the file afterwards (`old` before the call) and the bus.  After the loop and
after every `goto cleanup` the code at `cleanup:` runs: `fr = f_sync(&f);`, then
`f_close`, whose result replaces `fr` when it is not `FR_OK`. -/
def flash_backup_to_file (D : SpiDevice σ) (fuel : Nat) (sink : SdSink) (old : List Nat)
    (flash_bytes : Nat) (b : Bus σ) : Option (Nat × List Nat × Bus σ) :=
  if sink.fr_mount ≠ FR_OK then some (sink.fr_mount, old, b)
  else if sink.fr_open ≠ FR_OK then some (sink.fr_open, old, b)
  else
    match backup_loop D sink flash_bytes fuel 0 sink.fr_open [] b with
    | none => none
    | some (_, file, b') =>
      let fr := sink.f_sync file
      let close_result := sink.f_close file
      some ((if close_result ≠ FR_OK then close_result else fr), file, b')

/-- An SD card that is full: it mounts, the file is created, every write is
answered `FR_OK` with no byte accepted, and sync and close succeed. -/
def full_card : SdSink :=
  { fr_mount := FR_OK, fr_open := FR_OK, f_write := fun _ _ => (FR_OK, 0),
    f_sync := fun _ => FR_OK, f_close := fun _ => FR_OK }

end flash_is13

/-! ## `Projectv3/bench/bench.c`: throughput -/

namespace bench

/-- Division of `double` values, modelled on exact rationals; `none` stands for a
division by zero. -/
def fdiv (a b : ℚ) : Option ℚ := if b = 0 then none else some (a / b)

/-- `_mbps (bytes, us)`:
`(double)bytes / (1024.0 * 1024.0) / ((double)us / 1e6)`, or `0.0` when
`us <= 0`. -/
def _mbps (bytes : Nat) (us : Int) : Option ℚ :=
  if us ≤ 0 then some 0
  else
    match fdiv (bytes : ℚ) (1024 * 1024), fdiv (us : ℚ) 1000000 with
    | some mb, some s => fdiv mb s
    | _, _ => none

end bench

end Firmware

namespace Firmware

/-! ## `Projectv3/src/flash.c`: the other transport operations -/

namespace flash

variable {σ : Type}

/-- `read_jedec_id (id)`: the new bus and `id[0], id[1], id[2]`. -/
def read_jedec_id (D : SpiDevice σ) (b : Bus σ) : Bus σ × List Nat :=
  let r := spi_write_read_blocking D [0x9F, 0, 0, 0] (cs_low D b)
  (cs_high D r.1, [r.2.getD 1 0, r.2.getD 2 0, r.2.getD 3 0])

/-- `read_sfdp_header (hdr8)`: the new bus, the contents of `hdr8`, and whether
its first four bytes are `S`, `F`, `D`, `P`. -/
def read_sfdp_header (D : SpiDevice σ) (b : Bus σ) : Bus σ × List Nat × Bool :=
  let b1 := spi_write_blocking D [0x5A, 0, 0, 0, 0] (cs_low D b)
  let r := spi_read_blocking D 0x00 8 b1
  (cs_high D r.1, r.2,
    r.2.getD 0 0 == 0x53 && r.2.getD 1 0 == 0x46 && r.2.getD 2 0 == 0x44
      && r.2.getD 3 0 == 0x50)

/-- `flash_soft_reset`: `0x66`, then `0x99` (the pauses leave the bus alone). -/
def flash_soft_reset (D : SpiDevice σ) (b : Bus σ) : Bus σ :=
  let b1 := cs_high D (spi_write_blocking D [0x66] (cs_low D b))
  cs_high D (spi_write_blocking D [0x99] (cs_low D b1))

/-- `flash_release_from_dp`: `0xAB`. -/
def flash_release_from_dp (D : SpiDevice σ) (b : Bus σ) : Bus σ :=
  cs_high D (spi_write_blocking D [0xAB] (cs_low D b))

/-- A bus event that moves bytes. -/
def is_transfer : BusEvent → Bool
  | BusEvent.write _ => true
  | BusEvent.read _ _ => true
  | BusEvent.write_read _ _ => true
  | _ => false

/-- One complete exchange on the bus: chip select goes low, the transfers `x` are
made, chip select goes high. -/
def frame (x : List BusEvent) : List BusEvent := BusEvent.cs_low :: x ++ [BusEvent.cs_high]

/-- The bus events `evs` are exactly the complete exchanges `xs`, one after the
other: every transfer lies between a chip select low and the next chip select
high, and chip select is high at the end. -/
def Framed (evs : List BusEvent) (xs : List (List BusEvent)) : Prop :=
  evs = (xs.map frame).flatten ∧ ∀ x ∈ xs, ∀ e ∈ x, is_transfer e = true

/-- Chip select discipline of a run of bus events, checked event by event from
the chip select level `low` at its start: chip select is driven low only when
high and high only when low, bytes move only while it is low, and it is high at
the end. -/
def cs_discipline : Bool → List BusEvent → Bool
  | low, [] => !low
  | low, BusEvent.cs_low :: evs => !low && cs_discipline true evs
  | low, BusEvent.cs_high :: evs => low && cs_discipline false evs
  | low, _ :: evs => low && cs_discipline low evs

/-- Between the bus states `b` and `b'` the firmware made exactly the complete
exchanges `xs`, keeping the chip select discipline. -/
def Exchanged (b b' : Bus σ) (xs : List (List BusEvent)) : Prop :=
  ∃ evs, b'.trace = b.trace ++ evs ∧ Framed evs xs ∧ cs_discipline false evs = true

/-- A page program command stays inside one 256 byte page and carries between 1
and 256 bytes; any other command passes. -/
def within_page : FlashCmd → Prop
  | FlashCmd.program a data => 1 ≤ data.length ∧ data.length ≤ 256 ∧ a % 256 + data.length ≤ 256
  | _ => True

/-- The exchange of one status register poll that received `rx`. -/
def status_poll (rx : List Nat) : List BusEvent := [BusEvent.write_read [0x05, 0] rx]

end flash

/-! ## `Projectv3/bench/bench.c`: scratch window addressing -/

namespace bench

/-- The build-time constants of `bench.c` (`config.h`, or the fallbacks at the top
of `bench.c`); each is an `unsigned` constant, below `2 ^ 32`.  `SPI_FREQS` holds
the `N_FREQS` clocks of the sweep. -/
structure Config where
  SCRATCH_BASE : Nat
  SCRATCH_SIZE : Nat
  READ_SEQ_SIZE : Nat
  RAND_READ_ITERS : Nat
  SAFE_PROG_HZ : Nat
  SPI_FREQS : List Nat

/-- The fallback values at the top of `bench.c`, which are also the values of
`ProjectV4/include/config.h`: scratch window `[0, 256 KB)`, a 256 KB sequential
read, 16 random reads per trial, a 12 MHz program clock, the sweep 12, 24, 36 MHz. -/
def defaults : Config :=
  { SCRATCH_BASE := 0, SCRATCH_SIZE := 256 * 1024, READ_SEQ_SIZE := 256 * 1024,
    RAND_READ_ITERS := 16, SAFE_PROG_HZ := 12000000,
    SPI_FREQS := [12000000, 24000000, 36000000] }

/-- `uint32_t sector_idx = (run-1) % (SCRATCH_SIZE/4096u);` with `run` an `int`:
`run - 1` is converted to `unsigned`.  (In C the remainder is undefined when
`SCRATCH_SIZE < 4096`.) -/
def sector_idx (cfg : Config) (run : Int) : Nat :=
  Int.toNat ((run - 1) % 2 ^ 32) % (cfg.SCRATCH_SIZE / 4096)

/-- `uint32_t era_addr = SCRATCH_BASE + sector_idx*4096u;`. -/
def era_addr (cfg : Config) (run : Int) : Nat :=
  (cfg.SCRATCH_BASE + sector_idx cfg run * 4096) % 2 ^ 32

/-- `_xorshift32 (&s)`: `x ^= x << 13; x ^= x >> 17; x ^= x << 5;` on `uint32_t`.
The result is both the return value and the new `*s`. -/
def _xorshift32 (s : Nat) : Nat :=
  let x1 := s ^^^ ((s <<< 13) % 2 ^ 32)
  let x2 := x1 ^^^ (x1 >>> 17)
  x2 ^^^ ((x2 <<< 5) % 2 ^ 32)

/-- `_rand_addr_in_scratch (&seed)`: the address returned and the new `seed`.
`SCRATCH_SIZE - 256u` is an `unsigned` subtraction. -/
def _rand_addr_in_scratch (cfg : Config) (seed : Nat) : Nat × Nat :=
  let x := _xorshift32 seed
  let off := x % ((cfg.SCRATCH_SIZE + 2 ^ 32 - 256) % 2 ^ 32)
  let off := off &&& 0xFFFFFF00
  ((cfg.SCRATCH_BASE + off) % 2 ^ 32, x)

/-! ### The benchmark's view of the hardware -/

variable {σ : Type}

/-- One row of `results.csv`, the arguments of `csv_row_to_sd` after `save`:
`run, op, hz, addr, bytes, dur_us, mbps, verify_errors, sr1_end`.  A `double` is
an exact rational, or `none` when it is the result of a division by zero. -/
structure csv_row where
  run : Int
  op : List Nat
  hz : Nat
  addr : Nat
  bytes : Nat
  dur_us : Int
  mbps : Option ℚ
  verify_errors : Nat
  sr1 : Nat

/-- The averages computed for one SPI clock of the sweep; each `double` is an exact
rational, or `none` when it is the result of a division by zero. -/
structure averages where
  hz : Nat
  avg_erase_ms : Option ℚ
  avg_prog_mbps : Option ℚ
  avg_readseq_mbps : Option ℚ
  avg_readrand_mbps : Option ℚ
  total_verify_errs : Nat

/-- What the benchmark code acts on: the flash device, the SPI clock last set with
`spi_init`, the bus events so far (one entry per bus action, with the SPI clock
in force), the number of readings taken from the microsecond timer, whether
`results.csv` is open (`g_csv_open`), the rows handed to `results.csv`, the
averages printed, and the averages handed to `benchmark.csv`. -/
structure World (σ : Type) where
  dev : σ
  baud : Nat
  trace : List (Nat × List flash.BusEvent)
  ticks : Nat
  csv_open : Bool
  rows : List csv_row
  reported : List averages
  bench_rows : List averages

/-- Pico SDK `spi_init (spi0, hz)`. -/
def spi_init (hz : Nat) (w : World σ) : World σ := { w with baud := hz }

/-- Run a bus action of `flash.c` at the SPI clock in force and record its events. -/
def on_bus {α : Type} (f : flash.Bus σ → flash.Bus σ × α) (w : World σ) : World σ × α :=
  ({ w with dev := (f ⟨w.dev, []⟩).1.dev,
            trace := w.trace ++ [(w.baud, (f ⟨w.dev, []⟩).1.trace)] },
    (f ⟨w.dev, []⟩).2)

/-- Run a bus action of `flash.c` that waits for the device (`none`: still waiting
when the poll budget is used up). -/
def on_bus_wait (f : flash.Bus σ → Option (flash.Bus σ)) (w : World σ) : Option (World σ) :=
  (f ⟨w.dev, []⟩).map
    (fun b => { w with dev := b.dev, trace := w.trace ++ [(w.baud, b.trace)] })

/-- Pico SDK `get_absolute_time ()`: the timer is read for the `ticks`-th time and
shows `clk ticks` microseconds (a 64 bit counter, taken not to wrap). -/
def get_absolute_time (clk : Nat → Nat) (w : World σ) : World σ × Nat :=
  ({ w with ticks := w.ticks + 1 }, clk w.ticks)

/-- Pico SDK `absolute_time_diff_us (from, to)`. -/
def absolute_time_diff_us (t_from t_to : Nat) : Int := (t_to : Int) - (t_from : Int)

/-- Pico SDK `make_timeout_time_ms (ms)`: `ms` milliseconds after the current time. -/
def make_timeout_time_ms (clk : Nat → Nat) (ms : Nat) (w : World σ) : World σ × Nat :=
  ((get_absolute_time clk w).1, (get_absolute_time clk w).2 + ms * 1000)

/-- `cs_high ()` called from `bench.c`. -/
def cs_high (D : flash.SpiDevice σ) (w : World σ) : World σ :=
  (on_bus (fun b => (flash.cs_high D b, ())) w).1

/-- `read_status (which)` called from `bench.c`. -/
def read_status (D : flash.SpiDevice σ) (which : Nat) (w : World σ) : World σ × Nat :=
  on_bus (flash.read_status D which) w

/-! ### The timed primitives -/

/-- `timed_erase_4k (addr, &sr1_end)`: the elapsed microseconds and `sr1_end`. -/
def timed_erase_4k (D : flash.SpiDevice σ) (clk : Nat → Nat) (fuel : Nat) (addr : Nat)
    (w : World σ) : Option (World σ × Int × Nat) :=
  let t0 := get_absolute_time clk w
  match on_bus_wait (flash.sector_erase_4k D fuel addr) t0.1 with
  | none => none
  | some w1 =>
    let t1 := get_absolute_time clk w1
    let r := read_status D 0x05 t1.1
    some (r.1, absolute_time_diff_us t0.2 t1.2, r.2)

/-- The 256 bytes `page[0], ..., page[255]` that `page_program (addr, page, 256)`
sends (a byte behind the end of a shorter buffer counts as `0`). -/
def page256 (page : List Nat) : List Nat := (List.range 256).map (fun i => page.getD i 0)

/-- `timed_prog_256 (addr, page, &verify_errs, &sr1_end)`: the elapsed microseconds,
`verify_errs` and `sr1_end`. -/
def timed_prog_256 (D : flash.SpiDevice σ) (clk : Nat → Nat) (fuel : Nat) (addr : Nat)
    (page : List Nat) (w : World σ) : Option (World σ × Int × Nat × Nat) :=
  let addr := addr &&& 0xFFFFFF00
  let t0 := get_absolute_time clk w
  match on_bus_wait (flash.page_program D fuel addr (page256 page)) t0.1 with
  | none => none
  | some w1 =>
    let t1 := get_absolute_time clk w1
    let s := read_status D 0x05 t1.1
    let rb := on_bus (flash.read_data D addr 256) s.1
    let e := ((List.range 256).filter (fun i => rb.2.getD i 0 != page.getD i 0)).length
    some (rb.1, absolute_time_diff_us t0.2 t1.2, e, s.2)

/-- The loop of `timed_read_seq`: `while (left) { chunk = left > 256 ? 256 : left;
read_data (cur, buf, chunk); cur += chunk; left -= chunk; }`.  The first argument
bounds the number of rounds; `left` rounds always suffice. -/
def read_seq_loop (D : flash.SpiDevice σ) : Nat → Nat → Nat → World σ → World σ
  | 0, _, _, w => w
  | n + 1, cur, left, w =>
    if left = 0 then w
    else
      let chunk := if left > 256 then 256 else left
      read_seq_loop D n ((cur + chunk) % 2 ^ 32) (left - chunk)
        (on_bus (flash.read_data D cur chunk) w).1

/-- `timed_read_seq (addr, len)`: the elapsed microseconds. -/
def timed_read_seq (D : flash.SpiDevice σ) (clk : Nat → Nat) (addr len : Nat)
    (w : World σ) : World σ × Int :=
  let t0 := get_absolute_time clk w
  let w1 := read_seq_loop D len addr len t0.1
  let t1 := get_absolute_time clk w1
  (t1.1, absolute_time_diff_us t0.2 t1.2)

/-- `timed_read_rand256 (&seed, &out_addr)`: the elapsed microseconds, `out_addr`
and the new `seed`. -/
def timed_read_rand256 (D : flash.SpiDevice σ) (clk : Nat → Nat) (cfg : Config)
    (seed : Nat) (w : World σ) : World σ × Int × Nat × Nat :=
  let a := _rand_addr_in_scratch cfg seed
  let t0 := get_absolute_time clk w
  let r := on_bus (flash.read_data D a.1 256) t0.1
  let t1 := get_absolute_time clk r.1
  (t1.1, absolute_time_diff_us t0.2 t1.2, a.1, a.2)

/-! ### `ProjectV4/bench/bench.c`: the web-safe primitives -/

/-- `ERASE_WEB_TIMEOUT_MS`. -/
def ERASE_WEB_TIMEOUT_MS : Nat := 5000

/-- `PROG_WEB_TIMEOUT_MS`. -/
def PROG_WEB_TIMEOUT_MS : Nat := 100

/-- The loop of `wait_wip_clear_web_safe` with its `deadline`: read the status
register; return `true` when bit 0 is clear; otherwise read the timer and return
`false` when `absolute_time_diff_us (now, deadline) <= 0`; otherwise poll the
network and go round again.  `none`: still polling after `fuel` rounds. -/
def wip_poll_loop (D : flash.SpiDevice σ) (clk : Nat → Nat) :
    Nat → Nat → World σ → Option (World σ × Bool)
  | 0, _, _ => none
  | fuel + 1, deadline, w =>
    let r := read_status D 0x05 w
    if r.2 &&& 0x01 = 0 then some (r.1, true)
    else
      let t := get_absolute_time clk r.1
      if absolute_time_diff_us t.2 deadline ≤ 0 then some (t.1, false)
      else wip_poll_loop D clk fuel deadline t.1

/-- `wait_wip_clear_web_safe (timeout_ms, out)`. -/
def wait_wip_clear_web_safe (D : flash.SpiDevice σ) (clk : Nat → Nat) (fuel : Nat)
    (timeout_ms : Nat) (w : World σ) : Option (World σ × Bool) :=
  let d := make_timeout_time_ms clk timeout_ms w
  wip_poll_loop D clk fuel d.2 d.1

/-- `sector_erase_4k_web_safe (addr, timeout_ms, out)`. -/
def sector_erase_4k_web_safe (D : flash.SpiDevice σ) (clk : Nat → Nat) (fuel : Nat)
    (addr timeout_ms : Nat) (w : World σ) : Option (World σ × Bool) :=
  let buf := [0x20, (addr >>> 16) &&& 0xFF, (addr >>> 8) &&& 0xFF, (addr >>> 0) &&& 0xFF]
  let w1 := (on_bus (fun b => (flash.cs_high D (flash.spi_write_blocking D buf
    (flash.cs_low D (flash.write_enable D b))), ())) w).1
  wait_wip_clear_web_safe D clk fuel timeout_ms w1

/-- `page_program_web_safe (addr, data, timeout_ms, out)`: the command byte, the
three address bytes and 256 bytes of `data` are written one after the other. -/
def page_program_web_safe (D : flash.SpiDevice σ) (clk : Nat → Nat) (fuel : Nat)
    (addr : Nat) (data : List Nat) (timeout_ms : Nat) (w : World σ) :
    Option (World σ × Bool) :=
  let addr_buf := [(addr >>> 16) &&& 0xFF, (addr >>> 8) &&& 0xFF, (addr >>> 0) &&& 0xFF]
  let w1 := (on_bus (fun b => (flash.cs_high D (flash.spi_write_blocking D (page256 data)
    (flash.spi_write_blocking D addr_buf (flash.spi_write_blocking D [0x02]
      (flash.cs_low D (flash.write_enable D b))))), ())) w).1
  wait_wip_clear_web_safe D clk fuel timeout_ms w1

/-- `timed_erase_4k_web (addr, &out_sr1)`: the result (`-1` on a timeout) and
`out_sr1`. -/
def timed_erase_4k_web (D : flash.SpiDevice σ) (clk : Nat → Nat) (fuel : Nat) (addr : Nat)
    (w : World σ) : Option (World σ × Int × Nat) :=
  let t0 := get_absolute_time clk w
  match sector_erase_4k_web_safe D clk fuel addr ERASE_WEB_TIMEOUT_MS t0.1 with
  | none => none
  | some (w1, ok) =>
    let s := read_status D 0x05 w1
    if !ok then some (s.1, -1, s.2)
    else
      let t1 := get_absolute_time clk s.1
      some (t1.1, absolute_time_diff_us t0.2 t1.2, s.2)

/-- `timed_prog_256_web (addr, data, &verify_errors, &out_sr1)`: the result (`-1`
on a timeout), `verify_errors` and `out_sr1`. -/
def timed_prog_256_web (D : flash.SpiDevice σ) (clk : Nat → Nat) (fuel : Nat) (addr : Nat)
    (data : List Nat) (w : World σ) : Option (World σ × Int × Nat × Nat) :=
  let t0 := get_absolute_time clk w
  match page_program_web_safe D clk fuel addr data PROG_WEB_TIMEOUT_MS t0.1 with
  | none => none
  | some (w1, ok) =>
    let s := read_status D 0x05 w1
    if !ok then some (s.1, -1, 1, s.2)
    else
      let rb := on_bus (flash.read_data D addr 256) s.1
      let verr := ((List.range 256).filter (fun i => rb.2.getD i 0 != data.getD i 0)).length
      let t1 := get_absolute_time clk rb.1
      some (t1.1, absolute_time_diff_us t0.2 t1.2, verr, s.2)

/-- A device whose data line is stuck high: it answers every byte with `0xFF`, so
its status register always shows a write in progress. -/
def busy_device : flash.SpiDevice Unit :=
  { select := fun s => s, deselect := fun s => s, clock := fun s _ => (s, 0xFF) }

/-- A world at power-up around a device state: nothing on the bus yet, no timer
reading taken, `results.csv` open or not. -/
def World.init (dev : σ) (baud : Nat) (csv_open : Bool) : World σ :=
  { dev := dev, baud := baud, trace := [], ticks := 0, csv_open := csv_open, rows := [],
    reported := [], bench_rows := [] }

/-! ### `csv_row_to_sd` (`Project/csvlog.c`) -/

/-- Number of digits of `n` in base `base`, counting at most `fuel + 1` of them. -/
def num_len (base : Nat) : Nat → Nat → Nat
  | 0, _ => 1
  | fuel + 1, n => if n < base then 1 else num_len base fuel (n / base) + 1

/-- Length of `n` printed with `%u`. -/
def dec_len (n : Nat) : Nat := num_len 10 400 n

/-- Length of `n` printed with `%X`. -/
def hex_len (n : Nat) : Nat := num_len 16 400 n

/-- Length of `x` printed with `%d` or `%lld`. -/
def int_len (x : Int) : Nat := (if x < 0 then 1 else 0) + dec_len x.natAbs

/-- A value as it arrives in a signed C integer of `bits` bits. -/
def wrap_int (bits : Nat) (x : Int) : Int :=
  (x + 2 ^ (bits - 1)) % 2 ^ bits - 2 ^ (bits - 1)

/-- The non-negative rational `q` in millionths, rounded half up. -/
def millionths (q : ℚ) : Nat := (q.num.toNat * 2000000 + q.den) / (2 * q.den)

/-- Length of a `double` printed with `%.6f`: sign, integer part, point and six
decimals (`nan` for an undefined value). -/
def f6_len : Option ℚ → Nat
  | none => 3
  | some q =>
    (if q < 0 then 1 else 0) + dec_len (millionths (if q < 0 then -q else q) / 1000000) + 7

/-- The `n` that `snprintf (line, sizeof line,
"%d,%s,%u,0x%06X,%u,%lld,%.6f,%u,%02X\r\n", ...)` returns for a row, each
argument taken in its C type. -/
def csv_line_length (r : csv_row) : Nat :=
  int_len (wrap_int 32 r.run) + 1 + r.op.length + 1 + dec_len (r.hz % 2 ^ 32) + 1
    + (2 + max 6 (hex_len (r.addr % 2 ^ 32))) + 1 + dec_len (r.bytes % 2 ^ 32) + 1
    + int_len (wrap_int 64 r.dur_us) + 1 + f6_len r.mbps + 1
    + dec_len (r.verify_errors % 2 ^ 32) + 1 + max 2 (hex_len (r.sr1 % 256)) + 2

/-- `csv_row_to_sd (save, run, op, hz, addr, bytes, dur_us, mbps, verify_errors,
sr1_end)`: nothing unless `save` and `g_csv_open`; the row is formatted into
`char line[192]` and handed to `f_write` when `n > 0 && n < (int)sizeof line`. -/
def csv_row_to_sd (save : Bool) (row : csv_row) (w : World σ) : World σ :=
  if !save || !w.csv_open then w
  else if 0 < csv_line_length row ∧ csv_line_length row < 192 then
    { w with rows := w.rows ++ [row] }
  else w

/-! ### `run_benchmarks_with_trials` (`Projectv3/bench/bench.c`) -/

/-- Sum of two `double`s. -/
def dadd (a b : Option ℚ) : Option ℚ := a.bind (fun x => b.map (fun y => x + y))

/-- Product of two `double`s. -/
def dmul (a b : Option ℚ) : Option ℚ := a.bind (fun x => b.map (fun y => x * y))

/-- Quotient of two `double`s; undefined when the divisor is zero. -/
def ddiv (a b : Option ℚ) : Option ℚ := a.bind (fun x => b.bind (fun y => fdiv x y))

/-- The accumulators of one SPI clock: `sum_erase_us`, `sum_prog_mbps`,
`sum_readseq_mbps`, `sum_readrand_mbps`, `total_verify_errs`. -/
structure sums where
  sum_erase_us : Option ℚ
  sum_prog_mbps : Option ℚ
  sum_readseq_mbps : Option ℚ
  sum_readrand_mbps : Option ℚ
  total_verify_errs : Nat

/-- The accumulators at the start of a clock: `0.0` and `0`. -/
def sums.zero : sums := ⟨some 0, some 0, some 0, some 0, 0⟩

/-- The test pattern `page[i] = (uint8_t)i`. -/
def test_page : List Nat := List.range 256

/-- The random read loop of a trial:
`for (uint32_t i=0; i<RAND_READ_ITERS; ++i)`, on (`seed`, `rand_mbps_acc`). -/
def rand_reads (D : flash.SpiDevice σ) (clk : Nat → Nat) (cfg : Config)
    (save_per_run : Bool) (run : Int) (hz : Nat) :
    Nat → Nat → Option ℚ → World σ → World σ × Nat × Option ℚ
  | 0, seed, acc, w => (w, seed, acc)
  | n + 1, seed, acc, w =>
    let r := timed_read_rand256 D clk cfg seed w
    let r_mb := _mbps 256 r.2.1
    let w1 :=
      if save_per_run then
        let st := read_status D 0x05 r.1
        csv_row_to_sd true ⟨run, bytes "READ_RAND", hz, r.2.2.1, 256, r.2.1, r_mb, 0, st.2⟩ st.1
      else r.1
    rand_reads D clk cfg save_per_run run hz n r.2.2.2 (dadd acc r_mb) w1

/-- The per-trial seed `0xC001D00Du ^ (uint32_t)run ^ (uint32_t)hz`. -/
def trial_seed (run : Int) (hz : Nat) : Nat :=
  0xC001D00D ^^^ Int.toNat (run % 2 ^ 32) ^^^ (hz % 2 ^ 32)

/-- The sequential read step of a trial and its row. -/
def read_seq_step (D : flash.SpiDevice σ) (clk : Nat → Nat) (cfg : Config)
    (save_per_run : Bool) (run : Int) (hz : Nat) (w : World σ) : World σ × Option ℚ :=
  let rs := timed_read_seq D clk cfg.SCRATCH_BASE cfg.READ_SEQ_SIZE w
  let rseq_mbps := _mbps cfg.READ_SEQ_SIZE rs.2
  if save_per_run then
    let st := read_status D 0x05 rs.1
    (csv_row_to_sd true ⟨run, bytes "READ_SEQ", hz, cfg.SCRATCH_BASE, cfg.READ_SEQ_SIZE, rs.2,
      rseq_mbps, 0, st.2⟩ st.1, rseq_mbps)
  else (rs.1, rseq_mbps)

/-- One trial of `run_benchmarks_with_trials`, the body of
`for (int run = 1; run <= trials; ++run)`: erase at the benchmark clock, program
at `SAFE_PROG_HZ`, sequential read and random reads at the benchmark clock. -/
def trial (D : flash.SpiDevice σ) (clk : Nat → Nat) (fuel : Nat) (cfg : Config)
    (save_per_run : Bool) (hz : Nat) (run : Int) (s : sums) (w : World σ) :
    Option (World σ × sums) :=
  let era_addr := era_addr cfg run
  let page_addr := era_addr
  match timed_erase_4k D clk fuel era_addr w with
  | none => none
  | some (w1, us, sr1) =>
    let w2 := if save_per_run then
        csv_row_to_sd true ⟨run, bytes "ERASE_4K", hz, era_addr, 4096, us, some 0, 0, sr1⟩ w1
      else w1
    let w3 := cs_high D (spi_init cfg.SAFE_PROG_HZ w2)
    match timed_prog_256 D clk fuel page_addr test_page w3 with
    | none => none
    | some (w4, us_p, verr, sr1_p) =>
      let prog_mbps := _mbps 256 us_p
      let w5 := if save_per_run then
          csv_row_to_sd true ⟨run, bytes "PROG_256B", cfg.SAFE_PROG_HZ, page_addr, 256, us_p,
            prog_mbps, verr, sr1_p⟩ w4
        else w4
      let w6 := cs_high D (spi_init hz w5)
      let rs := read_seq_step D clk cfg save_per_run run hz w6
      let rr := rand_reads D clk cfg save_per_run run hz cfg.RAND_READ_ITERS
        (trial_seed run hz) (some 0) rs.1
      some (rr.1,
        { sum_erase_us := dadd s.sum_erase_us (some (us : ℚ)),
          sum_prog_mbps := dadd s.sum_prog_mbps prog_mbps,
          sum_readseq_mbps := dadd s.sum_readseq_mbps rs.2,
          sum_readrand_mbps := dadd s.sum_readrand_mbps
            (ddiv rr.2.2 (some (cfg.RAND_READ_ITERS : ℚ))),
          total_verify_errs := (s.total_verify_errs + verr) % 2 ^ 32 })

/-- The loop `for (int run = 1; run <= trials; ++run)` around a trial body `body`;
the first argument bounds the number of rounds (`trials` rounds and the final
test always fit into `trials + 1`).  `none`: a wait inside a trial did not end,
or `++run` left the range of `int`. -/
def trials_loop (body : Int → sums → World σ → Option (World σ × sums)) (trials : Int) :
    Nat → Int → sums → World σ → Option (World σ × sums)
  | 0, _, _, _ => none
  | n + 1, run, s, w =>
    if run ≤ trials then
      match body run s w with
      | none => none
      | some (w', s') =>
        if run + 1 < 2 ^ 31 then trials_loop body trials n (run + 1) s' w' else none
    else some (w, s)

/-- The averages of one clock: `(sum_erase_us / trials) / 1000.0`,
`sum_prog_mbps / trials`, `sum_readseq_mbps / trials`, `sum_readrand_mbps / trials`. -/
def averages_of (hz : Nat) (trials : Int) (s : sums) : averages :=
  { hz := hz,
    avg_erase_ms := ddiv (ddiv s.sum_erase_us (some (trials : ℚ))) (some 1000),
    avg_prog_mbps := ddiv s.sum_prog_mbps (some (trials : ℚ)),
    avg_readseq_mbps := ddiv s.sum_readseq_mbps (some (trials : ℚ)),
    avg_readrand_mbps := ddiv s.sum_readrand_mbps (some (trials : ℚ)),
    total_verify_errs := s.total_verify_errs }

/-- The arguments of `bench_csv_append_avg`: write and sequential read speed are
passed in KB/s (`* 1024.0`). -/
def bench_row_of (a : averages) : averages :=
  { a with avg_prog_mbps := dmul a.avg_prog_mbps (some 1024),
           avg_readseq_mbps := dmul a.avg_readseq_mbps (some 1024) }

/-- Print the averages of a clock and, with `save_averages`, hand them to
`benchmark.csv`. -/
def report (save_averages : Bool) (a : averages) (w : World σ) : World σ :=
  if save_averages then
    { w with reported := w.reported ++ [a], bench_rows := w.bench_rows ++ [bench_row_of a] }
  else { w with reported := w.reported ++ [a] }

/-- One SPI clock of `run_benchmarks_with_trials`, the body of
`for (size_t fi = 0; fi < N_FREQS; ++fi)`. -/
def sweep_freq (D : flash.SpiDevice σ) (clk : Nat → Nat) (fuel : Nat) (cfg : Config)
    (trials : Int) (save_per_run save_averages : Bool) (hz : Nat) (w : World σ) :
    Option (World σ) :=
  match trials_loop (trial D clk fuel cfg save_per_run hz) trials (trials.toNat + 1) 1
      sums.zero (spi_init hz w) with
  | none => none
  | some (w1, s) => some (report save_averages (averages_of hz trials s) w1)

/-- The loop over the clocks `SPI_FREQS[0], ..., SPI_FREQS[N_FREQS - 1]`. -/
def sweep (step : Nat → World σ → Option (World σ)) : List Nat → World σ → Option (World σ)
  | [], w => some w
  | hz :: rest, w =>
    match step hz w with
    | none => none
    | some w' => sweep step rest w'

/-- The loop `for (uint32_t a = SCRATCH_BASE; a < SCRATCH_BASE + SCRATCH_SIZE;
a += 4096u) timed_erase_4k (a, &sr);`.  The first argument bounds the number of
rounds; `a` takes at most `2 ^ 20` values. -/
def erase_scratch (D : flash.SpiDevice σ) (clk : Nat → Nat) (fuel : Nat) (cfg : Config) :
    Nat → Nat → World σ → Option (World σ)
  | 0, _, _ => none
  | n + 1, a, w =>
    if a < (cfg.SCRATCH_BASE + cfg.SCRATCH_SIZE) % 2 ^ 32 then
      match timed_erase_4k D clk fuel a w with
      | none => none
      | some r => erase_scratch D clk fuel cfg n ((a + 4096) % 2 ^ 32) r.1
    else some w

/-- `run_benchmarks_with_trials (trials, save_per_run, save_averages)` of
`Projectv3/bench/bench.c`; `fr_bench` is what `bench_csv_begin` returns.  Console
output other than the averages is left out. -/
def run_benchmarks_with_trials (D : flash.SpiDevice σ) (clk : Nat → Nat) (fuel : Nat)
    (cfg : Config) (trials : Int) (save_per_run save_averages : Bool) (fr_bench : Nat)
    (w : World σ) : Option (World σ) :=
  let save_averages := save_averages && decide (fr_bench = FR_OK)
  match erase_scratch D clk fuel cfg (2 ^ 20 + 1) cfg.SCRATCH_BASE w with
  | none => none
  | some w1 =>
    let w2 := (on_bus (flash.read_jedec_id D) w1).1
    let w3 := (on_bus (flash.read_sfdp_header D) w2).1
    sweep (sweep_freq D clk fuel cfg trials save_per_run save_averages) cfg.SPI_FREQS w3

/-! ### `run_benchmarks_with_trials_web_safe` (`ProjectV4/bench/bench.c`) -/

/-- The limits `run_benchmarks_with_trials_web_safe` keeps for the chip:
`max_safe_read_hz`, `max_safe_write_hz`, `erase_timeout_ms`. -/
structure chip_limits where
  max_safe_read_hz : Nat
  max_safe_write_hz : Nat
  erase_timeout_ms : Nat

/-- `jedec = ((uint32_t)id[0] << 16) | ((uint32_t)id[1] << 8) | (uint32_t)id[2]`. -/
def jedec_of (id : List Nat) : Nat :=
  (id.getD 0 0 <<< 16) ||| (id.getD 1 0 <<< 8) ||| id.getD 2 0

/-- The identification step: the conservative defaults, replaced for `0xEF4016`
(Winbond W25Q32FV) and `0xBF2641` (SST 26F016B). -/
def chip_limits_of (jedec : Nat) : chip_limits :=
  if jedec = 0xEF4016 then
    { max_safe_read_hz := 50000000, max_safe_write_hz := 12000000, erase_timeout_ms := 2000 }
  else if jedec = 0xBF2641 then
    { max_safe_read_hz := 20000000, max_safe_write_hz := 8000000, erase_timeout_ms := 4000 }
  else
    { max_safe_read_hz := 12000000, max_safe_write_hz := 8000000, erase_timeout_ms := 4000 }

/-- `prog_hz`: `SAFE_PROG_HZ`, lowered to `max_safe_write_hz` when that is less. -/
def prog_hz (cfg : Config) (lim : chip_limits) : Nat :=
  if cfg.SAFE_PROG_HZ > lim.max_safe_write_hz then lim.max_safe_write_hz else cfg.SAFE_PROG_HZ

/-- One trial of `run_benchmarks_with_trials_web_safe`, with the limits `lim` in
scope: web-safe erase at the clock in force, web-safe program at `prog_hz`,
sequential read and random reads at the benchmark clock. -/
def trial_web_safe (D : flash.SpiDevice σ) (clk : Nat → Nat) (fuel : Nat) (cfg : Config)
    (lim : chip_limits) (save_per_run : Bool) (hz : Nat) (run : Int) (s : sums)
    (w : World σ) : Option (World σ × sums) :=
  let era_addr := era_addr cfg run
  let page_addr := era_addr
  match timed_erase_4k_web D clk fuel era_addr w with
  | none => none
  | some (w1, us_erase, sr1) =>
    let w2 := if save_per_run then
        csv_row_to_sd true ⟨run, bytes "ERASE_4K", hz, era_addr, 4096, us_erase, some 0, 0,
          sr1⟩ w1
      else w1
    let w3 := cs_high D (spi_init (prog_hz cfg lim) w2)
    match timed_prog_256_web D clk fuel page_addr test_page w3 with
    | none => none
    | some (w4, us_prog, verr, sr1_p) =>
      let prog_mbps := _mbps 256 us_prog
      let w5 := if save_per_run then
          csv_row_to_sd true ⟨run, bytes "PROG_256B", prog_hz cfg lim, page_addr, 256, us_prog,
            prog_mbps, verr, sr1_p⟩ w4
        else w4
      let w6 := cs_high D (spi_init hz w5)
      let rs := read_seq_step D clk cfg save_per_run run hz w6
      let rr := rand_reads D clk cfg save_per_run run hz cfg.RAND_READ_ITERS
        (trial_seed run hz) (some 0) rs.1
      some (rr.1,
        { sum_erase_us := dadd s.sum_erase_us (some (us_erase : ℚ)),
          sum_prog_mbps := dadd s.sum_prog_mbps prog_mbps,
          sum_readseq_mbps := dadd s.sum_readseq_mbps rs.2,
          sum_readrand_mbps := dadd s.sum_readrand_mbps
            (ddiv rr.2.2 (some (cfg.RAND_READ_ITERS : ℚ))),
          total_verify_errs := (s.total_verify_errs + verr) % 2 ^ 32 })

/-- One SPI clock of `run_benchmarks_with_trials_web_safe`: skipped when it is
above `max_safe_read_hz`. -/
def sweep_freq_web_safe (D : flash.SpiDevice σ) (clk : Nat → Nat) (fuel : Nat) (cfg : Config)
    (lim : chip_limits) (trials : Int) (save_per_run save_averages : Bool) (hz : Nat)
    (w : World σ) : Option (World σ) :=
  if hz > lim.max_safe_read_hz then some w
  else
    match trials_loop (trial_web_safe D clk fuel cfg lim save_per_run hz) trials
        (trials.toNat + 1) 1 sums.zero (cs_high D (spi_init hz w)) with
    | none => none
    | some (w1, s) => some (report save_averages (averages_of hz trials s) w1)

/-- `run_benchmarks_with_trials_web_safe (trials, save_per_run, save_averages,
out)` of `ProjectV4/bench/bench.c`; `out` tells whether an output function was
passed and `fr_bench` is what `bench_csv_begin` returns.  Console output other
than the averages, and the latency ranges that are only printed, are left out. -/
def run_benchmarks_with_trials_web_safe (D : flash.SpiDevice σ) (clk : Nat → Nat)
    (fuel : Nat) (cfg : Config) (trials : Int) (save_per_run save_averages out : Bool)
    (fr_bench : Nat) (w : World σ) : Option (World σ) :=
  if !out then some w
  else
    let save_averages := save_averages && decide (fr_bench = FR_OK)
    let id := on_bus (flash.read_jedec_id D) w
    let lim := chip_limits_of (jedec_of id.2)
    let w1 := (on_bus (flash.read_sfdp_header D) id.1).1
    sweep (sweep_freq_web_safe D clk fuel cfg lim trials save_per_run save_averages)
      cfg.SPI_FREQS w1

/-! ### Reading the benchmark's bus trace -/

/-- The first byte sent in an exchange, the opcode of its command. -/
def opcode : List flash.BusEvent → Option Nat
  | [] => none
  | flash.BusEvent.write (c :: _) :: _ => some c
  | flash.BusEvent.write_read (c :: _) _ :: _ => some c
  | flash.BusEvent.read tx (_ :: _) :: _ => some tx
  | _ :: rest => opcode rest

/-- Whether a run of bus events carries a page program command (opcode `0x02`). -/
def programs_in (evs : List flash.BusEvent) : Bool :=
  (flash.exchanges evs).any (fun x => opcode x == some 0x02)

/-- From `w` to `w'` the firmware only used the bus and the timer: the SPI clock,
the rows of `results.csv` and the averages are as before, and every bus action
added to the trace ran at that SPI clock and satisfies `Q`. -/
def Quiet (Q : List flash.BusEvent → Prop) (w w' : World σ) : Prop :=
  w'.baud = w.baud ∧ w'.rows = w.rows ∧ w'.csv_open = w.csv_open
    ∧ w'.reported = w.reported ∧ w'.bench_rows = w.bench_rows
    ∧ ∃ segs, w'.trace = w.trace ++ segs ∧ ∀ s ∈ segs, s.1 = w.baud ∧ Q s.2

/-- No page program among the bus events. -/
def NoProgram (evs : List flash.BusEvent) : Prop := programs_in evs = false

/-- From `w` to `w'` the rows `new` were handed to `results.csv`, `g_csv_open` is as
before, and every bus action added to the trace satisfies `P` (SPI clock and
bus events). -/
def Logged (P : Nat × List flash.BusEvent → Prop) (w w' : World σ) (new : List csv_row) :
    Prop :=
  w'.csv_open = w.csv_open ∧ w'.rows = w.rows ++ new
    ∧ ∃ segs, w'.trace = w.trace ++ segs ∧ ∀ s ∈ segs, P s

/-- A bus action of a trial at benchmark clock `hz` with program clock `p`: it ran
at `hz` and carries no page program, or it ran at `p`. -/
def seg_ok (hz p : Nat) (s : Nat × List flash.BusEvent) : Prop :=
  (s.1 = hz ∧ NoProgram s.2) ∨ s.1 = p

/-- The `op` column of the rows of one trial: erase, program, sequential read and
`RAND_READ_ITERS` random reads. -/
def trial_ops (cfg : Config) : List (List Nat) :=
  [bytes "ERASE_4K", bytes "PROG_256B", bytes "READ_SEQ"]
    ++ List.replicate cfg.RAND_READ_ITERS (bytes "READ_RAND")

/-- The `run` and `op` columns of the rows of the trials `1, ..., n` of one clock. -/
def trials_ops (cfg : Config) (n : Nat) : List (Int × List Nat) :=
  (List.range n).flatMap (fun i => (trial_ops cfg).map (fun op => ((i : Int) + 1, op)))

/-- A small configuration for examples: two scratch sectors, a 512 byte sequential
read, two random reads per trial, the sweep 12 and 24 MHz. -/
def tiny : Config :=
  { SCRATCH_BASE := 0, SCRATCH_SIZE := 8192, READ_SEQ_SIZE := 512, RAND_READ_ITERS := 2,
    SAFE_PROG_HZ := 12000000, SPI_FREQS := [12000000, 24000000] }

end bench

/-! ## `SPI/spi_flash.c`: random read address -/

namespace spi_flash

/-- `_xors (&s)`: `*s^=*s<<13; *s^=*s>>17; *s^=*s<<5; return *s;`. -/
def _xors (s : Nat) : Nat :=
  let s1 := s ^^^ ((s <<< 13) % 2 ^ 32)
  let s2 := s1 ^^^ (s1 >>> 17)
  s2 ^^^ ((s2 <<< 5) % 2 ^ 32)

/-- The address selection of `timed_read_rand256 (seed, addr_out)`:
`pages = SCRATCH_SIZE / 256u; pick = _xors(seed) % pages;
addr = SCRATCH_BASE + pick*256u;`.  The address and the new `*seed`. -/
def timed_read_rand256_addr (SCRATCH_BASE SCRATCH_SIZE : Nat) (seed : Nat) : Nat × Nat :=
  let pages := SCRATCH_SIZE / 256
  let pick := _xors seed % pages
  ((SCRATCH_BASE + (pick * 256) % 2 ^ 32) % 2 ^ 32, _xors seed)

end spi_flash

end Firmware

namespace Firmware

/-! ## `Project(Ben)/flash.c`: chip size detection and whole-chip backup

`read_jedec_id`, `read_data`, `page_program` and `sector_erase_4k` have the same
text in `Project(Ben)/flash.c` as in `Projectv3/src/flash.c`. -/

namespace flash_ben

open flash

variable {σ : Type}

/-- `detect_chip_size`: the new bus and the size in bytes chosen from the memory
type `id[1]` and the capacity byte `id[2]` of the JEDEC id. -/
def detect_chip_size (D : SpiDevice σ) (b : Bus σ) : Bus σ × Nat :=
  let r := read_jedec_id D b
  let id1 := r.2.getD 1 0
  let id2 := r.2.getD 2 0
  (r.1,
    if id1 = 0x40 then
      if id2 = 0x16 then 2 * 1024 * 1024
      else if id2 = 0x17 then 4 * 1024 * 1024
      else if id2 = 0x18 then 8 * 1024 * 1024
      else if id2 = 0x19 then 16 * 1024 * 1024
      else if id2 = 0x20 then 32 * 1024 * 1024
      else if id2 = 0x21 then 64 * 1024 * 1024
      else 16 * 1024 * 1024
    else if id1 = 0x20 then 4 * 1024 * 1024
    else if id1 = 0x30 then 8 * 1024 * 1024
    else if id1 = 0x60 then 16 * 1024 * 1024
    else 16 * 1024 * 1024)

/-- The loop of `backup_entire_chip`: `while(addr < chip_size && success)` with a
4096 byte buffer, on the state (`addr`, bytes in the file, bus); the result is
`success`, the file and the bus.  `none`: more than `fuel` iterations. -/
def backup_loop (D : SpiDevice σ) (sink : SdSink) (chip_size : Nat) :
    Nat → Nat → List Nat → Bus σ → Option (Bool × List Nat × Bus σ)
  | 0, _, _, _ => none
  | fuel + 1, addr, file, b =>
    if addr < chip_size then
      let chunk_size := if chip_size - addr > 4096 then 4096 else chip_size - addr
      let r := read_data D addr chunk_size b
      let w := sink.f_write file r.2
      let bytes_written := min w.2 chunk_size
      if w.1 ≠ FR_OK ∨ bytes_written ≠ chunk_size then
        some (false, file ++ r.2.take bytes_written, r.1)
      else backup_loop D sink chip_size fuel ((addr + chunk_size) % 2 ^ 32)
        (file ++ r.2.take bytes_written) r.1
    else some (true, file, b)

/-- `backup_entire_chip (filename)`: the returned `bool`, the contents of the file
afterwards (`old` before the call; `f_open` with `FA_CREATE_ALWAYS` empties it)
and the bus. -/
def backup_entire_chip (D : SpiDevice σ) (fuel : Nat) (sink : SdSink) (old : List Nat)
    (b : Bus σ) : Option (Bool × List Nat × Bus σ) :=
  let d := detect_chip_size D b
  if sink.fr_mount ≠ FR_OK then some (false, old, d.1)
  else if sink.fr_open ≠ FR_OK then some (false, old, d.1)
  else backup_loop D sink d.2 fuel 0 [] d.1

/-- The read request for the chunk at `addr`: the bytes the firmware sends for it,
command header first, then one `0x00` for every byte it wants to receive. -/
def chunk_request (addr len : Nat) : List Nat := cmd_hdr 0x03 addr ++ List.replicate len 0

/-- The exchange of `read_data (addr, buf, len)` that received `data`. -/
def read_exchange (addr : Nat) (data : List Nat) : List BusEvent :=
  [BusEvent.write (cmd_hdr 0x03 addr), BusEvent.read 0 data]

/-- The bytes the firmware sends in an exchange, in order. -/
def sent_bytes : List BusEvent → List Nat
  | [] => []
  | BusEvent.write src :: es => src ++ sent_bytes es
  | BusEvent.read tx dst :: es => List.replicate dst.length tx ++ sent_bytes es
  | BusEvent.write_read src _ :: es => src ++ sent_bytes es
  | _ :: es => sent_bytes es

/-- A device that identifies as a 32 MiB part: it answers the third and fourth
byte after chip select with `0x40` and `0x20` (so a JEDEC id read gives memory
type `0x40`, capacity `0x20`), every other byte with `0`.  The state counts the
bytes since chip select went low. -/
def w25q256_id_device : SpiDevice Nat :=
  { select := fun _ => 0, deselect := fun s => s,
    clock := fun s _ => (s + 1, if s = 2 then 0x40 else if s = 3 then 0x20 else 0) }

/-- An SD card file that accepts every write. -/
def accepting_sink : SdSink :=
  { fr_mount := FR_OK, fr_open := FR_OK, f_write := fun _ buf => (FR_OK, buf.length),
    f_sync := fun _ => FR_OK, f_close := fun _ => FR_OK }

end flash_ben

/-! ## `ProjectV4/bench/bench.c`: the benchmarks that report through `output_func` -/

namespace bench

variable {σ : Type}

/-- The accumulators of one clock in `run_benchmark_100_with_output` and
`run_fast_benchmark_with_output`: the `double` sums of the elapsed microseconds
and the `uint32_t total_errors`. -/
structure output_sums where
  sum_erase_us : ℚ
  sum_prog_us : ℚ
  sum_read_us : ℚ
  total_errors : Nat
  deriving DecidableEq

/-- The averages the two benchmarks print for one clock (`none`: the result of a
division by zero). -/
structure output_avgs where
  hz : Nat
  avg_erase_ms : Option ℚ
  avg_prog_kbps : Option ℚ
  avg_read_kbps : Option ℚ
  deriving DecidableEq

/-- The read loop of a trial:
`for (uint32_t off = 0; off < span; off += 256) read_data(sector_addr + off, buf, 256);`
(`span` is 2048 or 4096, so the first argument, the rounds allowed, is never
used up when it is at least `span / 256 + 1`). -/
def read_span (D : flash.SpiDevice σ) (sector_addr span : Nat) : Nat → Nat → World σ → World σ
  | 0, _, w => w
  | n + 1, off, w =>
    if off < span then
      read_span D sector_addr span n (off + 256)
        (on_bus (flash.read_data D ((sector_addr + off) % 2 ^ 32) 256) w).1
    else w

/-- The body of the trial loop, which reads the same in both benchmarks but for
the number of bytes read (`span`): erase and program with the web-safe primitives
at `SAFE_PROG_HZ`, then timed reads at the benchmark clock; the three elapsed
times are added to the sums as they are returned, the `-1` of a timeout
included. -/
def output_trial (D : flash.SpiDevice σ) (clk : Nat → Nat) (fuel : Nat) (cfg : Config)
    (hz span sector_addr : Nat) (s : output_sums) (w : World σ) :
    Option (World σ × output_sums) :=
  let w1 := cs_high D (spi_init cfg.SAFE_PROG_HZ w)
  match timed_erase_4k_web D clk fuel sector_addr w1 with
  | none => none
  | some (w2, us_erase, _) =>
    match timed_prog_256_web D clk fuel sector_addr test_page w2 with
    | none => none
    | some (w3, us_prog, verr, _) =>
      let w4 := cs_high D (spi_init hz w3)
      let t0 := get_absolute_time clk w4
      let w5 := read_span D sector_addr span (span / 256 + 1) 0 t0.1
      let t1 := get_absolute_time clk w5
      some (t1.1,
        { sum_erase_us := s.sum_erase_us + (us_erase : ℚ),
          sum_prog_us := s.sum_prog_us + (us_prog : ℚ),
          sum_read_us := s.sum_read_us + (absolute_time_diff_us t0.2 t1.2 : ℚ),
          total_errors := (s.total_errors + verr) % 2 ^ 32 })

/-- The trial loop `for (int trial = 0; trial < TRIALS; ++trial)`, with the
number of trials left and the loop variable. -/
def output_trials (body : Nat → output_sums → World σ → Option (World σ × output_sums)) :
    Nat → Nat → output_sums → World σ → Option (World σ × output_sums)
  | 0, _, s, w => some (w, s)
  | n + 1, trial, s, w =>
    match body trial s w with
    | none => none
    | some (w1, s1) => output_trials body n (trial + 1) s1 w1

/-- "Calculate averages":
`avg_erase_ms = (sum_erase_us / TRIALS) / 1000.0`,
`avg_prog_kbps = (256.0 * TRIALS) / (sum_prog_us / 1e6) / 1024.0`,
`avg_read_kbps = (read_bytes * TRIALS) / (sum_read_us / 1e6) / 1024.0`. -/
def output_averages (hz TRIALS read_bytes : Nat) (s : output_sums) : output_avgs :=
  { hz := hz,
    avg_erase_ms := ddiv (ddiv (some s.sum_erase_us) (some (TRIALS : ℚ))) (some 1000),
    avg_prog_kbps :=
      ddiv (ddiv (some (256 * (TRIALS : ℚ))) (ddiv (some s.sum_prog_us) (some 1000000)))
        (some 1024),
    avg_read_kbps :=
      ddiv (ddiv (some ((read_bytes : ℚ) * (TRIALS : ℚ)))
        (ddiv (some s.sum_read_us) (some 1000000))) (some 1024) }

/-- The clock loop of `run_benchmark_100_with_output`: `TRIALS = 100`, the sums
and `total_errors` start at zero for every clock, trial `trial` uses the sector
at `SCRATCH_BASE + (trial % 64) * 4096` and reads 2048 bytes.  Returns what is
printed for each clock. -/
def output_freqs_100 (D : flash.SpiDevice σ) (clk : Nat → Nat) (fuel : Nat) (cfg : Config) :
    List Nat → World σ → Option (World σ × List output_avgs)
  | [], w => some (w, [])
  | hz :: rest, w =>
    match output_trials
        (fun trial => output_trial D clk fuel cfg hz 2048
          ((cfg.SCRATCH_BASE + (trial % 64) * 4096) % 2 ^ 32))
        100 0 ⟨0, 0, 0, 0⟩ w with
    | none => none
    | some (w1, s) =>
      match output_freqs_100 D clk fuel cfg rest w1 with
      | none => none
      | some (w2, outs) => some (w2, output_averages hz 100 2048 s :: outs)

/-- `run_benchmark_100_with_output (output_func)`: the averages printed, clock by
clock. -/
def run_benchmark_100_with_output (D : flash.SpiDevice σ) (clk : Nat → Nat) (fuel : Nat)
    (cfg : Config) (w : World σ) : Option (World σ × List output_avgs) :=
  let w0 := cs_high D (spi_init cfg.SAFE_PROG_HZ w)
  let id := on_bus (flash.read_jedec_id D) w0
  output_freqs_100 D clk fuel cfg [12000000, 24000000, 36000000] id.1

/-- The clock loop of `run_fast_benchmark_with_output`: `TRIALS = 2`, the sums
start at zero for every clock while `total_errors` runs on, trial `trial` of
clock number `freq_idx` uses the sector at
`SCRATCH_BASE + (freq_idx * TRIALS + trial) * 4096` and reads 4096 bytes. -/
def output_freqs_fast (D : flash.SpiDevice σ) (clk : Nat → Nat) (fuel : Nat) (cfg : Config) :
    List Nat → Nat → Nat → World σ → Option (World σ × List output_avgs × Nat)
  | [], _, total_errors, w => some (w, [], total_errors)
  | hz :: rest, freq_idx, total_errors, w =>
    match output_trials
        (fun trial => output_trial D clk fuel cfg hz 4096
          ((cfg.SCRATCH_BASE + (freq_idx * 2 + trial) * 4096) % 2 ^ 32))
        2 0 ⟨0, 0, 0, total_errors⟩ w with
    | none => none
    | some (w1, s) =>
      match output_freqs_fast D clk fuel cfg rest (freq_idx + 1) s.total_errors w1 with
      | none => none
      | some (w2, outs, errs) => some (w2, output_averages hz 2 4096 s :: outs, errs)

/-- `run_fast_benchmark_with_output (output_func)`: the averages printed, clock by
clock, and `total_errors`. -/
def run_fast_benchmark_with_output (D : flash.SpiDevice σ) (clk : Nat → Nat) (fuel : Nat)
    (cfg : Config) (w : World σ) : Option (World σ × List output_avgs × Nat) :=
  let w0 := cs_high D (spi_init cfg.SAFE_PROG_HZ w)
  let id := on_bus (flash.read_jedec_id D) w0
  output_freqs_fast D clk fuel cfg [12000000, 24000000] 0 0 id.1

end bench

/-! ## `Project/csvlog.c`: the module state and the quick undo -/

namespace csvlog

/-- The state `csvlog.c` keeps for `results.csv`: the flag `g_csv_open`, the
file-scope variable `g_last_session_offset`, and the contents of the file on the
card. -/
structure Module where
  g_csv_open : Bool
  g_last_session_offset : Nat
  results : List Nat
  deriving DecidableEq

/-- The state after start-up, by the static initialisers `g_csv_open = false` and
`g_last_session_offset = 0`, with `results` on the card. -/
def Module.boot (results : List Nat) : Module := ⟨false, 0, results⟩

/-- The header line `csv_begin` writes into an empty `results.csv`. -/
def RESULTS_HEADER : List Nat :=
  bytes "run,op,spi_hz,addr,bytes,duration_us,mbps,verify_errors,status1_end\r\n"

/-- The decimal digits of `n`, most significant first, as characters; `fuel`
bounds the number of digits. -/
def dec_digits : Nat → Nat → List Nat
  | 0, _ => []
  | fuel + 1, n => if n < 10 then [n + 48] else dec_digits fuel (n / 10) ++ [n % 10 + 48]

/-- The text `%u` and `%lu` print for `n`. -/
def dec (n : Nat) : List Nat := dec_digits (n + 1) n

/-- `csv_begin`: the new state and the result.  `fr_mount` and `fr_open` are the
results of `f_mount` and `f_open`; writes to the open file are taken to
succeed. -/
def csv_begin (fr_mount fr_open : Nat) (m : Module) : Module × Nat :=
  if fr_mount ≠ FR_OK then (m, fr_mount)
  else if fr_open ≠ FR_OK then (m, fr_open)
  else ({ m with g_csv_open := true,
                 results := if m.results.length = 0 then RESULTS_HEADER else m.results }, FR_OK)

/-- `csv_end`. -/
def csv_end (m : Module) : Module := { m with g_csv_open := false }

/-- `_csv_append_line (line)`. -/
def _csv_append_line (line : List Nat) (m : Module) : Module :=
  if !m.g_csv_open then m else { m with results := m.results ++ line }

/-- `csv_row_to_sd (save, ...)`, with `line` the text `snprintf` formats from the
other arguments: it is appended when it fits the 192 byte buffer. -/
def csv_row_to_sd (save : Bool) (line : List Nat) (m : Module) : Module :=
  if !save || !m.g_csv_open then m
  else if 0 < line.length ∧ line.length < 192 then _csv_append_line line m else m

/-- The marker line `"# SESSION_START %lu\r\n"` for the time stamp `ms`. -/
def marker_line (ms : Nat) : List Nat := bytes "# SESSION_START " ++ dec (ms % 2 ^ 32) ++ [13, 10]

/-- `csv_mark_session_start ()` at `ms` milliseconds since boot: the new state and
the returned offset, the size of the file before the marker was written. -/
def csv_mark_session_start (ms : Nat) (m : Module) : Module × Nat :=
  if !m.g_csv_open then (m, 0)
  else
    ((if 0 < (marker_line ms).length ∧ (marker_line ms).length < 64
        then _csv_append_line (marker_line ms) m else m),
      m.results.length % 2 ^ 32)

/-- `csv_truncate_to (pos)`: the new state and the result; `fr_open`, `fr_lseek`
and `fr_truncate` are the results of the FatFs calls, of which `f_open` is only
made when the file is not open.  A position behind the end of the file is taken
to leave the contents as they are. -/
def csv_truncate_to (fr_open fr_lseek fr_truncate : Nat) (pos : Nat) (m : Module) :
    Module × Nat :=
  if !m.g_csv_open ∧ fr_open ≠ FR_OK then (m, fr_open)
  else if fr_lseek ≠ FR_OK then ({ m with g_csv_open := false }, fr_lseek)
  else if fr_truncate ≠ FR_OK then ({ m with g_csv_open := false }, fr_truncate)
  else ({ m with g_csv_open := false, results := m.results.take pos }, FR_OK)

/-- `csv_undo_current_session ()`: nothing happens while `g_last_session_offset`
is `0`; otherwise the file is truncated to it and it is set back to `0`. -/
def csv_undo_current_session (fr_open fr_lseek fr_truncate : Nat) (m : Module) : Module :=
  if m.g_last_session_offset = 0 then m
  else
    { (csv_truncate_to fr_open fr_lseek fr_truncate m.g_last_session_offset m).1 with
      g_last_session_offset := 0 }

/-- A call of one of the functions `csvlog.h` exports for `results.csv`, with the
results of the FatFs calls it makes. -/
inductive Call where
  | csv_begin (fr_mount fr_open : Nat)
  | csv_end
  | csv_row_to_sd (save : Bool) (line : List Nat)
  | csv_mark_session_start (ms : Nat)
  | csv_erase_last_session (fr_mount fr_open fr_lseek fr_truncate : Nat)
  | csv_truncate_to (fr_open fr_lseek fr_truncate pos : Nat)
  | csv_undo_current_session (fr_open fr_lseek fr_truncate : Nat)

/-- The state after one call. -/
def step (m : Module) : Call → Module
  | Call.csv_begin fr_mount fr_open => (csv_begin fr_mount fr_open m).1
  | Call.csv_end => csv_end m
  | Call.csv_row_to_sd save line => csv_row_to_sd save line m
  | Call.csv_mark_session_start ms => (csv_mark_session_start ms m).1
  | Call.csv_erase_last_session fr_mount fr_open fr_lseek fr_truncate =>
    match csv_erase_last_session fr_mount fr_open fr_lseek fr_truncate m.results with
    | some r => { m with results := r.2 }
    | none => m
  | Call.csv_truncate_to fr_open fr_lseek fr_truncate pos =>
    (csv_truncate_to fr_open fr_lseek fr_truncate pos m).1
  | Call.csv_undo_current_session fr_open fr_lseek fr_truncate =>
    csv_undo_current_session fr_open fr_lseek fr_truncate m

/-- The state after a sequence of calls. -/
def run (calls : List Call) (m : Module) : Module := calls.foldl step m

/-- A session: open the log, save the row `row_a`, mark the session start at
1234 ms, save the row `row_b`, then ask for the quick undo; every FatFs call
succeeds. -/
def undo_session (row_a row_b : List Nat) : List Call :=
  [Call.csv_begin FR_OK FR_OK, Call.csv_row_to_sd true row_a, Call.csv_mark_session_start 1234,
    Call.csv_row_to_sd true row_b, Call.csv_undo_current_session FR_OK FR_OK FR_OK]

end csvlog

/-! ## `Projectv3/bench/analyze.c`: quotes, the catalog line, the JEDEC text -/

namespace analyze

/-- The count the description of the splitter names: the commas of a line that lie
outside double quotes, where a double quote switches between outside and
inside. -/
def commas_outside_quotes : Bool → List Nat → Nat
  | _, [] => 0
  | in_quotes, c :: cs =>
    if c = 34 then commas_outside_quotes (!in_quotes) cs
    else if c = 44 ∧ in_quotes = false then 1 + commas_outside_quotes in_quotes cs
    else commas_outside_quotes in_quotes cs

/-- The line `"a,b",c`: a quoted field with a comma in it, then a second field. -/
def quoted_line : List Nat := [34, 97, 44, 98, 34, 44, 99]

/-- The value of a hexadecimal digit character, `none` for any other character. -/
def hexval (c : Nat) : Option Nat :=
  if 48 ≤ c ∧ c ≤ 57 then some (c - 48)
  else if 65 ≤ c ∧ c ≤ 70 then some (c - 55)
  else if 97 ≤ c ∧ c ≤ 102 then some (c - 87)
  else none

/-- The digits of a `%x` conversion: hexadecimal digits are consumed as long as
there are any; the value is kept in an `unsigned` (the C standard leaves a value
that does not fit undefined; it is reduced modulo `2 ^ 32` here).  Returns the
value and the unread rest. -/
def scan_hex_digits : List Nat → Nat → Nat × List Nat
  | [], acc => (acc, [])
  | c :: cs, acc =>
    match hexval c with
    | some d => scan_hex_digits cs ((acc * 16 + d) % 2 ^ 32)
    | none => (acc, c :: cs)

/-- One `%x` conversion of C `sscanf`: white space is skipped, then an optional
sign and an optional `0x` or `0X` in front of a hexadecimal digit, then at least
one hexadecimal digit is required.  `none` is a matching failure, otherwise the
value and the unread rest. -/
def scan_x (s : List Nat) : Option (Nat × List Nat) :=
  let s1 := s.dropWhile isspace
  let neg := s1.head? == some 45
  let s2 := if s1.head? = some 45 ∨ s1.head? = some 43 then s1.tail else s1
  let s3 :=
    match s2 with
    | 48 :: x :: d :: t => if (x = 120 ∨ x = 88) ∧ (hexval d).isSome then d :: t else s2
    | _ => s2
  match s3 with
  | [] => none
  | c :: cs =>
    if (hexval c).isSome then
      let r := scan_hex_digits (c :: cs) 0
      some ((if neg then (2 ^ 32 - r.1) % 2 ^ 32 else r.1), r.2)
    else none

/-- `parse_jedec_bytes (s, &mfg, &dev)`: `none` when it returns `false`, otherwise
the values stored in `*mfg` and `*dev`.  The loop first skips every leading
character among space, `J`, `E`, `D`, `C`, `=` and `-`; then `sscanf` tries
`"%x:%x"` and, when that does not convert two values, `"%x %x %x"` (white space
in the format matches any amount of white space, which `%x` skips anyhow). -/
def parse_jedec_bytes (s : List Nat) : Option (Nat × Nat) :=
  let s := s.dropWhile
    (fun c => c == 32 || c == 74 || c == 69 || c == 68 || c == 67 || c == 61 || c == 45)
  let colon_form : Option (Nat × Nat) :=
    match scan_x s with
    | some (mi, 58 :: rest) =>
      match scan_x rest with
      | some (d, _) => some (mi % 256, d % 65536)
      | none => none
    | _ => none
  match colon_form with
  | some r => some r
  | none =>
    match scan_x s with
    | none => none
    | some (b0, r0) =>
      match scan_x r0 with
      | none => none
      | some (b1, r1) =>
        match scan_x r1 with
        | none => none
        | some (b2, _) => some (b0 % 256, (((b1 <<< 8) % 2 ^ 32) ||| b2) % 65536)

/-- `strncpy (dst, src, n); dst[n-1] = 0;`: the C string in `dst` afterwards. -/
def strncpy_z (n : Nat) (src : List Nat) : List Nat := src.take (n - 1)

/-- `parse_ref_line (line_in, out)`: `none` when it returns `0` (the row is
skipped), otherwise the catalog row stored in `*out`.  `strtod` is the C library
function. -/
def parse_ref_line (strtod : List Nat → ℚ) (line_in : List Nat) : Option chip_ref_t :=
  let buf := strncpy_z 384 line_in
  let col := csv_split_simple_keep_empty buf 20
  if col.length < 15 then none
  else
    let jedec := strncpy_z 24 (col.getD 4 [])
    let id := parse_jedec_bytes jedec
    some
      { model := strncpy_z 48 (col.getD 0 []),
        company := strncpy_z 64 (col.getD 1 []),
        family := strncpy_z 64 (col.getD 2 []),
        cap_mbit := to_dflt0 strtod col[3]?,
        jedec := jedec,
        jedec_mfg := match id with
          | some r => r.1
          | none => 0,
        jedec_dev := match id with
          | some r => r.2
          | none => 0,
        typ_erase_ms := to_dflt0 strtod col[5]?,
        max_erase_ms := to_dflt0 strtod col[6]?,
        typ_erase32_ms := to_dflt0 strtod col[7]?,
        max_erase32_ms := to_dflt0 strtod col[8]?,
        typ_erase64_ms := to_dflt0 strtod col[9]?,
        max_erase64_ms := to_dflt0 strtod col[10]?,
        max_read_mhz := to_dflt0 strtod col[11]?,
        typ_prog_ms := to_dflt0 strtod col[12]?,
        max_prog_ms := to_dflt0 strtod col[13]?,
        read_50_mb_s := to_dflt0 strtod col[14]?,
        v_range := if col.length > 15 then strncpy_z 24 (col.getD 15 []) else [],
        endurance := if col.length > 16 then to_dflt0 strtod col[16]? else 0 }

/-- The numeric fields of a catalog row in column order: columns 3, 5 to 14 and
16 of the catalog. -/
def numeric_fields (r : chip_ref_t) : List (Nat × ℚ) :=
  [(3, r.cap_mbit), (5, r.typ_erase_ms), (6, r.max_erase_ms), (7, r.typ_erase32_ms),
    (8, r.max_erase32_ms), (9, r.typ_erase64_ms), (10, r.max_erase64_ms),
    (11, r.max_read_mhz), (12, r.typ_prog_ms), (13, r.max_prog_ms), (14, r.read_50_mb_s),
    (16, r.endurance)]

/-- A catalog line with fifteen fields: a padded model name, company and family,
no capacity, the JEDEC text `9D 40 13`, and ten empty numeric fields. -/
def sparse_ref_line : List Nat := bytes "  IS25LP040 , ISSI,fam,,9D 40 13,,,,,,,,,,\r\n"

/-- The character `%X` prints for a digit value below 16. -/
def hex_digit (d : Nat) : Nat := if d < 10 then d + 48 else d + 55

/-- The text `%02X` prints for a byte. -/
def hex2 (b : Nat) : List Nat := [hex_digit (b / 16), hex_digit (b % 16)]

/-- The three bytes of a JEDEC id written as two-digit upper-case hexadecimal
numbers separated by single spaces, the documented `"9D 40 13"` form. -/
def jedec_text (m h l : Nat) : List Nat := hex2 m ++ [32] ++ hex2 h ++ [32] ++ hex2 l

end analyze

/-! ## `Project/csvlog.c`: the aggregate row -/

namespace csvlog

/-- The header line `bench_csv_begin` writes into an empty `benchmark.csv`. -/
def BENCH_HEADER : List Nat :=
  bytes "timestamp_ms,jedec_hex,spi_hz,avg_erase_ms,avg_write256_kBps,avg_readseq_kBps,avg_readrand_MBps,verify_errors\r\n"

/-- The line `bench_csv_append_avg` formats with
`"%u,%s,%u,%.3f,%.3f,%.3f,%.3f,%u\r\n"`: time stamp, JEDEC text (`"000000"` when
the argument is `NULL` or empty, both `[]` here), clock, the four averages and
the verify errors.  `fmt3` is the text `%.3f` prints for a `double`. -/
def bench_avg_line (fmt3 : ℚ → List Nat) (t_ms : Nat) (jedec_hex : List Nat) (hz : Nat)
    (avg_erase_ms avg_write_kBps avg_readseq_kBps avg_readrand_MBps : ℚ)
    (verify_errors : Nat) : List Nat :=
  dec (t_ms % 2 ^ 32) ++ [44] ++ (if jedec_hex = [] then bytes "000000" else jedec_hex) ++ [44]
    ++ dec (hz % 2 ^ 32) ++ [44] ++ fmt3 avg_erase_ms ++ [44] ++ fmt3 avg_write_kBps ++ [44]
    ++ fmt3 avg_readseq_kBps ++ [44] ++ fmt3 avg_readrand_MBps ++ [44]
    ++ dec (verify_errors % 2 ^ 32) ++ [13, 10]

/-- `bench_csv_append_avg (...)` at `t_ms` milliseconds since boot: the contents of
`benchmark.csv` afterwards.  The line is written when the file is open and the
line fits the 196 byte buffer; the write is taken to succeed. -/
def bench_csv_append_avg (fmt3 : ℚ → List Nat) (g_bench_open : Bool) (t_ms : Nat)
    (jedec_hex : List Nat) (hz : Nat)
    (avg_erase_ms avg_write_kBps avg_readseq_kBps avg_readrand_MBps : ℚ)
    (verify_errors : Nat) (file : List Nat) : List Nat :=
  let line := bench_avg_line fmt3 t_ms jedec_hex hz avg_erase_ms avg_write_kBps
    avg_readseq_kBps avg_readrand_MBps verify_errors
  if !g_bench_open then file
  else if 0 < line.length ∧ line.length < 196 then file ++ line
  else file

/-- A character `%02X` can print: a decimal digit or one of `A` to `F`. -/
def is_upper_hex (c : Nat) : Bool :=
  (decide (48 ≤ c) && decide (c ≤ 57)) || (decide (65 ≤ c) && decide (c ≤ 70))

end csvlog

/-! ## `Project/analyze.c`: reading `benchmark.csv` by position -/

namespace project_analyze

/-- The digits of C `strtoul` in base 10: decimal digits are consumed as long as
there are any.  Returns the value and the unread rest. -/
def scan_dec : List Nat → Nat → Nat × List Nat
  | [], acc => (acc, [])
  | c :: cs, acc =>
    if 48 ≤ c ∧ c ≤ 57 then scan_dec cs (acc * 10 + (c - 48)) else (acc, c :: cs)

/-- C `strtoul (p, &p, 10)` with a 32 bit `unsigned long`: white space is skipped,
then an optional sign, then decimal digits; a value that does not fit gives
`ULONG_MAX`; without a digit the result is `0` and the end pointer is `p` itself.
Returns the value and the end pointer. -/
def strtoul10 (p : List Nat) : Nat × List Nat :=
  let s1 := p.dropWhile isspace
  let neg := s1.head? == some 45
  let s2 := if s1.head? = some 45 ∨ s1.head? = some 43 then s1.tail else s1
  match s2 with
  | [] => (0, p)
  | c :: cs =>
    if 48 ≤ c ∧ c ≤ 57 then
      let r := scan_dec (c :: cs) 0
      ((if r.1 ≥ 2 ^ 32 then 2 ^ 32 - 1 else if neg then (2 ^ 32 - r.1) % 2 ^ 32 else r.1), r.2)
    else (0, p)

/-- `if (*p==',') ++p;`. -/
def skip_comma : List Nat → List Nat
  | 44 :: t => t
  | p => p

/-- Body of the row loop of `load_bench_12mhz` for one line read by `f_gets`, on
the state (`found`, outputs): the seven values are taken in the order
`ts, hz, e_ms, w_kBps, r_kBps, rrand_MBps, verr`, each by `strtoul` or `strtod`
from where the one before stopped, with one comma skipped in between.  `strtod`
is the C library function with its end pointer. -/
def load_row (strtod : List Nat → ℚ × List Nat) (line : List Nat)
    (st : Bool × analyze.bench_out) : Bool × analyze.bench_out :=
  let p := cstr line
  let p := skip_comma (strtoul10 p).2
  let hz := strtoul10 p
  let p := skip_comma hz.2
  let e_ms := strtod p
  let p := skip_comma e_ms.2
  let w_kBps := strtod p
  let p := skip_comma w_kBps.2
  let r_kBps := strtod p
  let p := skip_comma r_kBps.2
  let p := skip_comma (strtod p).2
  let verr := strtoul10 p
  if hz.1 % 2 ^ 32 = 12000000 then (true, ⟨e_ms.1, w_kBps.1, r_kBps.1, verr.1 % 2 ^ 32⟩)
  else st

/-- The loop `while (f_gets(line, sizeof line, &f))` of `load_bench_12mhz`, with
`fuel` iterations allowed. -/
def load_rows (strtod : List Nat → ℚ × List Nat) (data : List Nat) :
    Nat → Nat → Bool × analyze.bench_out → Option (Bool × analyze.bench_out)
  | 0, _, _ => none
  | fuel + 1, pos, st =>
    match f_gets 256 data pos with
    | none => some st
    | some (line, pos') => load_rows strtod data fuel pos' (load_row strtod line st)

/-- `load_bench_12mhz` of `Project/analyze.c` on `benchmark.csv` with contents
`file`: the returned `bool` and the four outputs (`out0` before the call).  The
first line is skipped as the header.  `none`: the iteration budget of the row
loop (`file.length + 1`) ran out. -/
def load_bench_12mhz (strtod : List Nat → ℚ × List Nat) (fr_mount fr_open : Nat)
    (file : List Nat) (out0 : analyze.bench_out) : Option (Bool × analyze.bench_out) :=
  if fr_mount ≠ FR_OK then some (false, out0)
  else if fr_open ≠ FR_OK then some (false, out0)
  else
    match f_gets 256 file 0 with
    | none => some (false, out0)
    | some (_, pos) => load_rows strtod file (file.length + 1) pos (false, out0)

/-- An aggregate row for 12 MHz as `bench_csv_append_avg` writes it, for the JEDEC
id `EF 40 18`. -/
def row_12mhz : List Nat := bytes "1234,EF4018,12000000,45.000,300.000,1000.000,1.000,0\r\n"

end project_analyze

/-! ## `Projectv3/bench/bench.c`: the callers of `run_benchmarks_with_trials` -/

namespace bench

variable {σ : Type}

/-- `N_TRIALS`, the fallback at the top of `bench.c`. -/
def N_TRIALS : Int := 10

/-- `run_benchmarks (save_per_run)`: `N_TRIALS` trials, averages not saved (so
`bench_csv_begin` is not called). -/
def run_benchmarks (D : flash.SpiDevice σ) (clk : Nat → Nat) (fuel : Nat) (cfg : Config)
    (save_per_run : Bool) (w : World σ) : Option (World σ) :=
  run_benchmarks_with_trials D clk fuel cfg N_TRIALS save_per_run false FR_OK w

/-- `run_benchmarks_100 (save_per_run)`: 100 trials, averages not saved. -/
def run_benchmarks_100 (D : flash.SpiDevice σ) (clk : Nat → Nat) (fuel : Nat) (cfg : Config)
    (save_per_run : Bool) (w : World σ) : Option (World σ) :=
  run_benchmarks_with_trials D clk fuel cfg 100 save_per_run false FR_OK w

/-- Every `double` accumulator of a clock holds a number (none of them is the
result of a division by zero). -/
def sums.defined (s : sums) : Prop :=
  ∃ se sp sr srr : ℚ, s.sum_erase_us = some se ∧ s.sum_prog_mbps = some sp
    ∧ s.sum_readseq_mbps = some sr ∧ s.sum_readrand_mbps = some srr

end bench

end Firmware

namespace Firmware

/-! ## Shared facts about FatFs line reading -/

theorem f_gets_go_line (body rest : List Nat) (room : Nat) (hb : 10 ∉ body)
    (hroom : body.length < room) :
    f_gets_go room (body ++ 10 :: rest) = (body ++ [10], rest) := by
  induction body generalizing room with
  | nil =>
    obtain ⟨r, rfl⟩ : ∃ r, room = r + 1 := ⟨room - 1, by simp at hroom; omega⟩
    simp [f_gets_go]
  | cons c body ih =>
    obtain ⟨r, rfl⟩ : ∃ r, room = r + 1 := ⟨room - 1, by simp at hroom; omega⟩
    have hc : c ≠ 10 := fun h => hb (by simp [h])
    have hb' : 10 ∉ body := fun h => hb (by simp [h])
    have := ih r hb' (by simp at hroom; omega)
    simp [f_gets_go, hc, this]

theorem f_gets_go_full (body rest : List Nat) (room : Nat) (hb : 10 ∉ body)
    (hroom : body.length = room) :
    f_gets_go room (body ++ rest) = (body, rest) := by
  induction body generalizing room with
  | nil =>
    simp only [List.length_nil] at hroom
    subst hroom
    simp [f_gets_go]
  | cons c body ih =>
    obtain ⟨r, rfl⟩ : ∃ r, room = r + 1 := ⟨room - 1, by simp at hroom; omega⟩
    have hc : c ≠ 10 := fun h => hb (by simp [h])
    have hb' : 10 ∉ body := fun h => hb (by simp [h])
    have := ih r hb' (by simp at hroom; omega)
    simp [f_gets_go, hc, this]

theorem f_gets_go_length_le (room : Nat) (rest : List Nat) :
    (f_gets_go room rest).1.length ≤ rest.length := by
  induction room generalizing rest with
  | zero => simp [f_gets_go]
  | succ n ih =>
    cases rest with
    | nil => simp [f_gets_go]
    | cons c cs =>
      simp only [f_gets_go]
      split_ifs
      · simp
      · have := ih cs
        simp only [List.length_cons]
        omega

theorem f_gets_some_bounds (len : Nat) (data : List Nat) (pos : Nat) (l : List Nat) (p : Nat)
    (h : f_gets len data pos = some (l, p)) : pos < p ∧ p ≤ max pos data.length := by
  unfold f_gets at h
  simp only at h
  split_ifs at h with h0
  simp only [Option.some.injEq, Prod.mk.injEq] at h
  obtain ⟨rfl, rfl⟩ := h
  have h1 := f_gets_go_length_le (len - 1) (data.drop pos)
  have h2 : 0 < (f_gets_go (len - 1) (List.drop pos data)).1.length :=
    List.length_pos.2 h0
  simp only [List.length_drop] at h1
  omega

theorem f_gets_shift (len : Nat) (pre rest : List Nat) (pos : Nat) :
    f_gets len (pre ++ rest) (pre.length + pos)
      = (f_gets len rest pos).map (fun lp => (lp.1, pre.length + lp.2)) := by
  have hd : (pre ++ rest).drop (pre.length + pos) = rest.drop pos := by
    rw [← List.drop_drop, List.drop_left]
  unfold f_gets
  simp only [hd]
  split_ifs <;> simp [Nat.add_assoc]

end Firmware

namespace Firmware

/-! ## Session truncation (`csv_erase_last_session`) -/

theorem strstr_iff (hay needle : List Nat) : strstr hay needle = true ↔ needle <:+: hay := by
  induction hay with
  | nil => simp [strstr, List.isEmpty_iff]
  | cons c hay ih =>
    simp only [strstr, Bool.or_eq_true, ih, List.isPrefixOf_iff_prefix, List.infix_cons_iff]

namespace csvlog

theorem f_gets_chunk_short (pre l rest : List Nat) (hl : IsLine l) (hs : l.length ≤ 255) :
    f_gets 256 (pre ++ l ++ rest) pre.length = some (l, pre.length + l.length) := by
  obtain ⟨body, rfl, hb, -, -⟩ := hl
  have h := f_gets_go_line body rest 255 hb (by simp at hs; omega)
  simp [f_gets, List.append_assoc, h]

theorem f_gets_chunk_long (pre body rest : List Nat) (hb : 10 ∉ body)
    (hlen : body.length = 255) :
    f_gets 256 (pre ++ (body ++ [10]) ++ rest) pre.length = some (body, pre.length + 255)
    ∧ f_gets 256 (pre ++ (body ++ [10]) ++ rest) (pre.length + 255)
        = some ([10], pre.length + 256) := by
  have hne : body ≠ [] := by
    intro h; rw [h] at hlen; simp at hlen
  constructor
  · have h := f_gets_go_full body (10 :: rest) 255 hb hlen
    have hd : (pre ++ (body ++ [10]) ++ rest).drop pre.length = body ++ 10 :: rest := by
      simp [List.append_assoc]
    simp only [f_gets, hd, h, hne, if_false, hlen]
  · have hd : (pre ++ (body ++ [10]) ++ rest).drop (pre.length + 255) = 10 :: rest := by
      have : pre ++ (body ++ [10]) ++ rest = (pre ++ body) ++ (10 :: rest) := by
        simp [List.append_assoc]
      rw [this, List.drop_left' (by simp [hlen])]
    simp only [f_gets, hd]
    simp [f_gets_go]

theorem is_marker_line_feed : is_marker [10] = false := by decide

/-- Scanning one line takes one or two calls of `f_gets` and tests the first 255
bytes of the line. -/
theorem scan_line (pre l rest : List Nat) (hl : IsLine l) :
    ∃ c, 1 ≤ c ∧ c ≤ l.length ∧ ∀ fuel last,
      scan_markers (pre ++ l ++ rest) (fuel + c) pre.length last
        = scan_markers (pre ++ l ++ rest) fuel (pre.length + l.length)
            (if is_marker (l.take 255) then pre.length else last) := by
  by_cases hs : l.length ≤ 255
  · refine ⟨1, le_refl _, ?_, ?_⟩
    · obtain ⟨body, rfl, -, -, -⟩ := hl
      simp
    · intro fuel last
      rw [scan_markers, f_gets_chunk_short pre l rest hl hs, List.take_of_length_le hs]
  · obtain ⟨body, rfl, hb, -, hlen⟩ := hl
    have hbl : body.length = 255 := by
      simp only [List.length_append, List.length_singleton] at hs hlen
      omega
    obtain ⟨h1, h2⟩ := f_gets_chunk_long pre body rest hb hbl
    refine ⟨2, by omega, by simp [hbl], ?_⟩
    intro fuel last
    have htake : (body ++ [10]).take 255 = body := by
      rw [List.take_left' hbl]
    rw [show fuel + 2 = (fuel + 1) + 1 from rfl, scan_markers, h1]
    simp only
    rw [scan_markers, h2]
    simp only [is_marker_line_feed, Bool.false_eq_true, if_false, htake, List.length_append,
      List.length_singleton, hbl]

theorem scan_markers_lines (lines : List (List Nat)) (pre : List Nat) (last fuel : Nat)
    (hl : ∀ l ∈ lines, IsLine l) (hf : lines.flatten.length < fuel) :
    scan_markers (pre ++ lines.flatten) fuel pre.length last
      = some (lastMarkerPos pre.length lines last) := by
  induction lines generalizing pre last fuel with
  | nil =>
    obtain ⟨f, rfl⟩ : ∃ f, fuel = f + 1 := ⟨fuel - 1, by simp at hf; omega⟩
    simp [scan_markers, f_gets, lastMarkerPos, f_gets_go]
  | cons l ls ih =>
    obtain ⟨c, hc1, hc2, hstep⟩ := scan_line pre l ls.flatten (hl l (by simp))
    simp only [List.flatten_cons, List.length_append] at hf
    obtain ⟨f, rfl⟩ : ∃ f, fuel = f + c := ⟨fuel - c, by omega⟩
    have h2 := ih (pre ++ l) (if is_marker (l.take 255) then pre.length else last) f
      (fun x hx => hl x (by simp [hx])) (by omega)
    simp only [List.flatten_cons, ← List.append_assoc]
    rw [hstep]
    simp only [List.length_append] at h2
    simpa [lastMarkerPos] using h2

theorem lastMarkerPos_no_marker (lines : List (List Nat)) (pos last : Nat)
    (h : ∀ l ∈ lines, is_marker (l.take 255) = false) :
    lastMarkerPos pos lines last = last := by
  induction lines generalizing pos with
  | nil => rfl
  | cons l ls ih =>
    simp only [lastMarkerPos, h l (by simp)]
    exact ih _ (fun x hx => h x (by simp [hx]))

theorem lastMarkerPos_append_marker (P A : List (List Nat)) (m : List Nat) (pos last : Nat)
    (hm : is_marker (m.take 255) = true) (hA : ∀ l ∈ A, is_marker (l.take 255) = false) :
    lastMarkerPos pos (P ++ m :: A) last = pos + P.flatten.length := by
  induction P generalizing pos last with
  | nil =>
    simp only [List.nil_append, lastMarkerPos, hm, if_true]
    rw [lastMarkerPos_no_marker _ _ _ hA]; simp
  | cons l ls ih =>
    show lastMarkerPos (pos + l.length) (ls ++ m :: A) _ = _
    rw [ih]; simp only [List.flatten_cons, List.length_append]; omega

theorem session_start_in_body (body : List Nat) (h : SESSION_START <:+: body ++ [10]) :
    SESSION_START <:+: body := by
  obtain ⟨s, t, hst⟩ := h
  rcases List.eq_nil_or_concat t with rfl | ⟨t', c, ht⟩
  · exfalso
    have h1 : s ++ SESSION_START ++ [] = (s ++ [83, 69, 83, 83, 73, 79, 78, 95, 83, 84, 65, 82])
        ++ [84] := by
      simp [SESSION_START]
    rw [h1] at hst
    have := (List.append_inj' hst rfl).2
    simp at this
  · have h1 : s ++ SESSION_START ++ t = (s ++ SESSION_START ++ t') ++ [c] := by
      rw [ht]; simp [List.append_assoc]
    rw [h1] at hst
    exact ⟨s, t', (List.append_inj' hst rfl).1⟩

theorem is_marker_of_spec (m : List Nat) (hl : IsLine m) (h : IsSessionMarker m) :
    is_marker (m.take 255) = true := by
  obtain ⟨hh, hi⟩ := h
  have h0 : 0 ∉ m := by
    obtain ⟨body, rfl, -, hz, -⟩ := hl
    simp only [List.mem_append, List.mem_singleton, not_or]
    exact ⟨hz, by decide⟩
  have hi' : SESSION_START <:+: m.take 255 := by
    by_cases hs : m.length ≤ 255
    · rw [List.take_of_length_le hs]; exact hi
    · obtain ⟨body, rfl, -, -, hlen⟩ := hl
      have hbl : body.length = 255 := by
        simp only [List.length_append, List.length_singleton] at hs hlen
        omega
      rw [List.take_left' hbl]
      exact session_start_in_body body hi
  have hc : cstr (m.take 255) = m.take 255 := by
    unfold cstr
    rw [List.takeWhile_eq_self_iff]
    intro x hx
    have : x ≠ 0 := fun e => h0 (e ▸ List.mem_of_mem_take hx)
    simpa using this
  have hs : strstr (cstr (m.take 255)) SESSION_START = true := by
    rw [hc]; exact (strstr_iff _ _).2 hi'
  cases m with
  | nil => simp at hh
  | cons c t =>
    simp only [List.head?_cons, Option.some.injEq] at hh
    subst hh
    simp only [is_marker, hs, Bool.and_true]
    rfl

theorem is_marker_false_of_spec (l : List Nat) (h : ¬ IsSessionMarker l) :
    is_marker (l.take 255) = false := by
  by_contra hc
  simp only [Bool.not_eq_false] at hc
  apply h
  simp only [is_marker, Bool.and_eq_true, beq_iff_eq, strstr_iff] at hc
  obtain ⟨h1, h2⟩ := hc
  constructor
  · cases l with
    | nil => simp at h1
    | cons c t => simpa using h1
  · exact List.IsInfix.trans h2
      (List.IsInfix.trans (List.takeWhile_prefix _).isInfix (List.take_prefix _ _).isInfix)

/-- C1. For every `results.csv` made of a header line, prior lines `P`, a session
marker line `m` (starts with `#` and contains `SESSION_START`) and further
lines `A` none of which is a marker, every line a text line with a text shorter
than 255 characters, `csv_erase_last_session` (all FatFs calls succeeding)
returns `FR_OK` and leaves exactly `header ++ P`: the marker and everything
after it are gone and every byte in front of the marker is unchanged. -/
theorem csv_erase_last_session_truncates (hdr m : List Nat) (P A : List (List Nat))
    (hhdr : IsLine hdr) (hP : ∀ l ∈ P, IsLine l) (hm : IsLine m) (hA : ∀ l ∈ A, IsLine l)
    (hmark : IsSessionMarker m)
    (hrest : ∀ l ∈ A, ¬ IsSessionMarker l) :
    csv_erase_last_session FR_OK FR_OK FR_OK FR_OK (hdr ++ P.flatten ++ m ++ A.flatten)
      = some (FR_OK, hdr ++ P.flatten) := by
  have hfile : hdr ++ P.flatten ++ m ++ A.flatten = hdr ++ (P ++ m :: A).flatten := by
    simp [List.append_assoc]
  have hlines : ∀ l ∈ P ++ m :: A, IsLine l := by
    intro l hl
    rcases List.mem_append.1 hl with h | h
    · exact hP l h
    · rcases List.mem_cons.1 h with h | h
      · exact h ▸ hm
      · exact hA l h
  have hpos := lastMarkerPos_append_marker P A m hdr.length 0
    (is_marker_of_spec m hm hmark)
    (fun l hl => is_marker_false_of_spec l (hrest l hl))
  have hpos0 : hdr.length + P.flatten.length ≠ 0 := by
    obtain ⟨b, rfl, -, -, -⟩ := hhdr
    simp
  have hsplit : hdr ++ (P ++ m :: A).flatten = (hdr ++ P.flatten) ++ (m ++ A.flatten) := by
    simp [List.append_assoc]
  -- the scan after the header has been skipped
  have hscan : scan_markers (hdr ++ (P ++ m :: A).flatten)
      ((hdr ++ (P ++ m :: A).flatten).length + 1)
      (match f_gets 256 (hdr ++ (P ++ m :: A).flatten) 0 with
        | none => 0
        | some (_, p) => p) 0
      = some (hdr.length + P.flatten.length) := by
    by_cases hs : hdr.length ≤ 255
    · have hhead := f_gets_chunk_short [] hdr (P ++ m :: A).flatten hhdr hs
      simp only [List.nil_append, List.length_nil, Nat.zero_add] at hhead
      rw [hhead]
      simp only
      rw [scan_markers_lines (P ++ m :: A) hdr 0 _ hlines
        (by simp only [List.length_append]; omega), hpos]
    · obtain ⟨body, rfl, hb, -, hlen⟩ := hhdr
      have hbl : body.length = 255 := by
        simp only [List.length_append, List.length_singleton] at hs hlen
        omega
      have hhead := (f_gets_chunk_long [] body (P ++ m :: A).flatten hb hbl).1
      simp only [List.nil_append, List.length_nil, Nat.zero_add] at hhead
      rw [hhead]
      simp only
      have hl2 : ∀ l ∈ [10] :: (P ++ m :: A), IsLine l := by
        intro l hl
        rcases List.mem_cons.1 hl with h | h
        · exact h ▸ ⟨[], rfl, by simp, by simp, by simp⟩
        · exact hlines l h
      have hdata : body ++ [10] ++ (P ++ m :: A).flatten
          = body ++ ([10] :: (P ++ m :: A)).flatten := by
        simp [List.append_assoc]
      have := scan_markers_lines ([10] :: (P ++ m :: A)) body 0
        ((body ++ [10] ++ (P ++ m :: A).flatten).length + 1) hl2
        (by simp only [List.flatten_cons, List.length_append]; omega)
      rw [← hdata, hbl] at this
      rw [this]
      simp only [lastMarkerPos, List.take_of_length_le (show [10].length ≤ 255 by simp),
        is_marker_line_feed, Bool.false_eq_true, if_false, List.length_singleton]
      have hpos' := lastMarkerPos_append_marker P A m 256 0
        (is_marker_of_spec m hm hmark)
        (fun l hl => is_marker_false_of_spec l (hrest l hl))
      show some (lastMarkerPos 256 (P ++ m :: A) 0) = _
      rw [hpos']
      simp [hbl]
  rw [hfile]
  simp only [csv_erase_last_session, FR_OK, ne_eq, not_true_eq_false, if_false]
  rw [hscan]
  simp only [hpos0, if_false]
  rw [hsplit, List.take_left' (by simp)]

/-- C1, witness: the log `h / a / # SESSION_START / c` is cut back to `h / a`. -/
theorem csv_erase_last_session_truncates_witness :
    csv_erase_last_session FR_OK FR_OK FR_OK FR_OK
        ([104, 10] ++ [[97, 10]].flatten ++ (35 :: 32 :: SESSION_START ++ [10])
          ++ [[99, 10]].flatten)
      = some (FR_OK, [104, 10] ++ [[97, 10]].flatten) :=
  csv_erase_last_session_truncates [104, 10] (35 :: 32 :: SESSION_START ++ [10])
    [[97, 10]] [[99, 10]]
    ⟨[104], rfl, by decide, by decide, by decide⟩
    (fun l hl => by
      simp only [List.mem_singleton] at hl; subst hl
      exact ⟨[97], rfl, by decide, by decide, by decide⟩)
    ⟨35 :: 32 :: SESSION_START, rfl, by decide, by decide, by decide⟩
    (fun l hl => by
      simp only [List.mem_singleton] at hl; subst hl
      exact ⟨[99], rfl, by decide, by decide, by decide⟩)
    ⟨rfl, ⟨[35, 32], [10], rfl⟩⟩
    (fun l hl => by
      simp only [List.mem_singleton] at hl; subst hl
      intro h; exact absurd h.1 (by decide))

end csvlog

end Firmware

namespace Firmware

namespace analyze

/-! ## The top-3 list of `identify_chip_from_bench_12mhz` -/

theorem top3_update_three (x : hit_t) (b0 b1 b2 : hit_t) :
    top3_update x.score x.ref [b0, b1, b2] =
      if x.score < b0.score then [x, b0, b1]
      else if x.score < b1.score then [b0, x, b1]
      else if x.score < b2.score then [b0, b1, x]
      else [b0, b1, b2] := by
  unfold top3_update
  simp only [top3_scan, shift_down, List.getElem?_cons_zero, List.getElem?_cons_succ]
  by_cases h0 : x.score < b0.score
  · simp [h0, List.set]
  · by_cases h1 : x.score < b1.score
    · simp [h0, h1, List.set]
    · by_cases h2 : x.score < b2.score
      · simp [h0, h1, h2, List.set]
      · simp [h0, h1, h2]

theorem orderedInsert_insertBehindEquals (a x : hit_t) (l : List hit_t) :
    List.orderedInsert scoreLe a (insertBehindEquals x l)
      = insertBehindEquals x (List.orderedInsert scoreLe a l) := by
  induction l with
  | nil =>
    simp only [insertBehindEquals, List.orderedInsert, scoreLe]
    by_cases h : a.score ≤ x.score
    · have : ¬ x.score < a.score := not_lt.2 h
      simp [h, this, insertBehindEquals]
    · have : x.score < a.score := not_le.1 h
      simp [h, this]
  | cons b l ih =>
    simp only [insertBehindEquals, List.orderedInsert, scoreLe]
    by_cases hxb : x.score < b.score
    · by_cases hab : a.score ≤ b.score
      · by_cases hax : a.score ≤ x.score
        · have : ¬ x.score < a.score := not_lt.2 hax
          simp [hxb, hab, hax, this, insertBehindEquals, List.orderedInsert, scoreLe]
        · have : x.score < a.score := not_le.1 hax
          simp [hxb, hab, hax, this, insertBehindEquals, List.orderedInsert, scoreLe]
      · have hax : ¬ a.score ≤ x.score := fun h => hab (le_trans h (le_of_lt hxb))
        simp [hxb, hab, hax, insertBehindEquals, List.orderedInsert, scoreLe]
    · by_cases hab : a.score ≤ b.score
      · have hxa : ¬ x.score < a.score := fun h => hxb (lt_of_lt_of_le h hab)
        simp [hxb, hab, hxa, insertBehindEquals, List.orderedInsert, scoreLe]
      · simp only [scoreLe] at ih
        simp [hxb, hab, insertBehindEquals, List.orderedInsert, scoreLe, ih]

theorem insertionSort_append_singleton (l : List hit_t) (x : hit_t) :
    List.insertionSort scoreLe (l ++ [x])
      = insertBehindEquals x (List.insertionSort scoreLe l) := by
  induction l with
  | nil => simp [insertBehindEquals]
  | cons a l ih =>
    show List.orderedInsert scoreLe a (List.insertionSort scoreLe (l ++ [x])) = _
    rw [ih, orderedInsert_insertBehindEquals]
    rfl


theorem top3_update_padded (x : hit_t) (L : List hit_t) (hx : x.score < SENTINEL)
    (hL : ∀ h ∈ L, h.score < SENTINEL) :
    top3_update x.score x.ref (padded L) = padded (insertBehindEquals x L) := by
  match L, hL with
  | [], _ =>
    simp [padded, insertBehindEquals, top3_update_three, hx]
  | [a], _ =>
    by_cases h0 : x.score < a.score
    · simp [padded, insertBehindEquals, top3_update_three, hx, h0]
    · simp [padded, insertBehindEquals, top3_update_three, hx, h0]
  | [a, b], _ =>
    by_cases h0 : x.score < a.score
    · simp [padded, insertBehindEquals, top3_update_three, hx, h0]
    · by_cases h1 : x.score < b.score
      · simp [padded, insertBehindEquals, top3_update_three, hx, h0, h1]
      · simp [padded, insertBehindEquals, top3_update_three, hx, h0, h1]
  | a :: b :: c :: t, _ =>
    by_cases h0 : x.score < a.score
    · simp [padded, insertBehindEquals, top3_update_three, h0]
    · by_cases h1 : x.score < b.score
      · simp [padded, insertBehindEquals, top3_update_three, h0, h1]
      · by_cases h2 : x.score < c.score
        · simp [padded, insertBehindEquals, top3_update_three, h0, h1, h2]
        · simp [padded, insertBehindEquals, top3_update_three, h0, h1, h2]


theorem identify_best_eq_padded (e_ms prog_ms_meas read50_mb_s_meas : ℚ)
    (live_mfg live_dev : Nat) (write_unreliable : Bool) (rows : List chip_ref_t)
    (hrows : ∀ r ∈ rows,
      row_score e_ms prog_ms_meas read50_mb_s_meas live_mfg live_dev write_unreliable r
        < SENTINEL) :
    identify_best e_ms prog_ms_meas read50_mb_s_meas live_mfg live_dev write_unreliable rows
      = padded (List.insertionSort scoreLe
          (scored e_ms prog_ms_meas read50_mb_s_meas live_mfg live_dev write_unreliable rows)) := by
  induction rows using List.reverseRecOn with
  | nil => simp [identify_best, scored, padded, best_init]
  | append_singleton rows r ih =>
    have ih' := ih (fun q hq => hrows q (by simp [hq]))
    have hr := hrows r (by simp)
    unfold identify_best at ih' ⊢
    rw [List.foldl_append, List.foldl_cons, List.foldl_nil, ih']
    have hsc : scored e_ms prog_ms_meas read50_mb_s_meas live_mfg live_dev write_unreliable
        (rows ++ [r])
        = scored e_ms prog_ms_meas read50_mb_s_meas live_mfg live_dev write_unreliable rows
          ++ [⟨r, row_score e_ms prog_ms_meas read50_mb_s_meas live_mfg live_dev
                write_unreliable r⟩] := by
      simp [scored]
    rw [hsc, insertionSort_append_singleton]
    refine top3_update_padded ⟨r, _⟩ _ hr ?_
    intro h hh
    rw [List.mem_insertionSort] at hh
    simp only [scored, List.mem_map] at hh
    obtain ⟨q, hq, rfl⟩ := hh
    exact hrows q (by simp [hq])

theorem reported_padded (l : List hit_t) (hl : ∀ h ∈ l, h.score < SENTINEL) :
    reported (padded l) = l.take 3 := by
  unfold reported padded
  rw [List.filter_append]
  have h1 : List.filter (fun h : hit_t => !decide (h.score ≥ SENTINEL)) (l.take 3) = l.take 3 := by
    rw [List.filter_eq_self]
    intro a ha
    have := hl a (List.mem_of_mem_take ha)
    simpa using this
  have h2 : List.filter (fun h : hit_t => !decide (h.score ≥ SENTINEL))
      (List.replicate (3 - min 3 l.length) ⟨chip_ref_zero, SENTINEL⟩) = [] := by
    rw [List.filter_eq_nil_iff]
    intro a ha
    rw [List.mem_replicate] at ha
    simp [ha.2]
  rw [h1, h2, List.append_nil]

/-- C2. After the loop of `identify_chip_from_bench_12mhz` has scored the accepted
rows `rows` (in catalog order), all with a score below the `1e99` sentinel, the
array `best` holds the first `min 3 n` entries of the rows sorted by score with
a stable sort (equal scores keep catalog order), followed by untouched sentinel
slots, and the printing loop reports exactly those `min 3 n` entries in that
order. -/
theorem identify_best_top3 (e_ms prog_ms_meas read50_mb_s_meas : ℚ)
    (live_mfg live_dev : Nat) (write_unreliable : Bool) (rows : List chip_ref_t)
    (hrows : ∀ r ∈ rows,
      row_score e_ms prog_ms_meas read50_mb_s_meas live_mfg live_dev write_unreliable r
        < SENTINEL) :
    identify_best e_ms prog_ms_meas read50_mb_s_meas live_mfg live_dev write_unreliable rows
      = (List.insertionSort scoreLe
          (scored e_ms prog_ms_meas read50_mb_s_meas live_mfg live_dev write_unreliable
            rows)).take 3
        ++ List.replicate (3 - min 3 rows.length) ⟨chip_ref_zero, SENTINEL⟩
    ∧ reported
        (identify_best e_ms prog_ms_meas read50_mb_s_meas live_mfg live_dev write_unreliable rows)
      = (List.insertionSort scoreLe
          (scored e_ms prog_ms_meas read50_mb_s_meas live_mfg live_dev write_unreliable
            rows)).take 3
    ∧ (reported
        (identify_best e_ms prog_ms_meas read50_mb_s_meas live_mfg live_dev write_unreliable
          rows)).length = min 3 rows.length
    ∧ (reported
        (identify_best e_ms prog_ms_meas read50_mb_s_meas live_mfg live_dev write_unreliable
          rows)).Sorted scoreLe
    ∧ ∀ h ∈ reported
        (identify_best e_ms prog_ms_meas read50_mb_s_meas live_mfg live_dev write_unreliable
          rows),
        ∀ q ∈ (List.insertionSort scoreLe
          (scored e_ms prog_ms_meas read50_mb_s_meas live_mfg live_dev write_unreliable
            rows)).drop 3, h.score ≤ q.score := by
  have hb := identify_best_eq_padded e_ms prog_ms_meas read50_mb_s_meas live_mfg live_dev
    write_unreliable rows hrows
  have hs : ∀ h ∈ List.insertionSort scoreLe
      (scored e_ms prog_ms_meas read50_mb_s_meas live_mfg live_dev write_unreliable rows),
      h.score < SENTINEL := by
    intro h hh
    rw [List.mem_insertionSort] at hh
    simp only [scored, List.mem_map] at hh
    obtain ⟨q, hq, rfl⟩ := hh
    exact hrows q hq
  have hlen : (List.insertionSort scoreLe
      (scored e_ms prog_ms_meas read50_mb_s_meas live_mfg live_dev write_unreliable
        rows)).length = rows.length := by
    rw [List.length_insertionSort]; simp [scored]
  have hsorted := List.sorted_insertionSort scoreLe
    (scored e_ms prog_ms_meas read50_mb_s_meas live_mfg live_dev write_unreliable rows)
  refine ⟨?_, ?_, ?_, ?_, ?_⟩
  · rw [hb, padded, hlen]
  · rw [hb, reported_padded _ hs]
  · rw [hb, reported_padded _ hs, List.length_take, hlen]
  · rw [hb, reported_padded _ hs]
    exact List.Pairwise.sublist (List.take_sublist _ _) hsorted
  · rw [hb, reported_padded _ hs]
    intro h hh q hq
    exact hsorted.rel_of_mem_take_of_mem_drop hh hq

/-- C2, witness: two rows with scores 1 and 0 (no live JEDEC id, reliable write). -/
theorem identify_best_top3_witness :
    reported (identify_best 0 0 0 0 0 false
        [{ chip_ref_zero with typ_erase_ms := 1 }, chip_ref_zero])
      = (List.insertionSort scoreLe
          (scored 0 0 0 0 0 false [{ chip_ref_zero with typ_erase_ms := 1 }, chip_ref_zero])).take 3 :=
  (identify_best_top3 0 0 0 0 0 false [{ chip_ref_zero with typ_erase_ms := 1 }, chip_ref_zero]
    (by
      intro r hr
      simp only [List.mem_cons, List.mem_singleton, List.not_mem_nil, or_false] at hr
      rcases hr with rfl | rfl <;>
        norm_num [row_score, jedec_influence, d_erase, d_prog, d_read, w_erase, w_prog, w_read,
          chip_ref_zero, SENTINEL])).2.1

end analyze

end Firmware

namespace Firmware

namespace analyze

/-! ## The JEDEC adjustment of the score -/

/-- C3. The JEDEC block of the scoring loop changes the weighted distance `score`
of a row by `- 0.25` when the live identity is known (mfg or device code
non-zero), the row's parsed identity is known and both the mfg byte and the
device code are equal; by `+ 100` when both are known and they differ; and not
at all when the row has no parsed identity or the live identity is all zero. -/
theorem jedec_influence_cases (live_mfg live_dev : Nat) (r : chip_ref_t) (score : ℚ) :
    ((live_mfg ≠ 0 ∨ live_dev ≠ 0) → (r.jedec_mfg ≠ 0 ∨ r.jedec_dev ≠ 0) →
        (r.jedec_mfg = live_mfg ∧ r.jedec_dev = live_dev) →
        jedec_influence live_mfg live_dev r score = score - 1 / 4)
    ∧ ((live_mfg ≠ 0 ∨ live_dev ≠ 0) → (r.jedec_mfg ≠ 0 ∨ r.jedec_dev ≠ 0) →
        ¬ (r.jedec_mfg = live_mfg ∧ r.jedec_dev = live_dev) →
        jedec_influence live_mfg live_dev r score = score + 100)
    ∧ ((r.jedec_mfg = 0 ∧ r.jedec_dev = 0) ∨ (live_mfg = 0 ∧ live_dev = 0) →
        jedec_influence live_mfg live_dev r score = score + 0) := by
  refine ⟨?_, ?_, ?_⟩
  · intro h1 h2 h3
    simp only [jedec_influence, h1, h2, h3, if_true, and_self]
  · intro h1 h2 h3
    simp only [jedec_influence, h1, h2, h3, if_true, if_false]
  · rintro (⟨h1, h2⟩ | ⟨h1, h2⟩)
    · simp [jedec_influence, h1, h2]
    · simp [jedec_influence, h1, h2]

/-- C3, witness: a Winbond row (EF 4016) against the same live identity, against
another live identity, and against an absent live identity. -/
theorem jedec_influence_cases_witness :
    jedec_influence 0xEF 0x4016 { chip_ref_zero with jedec_mfg := 0xEF, jedec_dev := 0x4016 } 1
        = 1 - 1 / 4
    ∧ jedec_influence 0xBF 0x2641 { chip_ref_zero with jedec_mfg := 0xEF, jedec_dev := 0x4016 } 1
        = 1 + 100
    ∧ jedec_influence 0 0 { chip_ref_zero with jedec_mfg := 0xEF, jedec_dev := 0x4016 } 1
        = 1 + 0 :=
  ⟨(jedec_influence_cases 0xEF 0x4016
      { chip_ref_zero with jedec_mfg := 0xEF, jedec_dev := 0x4016 } 1).1
      (by decide) (by decide) (by decide),
   (jedec_influence_cases 0xBF 0x2641
      { chip_ref_zero with jedec_mfg := 0xEF, jedec_dev := 0x4016 } 1).2.1
      (by decide) (by decide) (by decide),
   (jedec_influence_cases 0 0
      { chip_ref_zero with jedec_mfg := 0xEF, jedec_dev := 0x4016 } 1).2.2
      (Or.inr ⟨rfl, rfl⟩)⟩

end analyze

end Firmware

namespace Firmware

/-! ## Reading the last 12 MHz row (`load_bench_12mhz`) -/

namespace analyze

theorem load_rows_eq_foldlM (strtoul : List Nat → Nat) (strtod : List Nat → ℚ)
    (ix : bench_cols) (pre rest : List Nat) (fuel fuel' pos : Nat) (st : Bool × bench_out)
    (hf : rest.length - pos < fuel) (hf' : rest.length - pos < fuel') :
    load_rows strtoul strtod ix (pre ++ rest) fuel (pre.length + pos) st
      = (f_gets_all 256 rest fuel' pos).foldlM
          (fun st line => load_row strtoul strtod ix line st) st := by
  induction fuel generalizing fuel' pos st with
  | zero => omega
  | succ n ih =>
    obtain ⟨m, rfl⟩ : ∃ m, fuel' = m + 1 := ⟨fuel' - 1, by omega⟩
    rw [load_rows, f_gets_all, f_gets_shift]
    cases hg : f_gets 256 rest pos with
    | none => simp
    | some lp =>
      obtain ⟨l, p⟩ := lp
      have hb := f_gets_some_bounds 256 rest pos l p hg
      simp only [Option.map_some', List.foldlM_cons]
      cases hr : load_row strtoul strtod ix l st with
      | none => simp
      | some st' =>
        have hlt : pos < rest.length := by
          by_contra hc
          have : max pos rest.length = pos := max_eq_left (by omega)
          omega
        have hp : p ≤ rest.length := by
          have : max pos rest.length = rest.length := max_eq_right (by omega)
          omega
        simp only [Option.some_bind]
        exact ih m p st' (by omega) (by omega)

theorem foldlM_last_match {α β : Type} (f : α → β) (good : β → Bool) (vals : β → Bool × bench_out)
    (lines : List α) (st : Bool × bench_out) :
    lines.foldlM (fun st line => some (if good (f line) then vals (f line) else st)) st
      = some ((((lines.map f).filter good).getLast?).elim st vals) := by
  induction lines generalizing st with
  | nil => simp
  | cons l ls ih =>
    simp only [List.foldlM_cons, Option.some_bind, ih, List.map_cons, List.filter_cons]
    by_cases hg : good (f l) = true
    · simp only [hg, if_true]
      cases hrest : List.filter good (List.map f ls) with
      | nil => simp
      | cons a as =>
        rw [List.getLast?_cons_cons, List.getLast?_eq_getLast _ (List.cons_ne_nil _ _)]
        rfl
    · simp [hg]


theorem load_row_documented (strtoul : List Nat → Nat) (strtod : List Nat → ℚ)
    (header : List Nat) (ix : bench_cols)
    (hlen : (csv_split_simple_keep_empty header 16).length = ix.i_ver + 1)
    (h_hz : (csv_split_simple_keep_empty header 16).indexOf (bytes "spi_hz") = ix.i_hz)
    (h_er : (csv_split_simple_keep_empty header 16).indexOf (bytes "avg_erase_ms") = ix.i_erase)
    (h_wk : (csv_split_simple_keep_empty header 16).indexOf (bytes "avg_write256_kBps")
      = ix.i_wk)
    (h_rk : (csv_split_simple_keep_empty header 16).indexOf (bytes "avg_readseq_kBps")
      = ix.i_rk)
    (h_ver : (csv_split_simple_keep_empty header 16).indexOf (bytes "verify_errors")
      = ix.i_ver)
    (hmax : ix.i_hz ≤ ix.i_ver ∧ ix.i_erase ≤ ix.i_ver ∧ ix.i_wk ≤ ix.i_ver
      ∧ ix.i_rk ≤ ix.i_ver)
    (line : List Nat) (st : Bool × bench_out) :
    load_row strtoul strtod ix line st
      = some (if (enough_columns header (csv_split_simple_keep_empty (cstr line) 16)
            && decide (strtoul (column header "spi_hz"
                (csv_split_simple_keep_empty (cstr line) 16)) % 2 ^ 32 = 12000000)) = true
          then (true, row_values strtoul strtod header
                  (csv_split_simple_keep_empty (cstr line) 16))
          else st) := by
  unfold load_row
  generalize csv_split_simple_keep_empty (cstr line) 16 = col
  by_cases hn : col.length ≤ ix.i_ver
  · have : enough_columns header col = false := by
      simp only [enough_columns, hlen, decide_eq_false_iff_not]; omega
    simp [hn, this]
  · have hen : enough_columns header col = true := by
      simp only [enough_columns, hlen, decide_eq_true_eq]; omega
    have hget : ∀ i, i ≤ ix.i_ver → col[i]? = some (col.getD i []) := by
      intro i hi
      have hlt : i < col.length := by omega
      simp [List.getD, List.getElem?_eq_getElem hlt]
    obtain ⟨m1, m2, m3, m4⟩ := hmax
    simp only [hn, if_false, hget _ m1, hget _ m2, hget _ m3, hget _ m4,
      hget _ (le_refl _), hen, Bool.true_and, decide_eq_true_eq, column, row_values,
      h_hz, h_er, h_wk, h_rk, h_ver]
    split_ifs <;> rfl


theorem load_bench_12mhz_of_header (strtoul : List Nat → Nat) (strtod : List Nat → ℚ)
    (header rest : List Nat) (out0 : bench_out) (ix : bench_cols)
    (hline : header = header.dropLast ++ [10]) (hbody : 10 ∉ header.dropLast)
    (hshort : header.dropLast.length < 255) (hcstr : cstr header = header)
    (hne : ¬ (csv_split_simple_keep_empty header 16).length ≤ 0)
    (f_hz : find_col_multi (csv_split_simple_keep_empty header 16) ALT_HZ = some ix.i_hz)
    (f_er : find_col_multi (csv_split_simple_keep_empty header 16) ALT_ERASE = some ix.i_erase)
    (f_wk : find_col_multi (csv_split_simple_keep_empty header 16) ALT_WK = some ix.i_wk)
    (f_rk : find_col_multi (csv_split_simple_keep_empty header 16) ALT_RK = some ix.i_rk)
    (f_ver : find_col_multi (csv_split_simple_keep_empty header 16) ALT_VER = some ix.i_ver)
    (hlen : (csv_split_simple_keep_empty header 16).length = ix.i_ver + 1)
    (h_hz : (csv_split_simple_keep_empty header 16).indexOf (bytes "spi_hz") = ix.i_hz)
    (h_er : (csv_split_simple_keep_empty header 16).indexOf (bytes "avg_erase_ms") = ix.i_erase)
    (h_wk : (csv_split_simple_keep_empty header 16).indexOf (bytes "avg_write256_kBps")
      = ix.i_wk)
    (h_rk : (csv_split_simple_keep_empty header 16).indexOf (bytes "avg_readseq_kBps")
      = ix.i_rk)
    (h_ver : (csv_split_simple_keep_empty header 16).indexOf (bytes "verify_errors")
      = ix.i_ver)
    (hmax : ix.i_hz ≤ ix.i_ver ∧ ix.i_erase ≤ ix.i_ver ∧ ix.i_wk ≤ ix.i_ver
      ∧ ix.i_rk ≤ ix.i_ver) :
    load_bench_12mhz strtoul strtod FR_OK FR_OK (header ++ rest) out0
      = some (((rows_12mhz strtoul header rest).getLast?).elim (false, out0)
          (fun row => (true, row_values strtoul strtod header row))) := by
  obtain ⟨i1, i2, i3, i4, i5⟩ := ix
  simp only at f_hz f_er f_wk f_rk f_ver hlen h_hz h_er h_wk h_rk h_ver hmax
  have hhead : f_gets 256 (header ++ rest) 0 = some (header, header.length) := by
    have h := f_gets_go_line header.dropLast rest 255 hbody hshort
    have hh : header ++ rest = header.dropLast ++ 10 :: rest := by
      conv_lhs => rw [hline]
      simp
    unfold f_gets
    simp only [List.drop_zero, hh, h, ← hline, Nat.zero_add]
    have : header ≠ [] := by
      intro h0; rw [h0] at hline; simp at hline
    simp [this]
  have hloop := load_rows_eq_foldlM strtoul strtod ⟨i1, i2, i3, i4, i5⟩ header rest
    ((header ++ rest).length + 1) (rest.length + 1) 0 (false, out0)
    (by simp only [List.length_append]; omega) (by omega)
  have hfun : (fun (st : Bool × bench_out) (line : List Nat) =>
        load_row strtoul strtod ⟨i1, i2, i3, i4, i5⟩ line st)
      = fun st line => some (if (fun row => enough_columns header row
            && decide (strtoul (column header "spi_hz" row) % 2 ^ 32 = 12000000))
              ((fun line => csv_split_simple_keep_empty (cstr line) 16) line) = true
          then (fun row => (true, row_values strtoul strtod header row))
              ((fun line => csv_split_simple_keep_empty (cstr line) 16) line)
          else st) := by
    funext st line
    exact load_row_documented strtoul strtod header ⟨i1, i2, i3, i4, i5⟩ hlen h_hz h_er h_wk h_rk h_ver hmax
      line st
  rw [hfun] at hloop
  have hlast := foldlM_last_match (fun line => csv_split_simple_keep_empty (cstr line) 16)
    (fun row => enough_columns header row
      && decide (strtoul (column header "spi_hz" row) % 2 ^ 32 = 12000000))
    (fun row => (true, row_values strtoul strtod header row))
    (f_gets_all 256 rest (rest.length + 1) 0) (false, out0)
  rw [hlast] at hloop
  unfold load_bench_12mhz
  simp only [FR_OK, ne_eq, not_true_eq_false, if_false, hhead, hcstr, hne, f_hz, f_er, f_wk,
    f_rk, f_ver]
  unfold rows_12mhz
  simp only [Nat.add_zero] at hloop
  exact hloop


/-- C4. For both documented header orders of `benchmark.csv` (with and without
the leading `timestamp_ms` column) and any contents after the header line,
`load_bench_12mhz` (SD card mounted and file opened) returns `true` exactly when
some data row has enough columns and `spi_hz` equal to 12000000, and the
outputs are then the `avg_erase_ms`, `avg_write256_kBps`, `avg_readseq_kBps` and
`verify_errors` fields, found by header name, of the last such row in file
order; otherwise it returns `false` and leaves the outputs alone. -/
theorem load_bench_12mhz_last_row (strtoul : List Nat → Nat) (strtod : List Nat → ℚ)
    (header rest : List Nat) (out0 : bench_out)
    (hh : header = HEADER_A ∨ header = HEADER_B) :
    load_bench_12mhz strtoul strtod FR_OK FR_OK (header ++ rest) out0
      = some (((rows_12mhz strtoul header rest).getLast?).elim (false, out0)
          (fun row => (true, row_values strtoul strtod header row)))
    ∧ ((∃ out, load_bench_12mhz strtoul strtod FR_OK FR_OK (header ++ rest) out0
          = some (true, out))
        ↔ ∃ line ∈ f_gets_all 256 rest (rest.length + 1) 0,
            enough_columns header (csv_split_simple_keep_empty (cstr line) 16) = true
            ∧ strtoul (column header "spi_hz" (csv_split_simple_keep_empty (cstr line) 16))
                % 2 ^ 32 = 12000000) := by
  have main : load_bench_12mhz strtoul strtod FR_OK FR_OK (header ++ rest) out0
      = some (((rows_12mhz strtoul header rest).getLast?).elim (false, out0)
          (fun row => (true, row_values strtoul strtod header row))) := by
    rcases hh with rfl | rfl
    · exact load_bench_12mhz_of_header strtoul strtod HEADER_A rest out0 ⟨1, 2, 3, 4, 6⟩
        (by decide) (by decide) (by decide) (by decide) (by decide) (by decide) (by decide)
        (by decide) (by decide) (by decide) (by decide) (by decide) (by decide) (by decide)
        (by decide) (by decide) (by decide)
    · exact load_bench_12mhz_of_header strtoul strtod HEADER_B rest out0 ⟨2, 3, 4, 5, 7⟩
        (by decide) (by decide) (by decide) (by decide) (by decide) (by decide) (by decide)
        (by decide) (by decide) (by decide) (by decide) (by decide) (by decide) (by decide)
        (by decide) (by decide) (by decide)
  refine ⟨main, ?_⟩
  rw [main]
  constructor
  · rintro ⟨out, hout⟩
    cases hl : (rows_12mhz strtoul header rest).getLast? with
    | none => rw [hl] at hout; simp at hout
    | some row =>
      have hmem := List.mem_of_getLast?_eq_some hl
      simp only [rows_12mhz, List.mem_filter, List.mem_map, Bool.and_eq_true,
        decide_eq_true_eq] at hmem
      obtain ⟨⟨line, hline, rfl⟩, h1, h2⟩ := hmem
      exact ⟨line, hline, h1, h2⟩
  · rintro ⟨line, hline, h1, h2⟩
    have hmem : csv_split_simple_keep_empty (cstr line) 16 ∈ rows_12mhz strtoul header rest := by
      simp only [rows_12mhz, List.mem_filter, List.mem_map, Bool.and_eq_true,
        decide_eq_true_eq]
      exact ⟨⟨line, hline, rfl⟩, h1, h2⟩
    cases hl : (rows_12mhz strtoul header rest).getLast? with
    | none =>
      rw [List.getLast?_eq_none_iff] at hl
      rw [hl] at hmem
      simp at hmem
    | some row => exact ⟨_, rfl⟩


/-- C4, witness: the header with the leading time stamp column followed by one
12 MHz row; plain digit strings are read as decimal numbers. -/
theorem load_bench_12mhz_last_row_witness :
    load_bench_12mhz (fun s => s.foldl (fun n c => 10 * n + (c - 48)) 0)
        (fun s => (s.foldl (fun n c => 10 * n + (c - 48)) 0 : Nat))
        FR_OK FR_OK (HEADER_B ++ bytes "1,EF4016,12000000,45,30,900,2,0\r\n")
        ⟨0, 0, 0, 0⟩
      = some (((rows_12mhz (fun s => s.foldl (fun n c => 10 * n + (c - 48)) 0) HEADER_B
            (bytes "1,EF4016,12000000,45,30,900,2,0\r\n")).getLast?).elim (false, ⟨0, 0, 0, 0⟩)
          (fun row => (true, row_values (fun s => s.foldl (fun n c => 10 * n + (c - 48)) 0)
            (fun s => (s.foldl (fun n c => 10 * n + (c - 48)) 0 : Nat)) HEADER_B row))) :=
  (load_bench_12mhz_last_row (fun s => s.foldl (fun n c => 10 * n + (c - 48)) 0)
    (fun s => (s.foldl (fun n c => 10 * n + (c - 48)) 0 : Nat))
    HEADER_B (bytes "1,EF4016,12000000,45,30,900,2,0\r\n") ⟨0, 0, 0, 0⟩ (Or.inr rfl)).1

end analyze

end Firmware

namespace Firmware

namespace flash

/-! ## Facts about the SPI transport shared by the backup and restore theorems -/

variable {σ : Type}

theorem emits_nil : Emits [] [] := by
  intro acc; simp

theorem emits_append {e1 e2 : List BusEvent} {x1 x2 : List (List BusEvent)}
    (h1 : Emits e1 x1) (h2 : Emits e2 x2) : Emits (e1 ++ e2) (x1 ++ x2) := by
  intro acc
  rw [List.foldl_append, h1 acc, h2 (acc ++ x1), List.append_assoc]

theorem emits_exchanges_eq {evs : List BusEvent} {xs : List (List BusEvent)}
    (h : Emits evs xs) : exchanges evs = xs := by
  have := h []
  simp only [List.nil_append] at this
  simp [exchanges, this]

theorem emits_commands_eq {evs : List BusEvent} {xs : List (List BusEvent)}
    (h : Emits evs xs) : commands evs = xs.map classify := by
  simp [commands, emits_exchanges_eq h]

theorem hdr_addr (addr : Nat) :
    (addr >>> 16) % 256 * 65536 + (addr >>> 8) % 256 * 256 + addr % 256 = addr % 2 ^ 24 := by
  simp only [Nat.shiftRight_eq_div_pow]
  omega

/-- The bus events of one `read_data` call that returned `data`. -/
theorem read_data_trace (D : SpiDevice σ) (addr len : Nat) (b : Bus σ) :
    (read_data D addr len b).1.trace
      = b.trace ++ [BusEvent.cs_low, BusEvent.write (cmd_hdr 0x03 addr),
          BusEvent.read 0 (read_data D addr len b).2, BusEvent.cs_high] := by
  simp [read_data, cs_low, cs_high, spi_write_blocking, spi_read_blocking]

theorem read_data_length (D : SpiDevice σ) (addr len : Nat) (b : Bus σ) :
    (read_data D addr len b).2.length = len := by
  have h : ∀ (s : σ) (l : List Nat), (clock_bytes D s l).2.length = l.length := by
    intro s l
    induction l generalizing s with
    | nil => rfl
    | cons t ts ih => simp [clock_bytes, ih]
  simp [read_data, spi_read_blocking, h]

theorem emits_read (addr : Nat) (data : List Nat) :
    Emits [BusEvent.cs_low, BusEvent.write (cmd_hdr 0x03 addr), BusEvent.read 0 data,
        BusEvent.cs_high]
      [[BusEvent.write (cmd_hdr 0x03 addr), BusEvent.read 0 data]] := by
  intro acc
  simp [group_step]

theorem classify_read (addr : Nat) (data : List Nat) :
    classify [BusEvent.write (cmd_hdr 0x03 addr), BusEvent.read 0 data]
      = FlashCmd.read (addr % 2 ^ 24) data := by
  simp only [cmd_hdr, classify, hdr_addr]


/-! ### The ideal NOR device under the transport functions -/

theorem addr24_hdr (addr : Nat) :
    addr24 ((addr >>> 16) % 256) ((addr >>> 8) % 256) (addr % 256) = addr % 2 ^ 24 := by
  simp only [addr24, Nat.shiftRight_eq_div_pow]
  omega

theorem nor_clock_read (tE tP : Nat) (a2 a1 a0 : Nat) (len : Nat) (rest : List Nat) (s : Nor)
    (hs : s.cmd = 0x03 :: a2 :: a1 :: a0 :: rest) :
    clock_bytes (nor tE tP) s (List.replicate len 0)
      = ({ s with cmd := s.cmd ++ List.replicate len 0 },
          (List.range len).map
            (fun i => (s.mem ((addr24 a2 a1 a0 + rest.length + i) % 2 ^ 24)).val)) := by
  induction len generalizing rest s with
  | zero => simp [clock_bytes]
  | succ n ih =>
    have hstep := ih (rest ++ [0]) { s with cmd := s.cmd ++ [0] } (by simp [hs])
    simp only [List.replicate_succ, clock_bytes]
    have hc : ((nor tE tP).clock s 0) = ({ s with cmd := s.cmd ++ [0] },
        (s.mem ((addr24 a2 a1 a0 + rest.length) % 2 ^ 24)).val) := by
      simp [nor, hs]
    rw [hc]
    simp only [hstep, List.append_assoc, List.singleton_append, List.length_append,
      List.length_singleton]
    refine Prod.ext rfl ?_
    simp only [List.range_succ_eq_map, List.map_cons, List.map_map]
    refine congrArg₂ _ ?_ ?_
    · simp [Nat.mod_eq_of_lt (Fin.is_lt _)]
    · apply List.map_congr_left
      intro i _
      simp only [Function.comp, Nat.add_assoc, Nat.add_comm 1 i]


theorem nor_read_data (tE tP : Nat) (addr len : Nat) (b : Bus Nor)
    (h : addr % 2 ^ 24 + len ≤ 2 ^ 24) :
    (read_data (nor tE tP) addr len b).2 = nor_bytes b.dev.mem (addr % 2 ^ 24) len
    ∧ (read_data (nor tE tP) addr len b).1.dev = { b.dev with cmd := [] } := by
  have hw : (clock_bytes (nor tE tP) ((nor tE tP).select b.dev) (cmd_hdr 0x03 addr)).1
      = { b.dev with cmd := cmd_hdr 0x03 addr } := by
    simp [clock_bytes, nor, cmd_hdr]
  have hr := nor_clock_read tE tP ((addr >>> 16) % 256) ((addr >>> 8) % 256) (addr % 256) len []
    { b.dev with cmd := cmd_hdr 0x03 addr } rfl
  constructor
  · simp only [read_data, spi_read_blocking, spi_write_blocking, cs_low, hw, hr, nor_bytes,
      addr24_hdr, List.length_nil, Nat.add_zero]
    apply List.map_congr_left
    intro i hi
    rw [List.mem_range] at hi
    rw [Nat.mod_eq_of_lt (by omega)]
  · simp only [read_data, spi_read_blocking, spi_write_blocking, cs_low, cs_high, hw, hr]
    simp [nor, cmd_hdr]


/-! ### The flash accesses of the transport functions on any device -/

theorem issues_nil : Issues [] [] := ⟨[], emits_nil, rfl⟩

theorem issues_append {e1 e2 : List BusEvent} {c1 c2 : List FlashCmd}
    (h1 : Issues e1 c1) (h2 : Issues e2 c2) : Issues (e1 ++ e2) (c1 ++ c2) := by
  obtain ⟨x1, hx1, rfl⟩ := h1
  obtain ⟨x2, hx2, rfl⟩ := h2
  exact ⟨x1 ++ x2, emits_append hx1 hx2, by simp⟩

theorem issues_flash_cmds_eq {evs : List BusEvent} {cs : List FlashCmd} (h : Issues evs cs) :
    flash_cmds evs = cs := by
  obtain ⟨xs, hx, rfl⟩ := h
  simp [flash_cmds, emits_commands_eq hx]

theorem read_status_trace (D : SpiDevice σ) (which : Nat) (b : Bus σ) :
    ∃ rx, (read_status D which b).1.trace
      = b.trace ++ [BusEvent.cs_low, BusEvent.write_read [which, 0] rx, BusEvent.cs_high] :=
  ⟨(clock_bytes D (D.select b.dev) [which, 0]).2,
    by simp [read_status, cs_low, cs_high, spi_write_read_blocking]⟩

theorem issues_status (which : Nat) (rx : List Nat) :
    Issues [BusEvent.cs_low, BusEvent.write_read [which, 0] rx, BusEvent.cs_high] [] := by
  refine ⟨[[BusEvent.write_read [which, 0] rx]], ?_, ?_⟩
  · intro acc; simp [group_step]
  · simp [classify, is_flash_access]

theorem wait_wip_clear_issues (D : SpiDevice σ) (fuel : Nat) (b b' : Bus σ)
    (h : wait_wip_clear D fuel b = some b') :
    ∃ evs, b'.trace = b.trace ++ evs ∧ Issues evs [] := by
  induction fuel generalizing b with
  | zero => simp [wait_wip_clear] at h
  | succ n ih =>
    obtain ⟨rx, htr⟩ := read_status_trace D 0x05 b
    rw [wait_wip_clear] at h
    split_ifs at h with hw
    · obtain ⟨evs, he, hi⟩ := ih _ h
      refine ⟨[BusEvent.cs_low, BusEvent.write_read [0x05, 0] rx, BusEvent.cs_high] ++ evs, ?_, ?_⟩
      · rw [he, htr, List.append_assoc]
      · simpa using issues_append (issues_status 0x05 rx) hi
    · simp only [Option.some.injEq] at h
      subst h
      exact ⟨_, htr, issues_status 0x05 rx⟩

theorem write_enable_trace (D : SpiDevice σ) (b : Bus σ) :
    (write_enable D b).trace
      = b.trace ++ [BusEvent.cs_low, BusEvent.write [0x06], BusEvent.cs_high] := by
  simp [write_enable, cs_low, cs_high, spi_write_blocking]

theorem issues_write_enable :
    Issues [BusEvent.cs_low, BusEvent.write [0x06], BusEvent.cs_high] [] := by
  refine ⟨[[BusEvent.write [0x06]]], ?_, ?_⟩
  · intro acc; simp [group_step]
  · simp [classify, is_flash_access]

theorem sector_erase_4k_issues (D : SpiDevice σ) (fuel addr : Nat) (b b' : Bus σ)
    (h : sector_erase_4k D fuel addr b = some b') :
    ∃ evs, b'.trace = b.trace ++ evs ∧ Issues evs [FlashCmd.erase (addr % 2 ^ 24)] := by
  unfold sector_erase_4k at h
  obtain ⟨evs, he, hi⟩ := wait_wip_clear_issues D fuel _ b' h
  have hx : Issues [BusEvent.cs_low, BusEvent.write (cmd_hdr 0x20 addr), BusEvent.cs_high]
      [FlashCmd.erase (addr % 2 ^ 24)] := by
    refine ⟨[[BusEvent.write (cmd_hdr 0x20 addr)]], ?_, ?_⟩
    · intro acc; simp [group_step]
    · simp [cmd_hdr, classify, is_flash_access, hdr_addr]
  refine ⟨[BusEvent.cs_low, BusEvent.write [0x06], BusEvent.cs_high]
    ++ ([BusEvent.cs_low, BusEvent.write (cmd_hdr 0x20 addr), BusEvent.cs_high] ++ evs), ?_, ?_⟩
  · rw [he]
    simp [cs_high, cs_low, spi_write_blocking, write_enable_trace, List.append_assoc]
  · simpa using issues_append issues_write_enable (issues_append hx hi)

theorem page_program_issues (D : SpiDevice σ) (fuel addr : Nat) (data : List Nat)
    (b b' : Bus σ) (h : page_program D fuel addr data b = some b') :
    ∃ evs, b'.trace = b.trace ++ evs
      ∧ Issues evs [FlashCmd.program (addr % 2 ^ 24) data] := by
  unfold page_program at h
  obtain ⟨evs, he, hi⟩ := wait_wip_clear_issues D fuel _ b' h
  have hx : Issues [BusEvent.cs_low, BusEvent.write (cmd_hdr 0x02 addr), BusEvent.write data,
      BusEvent.cs_high] [FlashCmd.program (addr % 2 ^ 24) data] := by
    refine ⟨[[BusEvent.write (cmd_hdr 0x02 addr), BusEvent.write data]], ?_, ?_⟩
    · intro acc; simp [group_step]
    · simp [cmd_hdr, classify, is_flash_access, hdr_addr]
  refine ⟨[BusEvent.cs_low, BusEvent.write [0x06], BusEvent.cs_high]
    ++ ([BusEvent.cs_low, BusEvent.write (cmd_hdr 0x02 addr), BusEvent.write data,
      BusEvent.cs_high] ++ evs), ?_, ?_⟩
  · rw [he]
    simp [cs_high, cs_low, spi_write_blocking, write_enable_trace, List.append_assoc]
  · simpa using issues_append issues_write_enable (issues_append hx hi)

theorem issues_read (addr : Nat) (data : List Nat) :
    Issues [BusEvent.cs_low, BusEvent.write (cmd_hdr 0x03 addr), BusEvent.read 0 data,
        BusEvent.cs_high] [FlashCmd.read (addr % 2 ^ 24) data] :=
  ⟨_, emits_read addr data, by simp [classify_read, is_flash_access]⟩


theorem program_pages_issues (D : SpiDevice σ) (fuel base : Nat) (buf : List Nat)
    (hlen : buf.length ≤ 4096) (hbase : base + buf.length ≤ 2 ^ 24) :
    ∀ (n j : Nat) (b b' : Bus σ), program_pages D fuel base buf n (256 * j) b = some b' →
      ∃ evs, b'.trace = b.trace ++ evs
        ∧ Issues evs ((List.range' j ((buf.length + 255) / 256 - j)).map
            (fun i => FlashCmd.program (base + 256 * i) ((buf.drop (256 * i)).take 256))) := by
  intro n
  induction n with
  | zero => intro j b b' h; simp [program_pages] at h
  | succ n ih =>
    intro j b b' h
    rw [program_pages] at h
    by_cases hoff : 256 * j < buf.length
    · simp only [hoff, if_true, FLASH_PAGE_SIZE] at h
      cases hp : page_program D fuel ((base + 256 * j) % 2 ^ 32)
          ((buf.drop (256 * j)).take
            (if buf.length - 256 * j > 256 then 256 else buf.length - 256 * j)) b with
      | none => rw [hp] at h; simp at h
      | some b1 =>
        rw [hp] at h
        simp only at h
        have hnext : (256 * j + 256) % 2 ^ 32 = 256 * (j + 1) := by
          rw [Nat.mod_eq_of_lt (by omega)]; ring
        rw [hnext] at h
        obtain ⟨e1, ht1, hi1⟩ := page_program_issues D fuel _ _ b b1 hp
        obtain ⟨e2, ht2, hi2⟩ := ih (j + 1) b1 b' h
        have haddr : (base + 256 * j) % 2 ^ 32 % 2 ^ 24 = base + 256 * j := by
          rw [Nat.mod_eq_of_lt (by omega), Nat.mod_eq_of_lt (by omega)]
        have hdata : (buf.drop (256 * j)).take
            (if buf.length - 256 * j > 256 then 256 else buf.length - 256 * j)
            = (buf.drop (256 * j)).take 256 := by
          split_ifs with hc
          · rfl
          · rw [List.take_of_length_le (by simp), List.take_of_length_le (by simp; omega)]
        rw [haddr, hdata] at hi1
        refine ⟨e1 ++ e2, by rw [ht2, ht1, List.append_assoc], ?_⟩
        have hcount : (buf.length + 255) / 256 - j = ((buf.length + 255) / 256 - (j + 1)) + 1 := by
          omega
        rw [hcount, List.range'_succ, List.map_cons]
        exact issues_append hi1 hi2
    · simp only [hoff, if_false, Option.some.injEq] at h
      subst h
      have hcount : (buf.length + 255) / 256 - j = 0 := by omega
      rw [hcount]
      exact ⟨[], by simp, by simpa using issues_nil⟩

theorem program_pages_issues_all (D : SpiDevice σ) (fuel base : Nat) (buf : List Nat)
    (hlen : buf.length ≤ 4096) (hbase : base + buf.length ≤ 2 ^ 24)
    (n : Nat) (b b' : Bus σ) (h : program_pages D fuel base buf n 0 b = some b') :
    ∃ evs, b'.trace = b.trace ++ evs ∧ Issues evs (page_cmds base buf) := by
  have := program_pages_issues D fuel base buf hlen hbase n 0 b b' (by simpa using h)
  simpa [page_cmds, List.range_eq_range'] using this

end flash

end Firmware

namespace Firmware

namespace flash

/-! ## Restore (`flash_restore_from_file`): the commands issued on any device -/

variable {σ : Type}

theorem restore_cmds_empty (verify : Bool) (file : List Nat) (todo k m : Nat) (h : m ≤ k) :
    restore_cmds verify file todo k m = [] := by
  have : m - k = 0 := by omega
  simp [restore_cmds, this]

theorem restore_cmds_step (verify : Bool) (file : List Nat) (todo k m : Nat) (h : k < m) :
    restore_cmds verify file todo k m
      = sector_cmds verify (4096 * k) (sector_buf file todo k) (sector_buf file todo k)
        ++ restore_cmds verify file todo (k + 1) m := by
  have : m - k = (m - (k + 1)) + 1 := by omega
  simp [restore_cmds, this, List.range'_succ]

theorem sector_buf_length (file : List Nat) (todo k : Nat) (hfile : todo ≤ file.length) :
    (sector_buf file todo k).length = min 4096 (todo - 4096 * k) := by
  simp only [sector_buf, List.length_take, List.length_drop]
  omega

/-- What one pass of the sector loop does on the bus, for any device: the sector
is erased and programmed page by page, and with `verify` read back. -/
theorem restore_sector_issues (D : SpiDevice σ) (fuel : Nat) (base : Nat) (buf : List Nat)
    (hlen : buf.length ≤ 4096) (hbase : base + 4096 ≤ 2 ^ 24) (b b1 b2 : Bus σ)
    (h1 : sector_erase_4k D fuel base b = some b1)
    (h2 : program_pages D fuel base buf fuel 0 b1 = some b2) :
    ∃ evs, b2.trace = b.trace ++ evs
      ∧ Issues evs (FlashCmd.erase base :: page_cmds base buf)
      ∧ (read_data D base buf.length b2).1.trace
          = b.trace ++ (evs ++ [BusEvent.cs_low, BusEvent.write (cmd_hdr 0x03 base),
              BusEvent.read 0 (read_data D base buf.length b2).2, BusEvent.cs_high])
      ∧ Issues (evs ++ [BusEvent.cs_low, BusEvent.write (cmd_hdr 0x03 base),
              BusEvent.read 0 (read_data D base buf.length b2).2, BusEvent.cs_high])
          (sector_cmds true base buf (read_data D base buf.length b2).2) := by
  obtain ⟨e1, ht1, hi1⟩ := sector_erase_4k_issues D fuel base b b1 h1
  obtain ⟨e2, ht2, hi2⟩ := program_pages_issues_all D fuel base buf hlen (by omega) fuel b1 b2 h2
  have hmod : base % 2 ^ 24 = base := Nat.mod_eq_of_lt (by omega)
  rw [hmod] at hi1
  have h12 : Issues (e1 ++ e2) (FlashCmd.erase base :: page_cmds base buf) := by
    simpa using issues_append hi1 hi2
  refine ⟨e1 ++ e2, by rw [ht2, ht1, List.append_assoc], h12, ?_, ?_⟩
  · rw [read_data_trace, ht2, ht1]
    simp [List.append_assoc]
  · have h3 := issues_read base (read_data D base buf.length b2).2
    rw [hmod] at h3
    have := issues_append h12 h3
    simpa [sector_cmds, List.append_assoc] using this


/-- One unfolding of the sector loop when reading from an intact file. -/
theorem restore_loop_unfold (D : SpiDevice σ) (fuel : Nat) (file : List Nat) (todo : Nat)
    (verify : Bool) (htodo : todo ≤ 2 ^ 24) (hfile : todo ≤ file.length)
    (n k fr0 : Nat) (b : Bus σ) (hk : 4096 * k < todo) :
    restore_loop D fuel (SdSource.ofBytes file) todo verify (n + 1) (4096 * k) (4096 * k) fr0 b
      = match sector_erase_4k D fuel (4096 * k) b with
        | none => none
        | some b1 =>
          match program_pages D fuel (4096 * k) (sector_buf file todo k) fuel 0 b1 with
          | none => none
          | some b2 =>
            if verify then
              if (read_data D (4096 * k) (sector_buf file todo k).length b2).2
                  ≠ sector_buf file todo k then
                some (FR_INT_ERR, (read_data D (4096 * k) (sector_buf file todo k).length b2).1)
              else restore_loop D fuel (SdSource.ofBytes file) todo verify n (4096 * (k + 1))
                (4096 * k + (sector_buf file todo k).length) FR_OK
                (read_data D (4096 * k) (sector_buf file todo k).length b2).1
            else restore_loop D fuel (SdSource.ofBytes file) todo verify n (4096 * (k + 1))
              (4096 * k + (sector_buf file todo k).length) FR_OK b2 := by
  have hwant : (if 4096 * (k + 1) > todo then todo - 4096 * k
      else FLASH_ERASE_SIZE) = min 4096 (todo - 4096 * k) := by
    simp only [FLASH_ERASE_SIZE]
    split_ifs <;> omega
  have hbuf : ((SdSource.ofBytes file).f_read (4096 * k) (min 4096 (todo - 4096 * k))).2.take
      (min 4096 (todo - 4096 * k)) = sector_buf file todo k := by
    simp [SdSource.ofBytes, sector_buf, List.take_take]
  have hfr : ((SdSource.ofBytes file).f_read (4096 * k) (min 4096 (todo - 4096 * k))).1 = FR_OK :=
    rfl
  have hlen := sector_buf_length file todo k hfile
  have hpos : (sector_buf file todo k).length ≠ 0 := by omega
  have hnext : (4096 * k + FLASH_ERASE_SIZE) % 2 ^ 32 = 4096 * (k + 1) := by
    simp only [FLASH_ERASE_SIZE]
    rw [Nat.mod_eq_of_lt (by omega)]; ring
  rw [restore_loop]
  simp only [hk, if_true, hnext, hwant, hbuf, hfr, ne_eq, not_true_eq_false, if_false, hpos]


/-- The sector loop on any device, reading an intact file: whenever it returns,
either every remaining sector was erased, programmed and (with `verify`) read
back with the written bytes, or `verify` is on and the run ended with
`FR_INT_ERR` right after the first read-back that differed. -/
theorem restore_loop_issues (D : SpiDevice σ) (fuel : Nat) (file : List Nat) (todo : Nat)
    (verify : Bool) (htodo : todo ≤ 2 ^ 24) (hfile : todo ≤ file.length) (n : Nat) :
    ∀ (k fptr fr0 : Nat) (b : Bus σ) (fr : Nat) (b' : Bus σ),
      (4096 * k < todo → fptr = 4096 * k) →
      restore_loop D fuel (SdSource.ofBytes file) todo verify n (4096 * k) fptr fr0 b
        = some (fr, b') →
      ∃ evs, b'.trace = b.trace ++ evs
        ∧ ((fr = (if 4096 * k < todo then FR_OK else fr0)
              ∧ Issues evs (restore_cmds verify file todo k ((todo + 4095) / 4096)))
          ∨ (verify = true ∧ fr = FR_INT_ERR
              ∧ ∃ m rb, k ≤ m ∧ 4096 * m < todo ∧ rb ≠ sector_buf file todo m
                ∧ Issues evs (restore_cmds true file todo k m
                    ++ sector_cmds true (4096 * m) (sector_buf file todo m) rb))) := by
  induction n with
  | zero => intro k fptr fr0 b fr b' _ h; simp [restore_loop] at h
  | succ n ih =>
    intro k fptr fr0 b fr b' hptr h
    by_cases hk : 4096 * k < todo
    · rw [hptr hk, restore_loop_unfold D fuel file todo verify htodo hfile n k fr0 b hk] at h
      have hlen := sector_buf_length file todo k hfile
      have hN : k < (todo + 4095) / 4096 := by omega
      cases h1 : sector_erase_4k D fuel (4096 * k) b with
      | none => rw [h1] at h; simp at h
      | some b1 =>
        rw [h1] at h
        simp only at h
        cases h2 : program_pages D fuel (4096 * k) (sector_buf file todo k) fuel 0 b1 with
        | none => rw [h2] at h; simp at h
        | some b2 =>
          rw [h2] at h
          simp only at h
          obtain ⟨es, hts, his, htr, hir⟩ := restore_sector_issues D fuel (4096 * k)
            (sector_buf file todo k) (by omega) (by omega) b b1 b2 h1 h2
          have hnextptr : 4096 * (k + 1) < todo →
              4096 * k + (sector_buf file todo k).length = 4096 * (k + 1) := by
            intro hlt; omega
          rcases Bool.eq_false_or_eq_true verify with hv | hv
          · subst hv
            simp only [if_true] at h
            by_cases hrb : (read_data D (4096 * k) (sector_buf file todo k).length b2).2
                = sector_buf file todo k
            · simp only [hrb, ne_eq, not_true_eq_false, if_false] at h
              obtain ⟨ev, htv, hcase⟩ := ih (k + 1) _ FR_OK _ fr b' hnextptr h
              rw [hrb] at hir htr
              refine ⟨_, by rw [htv, htr, List.append_assoc], ?_⟩
              rcases hcase with ⟨hfr, hi⟩ | ⟨-, hfr, m, rb, hm, hmt, hne, hi⟩
              · left
                refine ⟨by simp only [hk, if_true, hfr, ite_self], ?_⟩
                rw [restore_cmds_step true file todo k _ hN]
                have hall := issues_append hir hi
                simpa only [List.append_assoc] using hall
              · right
                refine ⟨rfl, hfr, m, rb, by omega, hmt, hne, ?_⟩
                rw [restore_cmds_step true file todo k m (by omega)]
                have hall := issues_append hir hi
                simpa only [List.append_assoc] using hall
            · simp only [hrb, ne_eq, not_false_eq_true, if_true, Option.some.injEq,
                Prod.mk.injEq] at h
              obtain ⟨rfl, rfl⟩ := h
              refine ⟨_, htr, Or.inr ⟨rfl, rfl, k, _, le_refl _, hk, hrb, ?_⟩⟩
              rw [restore_cmds_empty true file todo k k (le_refl _), List.nil_append]
              exact hir
          · subst hv
            simp only [Bool.false_eq_true, if_false] at h
            obtain ⟨ev, htv, hcase⟩ := ih (k + 1) _ FR_OK _ fr b' hnextptr h
            refine ⟨_, by rw [htv, hts, List.append_assoc], ?_⟩
            rcases hcase with ⟨hfr, hi⟩ | ⟨hvt, -⟩
            · left
              refine ⟨by simp only [hk, if_true, hfr, ite_self], ?_⟩
              rw [restore_cmds_step false file todo k _ hN]
              have : Issues es (sector_cmds false (4096 * k) (sector_buf file todo k)
                  (sector_buf file todo k)) := by
                simpa [sector_cmds] using his
              exact issues_append this hi
            · simp at hvt
    · rw [restore_loop] at h
      simp only [hk, if_false, Option.some.injEq, Prod.mk.injEq] at h
      obtain ⟨rfl, rfl⟩ := h
      refine ⟨[], by simp, Or.inl ⟨by simp [hk], ?_⟩⟩
      rw [restore_cmds_empty verify file todo k _ (by omega)]
      exact issues_nil


/-- The whole restore on any device, reading an intact file of less than 4 GiB into
a flash of at most `2 ^ 24` bytes. -/
theorem flash_restore_issues (D : SpiDevice σ) (fuel : Nat) (file : List Nat)
    (flash_bytes : Nat) (verify : Bool) (b : Bus σ) (fr : Nat) (b' : Bus σ)
    (hfb : flash_bytes ≤ 2 ^ 24) (hsize : file.length < 2 ^ 32)
    (h : flash_restore_from_file D fuel (SdSource.ofBytes file) flash_bytes verify b
      = some (fr, b')) :
    ∃ evs, b'.trace = b.trace ++ evs
      ∧ ((file = [] ∧ fr = FR_INT_ERR ∧ evs = [])
        ∨ (file ≠ [] ∧ fr = FR_OK
            ∧ Issues evs (restore_cmds verify file (min file.length flash_bytes) 0
                ((min file.length flash_bytes + 4095) / 4096)))
        ∨ (file ≠ [] ∧ verify = true ∧ fr = FR_INT_ERR
            ∧ ∃ m rb, 4096 * m < min file.length flash_bytes
              ∧ rb ≠ sector_buf file (min file.length flash_bytes) m
              ∧ Issues evs (restore_cmds true file (min file.length flash_bytes) 0 m
                  ++ sector_cmds true (4096 * m)
                      (sector_buf file (min file.length flash_bytes) m) rb))) := by
  have hmod : file.length % 2 ^ 32 = file.length := Nat.mod_eq_of_lt hsize
  unfold flash_restore_from_file at h
  simp only [SdSource.ofBytes, FR_OK, ne_eq, not_true_eq_false, if_false, hmod] at h
  by_cases h0 : file.length = 0
  · simp only [h0, if_true, Option.some.injEq, Prod.mk.injEq] at h
    obtain ⟨rfl, rfl⟩ := h
    exact ⟨[], by simp, Or.inl ⟨List.length_eq_zero.1 h0, rfl, rfl⟩⟩
  · have hne : file ≠ [] := fun e => h0 (by simp [e])
    have htodo : (if file.length > flash_bytes then flash_bytes else file.length)
        = min file.length flash_bytes := by
      split_ifs <;> omega
    simp only [h0, if_false, htodo] at h
    obtain ⟨evs, htr, hcase⟩ := restore_loop_issues D fuel file (min file.length flash_bytes)
      verify (by omega) (by omega) fuel 0 0 0 b fr b' (by simp)
      (by simpa [SdSource.ofBytes, FR_OK] using h)
    refine ⟨evs, htr, Or.inr ?_⟩
    rcases hcase with ⟨hfr, hi⟩ | ⟨hv, hfr, m, rb, -, hm, hrb, hi⟩
    · left
      refine ⟨hne, ?_, hi⟩
      rw [hfr]; simp [FR_OK]
    · right
      exact ⟨hne, hv, hfr, m, rb, hm, hrb, hi⟩


theorem page_cmds_addr_lt (base : Nat) (buf : List Nat) (hlen : buf.length ≤ 4096) :
    ∀ c ∈ page_cmds base buf, cmd_addr c < base + 4096 := by
  intro c hc
  simp only [page_cmds, List.mem_map, List.mem_range] at hc
  obtain ⟨j, hj, rfl⟩ := hc
  simp only [cmd_addr]
  omega

theorem sector_cmds_addr_lt (verify : Bool) (base : Nat) (buf rb : List Nat)
    (hlen : buf.length ≤ 4096) :
    ∀ c ∈ sector_cmds verify base buf rb, cmd_addr c < base + 4096 := by
  intro c hc
  simp only [sector_cmds, List.cons_append, List.mem_cons, List.mem_append] at hc
  rcases hc with rfl | hc | hc
  · simp [cmd_addr]
  · exact page_cmds_addr_lt base buf hlen c hc
  · split_ifs at hc
    · simp only [List.mem_singleton] at hc
      subst hc
      simp [cmd_addr]
    · simp at hc

theorem sector_buf_length_le (file : List Nat) (todo k : Nat) :
    (sector_buf file todo k).length ≤ 4096 := by
  simp only [sector_buf, List.length_take]
  omega

theorem restore_cmds_addr_lt (verify : Bool) (file : List Nat) (todo k m : Nat) :
    ∀ c ∈ restore_cmds verify file todo k m, cmd_addr c < 4096 * m := by
  intro c hc
  simp only [restore_cmds, List.mem_flatMap, List.mem_range'_1] at hc
  obtain ⟨j, ⟨hj1, hj2⟩, hc⟩ := hc
  have := sector_cmds_addr_lt verify (4096 * j) _ _ (sector_buf_length_le file todo j) c hc
  omega

end flash

end Firmware

namespace Firmware

namespace flash

/-! ## The ideal NOR device under erase and program -/

theorem nor_clock_state (tE tP : Nat) (s : Nor) (l : List Nat) :
    (clock_bytes (nor tE tP) s l).1 = { s with cmd := s.cmd ++ l } := by
  induction l generalizing s with
  | nil => simp [clock_bytes]
  | cons t ts ih =>
    simp only [clock_bytes]
    rw [ih]
    simp [nor]

theorem nor_write_enable (tE tP : Nat) (b : Bus Nor) :
    (write_enable (nor tE tP) b).dev = { b.dev with wel := true, cmd := [] } := by
  simp only [write_enable, cs_high, spi_write_blocking, cs_low, nor_clock_state]
  simp [nor]

theorem nor_status_le (s : Nor) : nor_status s ≤ 3 := by
  unfold nor_status
  split_ifs <;> omega

theorem nor_read_status (tE tP : Nat) (b : Bus Nor) :
    (read_status (nor tE tP) 0x05 b).2 = nor_status b.dev
    ∧ (read_status (nor tE tP) 0x05 b).1.dev = { b.dev with busy := b.dev.busy - 1, cmd := [] } := by
  constructor
  · have h3 := nor_status_le b.dev
    simp only [read_status, cs_high, spi_write_read_blocking, cs_low, clock_bytes]
    simp only [nor, List.nil_append, List.getD_cons_succ, List.getD_cons_zero]
    have : nor_status { mem := b.dev.mem, wel := b.dev.wel, busy := b.dev.busy, cmd := [5] }
        = nor_status b.dev := rfl
    rw [this]
    omega
  · simp only [read_status, cs_high, spi_write_read_blocking, cs_low, nor_clock_state]
    simp [nor]

theorem nor_wait_wip_clear (tE tP : Nat) (fuel : Nat) (b : Bus Nor) (h : b.dev.busy < fuel) :
    ∃ b', wait_wip_clear (nor tE tP) fuel b = some b'
      ∧ b'.dev = { b.dev with busy := 0, cmd := [] } := by
  induction fuel generalizing b with
  | zero => omega
  | succ n ih =>
    obtain ⟨hval, hdev⟩ := nor_read_status tE tP b
    rw [wait_wip_clear, hval]
    by_cases hb : b.dev.busy > 0
    · have hs : nor_status b.dev &&& 1 ≠ 0 := by
        rw [Nat.and_one_is_mod]
        unfold nor_status
        simp only [hb, if_true]
        split_ifs <;> omega
      simp only [hs, ne_eq, not_false_eq_true, if_true]
      obtain ⟨b', hrun, hb'⟩ := ih (read_status (nor tE tP) 0x05 b).1 (by rw [hdev]; simp; omega)
      refine ⟨b', hrun, ?_⟩
      rw [hb', hdev]
    · have hs : ¬ (nor_status b.dev &&& 1 ≠ 0) := by
        rw [Nat.and_one_is_mod]
        unfold nor_status
        simp only [hb, if_false]
        split_ifs <;> omega
      simp only [hs, if_false]
      refine ⟨_, rfl, ?_⟩
      rw [hdev]
      have : b.dev.busy = 0 := by omega
      simp [this]


theorem nor_sector_erase_4k (tE tP fuel addr : Nat) (b : Bus Nor) (hf : tE < fuel) :
    ∃ b', sector_erase_4k (nor tE tP) fuel addr b = some b'
      ∧ b'.dev = { mem := nor_erase b.dev.mem (addr % 2 ^ 24), wel := false, busy := 0,
                   cmd := [] } := by
  have hd : (cs_high (nor tE tP) (spi_write_blocking (nor tE tP) (cmd_hdr 0x20 addr)
      (cs_low (nor tE tP) (write_enable (nor tE tP) b)))).dev
      = { mem := nor_erase b.dev.mem (addr % 2 ^ 24), wel := false, busy := tE, cmd := [] } := by
    simp only [cs_high, spi_write_blocking, cs_low, nor_clock_state, nor_write_enable]
    simp [nor, cmd_hdr, addr24_hdr]
  obtain ⟨b', hrun, hb'⟩ := nor_wait_wip_clear tE tP fuel _ (by rw [hd]; exact hf)
  refine ⟨b', by simpa [sector_erase_4k] using hrun, ?_⟩
  rw [hb', hd]

theorem nor_page_program (tE tP fuel addr : Nat) (d : Nat) (ds : List Nat) (b : Bus Nor)
    (hf : tP < fuel) :
    ∃ b', page_program (nor tE tP) fuel addr (d :: ds) b = some b'
      ∧ b'.dev = { mem := nor_program b.dev.mem (addr % 2 ^ 24) (d :: ds), wel := false,
                   busy := 0, cmd := [] } := by
  have hd : (cs_high (nor tE tP) (spi_write_blocking (nor tE tP) (d :: ds)
      (spi_write_blocking (nor tE tP) (cmd_hdr 0x02 addr)
        (cs_low (nor tE tP) (write_enable (nor tE tP) b))))).dev
      = { mem := nor_program b.dev.mem (addr % 2 ^ 24) (d :: ds), wel := false, busy := tP,
          cmd := [] } := by
    simp only [cs_high, spi_write_blocking, cs_low, nor_clock_state, nor_write_enable]
    simp [nor, cmd_hdr, addr24_hdr]
  obtain ⟨b', hrun, hb'⟩ := nor_wait_wip_clear tE tP fuel _ (by rw [hd]; exact hf)
  refine ⟨b', by simpa [page_program] using hrun, ?_⟩
  rw [hb', hd]


theorem nor_next_in_page (p i : Nat) (hp : p % 256 = 0) (hi : i + 1 < 256) :
    nor_next (p + i) = p + (i + 1) := by
  unfold nor_next
  omega

theorem nor_program_page (p : Nat) (hp : p % 256 = 0) (data : List Nat) :
    ∀ (m : Nat → Fin 256) (i : Nat), i + data.length ≤ 256 →
      nor_program m (p + i) data
        = fun x => if p + i ≤ x ∧ x < p + i + data.length
            then ⟨((m x).val &&& data.getD (x - (p + i)) 0) % 256, Nat.mod_lt _ (by decide)⟩
            else m x := by
  induction data with
  | nil =>
    intro m i _
    funext x
    have : ¬ (p + i ≤ x ∧ x < p + i + ([] : List Nat).length) := by simp
    simp only [nor_program, this, if_false]
  | cons d ds ih =>
    intro m i hfit
    simp only [List.length_cons] at hfit
    cases ds with
    | nil =>
      funext x
      simp only [nor_program, List.length_singleton]
      by_cases hx : x = p + i
      · subst hx; simp
      · have : ¬ (p + i ≤ x ∧ x < p + i + 1) := by omega
        simp [hx, this]
    | cons d2 ds2 =>
      simp only [List.length_cons] at hfit
      rw [nor_program, nor_next_in_page p i hp (by omega), ih _ (i + 1) (by simp; omega)]
      funext x
      by_cases hx : x = p + i
      · subst hx
        have h1 : ¬ (p + (i + 1) ≤ p + i ∧ p + i < p + (i + 1) + (d2 :: ds2).length) := by omega
        simp [h1]
      · by_cases h2 : p + (i + 1) ≤ x ∧ x < p + (i + 1) + (d2 :: ds2).length
        · have h3 : p + i ≤ x ∧ x < p + i + (d :: d2 :: ds2).length := by
            simp only [List.length_cons] at h2 ⊢; omega
          have h4 : x - (p + i) = (x - (p + (i + 1))) + 1 := by omega
          simp only [h2, h3, and_self, if_true, hx, if_false, h4, List.getD_cons_succ]
        · have h3 : ¬ (p + i ≤ x ∧ x < p + i + (d :: d2 :: ds2).length) := by
            simp only [List.length_cons] at h2 ⊢; omega
          simp only [h2, h3, if_false, hx]


theorem getD_take_drop (buf : List Nat) (off n idx : Nat) (h : idx < n) :
    ((buf.drop off).take n).getD idx 0 = buf.getD (off + idx) 0 := by
  simp only [List.getD_eq_getElem?_getD, List.getElem?_take, h, if_true, List.getElem?_drop]

theorem and_255 (v : Nat) : 255 &&& v = v % 256 := by
  rw [Nat.and_comm]
  exact Nat.and_pow_two_sub_one_eq_mod v 8

theorem nor_erase_eq_restored_sector (mem0 : Nat → Fin 256) (base : Nat) (buf : List Nat)
    (hbase : base % 4096 = 0) :
    nor_erase mem0 base = restored_sector mem0 base buf 0 := by
  funext x
  simp only [nor_erase, restored_sector]
  have h1 : ¬ (base ≤ x ∧ x < base + 0) := by omega
  rw [if_neg h1]
  by_cases h2 : base ≤ x ∧ x < base + 4096
  · have : x / 4096 = base / 4096 := by omega
    rw [if_pos h2, if_pos this]
  · have : ¬ x / 4096 = base / 4096 := by omega
    rw [if_neg h2, if_neg this]

theorem restored_sector_program (mem0 : Nat → Fin 256) (base : Nat) (buf : List Nat) (j : Nat)
    (hbase : base % 4096 = 0) (hlen : buf.length ≤ 4096) (hj : 256 * j < buf.length) :
    nor_program (restored_sector mem0 base buf (256 * j)) (base + 256 * j)
        ((buf.drop (256 * j)).take 256)
      = restored_sector mem0 base buf (min (256 * (j + 1)) buf.length) := by
  have hp : (base + 256 * j) % 256 = 0 := by omega
  have hdl : ((buf.drop (256 * j)).take 256).length = min 256 (buf.length - 256 * j) := by
    simp
  have h := nor_program_page (base + 256 * j) hp ((buf.drop (256 * j)).take 256)
    (restored_sector mem0 base buf (256 * j)) 0 (by rw [hdl]; omega)
  rw [Nat.add_zero] at h
  rw [h]
  funext x
  by_cases hin : base + 256 * j ≤ x
      ∧ x < base + 256 * j + ((buf.drop (256 * j)).take 256).length
  · have hin' := hin
    rw [hdl] at hin'
    have hold : restored_sector mem0 base buf (256 * j) x = 255 := by
      have h1 : ¬ (base ≤ x ∧ x < base + 256 * j) := by omega
      have h2 : base ≤ x ∧ x < base + 4096 := by omega
      simp only [restored_sector]
      rw [if_neg h1, if_pos h2]
    have hnew : base ≤ x ∧ x < base + min (256 * (j + 1)) buf.length := by omega
    have hidx : 256 * j + (x - (base + 256 * j)) = x - base := by omega
    rw [if_pos hin, hold]
    simp only [restored_sector]
    rw [if_pos hnew]
    apply Fin.ext
    show (255 &&& ((buf.drop (256 * j)).take 256).getD (x - (base + 256 * j)) 0) % 256
      = buf.getD (x - base) 0 % 256
    rw [getD_take_drop buf (256 * j) 256 _ (by omega), hidx, and_255, Nat.mod_mod]
  · have hin' := hin
    rw [hdl] at hin'
    rw [if_neg hin]
    simp only [restored_sector]
    by_cases h1 : base ≤ x ∧ x < base + 256 * j
    · have h2 : base ≤ x ∧ x < base + min (256 * (j + 1)) buf.length := by omega
      rw [if_pos h1, if_pos h2]
    · have h2 : ¬ (base ≤ x ∧ x < base + min (256 * (j + 1)) buf.length) := by omega
      rw [if_neg h1, if_neg h2]


theorem nor_program_pages (tE tP fuel : Nat) (mem0 : Nat → Fin 256) (base : Nat)
    (buf : List Nat) (hbase : base % 4096 = 0) (hlen : buf.length ≤ 4096)
    (hb24 : base + 4096 ≤ 2 ^ 24) (hf : tP < fuel) :
    ∀ (n j : Nat) (b : Bus Nor), (buf.length + 255) / 256 - j < n →
      b.dev.mem = restored_sector mem0 base buf (min (256 * j) buf.length) →
      ∃ b', program_pages (nor tE tP) fuel base buf n (256 * j) b = some b'
        ∧ b'.dev.mem = restored_sector mem0 base buf buf.length := by
  intro n
  induction n with
  | zero => intro j b h; omega
  | succ n ih =>
    intro j b hn hmem
    rw [program_pages]
    by_cases hoff : 256 * j < buf.length
    · simp only [hoff, if_true, FLASH_PAGE_SIZE]
      have hdata : (buf.drop (256 * j)).take
          (if buf.length - 256 * j > 256 then 256 else buf.length - 256 * j)
          = (buf.drop (256 * j)).take 256 := by
        split_ifs with hc
        · rfl
        · rw [List.take_of_length_le (by simp), List.take_of_length_le (by simp; omega)]
      have hne : (buf.drop (256 * j)).take 256 ≠ [] := by
        intro he
        have := congrArg List.length he
        simp at this
        omega
      obtain ⟨d, ds, hcons⟩ := List.exists_cons_of_ne_nil hne
      have haddr : (base + 256 * j) % 2 ^ 32 % 2 ^ 24 = base + 256 * j := by
        rw [Nat.mod_eq_of_lt (by omega), Nat.mod_eq_of_lt (by omega)]
      obtain ⟨b1, hrun, hdev⟩ := nor_page_program tE tP fuel ((base + 256 * j) % 2 ^ 32) d ds b hf
      rw [hdata, hcons, hrun]
      simp only
      have hnext : (256 * j + 256) % 2 ^ 32 = 256 * (j + 1) := by
        rw [Nat.mod_eq_of_lt (by omega)]; ring
      rw [hnext]
      apply ih (j + 1) b1 (by omega)
      rw [hdev]
      simp only
      rw [haddr, ← hcons, hmem, Nat.min_eq_left (by omega)]
      exact restored_sector_program mem0 base buf j hbase hlen hoff
    · simp only [hoff, if_false]
      refine ⟨b, rfl, ?_⟩
      rw [hmem, Nat.min_eq_right (by omega)]

theorem getD_sector_buf (file : List Nat) (todo k i : Nat)
    (hi : i < min 4096 (todo - 4096 * k)) :
    (sector_buf file todo k).getD i 0 = file.getD (4096 * k + i) 0 := by
  unfold sector_buf
  exact getD_take_drop file (4096 * k) _ i hi

/-- Reading back a sector that was just programmed with bytes returns them. -/
theorem nor_bytes_restored_sector (mem0 : Nat → Fin 256) (base : Nat) (buf : List Nat)
    (hbytes : ∀ v ∈ buf, v < 256) :
    nor_bytes (restored_sector mem0 base buf buf.length) base buf.length = buf := by
  apply List.ext_getElem
  · simp [nor_bytes]
  · intro i h1 h2
    have hin : base ≤ base + i ∧ base + i < base + buf.length := by omega
    simp only [nor_bytes, List.getElem_map, List.getElem_range, restored_sector]
    rw [if_pos hin]
    simp only [cell_of, Nat.add_sub_cancel_left]
    rw [List.getD_eq_getElem?_getD, List.getElem?_eq_getElem h2, Option.getD_some]
    exact Nat.mod_eq_of_lt (hbytes _ (List.getElem_mem _))


theorem restored_sector_eq_partly (mem0 : Nat → Fin 256) (file : List Nat) (todo k : Nat)
    (hfile : todo ≤ file.length) (hk : 4096 * k < todo) :
    restored_sector (partly_restored mem0 file todo k) (4096 * k) (sector_buf file todo k)
        (sector_buf file todo k).length
      = partly_restored mem0 file todo (k + 1) := by
  have hlen : (sector_buf file todo k).length = min 4096 (todo - 4096 * k) := by
    simp only [sector_buf, List.length_take, List.length_drop]; omega
  funext x
  simp only [restored_sector, partly_restored, restored]
  rw [hlen]
  by_cases h1 : 4096 * k ≤ x ∧ x < 4096 * k + min 4096 (todo - 4096 * k)
  · have h2 : x < 4096 * (k + 1) := by omega
    have h3 : x < todo := by omega
    rw [if_pos h1, if_pos h2, if_pos h3]
    simp only [cell_of]
    apply Fin.ext
    show (sector_buf file todo k).getD (x - 4096 * k) 0 % 256 = file.getD x 0 % 256
    rw [getD_sector_buf file todo k _ (by omega)]
    congr 2
    omega
  · rw [if_neg h1]
    by_cases h2 : 4096 * k ≤ x ∧ x < 4096 * k + 4096
    · have h3 : x < 4096 * (k + 1) := by omega
      have h4 : ¬ x < todo := by omega
      have h5 : x < (todo + 4095) / 4096 * 4096 := by omega
      rw [if_pos h2, if_pos h3, if_neg h4, if_pos h5]
    · rw [if_neg h2]
      by_cases h3 : x < 4096 * k
      · have h4 : x < 4096 * (k + 1) := by omega
        rw [if_pos h3, if_pos h4]
      · have h4 : ¬ x < 4096 * (k + 1) := by omega
        rw [if_neg h3, if_neg h4]

theorem partly_restored_all (mem0 : Nat → Fin 256) (file : List Nat) (todo : Nat) :
    partly_restored mem0 file todo ((todo + 4095) / 4096) = restored mem0 file todo := by
  funext x
  simp only [partly_restored, restored]
  by_cases h1 : x < 4096 * ((todo + 4095) / 4096)
  · rw [if_pos h1]
  · have h2 : ¬ x < todo := by omega
    have h3 : ¬ x < (todo + 4095) / 4096 * 4096 := by omega
    rw [if_neg h1, if_neg h2, if_neg h3]

/-- The sector loop on the ideal NOR device, reading an intact file of bytes:
with enough budget it ends with `FR_OK` and the flash holds the restored
contents. -/
theorem nor_restore_loop (tE tP fuel : Nat) (file : List Nat) (todo : Nat) (verify : Bool)
    (htodo : todo ≤ 2 ^ 24) (hfile : todo ≤ file.length) (hbytes : ∀ v ∈ file, v < 256)
    (hfE : tE < fuel) (hfP : tP < fuel) (hfp : 16 < fuel) (mem0 : Nat → Fin 256) (n : Nat) :
    ∀ (k fptr fr0 : Nat) (b : Bus Nor), (todo + 4095) / 4096 - k < n →
      k ≤ (todo + 4095) / 4096 → (4096 * k < todo → fptr = 4096 * k) →
      b.dev.mem = partly_restored mem0 file todo k →
      ∃ b', restore_loop (nor tE tP) fuel (SdSource.ofBytes file) todo verify n (4096 * k)
            fptr fr0 b
          = some ((if 4096 * k < todo then FR_OK else fr0), b')
        ∧ b'.dev.mem = restored mem0 file todo := by
  induction n with
  | zero => intro k fptr fr0 b h; omega
  | succ n ih =>
    intro k fptr fr0 b hn hkN hptr hmem
    by_cases hk : 4096 * k < todo
    · rw [hptr hk, restore_loop_unfold (nor tE tP) fuel file todo verify htodo hfile n k fr0 b hk]
      have hlen : (sector_buf file todo k).length = min 4096 (todo - 4096 * k) := by
        simp only [sector_buf, List.length_take, List.length_drop]; omega
      have hmod : 4096 * k % 2 ^ 24 = 4096 * k := Nat.mod_eq_of_lt (by omega)
      obtain ⟨b1, hrun1, hdev1⟩ := nor_sector_erase_4k tE tP fuel (4096 * k) b hfE
      have hmem1 : b1.dev.mem
          = restored_sector (partly_restored mem0 file todo k) (4096 * k)
              (sector_buf file todo k) (min (256 * 0) (sector_buf file todo k).length) := by
        rw [hdev1]
        simp only [Nat.mul_zero, Nat.zero_min]
        rw [hmod, hmem]
        exact nor_erase_eq_restored_sector _ _ _ (by omega)
      obtain ⟨b2, hrun2, hmem2⟩ := nor_program_pages tE tP fuel (partly_restored mem0 file todo k)
        (4096 * k) (sector_buf file todo k) (by omega) (by omega) (by omega) hfP fuel 0 b1
        (by omega) hmem1
      rw [Nat.mul_zero] at hrun2
      rw [hrun1]
      simp only
      rw [hrun2]
      simp only
      have hmem2' : b2.dev.mem = partly_restored mem0 file todo (k + 1) := by
        rw [hmem2]; exact restored_sector_eq_partly mem0 file todo k hfile hk
      have hnextptr : 4096 * (k + 1) < todo →
          4096 * k + (sector_buf file todo k).length = 4096 * (k + 1) := by
        intro hlt; omega
      obtain ⟨hrd, hrdev⟩ := nor_read_data tE tP (4096 * k) (sector_buf file todo k).length b2
        (by rw [hmod]; omega)
      have hrb : (read_data (nor tE tP) (4096 * k) (sector_buf file todo k).length b2).2
          = sector_buf file todo k := by
        rw [hrd, hmod, hmem2]
        apply nor_bytes_restored_sector
        intro v hv
        exact hbytes v (List.mem_of_mem_drop (List.mem_of_mem_take hv))
      have hrmem : (read_data (nor tE tP) (4096 * k) (sector_buf file todo k).length b2).1.dev.mem
          = partly_restored mem0 file todo (k + 1) := by
        rw [hrdev]; exact hmem2'
      rcases Bool.eq_false_or_eq_true verify with hv | hv
      · subst hv
        simp only [if_true, hrb, ne_eq, not_true_eq_false, if_false]
        obtain ⟨b', hrun, hfin⟩ := ih (k + 1) _ FR_OK _ (by omega) (by omega) hnextptr hrmem
        refine ⟨b', ?_, hfin⟩
        rw [hrun]
        simp [hk]
      · subst hv
        simp only [Bool.false_eq_true, if_false]
        obtain ⟨b', hrun, hfin⟩ := ih (k + 1) _ FR_OK b2 (by omega) (by omega) hnextptr hmem2'
        refine ⟨b', ?_, hfin⟩
        rw [hrun]
        simp [hk]
    · rw [restore_loop]
      simp only [hk, if_false]
      refine ⟨b, rfl, ?_⟩
      have : k = (todo + 4095) / 4096 := by omega
      rw [hmem, this]
      exact partly_restored_all mem0 file todo


/-- The whole restore on the ideal NOR device. -/
theorem nor_flash_restore (tE tP fuel : Nat) (file : List Nat) (flash_bytes : Nat)
    (verify : Bool) (b : Bus Nor) (hfb : flash_bytes ≤ 2 ^ 24) (hsize : file.length < 2 ^ 32)
    (hne : file ≠ []) (hbytes : ∀ v ∈ file, v < 256)
    (hfE : tE < fuel) (hfP : tP < fuel) (hfp : 16 < fuel)
    (hfn : (min file.length flash_bytes + 4095) / 4096 < fuel) :
    ∃ b', flash_restore_from_file (nor tE tP) fuel (SdSource.ofBytes file) flash_bytes verify b
        = some (FR_OK, b')
      ∧ b'.dev.mem = restored b.dev.mem file (min file.length flash_bytes) := by
  have hmod : file.length % 2 ^ 32 = file.length := Nat.mod_eq_of_lt hsize
  have h0 : file.length ≠ 0 := fun e => hne (List.length_eq_zero.1 e)
  have htodo : (if file.length > flash_bytes then flash_bytes else file.length)
      = min file.length flash_bytes := by
    split_ifs <;> omega
  have hstart : b.dev.mem = partly_restored b.dev.mem file (min file.length flash_bytes) 0 := by
    funext x
    simp [partly_restored]
  obtain ⟨b', hrun, hmem⟩ := nor_restore_loop tE tP fuel file (min file.length flash_bytes)
    verify (by omega) (by omega) hbytes hfE hfP hfp b.dev.mem fuel 0 0 FR_OK b (by omega)
    (by omega) (by simp) hstart
  refine ⟨b', ?_, hmem⟩
  unfold flash_restore_from_file
  simp only [SdSource.ofBytes, FR_OK, ne_eq, not_true_eq_false, if_false, hmod, h0, htodo]
  simp only [Nat.mul_zero, SdSource.ofBytes, FR_OK] at hrun
  rw [hrun]
  simp

/-! ### Backup on the ideal NOR device -/

theorem nor_bytes_add (mem : Nat → Fin 256) (a k l : Nat) :
    nor_bytes mem a (k + l) = nor_bytes mem a k ++ nor_bytes mem (a + k) l := by
  simp only [nor_bytes, List.range_add, List.map_append, List.map_map]
  congr 1
  apply List.map_congr_left
  intro i _
  simp [Function.comp, Nat.add_assoc]

theorem nor_bytes_length (mem : Nat → Fin 256) (a n : Nat) : (nor_bytes mem a n).length = n := by
  simp [nor_bytes]

/-- The exchanges of a backup of `[addr, flash_bytes)` in `n` chunks on a device
whose cells are `mem`. -/
theorem backup_loop_nor (tE tP : Nat) (sink : SdSink)
    (hsink : ∀ file buf, sink.f_write file buf = (FR_OK, buf.length))
    (flash_bytes : Nat) (hfb : flash_bytes ≤ 2 ^ 24) (n : Nat) :
    ∀ (fuel addr fr : Nat) (file : List Nat) (b : Bus Nor),
      n = (flash_bytes - addr + 4095) / 4096 → n < fuel →
      ∃ (b' : Bus Nor) (evs : List BusEvent),
        backup_loop (nor tE tP) sink flash_bytes fuel addr fr file b
          = some ((if addr < flash_bytes then FR_OK else fr),
              file ++ nor_bytes b.dev.mem addr (flash_bytes - addr), b')
        ∧ b'.dev.mem = b.dev.mem
        ∧ b'.trace = b.trace ++ evs
        ∧ Emits evs ((List.range n).map (fun k =>
            [BusEvent.write (cmd_hdr 0x03 (addr + 4096 * k)),
              BusEvent.read 0 (nor_bytes b.dev.mem (addr + 4096 * k)
                (min 4096 (flash_bytes - (addr + 4096 * k))))])) := by
  induction n with
  | zero =>
    intro fuel addr fr file b hn hfuel
    obtain ⟨f, rfl⟩ : ∃ f, fuel = f + 1 := ⟨fuel - 1, by omega⟩
    have hge : ¬ addr < flash_bytes := by omega
    refine ⟨b, [], ?_, rfl, by simp, ?_⟩
    · have h0 : flash_bytes - addr = 0 := by omega
      simp [backup_loop, hge, h0, nor_bytes]
    · simpa using emits_nil
  | succ n ih =>
    intro fuel addr fr file b hn hfuel
    obtain ⟨f, rfl⟩ : ∃ f, fuel = f + 1 := ⟨fuel - 1, by omega⟩
    have hlt : addr < flash_bytes := by omega
    set chunk := if flash_bytes - addr > 4096 then 4096 else flash_bytes - addr with hchunk
    have hchunk' : chunk = min 4096 (flash_bytes - addr) := by
      simp only [hchunk]; split_ifs <;> omega
    have hmod : addr % 2 ^ 24 = addr := Nat.mod_eq_of_lt (by omega)
    obtain ⟨hdata, hdev⟩ := nor_read_data tE tP addr chunk b (by rw [hmod]; omega)
    rw [hmod] at hdata
    have hlen : (read_data (nor tE tP) addr chunk b).2.length = chunk :=
      read_data_length _ _ _ _
    have hnext : (addr + 4096) % 2 ^ 32 = addr + 4096 := Nat.mod_eq_of_lt (by omega)
    obtain ⟨b', evs, hrun, hmem, htr, hem⟩ := ih f (addr + 4096) FR_OK
      (file ++ (read_data (nor tE tP) addr chunk b).2) (read_data (nor tE tP) addr chunk b).1
      (by omega) (by omega)
    have hmem0 : (read_data (nor tE tP) addr chunk b).1.dev.mem = b.dev.mem := by
      rw [hdev]
    rw [hmem0] at hrun hmem hem
    refine ⟨b', [BusEvent.cs_low, BusEvent.write (cmd_hdr 0x03 addr),
      BusEvent.read 0 (nor_bytes b.dev.mem addr chunk), BusEvent.cs_high] ++ evs, ?_, hmem, ?_, ?_⟩
    · have htake : List.take chunk (read_data (nor tE tP) addr chunk b).2
          = (read_data (nor tE tP) addr chunk b).2 :=
        List.take_of_length_le (by omega)
      rw [backup_loop]
      simp only [hlt, if_true, ← hchunk, hsink, hlen, Nat.min_self, ne_eq, not_true_eq_false,
        or_self, if_false, hnext, htake]
      rw [hrun, hdata]
      have hsplit : nor_bytes b.dev.mem addr (flash_bytes - addr)
          = nor_bytes b.dev.mem addr chunk
            ++ nor_bytes b.dev.mem (addr + 4096) (flash_bytes - (addr + 4096)) := by
        by_cases hc : flash_bytes - addr > 4096
        · have h4 : chunk = 4096 := by simp only [hchunk, hc, if_true]
          have e : flash_bytes - addr = 4096 + (flash_bytes - (addr + 4096)) := by omega
          rw [h4]
          conv_lhs => rw [e]
          exact nor_bytes_add _ _ _ _
        · have : chunk = flash_bytes - addr := by simp only [hchunk, hc, if_false]
          have h0 : flash_bytes - (addr + 4096) = 0 := by omega
          rw [this, h0]
          simp [nor_bytes]
      rw [hsplit]
      simp [FR_OK, List.append_assoc]
    · rw [htr, read_data_trace, hdata]
      simp [List.append_assoc]
    · have h1 := emits_read addr (nor_bytes b.dev.mem addr chunk)
      have h2 := emits_append h1 hem
      rw [List.range_succ_eq_map, List.map_cons, List.map_map]
      have hfun : ((fun k => [BusEvent.write (cmd_hdr 0x03 (addr + 4096 * k)),
            BusEvent.read 0 (nor_bytes b.dev.mem (addr + 4096 * k)
              (min 4096 (flash_bytes - (addr + 4096 * k))))]) ∘ Nat.succ)
          = fun k => [BusEvent.write (cmd_hdr 0x03 (addr + 4096 + 4096 * k)),
            BusEvent.read 0 (nor_bytes b.dev.mem (addr + 4096 + 4096 * k)
              (min 4096 (flash_bytes - (addr + 4096 + 4096 * k))))] := by
        funext k
        have : addr + 4096 * (k + 1) = addr + 4096 + 4096 * k := by ring
        simp only [Function.comp, Nat.succ_eq_add_one, this]
      rw [hfun]
      simpa [hchunk'] using h2

end flash

end Firmware

namespace Firmware

namespace flash

/-! ## Restore with verification -/

/-- C5. Restore with `verify = true` from an intact file (less than 4 GiB) into a
flash of at most `2 ^ 24` bytes, on any device: whenever the call returns, one
of three things happened.  The file was empty: `FR_INT_ERR`, nothing on the bus.
Or the result is `FR_OK` and the flash accesses were, sector after sector,
erase, page programs and a read-back that returned exactly the bytes read from
the file for that sector.  Or the result is `FR_INT_ERR` and the accesses end
with the read-back of the first sector `m` whose read-back differed from the
file: every earlier sector was read back equal, and no access, in particular no
erase or program, goes to an address of a later sector. -/
theorem flash_restore_verify_outcomes {σ : Type} (D : SpiDevice σ) (fuel : Nat)
    (file : List Nat) (flash_bytes : Nat) (b : Bus σ) (fr : Nat) (b' : Bus σ)
    (hfb : flash_bytes ≤ 2 ^ 24) (hsize : file.length < 2 ^ 32)
    (h : flash_restore_from_file D fuel (SdSource.ofBytes file) flash_bytes true b
      = some (fr, b')) :
    ∃ evs, b'.trace = b.trace ++ evs
      ∧ ((file = [] ∧ fr = FR_INT_ERR ∧ evs = [])
        ∨ (file ≠ [] ∧ fr = FR_OK
            ∧ flash_cmds evs = restore_cmds true file (min file.length flash_bytes) 0
                ((min file.length flash_bytes + 4095) / 4096))
        ∨ (file ≠ [] ∧ fr = FR_INT_ERR
            ∧ ∃ m rb, 4096 * m < min file.length flash_bytes
              ∧ rb ≠ sector_buf file (min file.length flash_bytes) m
              ∧ flash_cmds evs = restore_cmds true file (min file.length flash_bytes) 0 m
                  ++ sector_cmds true (4096 * m)
                      (sector_buf file (min file.length flash_bytes) m) rb
              ∧ ∀ c ∈ flash_cmds evs, cmd_addr c < 4096 * (m + 1))) := by
  obtain ⟨evs, htr, hcase⟩ := flash_restore_issues D fuel file flash_bytes true b fr b' hfb
    hsize h
  refine ⟨evs, htr, ?_⟩
  rcases hcase with h1 | ⟨hne, hfr, hi⟩ | ⟨hne, -, hfr, m, rb, hm, hrb, hi⟩
  · exact Or.inl h1
  · exact Or.inr (Or.inl ⟨hne, hfr, issues_flash_cmds_eq hi⟩)
  · refine Or.inr (Or.inr ⟨hne, hfr, m, rb, hm, hrb, issues_flash_cmds_eq hi, ?_⟩)
    rw [issues_flash_cmds_eq hi]
    intro c hc
    rcases List.mem_append.1 hc with hc | hc
    · have := restore_cmds_addr_lt true file _ 0 m c hc
      omega
    · have := sector_cmds_addr_lt true (4096 * m) _ rb (sector_buf_length_le _ _ _) c hc
      omega


/-- C5, witness: restoring the one byte file `[1]` with verification on a device
that answers every byte with `0` ends with `FR_INT_ERR` after the read-back. -/
theorem flash_restore_verify_outcomes_witness :
    ∃ evs, (Bus.mk () one_byte_restore_trace).trace = (Bus.mk () []).trace ++ evs
      ∧ (([1] = ([] : List Nat) ∧ FR_INT_ERR = FR_INT_ERR ∧ evs = [])
        ∨ ([1] ≠ ([] : List Nat) ∧ FR_INT_ERR = FR_OK
            ∧ flash_cmds evs = restore_cmds true [1] (min [1].length 4096) 0
                ((min [1].length 4096 + 4095) / 4096))
        ∨ ([1] ≠ ([] : List Nat) ∧ FR_INT_ERR = FR_INT_ERR
            ∧ ∃ m rb, 4096 * m < min [1].length 4096
              ∧ rb ≠ sector_buf [1] (min [1].length 4096) m
              ∧ flash_cmds evs = restore_cmds true [1] (min [1].length 4096) 0 m
                  ++ sector_cmds true (4096 * m) (sector_buf [1] (min [1].length 4096) m) rb
              ∧ ∀ c ∈ flash_cmds evs, cmd_addr c < 4096 * (m + 1))) :=
  flash_restore_verify_outcomes zero_device 2 [1] 4096 ⟨(), []⟩ FR_INT_ERR
    ⟨(), one_byte_restore_trace⟩ (by decide) (by decide) rfl

end flash

end Firmware

namespace Firmware

namespace flash

/-! ## Backup followed by restore -/

theorem nor_bytes_lt (mem : Nat → Fin 256) (a n : Nat) : ∀ v ∈ nor_bytes mem a n, v < 256 := by
  intro v hv
  simp only [nor_bytes, List.mem_map, List.mem_range] at hv
  obtain ⟨i, -, rfl⟩ := hv
  exact (mem (a + i)).isLt

theorem cell_of_nor_bytes (mem : Nat → Fin 256) (n x : Nat) (hx : x < n) :
    cell_of (nor_bytes mem 0 n) x = mem x := by
  apply Fin.ext
  simp only [cell_of, nor_bytes]
  rw [List.getD_eq_getElem?_getD, List.getElem?_eq_getElem (by simpa using hx)]
  simp only [List.getElem_map, List.getElem_range, Nat.zero_add, Option.getD_some]
  exact Nat.mod_eq_of_lt (mem x).isLt

/-- C6. On the ideal NOR device (sector erase sets the sector to `0xFF`, page
program stores the payload into erased cells, reads return the stored bytes),
for every `totalBytes` with `1 ≤ totalBytes ≤` flash size `≤ 2 ^ 24`: a backup
of `totalBytes` bytes to a file that accepts every write, followed by a restore
of the produced file (with or without verification, for a flash size of at
least `totalBytes`), ends with `FR_OK` twice and leaves the flash bytes
`[0, totalBytes)` as they were before the backup.  The iteration budget `fuel`
only has to exceed the number of chunks and the erase and program latencies of
the device. -/
theorem backup_restore_round_trip (tE tP : Nat) (sink : SdSink) (old : List Nat)
    (totalBytes flashSize fuel : Nat) (verify : Bool) (b : Bus Nor)
    (hmount : sink.fr_mount = FR_OK) (hopen : sink.fr_open = FR_OK)
    (hsink : ∀ file buf, sink.f_write file buf = (FR_OK, buf.length))
    (h1 : 1 ≤ totalBytes) (h2 : totalBytes ≤ flashSize) (h3 : flashSize ≤ 2 ^ 24)
    (hfE : tE < fuel) (hfP : tP < fuel) (hfp : 16 < fuel)
    (hfn : (totalBytes + 4095) / 4096 < fuel) :
    ∃ (file : List Nat) (b1 b2 : Bus Nor),
      flash_backup_to_file (nor tE tP) fuel sink old totalBytes b = some (FR_OK, file, b1)
      ∧ flash_restore_from_file (nor tE tP) fuel (SdSource.ofBytes file) flashSize verify b1
          = some (FR_OK, b2)
      ∧ ∀ x, x < totalBytes → b2.dev.mem x = b.dev.mem x := by
  obtain ⟨b1, evs, hrun, hmem, -, -⟩ := backup_loop_nor tE tP sink hsink totalBytes (by omega)
    ((totalBytes + 4095) / 4096) fuel 0 FR_OK [] b (by simp) hfn
  have hlen : (nor_bytes b.dev.mem 0 totalBytes).length = totalBytes := nor_bytes_length _ _ _
  have hmin : min (nor_bytes b.dev.mem 0 totalBytes).length flashSize = totalBytes := by
    rw [hlen]; omega
  have hne : nor_bytes b.dev.mem 0 totalBytes ≠ [] := by
    intro he
    rw [he] at hlen
    simp at hlen
    omega
  obtain ⟨b2, hrun2, hmem2⟩ := nor_flash_restore tE tP fuel (nor_bytes b.dev.mem 0 totalBytes)
    flashSize verify b1 h3 (by rw [hlen]; omega) hne (nor_bytes_lt _ _ _) hfE hfP hfp
    (by rw [hmin]; exact hfn)
  refine ⟨nor_bytes b.dev.mem 0 totalBytes, b1, b2, ?_, hrun2, ?_⟩
  · have hpos : 0 < totalBytes := by omega
    simp only [flash_backup_to_file, hmount, hopen, ne_eq, not_true_eq_false, if_false, hrun]
    simp [hpos]
  · intro x hx
    rw [hmem2, hmin, hmem]
    simp only [restored]
    rw [if_pos hx]
    exact cell_of_nor_bytes b.dev.mem totalBytes x hx

/-- C6, witness: 5000 bytes of a flash whose cells all hold `0x5A`, device
latencies of three and one status polls. -/
theorem backup_restore_round_trip_witness :
    ∃ (file : List Nat) (b1 b2 : Bus Nor),
      flash_backup_to_file (nor 3 1) 17
          ⟨FR_OK, FR_OK, fun _ buf => (FR_OK, buf.length), fun _ => FR_OK, fun _ => FR_OK⟩ []
          5000 ⟨⟨fun _ => 0x5A, false, 0, []⟩, []⟩ = some (FR_OK, file, b1)
      ∧ flash_restore_from_file (nor 3 1) 17 (SdSource.ofBytes file) 8192 true b1
          = some (FR_OK, b2)
      ∧ ∀ x, x < 5000 → b2.dev.mem x = 0x5A :=
  backup_restore_round_trip 3 1
    ⟨FR_OK, FR_OK, fun _ buf => (FR_OK, buf.length), fun _ => FR_OK, fun _ => FR_OK⟩ []
    5000 8192 17 true ⟨⟨fun _ => 0x5A, false, 0, []⟩, []⟩ rfl rfl (fun _ _ => rfl)
    (by decide) (by decide) (by decide) (by decide) (by decide) (by decide) (by decide)

end flash

end Firmware

namespace Firmware

namespace flash

/-! ## How much a restore programs -/

theorem chunks_flatten (n : Nat) :
    ∀ buf : List Nat, buf.length ≤ 256 * n →
      ((List.range n).map (fun j => (buf.drop (256 * j)).take 256)).flatten = buf := by
  induction n with
  | zero =>
    intro buf h
    have : buf = [] := List.length_eq_zero.1 (by omega)
    simp [this]
  | succ n ih =>
    intro buf h
    rw [List.range_succ_eq_map, List.map_cons, List.map_map, List.flatten_cons]
    have hfun : ((fun j => (buf.drop (256 * j)).take 256) ∘ Nat.succ)
        = fun j => ((buf.drop 256).drop (256 * j)).take 256 := by
      funext j
      simp only [Function.comp, Nat.succ_eq_add_one, List.drop_drop]
      congr 2
      ring
    rw [hfun, ih (buf.drop 256) (by simp; omega)]
    simp

theorem page_cmds_payload (base : Nat) (buf : List Nat) :
    ((page_cmds base buf).map program_payload).flatten = buf := by
  have := chunks_flatten ((buf.length + 255) / 256) buf (by omega)
  simpa [page_cmds, List.map_map, Function.comp, program_payload] using this

theorem sector_cmds_payload (verify : Bool) (base : Nat) (buf rb : List Nat) :
    ((sector_cmds verify base buf rb).map program_payload).flatten = buf := by
  simp only [sector_cmds, List.map_cons, List.map_append, List.flatten_cons,
    List.flatten_append, program_payload, List.nil_append, page_cmds_payload]
  split_ifs <;> simp [program_payload]

theorem restore_cmds_payload (verify : Bool) (file : List Nat) (todo : Nat)
    (hfile : todo ≤ file.length) (d : Nat) :
    ∀ k m, m = k + d → m ≤ (todo + 4095) / 4096 →
      ((restore_cmds verify file todo k m).map program_payload).flatten
        = (file.drop (4096 * k)).take (min (4096 * m) todo - 4096 * k) := by
  induction d with
  | zero =>
    intro k m hm _
    rw [restore_cmds_empty verify file todo k m (by omega)]
    have : min (4096 * m) todo - 4096 * k = 0 := by omega
    simp [this]
  | succ d ih =>
    intro k m hm hN
    rw [restore_cmds_step verify file todo k m (by omega), List.map_append,
      List.flatten_append, sector_cmds_payload, ih (k + 1) m (by omega) hN]
    have hk : 4096 * k < todo := by omega
    have hsplit : min (4096 * m) todo - 4096 * k
        = min 4096 (todo - 4096 * k) + (min (4096 * m) todo - 4096 * (k + 1)) := by omega
    rw [hsplit, List.take_add, sector_buf, List.append_cancel_left_eq]
    have hlen : ((file.drop (4096 * k)).take (min 4096 (todo - 4096 * k))).length
        = min 4096 (todo - 4096 * k) := by
      simp only [List.length_take, List.length_drop]; omega
    by_cases hfull : 4096 * (k + 1) ≤ todo
    · have h4 : min 4096 (todo - 4096 * k) = 4096 := by omega
      have h5 : 4096 * k + 4096 = 4096 * (k + 1) := by ring
      rw [h4, List.drop_drop, h5]
    · have h0 : min (4096 * m) todo - 4096 * (k + 1) = 0 := by omega
      rw [h0]
      simp


/-- C7. Restore from an intact file (less than 4 GiB) into a flash of at most
`2 ^ 24` bytes, with `todo = min (file size) flash_bytes`.  On any device,
whenever the call returns, the bytes it has programmed, in the order they were
programmed, are a leading part of the first `todo` bytes of the file (so no
file byte at an offset `≥ flash_bytes` is ever programmed), and exactly those
`todo` bytes when the result is `FR_OK`.  For an empty file the call returns
`FR_INT_ERR` and leaves the bus untouched.  On the ideal NOR device the call,
for a non-empty file of bytes and enough iteration budget, does return `FR_OK`,
and the flash then holds the first `todo` bytes of the file at `[0, todo)`. -/
theorem flash_restore_extent (file : List Nat) (flash_bytes : Nat) (verify : Bool)
    (hfb : flash_bytes ≤ 2 ^ 24) (hsize : file.length < 2 ^ 32) :
    (∀ (σ : Type) (D : SpiDevice σ) (fuel : Nat) (b : Bus σ) (fr : Nat) (b' : Bus σ),
        flash_restore_from_file D fuel (SdSource.ofBytes file) flash_bytes verify b
          = some (fr, b') →
        ∃ evs, b'.trace = b.trace ++ evs
          ∧ programmed evs <+: file.take (min file.length flash_bytes)
          ∧ (fr = FR_OK → programmed evs = file.take (min file.length flash_bytes)))
    ∧ (file = [] → ∀ (σ : Type) (D : SpiDevice σ) (fuel : Nat) (b : Bus σ),
        flash_restore_from_file D fuel (SdSource.ofBytes file) flash_bytes verify b
          = some (FR_INT_ERR, b))
    ∧ (file ≠ [] → (∀ v ∈ file, v < 256) →
        ∀ (tE tP fuel : Nat) (b : Bus Nor), tE < fuel → tP < fuel → 16 < fuel →
          (min file.length flash_bytes + 4095) / 4096 < fuel →
          ∃ b', flash_restore_from_file (nor tE tP) fuel (SdSource.ofBytes file) flash_bytes
                verify b = some (FR_OK, b')
            ∧ ∀ x, x < min file.length flash_bytes → b'.dev.mem x = cell_of file x) := by
  have hN : (min file.length flash_bytes + 4095) / 4096
      ≤ (min file.length flash_bytes + 4095) / 4096 := le_refl _
  have hfile : min file.length flash_bytes ≤ file.length := by omega
  refine ⟨?_, ?_, ?_⟩
  · intro σ D fuel b fr b' h
    obtain ⟨evs, htr, hcase⟩ := flash_restore_issues D fuel file flash_bytes verify b fr b' hfb
      hsize h
    refine ⟨evs, htr, ?_⟩
    rcases hcase with ⟨hnil, hfr, rfl⟩ | ⟨hne, hfr, hi⟩ | ⟨hne, hv, hfr, m, rb, hm, hrb, hi⟩
    · subst hnil
      have hp : programmed [] = [] := by
        simp [programmed, flash_cmds, commands, exchanges]
      rw [hp]
      refine ⟨List.nil_prefix, ?_⟩
      intro hok
      rw [hfr] at hok
      exact absurd hok (by decide)
    · have hp : programmed evs = file.take (min file.length flash_bytes) := by
        unfold programmed
        rw [issues_flash_cmds_eq hi, restore_cmds_payload verify file _ hfile
          ((min file.length flash_bytes + 4095) / 4096) 0
          ((min file.length flash_bytes + 4095) / 4096) (by omega) hN]
        have : min (4096 * ((min file.length flash_bytes + 4095) / 4096))
            (min file.length flash_bytes) - 4096 * 0 = min file.length flash_bytes := by omega
        rw [this]
        simp
      exact ⟨hp ▸ List.prefix_refl _, fun _ => hp⟩
    · have hmN : m + 1 ≤ (min file.length flash_bytes + 4095) / 4096 := by omega
      have hp : programmed evs
          = file.take (min (4096 * (m + 1)) (min file.length flash_bytes)) := by
        unfold programmed
        rw [issues_flash_cmds_eq hi, List.map_append, List.flatten_append, sector_cmds_payload,
          restore_cmds_payload true file _ hfile m 0 m (by omega) (by omega)]
        have e1 : min (4096 * m) (min file.length flash_bytes) - 4096 * 0 = 4096 * m := by omega
        have e2 : min (4096 * (m + 1)) (min file.length flash_bytes)
            = 4096 * m + min 4096 (min file.length flash_bytes - 4096 * m) := by omega
        rw [e1, e2, List.take_add, sector_buf]
        simp
      refine ⟨?_, ?_⟩
      · rw [hp]
        have hle : min (4096 * (m + 1)) (min file.length flash_bytes)
            ≤ min file.length flash_bytes := by omega
        have htt : file.take (min (4096 * (m + 1)) (min file.length flash_bytes))
            = (file.take (min file.length flash_bytes)).take
                (min (4096 * (m + 1)) (min file.length flash_bytes)) := by
          rw [List.take_take, Nat.min_eq_left hle]
        rw [htt]
        exact List.take_prefix _ _
      · intro hok
        rw [hfr] at hok
        exact absurd hok (by decide)
  · intro hnil σ D fuel b
    subst hnil
    simp [flash_restore_from_file, SdSource.ofBytes, FR_OK]
  · intro hne hbytes tE tP fuel b hfE hfP hfp hfn
    obtain ⟨b', hrun, hmem⟩ := nor_flash_restore tE tP fuel file flash_bytes verify b hfb hsize
      hne hbytes hfE hfP hfp hfn
    refine ⟨b', hrun, ?_⟩
    intro x hx
    rw [hmem]
    simp only [restored]
    rw [if_pos hx]


/-- C7, witness: an empty file, and the one byte file `[1]` restored with
verification on a device that answers every byte with `0`. -/
theorem flash_restore_extent_witness :
    flash_restore_from_file zero_device 0 (SdSource.ofBytes []) 4096 true ⟨(), []⟩
        = some (FR_INT_ERR, ⟨(), []⟩)
    ∧ ∃ evs, (Bus.mk () one_byte_restore_trace).trace = (Bus.mk () []).trace ++ evs
        ∧ programmed evs <+: [1].take (min [1].length 4096)
        ∧ (FR_INT_ERR = FR_OK → programmed evs = [1].take (min [1].length 4096)) :=
  ⟨(flash_restore_extent [] 4096 true (by decide) (by decide)).2.1 rfl Unit zero_device 0
      ⟨(), []⟩,
    (flash_restore_extent [1] 4096 true (by decide) (by decide)).1 Unit zero_device 2
      ⟨(), []⟩ FR_INT_ERR ⟨(), one_byte_restore_trace⟩ rfl⟩

end flash

end Firmware

namespace Firmware

namespace flash_is13

open flash

/-! ## Backup in `IS13FinalProjectCode`: the result after a failed write -/

set_option maxRecDepth 20000 in
/-- C8. On a full SD card (the first write is answered `FR_OK` with no byte
accepted, sync and close succeed) the backup of one 512 byte chunk reads the
chunk, writes nothing, and returns `FR_OK`: the `FR_DISK_ERR` set for the partial
write is replaced by the result of the `f_sync` at `cleanup:`. -/
theorem backup_full_card_returns_ok :
    flash_backup_to_file zero_device 2 full_card [] 512 ⟨(), []⟩
      = some (FR_OK, [],
          ⟨(), [BusEvent.cs_low, BusEvent.write [0x03, 0, 0, 0],
            BusEvent.read 0 (List.replicate 512 0), BusEvent.cs_high]⟩) := by
  rfl

end flash_is13

end Firmware

namespace Firmware

namespace flash

/-! ## Backup (`flash_backup_to_file`) -/

/-- C9. On the ideal NOR device, for every `flash_bytes ≤ 2 ^ 24`, when the SD card
is mounted, the file opens and every write succeeds (`FR_OK`, all bytes
accepted), `flash_backup_to_file` terminates with `FR_OK` (any iteration budget
above `⌈flash_bytes / 4096⌉`); the commands it issues are exactly the
`⌈flash_bytes / 4096⌉` reads at addresses `0, 4096, 8192, ...` with lengths
`min 4096 (flash_bytes - addr)`; the file holds exactly the flash bytes
`[0, flash_bytes)` in address order; and the flash cells are unchanged. -/
theorem flash_backup_to_file_reads_all (tE tP : Nat) (sink : SdSink) (old : List Nat)
    (flash_bytes fuel : Nat) (b : Bus Nor)
    (hmount : sink.fr_mount = FR_OK) (hopen : sink.fr_open = FR_OK)
    (hsink : ∀ file buf, sink.f_write file buf = (FR_OK, buf.length))
    (hfb : flash_bytes ≤ 2 ^ 24) (hfuel : (flash_bytes + 4095) / 4096 < fuel) :
    ∃ (b' : Bus Nor) (evs : List BusEvent),
      flash_backup_to_file (nor tE tP) fuel sink old flash_bytes b
        = some (FR_OK, nor_bytes b.dev.mem 0 flash_bytes, b')
      ∧ b'.trace = b.trace ++ evs
      ∧ commands evs = (List.range ((flash_bytes + 4095) / 4096)).map (fun k =>
          FlashCmd.read (4096 * k)
            (nor_bytes b.dev.mem (4096 * k) (min 4096 (flash_bytes - 4096 * k))))
      ∧ b'.dev.mem = b.dev.mem := by
  obtain ⟨b', evs, hrun, hmem, htr, hem⟩ := backup_loop_nor tE tP sink hsink flash_bytes hfb
    ((flash_bytes + 4095) / 4096) fuel 0 FR_OK [] b (by simp) hfuel
  refine ⟨b', evs, ?_, htr, ?_, hmem⟩
  · simp only [flash_backup_to_file, hmount, hopen, ne_eq, not_true_eq_false, if_false, hrun]
    by_cases h0 : 0 < flash_bytes
    · simp [h0]
    · simp [h0]
  · rw [emits_commands_eq hem, List.map_map]
    apply List.map_congr_left
    intro k hk
    rw [List.mem_range] at hk
    have hk' : 4096 * k < 2 ^ 24 := by omega
    simp only [Function.comp, Nat.zero_add, classify_read, Nat.mod_eq_of_lt hk']

/-- C9, witness: a backup of 5000 bytes (two chunks) to a sink that accepts every
write. -/
theorem flash_backup_to_file_reads_all_witness :
    ∃ (b' : Bus Nor) (evs : List BusEvent),
      flash_backup_to_file (nor 0 0) 3
          ⟨FR_OK, FR_OK, fun _ buf => (FR_OK, buf.length), fun _ => FR_OK, fun _ => FR_OK⟩ []
          5000 ⟨⟨fun _ => 0, false, 0, []⟩, []⟩
        = some (FR_OK, nor_bytes (fun _ => 0) 0 5000, b')
      ∧ b'.trace = [] ++ evs
      ∧ commands evs = (List.range ((5000 + 4095) / 4096)).map (fun k =>
          FlashCmd.read (4096 * k) (nor_bytes (fun _ => 0) (4096 * k) (min 4096 (5000 - 4096 * k))))
      ∧ b'.dev.mem = fun _ => 0 :=
  flash_backup_to_file_reads_all 0 0
    ⟨FR_OK, FR_OK, fun _ buf => (FR_OK, buf.length), fun _ => FR_OK, fun _ => FR_OK⟩ []
    5000 3 ⟨⟨fun _ => 0, false, 0, []⟩, []⟩ rfl rfl (fun _ _ => rfl) (by decide) (by decide)

end flash

end Firmware

namespace Firmware

namespace bench

/-! ## Throughput in MB/s (`_mbps`) -/

/-- C10. `_mbps (bytes, us)` is `0` for every `us ≤ 0`; for every `us > 0` no
divisor is zero and the value is `bytes * 1000000 / (1048576 * us)`, that is
MB/s with a 1024-based MB (in exact arithmetic). -/
theorem mbps_value (bytes : Nat) (us : Int) :
    (us ≤ 0 → _mbps bytes us = some 0)
    ∧ (0 < us → _mbps bytes us = some ((bytes : ℚ) * 1000000 / (1048576 * (us : ℚ)))) := by
  constructor
  · intro h
    simp [_mbps, h]
  · intro h
    have h1 : ¬ us ≤ 0 := not_le.2 h
    have h2 : (us : ℚ) ≠ 0 := by
      have : (0 : ℚ) < (us : ℚ) := by exact_mod_cast h
      exact ne_of_gt this
    have h3 : (us : ℚ) / 1000000 ≠ 0 := div_ne_zero h2 (by norm_num)
    have h4 : ((1024 : ℚ) * 1024) ≠ 0 := by norm_num
    have e1 : fdiv (bytes : ℚ) (1024 * 1024) = some ((bytes : ℚ) / (1024 * 1024)) := by
      simp only [fdiv, h4, if_false]
    have e2 : fdiv (us : ℚ) 1000000 = some ((us : ℚ) / 1000000) := by
      have : (1000000 : ℚ) ≠ 0 := by norm_num
      simp only [fdiv, this, if_false]
    have e3 : fdiv ((bytes : ℚ) / (1024 * 1024)) ((us : ℚ) / 1000000)
        = some ((bytes : ℚ) / (1024 * 1024) / ((us : ℚ) / 1000000)) := by
      simp only [fdiv, h3, if_false]
    simp only [_mbps, h1, if_false, e1, e2, e3]
    congr 1
    rw [div_div_div_eq, div_eq_div_iff (mul_ne_zero h4 h2) (mul_ne_zero (by norm_num) h2)]
    ring

/-- C10, witness: 1 MiB in one second is 1 MB/s, and a zero duration gives 0. -/
theorem mbps_value_witness :
    _mbps 1048576 0 = some 0
    ∧ _mbps 1048576 1000000
        = some (((1048576 : Nat) : ℚ) * 1000000 / (1048576 * ((1000000 : Int) : ℚ))) :=
  ⟨(mbps_value 1048576 0).1 (by decide), (mbps_value 1048576 1000000).2 (by decide)⟩

end bench

end Firmware

namespace Firmware

namespace bench

variable {σ : Type}

/-! ### Bus and timer actions leave the log alone -/

theorem quiet_refl (Q : List flash.BusEvent → Prop) (w : World σ) : Quiet Q w w :=
  ⟨rfl, rfl, rfl, rfl, rfl, [], by simp, by simp⟩

theorem quiet_trans {Q : List flash.BusEvent → Prop} {w1 w2 w3 : World σ}
    (h1 : Quiet Q w1 w2) (h2 : Quiet Q w2 w3) : Quiet Q w1 w3 := by
  obtain ⟨a1, b1, c1, d1, e1, s1, t1, p1⟩ := h1
  obtain ⟨a2, b2, c2, d2, e2, s2, t2, p2⟩ := h2
  refine ⟨a2.trans a1, b2.trans b1, c2.trans c1, d2.trans d1, e2.trans e1, s1 ++ s2,
    by rw [t2, t1, List.append_assoc], ?_⟩
  intro s hs
  rcases List.mem_append.mp hs with h | h
  · exact p1 s h
  · rw [← a1]; exact p2 s h

theorem quiet_mono {Q Q' : List flash.BusEvent → Prop} {w w' : World σ}
    (h : Quiet Q w w') (hq : ∀ evs, Q evs → Q' evs) : Quiet Q' w w' := by
  obtain ⟨a, b, c, d, e, s, t, p⟩ := h
  exact ⟨a, b, c, d, e, s, t, fun x hx => ⟨(p x hx).1, hq _ (p x hx).2⟩⟩

theorem quiet_get_absolute_time (Q : List flash.BusEvent → Prop) (clk : Nat → Nat)
    (w : World σ) : Quiet Q w (get_absolute_time clk w).1 :=
  ⟨rfl, rfl, rfl, rfl, rfl, [], by simp [get_absolute_time], by simp⟩

theorem quiet_on_bus {α : Type} (Q : List flash.BusEvent → Prop)
    (f : flash.Bus σ → flash.Bus σ × α) (w : World σ) (h : Q (f ⟨w.dev, []⟩).1.trace) :
    Quiet Q w (on_bus f w).1 :=
  ⟨rfl, rfl, rfl, rfl, rfl, [(w.baud, (f ⟨w.dev, []⟩).1.trace)], rfl, by simpa using h⟩

theorem quiet_on_bus_wait (Q : List flash.BusEvent → Prop)
    (f : flash.Bus σ → Option (flash.Bus σ)) (w w' : World σ)
    (h : on_bus_wait f w = some w') (hq : ∀ b, f ⟨w.dev, []⟩ = some b → Q b.trace) :
    Quiet Q w w' := by
  unfold on_bus_wait at h
  cases hf : f ⟨w.dev, []⟩ with
  | none => rw [hf] at h; simp at h
  | some b =>
    rw [hf] at h
    simp only [Option.map_some', Option.some.injEq] at h
    subst h
    exact ⟨rfl, rfl, rfl, rfl, rfl, [(w.baud, b.trace)], rfl, by simpa using hq b hf⟩

/-! ### Which bus actions carry a page program -/

theorem exchanges_frames (xs : List (List flash.BusEvent))
    (hx : ∀ x ∈ xs, ∀ e ∈ x, flash.is_transfer e = true) :
    flash.Emits ((xs.map flash.frame).flatten) xs := by
  induction xs with
  | nil => exact flash.emits_nil
  | cons x xs ih =>
    have hx1 : ∀ e ∈ x, flash.is_transfer e = true := hx x (List.mem_cons_self _ _)
    have hxs : ∀ y ∈ xs, ∀ e ∈ y, flash.is_transfer e = true :=
      fun y hy => hx y (List.mem_cons_of_mem _ hy)
    have hone : flash.Emits (flash.frame x) [x] := by
      intro acc
      have hgo : ∀ (cur rest : List flash.BusEvent), (∀ e ∈ rest, flash.is_transfer e = true) →
          (rest ++ [flash.BusEvent.cs_high]).foldl flash.group_step (some cur, acc)
            = (none, acc ++ [cur ++ rest]) := by
        intro cur rest
        induction rest generalizing cur with
        | nil => intro _; simp [flash.group_step]
        | cons e es ihe =>
          intro hes
          have he := hes e (List.mem_cons_self _ _)
          have := ihe (cur ++ [e]) (fun e' h' => hes e' (List.mem_cons_of_mem _ h'))
          cases e <;> simp_all [flash.is_transfer, flash.group_step]
      have := hgo [] x hx1
      simpa [flash.frame, flash.group_step] using this
    have := flash.emits_append hone (ih hxs)
    simpa using this

theorem no_program_frames (xs : List (List flash.BusEvent))
    (hx : ∀ x ∈ xs, ∀ e ∈ x, flash.is_transfer e = true)
    (hop : ∀ x ∈ xs, opcode x ≠ some 0x02) :
    NoProgram ((xs.map flash.frame).flatten) := by
  unfold NoProgram programs_in
  rw [flash.emits_exchanges_eq (exchanges_frames xs hx)]
  rw [List.any_eq_false]
  intro x hxm
  simpa using hop x hxm

theorem quiet_read_status (D : flash.SpiDevice σ) (w : World σ) :
    Quiet NoProgram w (read_status D 0x05 w).1 := by
  apply quiet_on_bus
  have h : (flash.read_status D 0x05 (⟨w.dev, []⟩ : flash.Bus σ)).1.trace
      = ([[flash.BusEvent.write_read [0x05, 0]
          (flash.clock_bytes D (D.select w.dev) [0x05, 0]).2]].map flash.frame).flatten := by
    simp [flash.read_status, flash.cs_low, flash.cs_high, flash.spi_write_read_blocking,
      flash.frame]
  rw [h]
  exact no_program_frames _ (by simp [flash.is_transfer]) (by simp [opcode])

theorem quiet_cs_high (D : flash.SpiDevice σ) (w : World σ) :
    Quiet NoProgram w (cs_high D w) := by
  apply quiet_on_bus
  simp [flash.cs_high, NoProgram, programs_in, flash.exchanges, flash.group_step]

theorem quiet_read_data (D : flash.SpiDevice σ) (addr len : Nat) (w : World σ) :
    Quiet NoProgram w (on_bus (flash.read_data D addr len) w).1 := by
  apply quiet_on_bus
  have h : (flash.read_data D addr len (⟨w.dev, []⟩ : flash.Bus σ)).1.trace
      = ([[flash.BusEvent.write (flash.cmd_hdr 0x03 addr),
          flash.BusEvent.read 0 (flash.read_data D addr len ⟨w.dev, []⟩).2]].map
            flash.frame).flatten := by
    rw [flash.read_data_trace]; simp [flash.frame]
  rw [h]
  exact no_program_frames _ (by simp [flash.is_transfer]) (by simp [opcode, flash.cmd_hdr])

theorem quiet_read_seq_loop (D : flash.SpiDevice σ) :
    ∀ (n cur left : Nat) (w : World σ), Quiet NoProgram w (read_seq_loop D n cur left w) := by
  intro n
  induction n with
  | zero => intro cur left w; exact quiet_refl _ _
  | succ n ih =>
    intro cur left w
    rw [read_seq_loop]
    by_cases h : left = 0
    · rw [if_pos h]; exact quiet_refl _ _
    · rw [if_neg h]
      exact quiet_trans (quiet_read_data D _ _ w) (ih _ _ _)

theorem quiet_timed_read_seq (D : flash.SpiDevice σ) (clk : Nat → Nat) (addr len : Nat)
    (w : World σ) : Quiet NoProgram w (timed_read_seq D clk addr len w).1 :=
  quiet_trans (quiet_trans (quiet_get_absolute_time _ clk w) (quiet_read_seq_loop D _ _ _ _))
    (quiet_get_absolute_time _ clk _)

theorem quiet_timed_read_rand256 (D : flash.SpiDevice σ) (clk : Nat → Nat) (cfg : Config)
    (seed : Nat) (w : World σ) : Quiet NoProgram w (timed_read_rand256 D clk cfg seed w).1 :=
  quiet_trans (quiet_trans (quiet_get_absolute_time _ clk w) (quiet_read_data D _ _ _))
    (quiet_get_absolute_time _ clk _)

theorem quiet_wip_poll_loop (D : flash.SpiDevice σ) (clk : Nat → Nat) (deadline : Nat) :
    ∀ (fuel : Nat) (w w' : World σ) (ok : Bool),
      wip_poll_loop D clk fuel deadline w = some (w', ok) → Quiet NoProgram w w' := by
  intro fuel
  induction fuel with
  | zero => intro w w' ok h; simp [wip_poll_loop] at h
  | succ f ih =>
    intro w w' ok h
    rw [wip_poll_loop] at h
    simp only at h
    by_cases hb : (read_status D 0x05 w).2 &&& 1 = 0
    · rw [if_pos hb] at h
      simp only [Option.some.injEq, Prod.mk.injEq] at h
      rw [← h.1]
      exact quiet_read_status D w
    · rw [if_neg hb] at h
      by_cases ht : absolute_time_diff_us
          (get_absolute_time clk (read_status D 0x05 w).1).2 deadline ≤ 0
      · rw [if_pos ht] at h
        simp only [Option.some.injEq, Prod.mk.injEq] at h
        rw [← h.1]
        exact quiet_trans (quiet_read_status D w) (quiet_get_absolute_time _ clk _)
      · rw [if_neg ht] at h
        exact quiet_trans (quiet_trans (quiet_read_status D w)
          (quiet_get_absolute_time _ clk _)) (ih _ _ _ h)

theorem quiet_wait_wip_clear_web_safe (D : flash.SpiDevice σ) (clk : Nat → Nat)
    (fuel timeout_ms : Nat) (w w' : World σ) (ok : Bool)
    (h : wait_wip_clear_web_safe D clk fuel timeout_ms w = some (w', ok)) :
    Quiet NoProgram w w' :=
  quiet_trans (quiet_get_absolute_time _ clk w) (quiet_wip_poll_loop D clk _ fuel _ w' ok h)

theorem quiet_sector_erase_4k_web_safe (D : flash.SpiDevice σ) (clk : Nat → Nat)
    (fuel addr timeout_ms : Nat) (w w' : World σ) (ok : Bool)
    (h : sector_erase_4k_web_safe D clk fuel addr timeout_ms w = some (w', ok)) :
    Quiet NoProgram w w' := by
  refine quiet_trans ?_ (quiet_wait_wip_clear_web_safe D clk fuel timeout_ms _ w' ok h)
  apply quiet_on_bus
  have e : (flash.cs_high D (flash.spi_write_blocking D
      [0x20, (addr >>> 16) &&& 0xFF, (addr >>> 8) &&& 0xFF, (addr >>> 0) &&& 0xFF]
      (flash.cs_low D (flash.write_enable D (⟨w.dev, []⟩ : flash.Bus σ))))).trace
      = ([[flash.BusEvent.write [0x06]], [flash.BusEvent.write
          [0x20, (addr >>> 16) &&& 0xFF, (addr >>> 8) &&& 0xFF, (addr >>> 0) &&& 0xFF]]].map
            flash.frame).flatten := by
    simp [flash.write_enable, flash.cs_low, flash.cs_high, flash.spi_write_blocking,
      flash.frame]
  rw [e]
  exact no_program_frames _ (by simp [flash.is_transfer]) (by simp [opcode])

theorem quiet_timed_erase_4k_web (D : flash.SpiDevice σ) (clk : Nat → Nat) (fuel addr : Nat)
    (w : World σ) (r : World σ × Int × Nat)
    (h : timed_erase_4k_web D clk fuel addr w = some r) : Quiet NoProgram w r.1 := by
  simp only [timed_erase_4k_web] at h
  split at h
  · simp at h
  · rename_i w1 ok hrun
    have q1 := quiet_trans (quiet_get_absolute_time NoProgram clk w)
      (quiet_sector_erase_4k_web_safe D clk fuel addr _ _ w1 ok hrun)
    have q2 := quiet_trans q1 (quiet_read_status D w1)
    cases ok with
    | false =>
      simp only [Bool.not_false, if_true, Option.some.injEq] at h
      rw [← h]; exact q2
    | true =>
      simp only [Bool.not_true, Bool.false_eq_true, if_false, Option.some.injEq] at h
      rw [← h]; exact quiet_trans q2 (quiet_get_absolute_time _ clk _)

theorem quiet_timed_prog_256_web (D : flash.SpiDevice σ) (clk : Nat → Nat) (fuel addr : Nat)
    (data : List Nat) (w : World σ) (r : World σ × Int × Nat × Nat)
    (h : timed_prog_256_web D clk fuel addr data w = some r) :
    Quiet (fun _ => True) w r.1 := by
  simp only [timed_prog_256_web] at h
  split at h
  · simp at h
  · rename_i w1 ok hrun
    have q0 : Quiet (fun _ => True) (get_absolute_time clk w).1 w1 := by
      unfold page_program_web_safe at hrun
      exact quiet_trans (quiet_on_bus _ _ _ trivial)
        (quiet_mono (quiet_wait_wip_clear_web_safe D clk fuel _ _ w1 ok hrun) (fun _ _ => trivial))
    have q1 := quiet_trans (quiet_get_absolute_time _ clk w) q0
    have q2 := quiet_trans q1 (quiet_mono (quiet_read_status D w1) (fun _ _ => trivial))
    cases ok with
    | false =>
      simp only [Bool.not_false, if_true, Option.some.injEq] at h
      rw [← h]; exact q2
    | true =>
      simp only [Bool.not_true, Bool.false_eq_true, if_false, Option.some.injEq] at h
      rw [← h]
      exact quiet_trans (quiet_trans q2 (quiet_mono (quiet_read_data D _ _ _) (fun _ _ => trivial)))
        (quiet_get_absolute_time _ clk _)

theorem quiet_timed_erase_4k (D : flash.SpiDevice σ) (clk : Nat → Nat) (fuel addr : Nat)
    (w : World σ) (r : World σ × Int × Nat)
    (h : timed_erase_4k D clk fuel addr w = some r) : Quiet (fun _ => True) w r.1 := by
  simp only [timed_erase_4k] at h
  split at h
  · simp at h
  · rename_i w1 hrun
    simp only [Option.some.injEq] at h
    rw [← h]
    exact quiet_trans (quiet_trans (quiet_trans (quiet_get_absolute_time _ clk w)
      (quiet_on_bus_wait _ _ _ w1 hrun (fun _ _ => trivial)))
      (quiet_get_absolute_time _ clk _)) (quiet_mono (quiet_read_status D _) (fun _ _ => trivial))

theorem quiet_timed_prog_256 (D : flash.SpiDevice σ) (clk : Nat → Nat) (fuel addr : Nat)
    (page : List Nat) (w : World σ) (r : World σ × Int × Nat × Nat)
    (h : timed_prog_256 D clk fuel addr page w = some r) : Quiet (fun _ => True) w r.1 := by
  simp only [timed_prog_256] at h
  split at h
  · simp at h
  · rename_i w1 hrun
    simp only [Option.some.injEq] at h
    rw [← h]
    exact quiet_trans (quiet_trans (quiet_trans (quiet_trans (quiet_get_absolute_time _ clk w)
      (quiet_on_bus_wait _ _ _ w1 hrun (fun _ _ => trivial)))
      (quiet_get_absolute_time _ clk _)) (quiet_mono (quiet_read_status D _) (fun _ _ => trivial)))
      (quiet_mono (quiet_read_data D _ _ _) (fun _ _ => trivial))

end bench

end Firmware

namespace Firmware

namespace bench

variable {σ : Type}

/-! ### Every row of a benchmark fits the line buffer -/

theorem num_len_le (base : Nat) (hb : 2 ≤ base) :
    ∀ (fuel n k : Nat), 1 ≤ k → n < base ^ k → num_len base fuel n ≤ k := by
  intro fuel
  induction fuel with
  | zero => intro n k hk _; simpa [num_len] using hk
  | succ f ih =>
    intro n k hk hn
    rw [num_len]
    by_cases h : n < base
    · rw [if_pos h]; exact hk
    · rw [if_neg h]
      obtain ⟨j, rfl⟩ : ∃ j, k = j + 1 := ⟨k - 1, by omega⟩
      have hj : 1 ≤ j := by
        rcases Nat.eq_zero_or_pos j with rfl | hpos
        · simp at hn; omega
        · exact hpos
      have hdiv : n / base < base ^ j := by
        rw [Nat.div_lt_iff_lt_mul (by omega)]
        rw [pow_succ] at hn
        exact hn
      have := ih (n / base) j hj hdiv
      omega

theorem num_len_pos (base fuel n : Nat) : 1 ≤ num_len base fuel n := by
  cases fuel with
  | zero => simp [num_len]
  | succ f => rw [num_len]; split <;> omega

theorem dec_len_le (n k : Nat) (hk : 1 ≤ k) (hn : n < 10 ^ k) : dec_len n ≤ k :=
  num_len_le 10 (by decide) 400 n k hk hn

theorem hex_len_le (n k : Nat) (hk : 1 ≤ k) (hn : n < 16 ^ k) : hex_len n ≤ k :=
  num_len_le 16 (by decide) 400 n k hk hn

theorem int_len_wrap32 (x : Int) : int_len (wrap_int 32 x) ≤ 11 := by
  have h1 : (wrap_int 32 x).natAbs < 10 ^ 10 := by
    simp only [wrap_int]
    omega
  have := dec_len_le _ 10 (by decide) h1
  simp only [int_len]
  split <;> omega

theorem int_len_wrap64 (x : Int) : int_len (wrap_int 64 x) ≤ 20 := by
  have h1 : (wrap_int 64 x).natAbs < 10 ^ 19 := by
    simp only [wrap_int]
    omega
  have := dec_len_le _ 19 (by decide) h1
  simp only [int_len]
  split <;> omega

/-- `_mbps` always has a value, between `0` and `bytes`. -/
theorem mbps_bounds (n : Nat) (us : Int) :
    ∃ m : ℚ, _mbps n us = some m ∧ 0 ≤ m ∧ m ≤ (n : ℚ) := by
  by_cases h : us ≤ 0
  · exact ⟨0, by simp [_mbps, h], le_refl _, by exact_mod_cast Nat.zero_le n⟩
  · have hpos : (0 : ℚ) < (us : ℚ) := by exact_mod_cast not_le.1 h
    have hone : (1 : ℚ) ≤ (us : ℚ) := by exact_mod_cast (by omega : (1 : Int) ≤ us)
    have h3 : (us : ℚ) / 1000000 ≠ 0 := div_ne_zero (ne_of_gt hpos) (by norm_num)
    have h4 : ((1024 : ℚ) * 1024) ≠ 0 := by norm_num
    have h5 : (1000000 : ℚ) ≠ 0 := by norm_num
    refine ⟨(n : ℚ) / (1024 * 1024) / ((us : ℚ) / 1000000), ?_, ?_, ?_⟩
    · simp only [_mbps, h, if_false, fdiv, h4, h5, h3]
    · have : (0 : ℚ) ≤ (n : ℚ) := by exact_mod_cast Nat.zero_le n
      positivity
    · have hn : (0 : ℚ) ≤ (n : ℚ) := by exact_mod_cast Nat.zero_le n
      rw [div_div, div_le_iff₀ (by positivity)]
      have : (1 : ℚ) ≤ 1024 * 1024 * ((us : ℚ) / 1000000) := by
        rw [← mul_div_assoc, le_div_iff₀ (by norm_num)]
        nlinarith
      nlinarith

theorem millionths_le (q : ℚ) (B : Nat) (h0 : 0 ≤ q) (hB : q ≤ (B : ℚ)) :
    millionths q / 1000000 ≤ B := by
  have hden : 0 < q.den := q.den_pos
  have hnum : 0 ≤ q.num := Rat.num_nonneg.mpr h0
  have hle : q.num.toNat ≤ B * q.den := by
    have h1 : (q.num : ℚ) / (q.den : ℚ) ≤ (B : ℚ) := by rw [Rat.num_div_den]; exact hB
    rw [div_le_iff₀ (by exact_mod_cast hden)] at h1
    have h2 : q.num ≤ (B : Int) * (q.den : Int) := by exact_mod_cast h1
    have h3 : (q.num.toNat : Int) = q.num := Int.toNat_of_nonneg hnum
    have : (q.num.toNat : Int) ≤ ((B * q.den : Nat) : Int) := by
      rw [h3]; push_cast; exact h2
    exact_mod_cast this
  unfold millionths
  generalize q.num.toNat = n at hle
  generalize q.den = d at hden hle
  rw [Nat.div_div_eq_div_mul]
  apply Nat.le_of_lt_succ
  rw [Nat.div_lt_iff_lt_mul (by omega)]
  have e : (B + 1) * (2 * d * 1000000) = 2000000 * (B * d) + 2000000 * d := by ring
  rw [e]
  generalize B * d = P at hle
  omega

theorem f6_len_le (m : Option ℚ) (B : Nat) (hB : B < 10 ^ 10)
    (h : ∀ q, m = some q → 0 ≤ q ∧ q ≤ (B : ℚ)) : f6_len m ≤ 17 := by
  cases m with
  | none => simp [f6_len]
  | some q =>
    obtain ⟨h0, h1⟩ := h q rfl
    have hneg : ¬ q < 0 := not_lt.2 h0
    simp only [f6_len, hneg, if_false]
    have := dec_len_le (millionths q / 1000000) 10 (by decide)
      (lt_of_le_of_lt (millionths_le q B h0 h1) hB)
    omega

/-- A row of at most nine characters of `op` and a speed between `0` and
`2 ^ 32` (or undefined) is formatted into between 1 and 191 characters. -/
theorem csv_line_length_fits (r : csv_row) (hop : r.op.length ≤ 9)
    (hm : ∀ q, r.mbps = some q → 0 ≤ q ∧ q ≤ ((2 ^ 32 : Nat) : ℚ)) :
    0 < csv_line_length r ∧ csv_line_length r < 192 := by
  have h1 := int_len_wrap32 r.run
  have h2 := dec_len_le (r.hz % 2 ^ 32) 10 (by decide)
    (lt_of_lt_of_le (Nat.mod_lt _ (by decide)) (by decide))
  have h3 := hex_len_le (r.addr % 2 ^ 32) 8 (by decide)
    (lt_of_lt_of_le (Nat.mod_lt _ (by decide)) (by decide))
  have h4 := dec_len_le (r.bytes % 2 ^ 32) 10 (by decide)
    (lt_of_lt_of_le (Nat.mod_lt _ (by decide)) (by decide))
  have h5 := int_len_wrap64 r.dur_us
  have h6 := f6_len_le r.mbps (2 ^ 32) (by decide) hm
  have h7 := dec_len_le (r.verify_errors % 2 ^ 32) 10 (by decide)
    (lt_of_lt_of_le (Nat.mod_lt _ (by decide)) (by decide))
  have h8 := hex_len_le (r.sr1 % 256) 2 (by decide)
    (lt_of_lt_of_le (Nat.mod_lt _ (by decide)) (by decide))
  simp only [csv_line_length]
  omega

theorem csv_row_to_sd_appends (r : csv_row) (w : World σ) (hopen : w.csv_open = true)
    (hop : r.op.length ≤ 9)
    (hm : ∀ q, r.mbps = some q → 0 ≤ q ∧ q ≤ ((2 ^ 32 : Nat) : ℚ)) :
    csv_row_to_sd true r w = { w with rows := w.rows ++ [r] } := by
  have hf := csv_line_length_fits r hop hm
  simp [csv_row_to_sd, hopen, hf]

end bench

end Firmware

namespace Firmware

namespace bench

variable {σ : Type}

/-! ### Steps of a trial -/

theorem logged_refl (P : Nat × List flash.BusEvent → Prop) (w : World σ) : Logged P w w [] :=
  ⟨rfl, by simp, [], by simp, by simp⟩

theorem logged_trans {P : Nat × List flash.BusEvent → Prop} {w1 w2 w3 : World σ}
    {n1 n2 : List csv_row} (h1 : Logged P w1 w2 n1) (h2 : Logged P w2 w3 n2) :
    Logged P w1 w3 (n1 ++ n2) := by
  obtain ⟨c1, r1, s1, t1, p1⟩ := h1
  obtain ⟨c2, r2, s2, t2, p2⟩ := h2
  refine ⟨c2.trans c1, by rw [r2, r1, List.append_assoc], s1 ++ s2,
    by rw [t2, t1, List.append_assoc], ?_⟩
  intro s hs
  rcases List.mem_append.mp hs with h | h
  · exact p1 s h
  · exact p2 s h

theorem logged_mono {P P' : Nat × List flash.BusEvent → Prop} {w w' : World σ}
    {new : List csv_row} (h : Logged P w w' new) (hp : ∀ s, P s → P' s) :
    Logged P' w w' new := by
  obtain ⟨c, r, s, t, p⟩ := h
  exact ⟨c, r, s, t, fun x hx => hp x (p x hx)⟩

theorem logged_of_quiet {Q : List flash.BusEvent → Prop} {P : Nat × List flash.BusEvent → Prop}
    {w w' : World σ} (h : Quiet Q w w') (hp : ∀ evs, Q evs → P (w.baud, evs)) :
    Logged P w w' [] ∧ w'.baud = w.baud := by
  obtain ⟨a, b, c, _, _, s, t, p⟩ := h
  refine ⟨⟨c, by simpa using b, s, t, ?_⟩, a⟩
  intro x hx
  have := p x hx
  have e : x = (w.baud, x.2) := by rw [← this.1]
  rw [e]
  exact hp _ this.2

theorem logged_spi_init (P : Nat × List flash.BusEvent → Prop) (hz : Nat) (w : World σ) :
    Logged P w (spi_init hz w) [] :=
  ⟨rfl, by simp [spi_init], [], by simp [spi_init], by simp⟩

/-- Handing a row of a benchmark to `results.csv`: it is appended when `save` is
set and the file is open, and nothing else changes. -/
theorem logged_row (P : Nat × List flash.BusEvent → Prop) (save : Bool) (r : csv_row)
    (w : World σ) (hop : r.op.length ≤ 9)
    (hm : ∀ q, r.mbps = some q → 0 ≤ q ∧ q ≤ ((2 ^ 32 : Nat) : ℚ)) :
    Logged P w (if save then csv_row_to_sd true r w else w)
        (if save && w.csv_open then [r] else [])
      ∧ (if save then csv_row_to_sd true r w else w).baud = w.baud := by
  cases save with
  | false => exact ⟨by simpa using logged_refl P w, rfl⟩
  | true =>
    cases hopen : w.csv_open with
    | false =>
      have : csv_row_to_sd true r w = w := by simp [csv_row_to_sd, hopen]
      simp only [if_true, this, Bool.and_false, Bool.false_eq_true, if_false, and_true]
      exact logged_refl P w
    | true =>
      simp only [if_true, Bool.and_self]
      rw [csv_row_to_sd_appends r w hopen hop hm]
      exact ⟨⟨hopen.symm ▸ rfl, rfl, [], by simp, by simp⟩, rfl⟩

theorem mbps_fits (n : Nat) (us : Int) (hn : n ≤ 2 ^ 32) :
    ∀ q, _mbps n us = some q → 0 ≤ q ∧ q ≤ ((2 ^ 32 : Nat) : ℚ) := by
  intro q hq
  obtain ⟨m, hm, h0, h1⟩ := mbps_bounds n us
  rw [hm] at hq
  obtain rfl := Option.some.inj hq
  refine ⟨h0, le_trans h1 ?_⟩
  exact_mod_cast hn

theorem rand_reads_spec (D : flash.SpiDevice σ) (clk : Nat → Nat) (cfg : Config)
    (save : Bool) (run : Int) (hz : Nat) (P : Nat × List flash.BusEvent → Prop)
    (hP : ∀ evs, NoProgram evs → P (hz, evs)) :
    ∀ (n seed : Nat) (acc : Option ℚ) (w : World σ), w.baud = hz →
      (rand_reads D clk cfg save run hz n seed acc w).1.baud = hz
      ∧ ∃ new, Logged P w (rand_reads D clk cfg save run hz n seed acc w).1 new
          ∧ new.map (fun r => (r.run, r.op))
              = if save && w.csv_open then List.replicate n (run, bytes "READ_RAND") else [] := by
  intro n
  induction n with
  | zero =>
    intro seed acc w hb
    exact ⟨hb, [], logged_refl P w, by simp [rand_reads]⟩
  | succ n ih =>
    intro seed acc w hb
    rw [rand_reads]
    simp only
    -- the read
    have q1 := quiet_timed_read_rand256 D clk cfg seed w
    obtain ⟨l1, b1⟩ := logged_of_quiet (P := P) q1 (fun evs h => hb ▸ hP evs h)
    -- the status read and the row
    have hstep : ∀ (w1 : World σ), w1.baud = hz → ∀ (r : csv_row),
        r.op = bytes "READ_RAND" → r.run = run →
        (∀ q, r.mbps = some q → 0 ≤ q ∧ q ≤ ((2 ^ 32 : Nat) : ℚ)) →
        ∀ (mk : Nat → csv_row), (∀ x, mk x = { r with sr1 := x }) →
        (if save then
            csv_row_to_sd true (mk (read_status D 0x05 w1).2) (read_status D 0x05 w1).1
          else w1).baud = hz
        ∧ ∃ new, Logged P w1 (if save then
            csv_row_to_sd true (mk (read_status D 0x05 w1).2) (read_status D 0x05 w1).1
          else w1) new
          ∧ new.map (fun r => (r.run, r.op))
              = if save && w1.csv_open then [(run, bytes "READ_RAND")] else [] := by
      intro w1 hb1 r hop hrun hm mk hmk
      cases save with
      | false => exact ⟨hb1, [], by simpa using logged_refl P w1, by simp⟩
      | true =>
        obtain ⟨l2, b2⟩ := logged_of_quiet (P := P) (quiet_read_status D w1)
          (fun evs h => hb1 ▸ hP evs h)
        have hr := logged_row P true (mk (read_status D 0x05 w1).2) (read_status D 0x05 w1).1
          (by rw [hmk]; simp only; rw [hop]; decide) (by rw [hmk]; exact hm)
        simp only [if_true, Bool.true_and] at hr ⊢
        refine ⟨hr.2.trans (b2.trans hb1), _, logged_trans l2 hr.1, ?_⟩
        rw [l2.1]
        cases w1.csv_open <;> simp [hmk, hop, hrun]
    obtain ⟨hb2, new1, l3, hk1⟩ := hstep (timed_read_rand256 D clk cfg seed w).1 (b1.trans hb)
      ⟨run, bytes "READ_RAND", hz, (timed_read_rand256 D clk cfg seed w).2.2.1, 256,
        (timed_read_rand256 D clk cfg seed w).2.1,
        _mbps 256 (timed_read_rand256 D clk cfg seed w).2.1, 0, 0⟩ rfl rfl
      (mbps_fits 256 _ (by decide))
      (fun x => ⟨run, bytes "READ_RAND", hz, (timed_read_rand256 D clk cfg seed w).2.2.1, 256,
        (timed_read_rand256 D clk cfg seed w).2.1,
        _mbps 256 (timed_read_rand256 D clk cfg seed w).2.1, 0, x⟩) (fun _ => rfl)
    obtain ⟨hb3, new2, l4, hk2⟩ := ih (timed_read_rand256 D clk cfg seed w).2.2.2
      (dadd acc (_mbps 256 (timed_read_rand256 D clk cfg seed w).2.1)) _ hb2
    refine ⟨hb3, new1 ++ new2, logged_trans (logged_trans l1 l3) l4 |> (by simpa using ·), ?_⟩
    rw [List.map_append, hk1, hk2, l3.1, l1.1]
    cases save <;> cases w.csv_open <;> simp [List.replicate_succ]

theorem read_seq_step_spec (D : flash.SpiDevice σ) (clk : Nat → Nat) (cfg : Config)
    (save : Bool) (run : Int) (hz : Nat) (P : Nat × List flash.BusEvent → Prop)
    (hP : ∀ evs, NoProgram evs → P (hz, evs)) (hseq : cfg.READ_SEQ_SIZE ≤ 2 ^ 32)
    (w : World σ) (hb : w.baud = hz) :
    (read_seq_step D clk cfg save run hz w).1.baud = hz
    ∧ ∃ new, Logged P w (read_seq_step D clk cfg save run hz w).1 new
        ∧ new.map (fun r => (r.run, r.op))
            = if save && w.csv_open then [(run, bytes "READ_SEQ")] else [] := by
  have q1 := quiet_timed_read_seq D clk cfg.SCRATCH_BASE cfg.READ_SEQ_SIZE w
  obtain ⟨l1, b1⟩ := logged_of_quiet (P := P) q1 (fun evs h => hb ▸ hP evs h)
  unfold read_seq_step
  cases save with
  | false =>
    simp only [Bool.false_eq_true, if_false, Bool.false_and]
    exact ⟨b1.trans hb, [], l1, rfl⟩
  | true =>
    simp only [if_true, Bool.true_and]
    obtain ⟨l2, b2⟩ := logged_of_quiet (P := P)
      (quiet_read_status D (timed_read_seq D clk cfg.SCRATCH_BASE cfg.READ_SEQ_SIZE w).1)
      (fun evs h => (b1.trans hb) ▸ hP evs h)
    have hr := logged_row P true
      ⟨run, bytes "READ_SEQ", hz, cfg.SCRATCH_BASE, cfg.READ_SEQ_SIZE,
        (timed_read_seq D clk cfg.SCRATCH_BASE cfg.READ_SEQ_SIZE w).2,
        _mbps cfg.READ_SEQ_SIZE (timed_read_seq D clk cfg.SCRATCH_BASE cfg.READ_SEQ_SIZE w).2, 0,
        (read_status D 0x05 (timed_read_seq D clk cfg.SCRATCH_BASE cfg.READ_SEQ_SIZE w).1).2⟩
      (read_status D 0x05 (timed_read_seq D clk cfg.SCRATCH_BASE cfg.READ_SEQ_SIZE w).1).1
      (by show (bytes "READ_SEQ").length ≤ 9; decide) (mbps_fits _ _ hseq)
    simp only [if_true, Bool.true_and] at hr
    refine ⟨hr.2.trans (b2.trans (b1.trans hb)), _, logged_trans (logged_trans l1 l2) hr.1, ?_⟩
    rw [l2.1, l1.1]
    cases w.csv_open <;> simp

/-- One web-safe trial: the SPI clock is `hz` again at the end, the rows of the
trial are appended in the order erase, program, sequential read, random reads
(when rows are saved and the file is open), and every bus action ran at `hz`
without page program, or at `prog_hz`. -/
theorem trial_web_safe_spec (D : flash.SpiDevice σ) (clk : Nat → Nat) (fuel : Nat)
    (cfg : Config) (lim : chip_limits) (save : Bool) (hz : Nat) (run : Int) (s : sums)
    (w w' : World σ) (s' : sums) (hseq : cfg.READ_SEQ_SIZE ≤ 2 ^ 32) (hb : w.baud = hz)
    (h : trial_web_safe D clk fuel cfg lim save hz run s w = some (w', s')) :
    w'.baud = hz
    ∧ ∃ new, Logged (seg_ok hz (prog_hz cfg lim)) w w' new
        ∧ new.map (fun r => (r.run, r.op))
            = if save && w.csv_open then (trial_ops cfg).map (fun op => (run, op)) else [] := by
  have hP : ∀ evs, NoProgram evs → seg_ok hz (prog_hz cfg lim) (hz, evs) :=
    fun evs h => Or.inl ⟨rfl, h⟩
  have hT : ∀ evs, (fun _ : List flash.BusEvent => True) evs →
      seg_ok hz (prog_hz cfg lim) (prog_hz cfg lim, evs) := fun evs _ => Or.inr rfl
  simp only [trial_web_safe] at h
  split at h
  · simp at h
  · rename_i w1 us_erase sr1 he
    have qe := quiet_timed_erase_4k_web D clk fuel _ w _ he
    obtain ⟨le, be⟩ := logged_of_quiet (P := seg_ok hz (prog_hz cfg lim)) qe
      (fun evs h => hb ▸ hP evs h)
    simp only at le be
    have hr1 := logged_row (seg_ok hz (prog_hz cfg lim)) save
      ⟨run, bytes "ERASE_4K", hz, era_addr cfg run, 4096, us_erase, some 0, 0, sr1⟩ w1
      (by show (bytes "ERASE_4K").length ≤ 9; decide)
      (by intro q hq; obtain rfl := Option.some.inj hq; norm_num)
    split at h
    · simp at h
    · rename_i w4 us_prog verr sr1_p hp
      simp only [Option.some.injEq, Prod.mk.injEq] at h
      obtain ⟨hw, _⟩ := h
      -- program clock
      have l2 := logged_spi_init (σ := σ) (seg_ok hz (prog_hz cfg lim)) (prog_hz cfg lim)
        (if save then csv_row_to_sd true
          ⟨run, bytes "ERASE_4K", hz, era_addr cfg run, 4096, us_erase, some 0, 0, sr1⟩ w1
        else w1)
      obtain ⟨l3, b3⟩ := logged_of_quiet (P := seg_ok hz (prog_hz cfg lim))
        (quiet_cs_high D (spi_init (prog_hz cfg lim) (if save then csv_row_to_sd true
          ⟨run, bytes "ERASE_4K", hz, era_addr cfg run, 4096, us_erase, some 0, 0, sr1⟩ w1
        else w1))) (fun evs _ => Or.inr rfl)
      have qp := quiet_timed_prog_256_web D clk fuel _ _ _ _ hp
      obtain ⟨l4, b4⟩ := logged_of_quiet (P := seg_ok hz (prog_hz cfg lim)) qp
        (fun evs _ => Or.inr (b3.trans rfl))
      simp only at l4 b4
      have hr2 := logged_row (seg_ok hz (prog_hz cfg lim)) save
        ⟨run, bytes "PROG_256B", prog_hz cfg lim, era_addr cfg run, 256, us_prog,
          _mbps 256 us_prog, verr, sr1_p⟩ w4 (by show (bytes "PROG_256B").length ≤ 9; decide)
        (mbps_fits 256 _ (by decide))
      -- back to the benchmark clock
      have l5 := logged_spi_init (σ := σ) (seg_ok hz (prog_hz cfg lim)) hz
        (if save then csv_row_to_sd true
          ⟨run, bytes "PROG_256B", prog_hz cfg lim, era_addr cfg run, 256, us_prog,
            _mbps 256 us_prog, verr, sr1_p⟩ w4
        else w4)
      obtain ⟨l6, b6⟩ := logged_of_quiet (P := seg_ok hz (prog_hz cfg lim))
        (quiet_cs_high D (spi_init hz (if save then csv_row_to_sd true
          ⟨run, bytes "PROG_256B", prog_hz cfg lim, era_addr cfg run, 256, us_prog,
            _mbps 256 us_prog, verr, sr1_p⟩ w4
        else w4))) (fun evs h => Or.inl ⟨rfl, h⟩)
      have hb6 : (cs_high D (spi_init hz (if save then csv_row_to_sd true
          ⟨run, bytes "PROG_256B", prog_hz cfg lim, era_addr cfg run, 256, us_prog,
            _mbps 256 us_prog, verr, sr1_p⟩ w4
        else w4))).baud = hz := b6.trans rfl
      obtain ⟨b7, n7, l7, k7⟩ := read_seq_step_spec D clk cfg save run hz
        (seg_ok hz (prog_hz cfg lim)) hP hseq _ hb6
      obtain ⟨b8, n8, l8, k8⟩ := rand_reads_spec D clk cfg save run hz
        (seg_ok hz (prog_hz cfg lim)) hP cfg.RAND_READ_ITERS (trial_seed run hz) (some 0) _ b7
      rw [← hw]
      refine ⟨b8, _, logged_trans (logged_trans (logged_trans (logged_trans (logged_trans
        (logged_trans (logged_trans (logged_trans (logged_trans le hr1.1) l2) l3) l4) hr2.1)
        l5) l6) l7) l8, ?_⟩
      have c1 : w1.csv_open = w.csv_open := le.1
      have c4 : w4.csv_open = w.csv_open := by
        rw [l4.1, l3.1, l2.1, hr1.1.1, c1]
      have c6 : (cs_high D (spi_init hz (if save then csv_row_to_sd true
          ⟨run, bytes "PROG_256B", prog_hz cfg lim, era_addr cfg run, 256, us_prog,
            _mbps 256 us_prog, verr, sr1_p⟩ w4
        else w4))).csv_open = w.csv_open := by
        rw [l6.1, l5.1, hr2.1.1, c4]
      have c7 : (read_seq_step D clk cfg save run hz (cs_high D (spi_init hz
          (if save then csv_row_to_sd true
            ⟨run, bytes "PROG_256B", prog_hz cfg lim, era_addr cfg run, 256, us_prog,
              _mbps 256 us_prog, verr, sr1_p⟩ w4
          else w4)))).1.csv_open = w.csv_open := by
        rw [l7.1, c6]
      simp only [List.map_append, k7, k8, c1, c4, c6, c7, List.append_nil, List.nil_append]
      cases save <;> cases w.csv_open <;> simp [trial_ops]

/-- One trial of `run_benchmarks_with_trials`: the SPI clock is `hz` again at the
end and the rows of the trial are appended in the order erase, program,
sequential read, random reads (when rows are saved and the file is open). -/
theorem trial_spec (D : flash.SpiDevice σ) (clk : Nat → Nat) (fuel : Nat)
    (cfg : Config) (save : Bool) (hz : Nat) (run : Int) (s : sums)
    (w w' : World σ) (s' : sums) (hseq : cfg.READ_SEQ_SIZE ≤ 2 ^ 32) (_ : w.baud = hz)
    (h : trial D clk fuel cfg save hz run s w = some (w', s')) :
    w'.baud = hz
    ∧ ∃ new, Logged (fun _ => True) w w' new
        ∧ new.map (fun r => (r.run, r.op))
            = if save && w.csv_open then (trial_ops cfg).map (fun op => (run, op)) else [] := by
  have hP : ∀ evs, NoProgram evs → (fun _ : Nat × List flash.BusEvent => True) (hz, evs) :=
    fun _ _ => trivial
  simp only [trial] at h
  split at h
  · simp at h
  · rename_i w1 us sr1 he
    have qe := quiet_timed_erase_4k D clk fuel _ w _ he
    obtain ⟨le, be⟩ := logged_of_quiet (P := fun _ => True) qe (fun _ _ => trivial)
    simp only at le be
    have hr1 := logged_row (fun _ => True) save
      ⟨run, bytes "ERASE_4K", hz, era_addr cfg run, 4096, us, some 0, 0, sr1⟩ w1
      (by show (bytes "ERASE_4K").length ≤ 9; decide)
      (by intro q hq; obtain rfl := Option.some.inj hq; norm_num)
    split at h
    · simp at h
    · rename_i w4 us_p verr sr1_p hp
      simp only [Option.some.injEq, Prod.mk.injEq] at h
      obtain ⟨hw, _⟩ := h
      have l2 := logged_spi_init (σ := σ) (fun _ => True) cfg.SAFE_PROG_HZ
        (if save then csv_row_to_sd true
          ⟨run, bytes "ERASE_4K", hz, era_addr cfg run, 4096, us, some 0, 0, sr1⟩ w1
        else w1)
      obtain ⟨l3, b3⟩ := logged_of_quiet (P := fun _ => True)
        (quiet_cs_high D (spi_init cfg.SAFE_PROG_HZ (if save then csv_row_to_sd true
          ⟨run, bytes "ERASE_4K", hz, era_addr cfg run, 4096, us, some 0, 0, sr1⟩ w1
        else w1))) (fun _ _ => trivial)
      have qp := quiet_timed_prog_256 D clk fuel _ _ _ _ hp
      obtain ⟨l4, b4⟩ := logged_of_quiet (P := fun _ => True) qp (fun _ _ => trivial)
      simp only at l4 b4
      have hr2 := logged_row (fun _ => True) save
        ⟨run, bytes "PROG_256B", cfg.SAFE_PROG_HZ, era_addr cfg run, 256, us_p,
          _mbps 256 us_p, verr, sr1_p⟩ w4 (by show (bytes "PROG_256B").length ≤ 9; decide)
        (mbps_fits 256 _ (by decide))
      have l5 := logged_spi_init (σ := σ) (fun _ => True) hz
        (if save then csv_row_to_sd true
          ⟨run, bytes "PROG_256B", cfg.SAFE_PROG_HZ, era_addr cfg run, 256, us_p,
            _mbps 256 us_p, verr, sr1_p⟩ w4
        else w4)
      obtain ⟨l6, b6⟩ := logged_of_quiet (P := fun _ => True)
        (quiet_cs_high D (spi_init hz (if save then csv_row_to_sd true
          ⟨run, bytes "PROG_256B", cfg.SAFE_PROG_HZ, era_addr cfg run, 256, us_p,
            _mbps 256 us_p, verr, sr1_p⟩ w4
        else w4))) (fun _ _ => trivial)
      have hb6 : (cs_high D (spi_init hz (if save then csv_row_to_sd true
          ⟨run, bytes "PROG_256B", cfg.SAFE_PROG_HZ, era_addr cfg run, 256, us_p,
            _mbps 256 us_p, verr, sr1_p⟩ w4
        else w4))).baud = hz := b6.trans rfl
      obtain ⟨b7, n7, l7, k7⟩ := read_seq_step_spec D clk cfg save run hz
        (fun _ => True) hP hseq _ hb6
      obtain ⟨b8, n8, l8, k8⟩ := rand_reads_spec D clk cfg save run hz
        (fun _ => True) hP cfg.RAND_READ_ITERS (trial_seed run hz) (some 0) _ b7
      rw [← hw]
      refine ⟨b8, _, logged_trans (logged_trans (logged_trans (logged_trans (logged_trans
        (logged_trans (logged_trans (logged_trans (logged_trans le hr1.1) l2) l3) l4) hr2.1)
        l5) l6) l7) l8, ?_⟩
      have c1 : w1.csv_open = w.csv_open := le.1
      have c4 : w4.csv_open = w.csv_open := by
        rw [l4.1, l3.1, l2.1, hr1.1.1, c1]
      have c6 : (cs_high D (spi_init hz (if save then csv_row_to_sd true
          ⟨run, bytes "PROG_256B", cfg.SAFE_PROG_HZ, era_addr cfg run, 256, us_p,
            _mbps 256 us_p, verr, sr1_p⟩ w4
        else w4))).csv_open = w.csv_open := by
        rw [l6.1, l5.1, hr2.1.1, c4]
      have c7 : (read_seq_step D clk cfg save run hz (cs_high D (spi_init hz
          (if save then csv_row_to_sd true
            ⟨run, bytes "PROG_256B", cfg.SAFE_PROG_HZ, era_addr cfg run, 256, us_p,
              _mbps 256 us_p, verr, sr1_p⟩ w4
          else w4)))).1.csv_open = w.csv_open := by
        rw [l7.1, c6]
      simp only [List.map_append, k7, k8, c1, c4, c6, c7, List.append_nil, List.nil_append]
      cases save <;> cases w.csv_open <;> simp [trial_ops]

/-- The trial loop from trial `k + 1` on: the rows of the trials `k + 1, ...,
trials`, one trial after the other. -/
theorem trials_loop_spec (body : Int → sums → World σ → Option (World σ × sums))
    (P : Nat × List flash.BusEvent → Prop) (hz : Nat) (cfg : Config) (save : Bool)
    (trials : Int)
    (hbody : ∀ run s (w w' : World σ) s', w.baud = hz → body run s w = some (w', s') →
      w'.baud = hz ∧ ∃ new, Logged P w w' new
        ∧ new.map (fun r => (r.run, r.op))
            = if save && w.csv_open then (trial_ops cfg).map (fun op => (run, op)) else []) :
    ∀ (n k : Nat) (s : sums) (w w' : World σ) (s' : sums), w.baud = hz →
      trials_loop body trials n ((k : Int) + 1) s w = some (w', s') →
      w'.baud = hz ∧ ∃ new, Logged P w w' new
        ∧ new.map (fun r => (r.run, r.op))
            = if save && w.csv_open then
                (List.range' k (trials.toNat - k)).flatMap
                  (fun i => (trial_ops cfg).map (fun op => ((i : Int) + 1, op)))
              else [] := by
  intro n
  induction n with
  | zero => intro k s w w' s' _ h; simp [trials_loop] at h
  | succ n ih =>
    intro k s w w' s' hb h
    rw [trials_loop] at h
    by_cases hle : (k : Int) + 1 ≤ trials
    · rw [if_pos hle] at h
      cases hbd : body ((k : Int) + 1) s w with
      | none => rw [hbd] at h; simp at h
      | some r =>
        obtain ⟨w1, s1⟩ := r
        rw [hbd] at h
        simp only at h
        by_cases hint : (k : Int) + 1 + 1 < 2 ^ 31
        · rw [if_pos hint] at h
          obtain ⟨b1, n1, l1, k1⟩ := hbody _ _ _ _ _ hb hbd
          have h' : trials_loop body trials n (((k + 1 : Nat) : Int) + 1) s1 w1
              = some (w', s') := by
            push_cast; exact h
          obtain ⟨b2, n2, l2, k2⟩ := ih (k + 1) s1 w1 w' s' b1 h'
          refine ⟨b2, n1 ++ n2, logged_trans l1 l2, ?_⟩
          rw [List.map_append, k1, k2, l1.1]
          have hm : trials.toNat - k = (trials.toNat - (k + 1)) + 1 := by omega
          cases save <;> cases w.csv_open <;>
            simp [hm, List.range'_succ]
        · rw [if_neg hint] at h
          simp at h
    · rw [if_neg hle] at h
      simp only [Option.some.injEq, Prod.mk.injEq] at h
      obtain ⟨rfl, _⟩ := h
      have hm : trials.toNat - k = 0 := by omega
      exact ⟨hb, [], logged_refl P w, by simp [hm]⟩

theorem logged_report (P : Nat × List flash.BusEvent → Prop) (save_averages : Bool)
    (a : averages) (w : World σ) : Logged P w (report save_averages a w) [] := by
  unfold report
  split <;> exact ⟨rfl, by simp, [], by simp, by simp⟩

theorem range_flatMap_trials_ops (cfg : Config) (n : Nat) :
    (List.range' 0 (n - 0)).flatMap
        (fun i => (trial_ops cfg).map (fun op => ((i : Int) + 1, op)))
      = trials_ops cfg n := by
  simp [trials_ops, List.range_eq_range']

/-- One clock of the web-safe sweep: skipped without a trace when it is above the
safe read clock, otherwise the rows of its trials and bus actions at that clock
(without page program) or at the program clock. -/
theorem sweep_freq_web_safe_spec (D : flash.SpiDevice σ) (clk : Nat → Nat) (fuel : Nat)
    (cfg : Config) (lim : chip_limits) (trials : Int) (save save_averages : Bool) (hz : Nat)
    (w w' : World σ) (hseq : cfg.READ_SEQ_SIZE ≤ 2 ^ 32)
    (h : sweep_freq_web_safe D clk fuel cfg lim trials save save_averages hz w = some w') :
    (lim.max_safe_read_hz < hz → w' = w)
    ∧ ∃ new, Logged (fun s => hz ≤ lim.max_safe_read_hz ∧ seg_ok hz (prog_hz cfg lim) s) w w' new
        ∧ new.map (fun r => (r.run, r.op))
            = if decide (hz ≤ lim.max_safe_read_hz) && (save && w.csv_open) then
                trials_ops cfg trials.toNat
              else [] := by
  unfold sweep_freq_web_safe at h
  by_cases hskip : hz > lim.max_safe_read_hz
  · rw [if_pos hskip] at h
    obtain rfl := Option.some.inj h
    refine ⟨fun _ => rfl, [], logged_refl _ _, ?_⟩
    have : ¬ hz ≤ lim.max_safe_read_hz := by omega
    simp [this]
  · rw [if_neg hskip] at h
    have hle : hz ≤ lim.max_safe_read_hz := by omega
    refine ⟨fun hc => absurd hc (by omega), ?_⟩
    split at h
    · simp at h
    · rename_i w1 s hloop
      obtain rfl := Option.some.inj h
      have l0 := logged_spi_init (σ := σ) (seg_ok hz (prog_hz cfg lim)) hz w
      obtain ⟨l1, b1⟩ := logged_of_quiet (P := seg_ok hz (prog_hz cfg lim))
        (quiet_cs_high D (spi_init hz w)) (fun evs h => Or.inl ⟨rfl, h⟩)
      have hloop' : trials_loop (trial_web_safe D clk fuel cfg lim save hz) trials
          (trials.toNat + 1) (((0 : Nat) : Int) + 1) sums.zero (cs_high D (spi_init hz w))
          = some (w1, s) := by simpa using hloop
      obtain ⟨b2, new, l2, k2⟩ := trials_loop_spec (trial_web_safe D clk fuel cfg lim save hz)
        (seg_ok hz (prog_hz cfg lim)) hz cfg save trials
        (fun run s w w' s' hb hh => trial_web_safe_spec D clk fuel cfg lim save hz run s w w' s'
          hseq hb hh)
        _ 0 _ _ _ _ (b1.trans rfl) hloop'
      have l3 := logged_report (seg_ok hz (prog_hz cfg lim)) save_averages
        (averages_of hz trials s) w1
      have lall : Logged (seg_ok hz (prog_hz cfg lim)) w
          (report save_averages (averages_of hz trials s) w1) new := by
        simpa using logged_trans (logged_trans (logged_trans l0 l1) l2) l3
      refine ⟨new, logged_mono lall (fun s hs => ⟨hle, hs⟩), ?_⟩
      rw [k2, range_flatMap_trials_ops, l1.1, l0.1]
      simp [hle]

/-- The web-safe sweep over a list of clocks. -/
theorem sweep_web_safe_spec (D : flash.SpiDevice σ) (clk : Nat → Nat) (fuel : Nat)
    (cfg : Config) (lim : chip_limits) (trials : Int) (save save_averages : Bool)
    (hseq : cfg.READ_SEQ_SIZE ≤ 2 ^ 32) (all : List Nat) :
    ∀ (freqs : List Nat) (w w' : World σ), (∀ hz ∈ freqs, hz ∈ all) →
      sweep (sweep_freq_web_safe D clk fuel cfg lim trials save save_averages) freqs w
        = some w' →
      ∃ new, Logged (fun s => ∃ hz ∈ all, hz ≤ lim.max_safe_read_hz
            ∧ seg_ok hz (prog_hz cfg lim) s) w w' new
        ∧ new.map (fun r => (r.run, r.op))
            = if save && w.csv_open then
                (freqs.filter (fun hz => decide (hz ≤ lim.max_safe_read_hz))).flatMap
                  (fun _ => trials_ops cfg trials.toNat)
              else [] := by
  intro freqs
  induction freqs with
  | nil =>
    intro w w' _ h
    simp only [sweep, Option.some.injEq] at h
    subst h
    exact ⟨[], logged_refl _ _, by simp⟩
  | cons hz rest ih =>
    intro w w' hall h
    rw [sweep] at h
    split at h
    · simp at h
    · rename_i w1 hstep
      obtain ⟨_, n1, l1, k1⟩ := sweep_freq_web_safe_spec D clk fuel cfg lim trials save
        save_averages hz w w1 hseq hstep
      obtain ⟨n2, l2, k2⟩ := ih w1 w' (fun x hx => hall x (List.mem_cons_of_mem _ hx)) h
      refine ⟨n1 ++ n2, logged_trans (logged_mono l1 (fun s hs =>
        ⟨hz, hall hz (List.mem_cons_self _ _), hs.1, hs.2⟩)) l2, ?_⟩
      rw [List.map_append, k1, k2, l1.1]
      by_cases hle : hz ≤ lim.max_safe_read_hz <;>
        cases save <;> cases w.csv_open <;> simp [List.filter_cons, hle]

end bench

end Firmware

namespace Firmware

namespace bench

variable {σ : Type}

/-! ### The web-safe run always ends when the timer advances -/

theorem wip_poll_loop_total (D : flash.SpiDevice σ) (clk : Nat → Nat) (hclk : StrictMono clk)
    (deadline : Nat) :
    ∀ (fuel : Nat) (w : World σ), 0 < fuel → deadline < clk w.ticks + fuel →
      ∃ r, wip_poll_loop D clk fuel deadline w = some r := by
  intro fuel
  induction fuel with
  | zero => intro w h; omega
  | succ f ih =>
    intro w _ hd
    rw [wip_poll_loop]
    simp only
    by_cases hb : (read_status D 0x05 w).2 &&& 1 = 0
    · rw [if_pos hb]; exact ⟨_, rfl⟩
    · rw [if_neg hb]
      by_cases ht : absolute_time_diff_us
          (get_absolute_time clk (read_status D 0x05 w).1).2 deadline ≤ 0
      · rw [if_pos ht]; exact ⟨_, rfl⟩
      · rw [if_neg ht]
        have hticks : (read_status D 0x05 w).1.ticks = w.ticks := rfl
        have hlt : clk w.ticks < deadline := by
          simp only [absolute_time_diff_us, get_absolute_time, hticks] at ht
          omega
        have hnext : clk w.ticks < clk (w.ticks + 1) := hclk (by omega)
        apply ih
        · omega
        · show deadline < clk ((read_status D 0x05 w).1.ticks + 1) + f
          rw [hticks]
          omega

theorem wait_wip_clear_web_safe_total (D : flash.SpiDevice σ) (clk : Nat → Nat)
    (hclk : StrictMono clk) (fuel timeout_ms : Nat) (w : World σ) (h0 : 0 < fuel)
    (hf : timeout_ms * 1000 ≤ fuel) :
    ∃ r, wait_wip_clear_web_safe D clk fuel timeout_ms w = some r := by
  unfold wait_wip_clear_web_safe
  apply wip_poll_loop_total D clk hclk _ fuel _ h0
  have hnext : clk w.ticks < clk (w.ticks + 1) := hclk (by omega)
  show clk w.ticks + timeout_ms * 1000 < clk (w.ticks + 1) + fuel
  omega

theorem timed_erase_4k_web_total (D : flash.SpiDevice σ) (clk : Nat → Nat)
    (hclk : StrictMono clk) (fuel addr : Nat) (w : World σ) (hf : 5000000 ≤ fuel) :
    ∃ r, timed_erase_4k_web D clk fuel addr w = some r := by
  unfold timed_erase_4k_web
  simp only
  obtain ⟨r, hr⟩ : ∃ r, sector_erase_4k_web_safe D clk fuel addr ERASE_WEB_TIMEOUT_MS
      (get_absolute_time clk w).1 = some r :=
    wait_wip_clear_web_safe_total D clk hclk fuel _ _ (by omega)
      (by simp only [ERASE_WEB_TIMEOUT_MS]; omega)
  rw [hr]
  obtain ⟨w1, ok⟩ := r
  simp only
  split <;> exact ⟨_, rfl⟩

theorem timed_prog_256_web_total (D : flash.SpiDevice σ) (clk : Nat → Nat)
    (hclk : StrictMono clk) (fuel addr : Nat) (data : List Nat) (w : World σ)
    (hf : 5000000 ≤ fuel) : ∃ r, timed_prog_256_web D clk fuel addr data w = some r := by
  unfold timed_prog_256_web
  simp only
  obtain ⟨r, hr⟩ : ∃ r, page_program_web_safe D clk fuel addr data PROG_WEB_TIMEOUT_MS
      (get_absolute_time clk w).1 = some r :=
    wait_wip_clear_web_safe_total D clk hclk fuel _ _ (by omega)
      (by simp only [PROG_WEB_TIMEOUT_MS]; omega)
  rw [hr]
  obtain ⟨w1, ok⟩ := r
  simp only
  split <;> exact ⟨_, rfl⟩

theorem trial_web_safe_total (D : flash.SpiDevice σ) (clk : Nat → Nat) (hclk : StrictMono clk)
    (fuel : Nat) (cfg : Config) (lim : chip_limits) (save : Bool) (hz : Nat) (run : Int)
    (s : sums) (w : World σ) (hf : 5000000 ≤ fuel) :
    ∃ r, trial_web_safe D clk fuel cfg lim save hz run s w = some r := by
  unfold trial_web_safe
  simp only
  obtain ⟨⟨w1, us, sr1⟩, he⟩ := timed_erase_4k_web_total D clk hclk fuel (era_addr cfg run) w hf
  rw [he]
  simp only
  obtain ⟨⟨w4, us_p, verr, sr1_p⟩, hp⟩ := timed_prog_256_web_total D clk hclk fuel
    (era_addr cfg run) test_page (cs_high D (spi_init (prog_hz cfg lim)
      (if save then csv_row_to_sd true
        ⟨run, bytes "ERASE_4K", hz, era_addr cfg run, 4096, us, some 0, 0, sr1⟩ w1
      else w1))) hf
  rw [hp]
  exact ⟨_, rfl⟩

/-- The trial loop ends when every trial does and `trials + 1` is an `int`. -/
theorem trials_loop_total (body : Int → sums → World σ → Option (World σ × sums))
    (trials : Int) (hbody : ∀ run s w, ∃ r, body run s w = some r)
    (hint : trials + 1 < 2 ^ 31) :
    ∀ (n : Nat) (run : Int) (s : sums) (w : World σ), 1 ≤ run →
      (trials + 1 - run).toNat < n →
      ∃ r, trials_loop body trials n run s w = some r := by
  intro n
  induction n with
  | zero => intro run s w _ h; omega
  | succ n ih =>
    intro run s w h1 hn
    rw [trials_loop]
    by_cases hle : run ≤ trials
    · rw [if_pos hle]
      obtain ⟨⟨w1, s1⟩, hb⟩ := hbody run s w
      rw [hb]
      simp only
      rw [if_pos (by omega)]
      exact ih (run + 1) s1 w1 (by omega) (by omega)
    · rw [if_neg hle]; exact ⟨_, rfl⟩

theorem sweep_total (step : Nat → World σ → Option (World σ))
    (hstep : ∀ hz w, ∃ w', step hz w = some w') :
    ∀ (freqs : List Nat) (w : World σ), ∃ w', sweep step freqs w = some w' := by
  intro freqs
  induction freqs with
  | nil => intro w; exact ⟨w, rfl⟩
  | cons hz rest ih =>
    intro w
    obtain ⟨w1, h1⟩ := hstep hz w
    rw [sweep, h1]
    exact ih w1

theorem run_web_safe_total (D : flash.SpiDevice σ) (clk : Nat → Nat) (hclk : StrictMono clk)
    (fuel : Nat) (cfg : Config) (trials : Int) (save_per_run save_averages out : Bool)
    (fr_bench : Nat) (w : World σ) (hf : 5000000 ≤ fuel) (hint : trials + 1 < 2 ^ 31) :
    ∃ w', run_benchmarks_with_trials_web_safe D clk fuel cfg trials save_per_run save_averages
      out fr_bench w = some w' := by
  unfold run_benchmarks_with_trials_web_safe
  split
  · exact ⟨w, rfl⟩
  · simp only
    apply sweep_total
    intro hz w0
    unfold sweep_freq_web_safe
    split
    · exact ⟨_, rfl⟩
    · obtain ⟨⟨w1, s⟩, hl⟩ := trials_loop_total
        (trial_web_safe D clk fuel cfg _ save_per_run hz) trials
        (fun run s w => trial_web_safe_total D clk hclk fuel cfg _ save_per_run hz run s w hf)
        hint (trials.toNat + 1) 1 sums.zero (cs_high D (spi_init hz w0)) (by omega) (by omega)
      rw [hl]
      exact ⟨_, rfl⟩

/-! ### `run_benchmarks_with_trials` ends when every blocking wait does -/

theorem timed_erase_4k_total (D : flash.SpiDevice σ) (clk : Nat → Nat) (fuel addr : Nat)
    (w : World σ) (hwait : ∀ b : flash.Bus σ, ∃ b', flash.wait_wip_clear D fuel b = some b') :
    ∃ r, timed_erase_4k D clk fuel addr w = some r := by
  unfold timed_erase_4k
  simp only
  obtain ⟨b', hb⟩ : ∃ b', flash.sector_erase_4k D fuel addr
      (⟨(get_absolute_time clk w).1.dev, []⟩ : flash.Bus σ) = some b' := hwait _
  simp only [on_bus_wait, hb, Option.map_some']
  exact ⟨_, rfl⟩

theorem timed_prog_256_total (D : flash.SpiDevice σ) (clk : Nat → Nat) (fuel addr : Nat)
    (page : List Nat) (w : World σ)
    (hwait : ∀ b : flash.Bus σ, ∃ b', flash.wait_wip_clear D fuel b = some b') :
    ∃ r, timed_prog_256 D clk fuel addr page w = some r := by
  unfold timed_prog_256
  simp only
  obtain ⟨b', hb⟩ : ∃ b', flash.page_program D fuel (addr &&& 0xFFFFFF00) (page256 page)
      (⟨(get_absolute_time clk w).1.dev, []⟩ : flash.Bus σ) = some b' := hwait _
  simp only [on_bus_wait, hb, Option.map_some']
  exact ⟨_, rfl⟩

theorem trial_total (D : flash.SpiDevice σ) (clk : Nat → Nat) (fuel : Nat) (cfg : Config)
    (save : Bool) (hz : Nat) (run : Int) (s : sums) (w : World σ)
    (hwait : ∀ b : flash.Bus σ, ∃ b', flash.wait_wip_clear D fuel b = some b') :
    ∃ r, trial D clk fuel cfg save hz run s w = some r := by
  unfold trial
  simp only
  obtain ⟨⟨w1, us, sr1⟩, he⟩ := timed_erase_4k_total D clk fuel (era_addr cfg run) w hwait
  rw [he]
  simp only
  obtain ⟨⟨w4, us_p, verr, sr1_p⟩, hp⟩ := timed_prog_256_total D clk fuel
    (era_addr cfg run) test_page (cs_high D (spi_init cfg.SAFE_PROG_HZ
      (if save then csv_row_to_sd true
        ⟨run, bytes "ERASE_4K", hz, era_addr cfg run, 4096, us, some 0, 0, sr1⟩ w1
      else w1))) hwait
  rw [hp]
  exact ⟨_, rfl⟩

theorem erase_scratch_total (D : flash.SpiDevice σ) (clk : Nat → Nat) (fuel : Nat)
    (cfg : Config) (hfit : cfg.SCRATCH_BASE + cfg.SCRATCH_SIZE + 4096 ≤ 2 ^ 32)
    (hwait : ∀ b : flash.Bus σ, ∃ b', flash.wait_wip_clear D fuel b = some b') :
    ∀ (n a : Nat) (w : World σ),
      (cfg.SCRATCH_BASE + cfg.SCRATCH_SIZE - a + 4095) / 4096 < n →
      ∃ w', erase_scratch D clk fuel cfg n a w = some w' := by
  intro n
  induction n with
  | zero => intro a w h; omega
  | succ n ih =>
    intro a w hn
    rw [erase_scratch]
    have hB : (cfg.SCRATCH_BASE + cfg.SCRATCH_SIZE) % 2 ^ 32
        = cfg.SCRATCH_BASE + cfg.SCRATCH_SIZE := Nat.mod_eq_of_lt (by omega)
    rw [hB]
    by_cases hlt : a < cfg.SCRATCH_BASE + cfg.SCRATCH_SIZE
    · rw [if_pos hlt]
      obtain ⟨r, hr⟩ := timed_erase_4k_total D clk fuel a w hwait
      rw [hr]
      simp only
      have hnext : (a + 4096) % 2 ^ 32 = a + 4096 := Nat.mod_eq_of_lt (by omega)
      rw [hnext]
      apply ih
      omega
    · rw [if_neg hlt]; exact ⟨w, rfl⟩

theorem run_total (D : flash.SpiDevice σ) (clk : Nat → Nat) (fuel : Nat) (cfg : Config)
    (trials : Int) (save_per_run save_averages : Bool) (fr_bench : Nat) (w : World σ)
    (hfit : cfg.SCRATCH_BASE + cfg.SCRATCH_SIZE + 4096 ≤ 2 ^ 32)
    (hwait : ∀ b : flash.Bus σ, ∃ b', flash.wait_wip_clear D fuel b = some b')
    (hint : trials + 1 < 2 ^ 31) :
    ∃ w', run_benchmarks_with_trials D clk fuel cfg trials save_per_run save_averages
      fr_bench w = some w' := by
  unfold run_benchmarks_with_trials
  simp only
  obtain ⟨w1, h1⟩ := erase_scratch_total D clk fuel cfg hfit hwait (2 ^ 20 + 1)
    cfg.SCRATCH_BASE w (by omega)
  rw [h1]
  simp only
  apply sweep_total
  intro hz w0
  unfold sweep_freq
  obtain ⟨⟨w2, s⟩, hl⟩ := trials_loop_total (trial D clk fuel cfg save_per_run hz) trials
    (fun run s w => trial_total D clk fuel cfg save_per_run hz run s w hwait)
    hint (trials.toNat + 1) 1 sums.zero (spi_init hz w0) (by omega) (by omega)
  rw [hl]
  exact ⟨_, rfl⟩

end bench

end Firmware

namespace Firmware

namespace bench

variable {σ : Type}

theorem quiet_erase_scratch (D : flash.SpiDevice σ) (clk : Nat → Nat) (fuel : Nat)
    (cfg : Config) :
    ∀ (n a : Nat) (w w' : World σ), erase_scratch D clk fuel cfg n a w = some w' →
      Quiet (fun _ => True) w w' := by
  intro n
  induction n with
  | zero => intro a w w' h; simp [erase_scratch] at h
  | succ n ih =>
    intro a w w' h
    rw [erase_scratch] at h
    split at h
    · split at h
      · simp at h
      · rename_i r hr
        exact quiet_trans (quiet_timed_erase_4k D clk fuel a w r hr) (ih _ _ _ h)
    · obtain rfl := Option.some.inj h
      exact quiet_refl _ _

theorem sweep_freq_spec (D : flash.SpiDevice σ) (clk : Nat → Nat) (fuel : Nat)
    (cfg : Config) (trials : Int) (save save_averages : Bool) (hz : Nat)
    (w w' : World σ) (hseq : cfg.READ_SEQ_SIZE ≤ 2 ^ 32)
    (h : sweep_freq D clk fuel cfg trials save save_averages hz w = some w') :
    ∃ new, Logged (fun _ => True) w w' new
      ∧ new.map (fun r => (r.run, r.op))
          = if save && w.csv_open then trials_ops cfg trials.toNat else [] := by
  unfold sweep_freq at h
  split at h
  · simp at h
  · rename_i w1 s hloop
    obtain rfl := Option.some.inj h
    have l0 := logged_spi_init (σ := σ) (fun _ => True) hz w
    have hloop' : trials_loop (trial D clk fuel cfg save hz) trials
        (trials.toNat + 1) (((0 : Nat) : Int) + 1) sums.zero (spi_init hz w)
        = some (w1, s) := by simpa using hloop
    obtain ⟨_, new, l2, k2⟩ := trials_loop_spec (trial D clk fuel cfg save hz)
      (fun _ => True) hz cfg save trials
      (fun run s w w' s' hb hh => trial_spec D clk fuel cfg save hz run s w w' s' hseq hb hh)
      _ 0 _ _ _ _ rfl hloop'
    have l3 := logged_report (fun _ => True) save_averages (averages_of hz trials s) w1
    refine ⟨new, by simpa using logged_trans (logged_trans l0 l2) l3, ?_⟩
    rw [k2, range_flatMap_trials_ops, l0.1]

theorem sweep_spec (D : flash.SpiDevice σ) (clk : Nat → Nat) (fuel : Nat)
    (cfg : Config) (trials : Int) (save save_averages : Bool)
    (hseq : cfg.READ_SEQ_SIZE ≤ 2 ^ 32) :
    ∀ (freqs : List Nat) (w w' : World σ),
      sweep (sweep_freq D clk fuel cfg trials save save_averages) freqs w = some w' →
      ∃ new, Logged (fun _ => True) w w' new
        ∧ new.map (fun r => (r.run, r.op))
            = if save && w.csv_open then freqs.flatMap (fun _ => trials_ops cfg trials.toNat)
              else [] := by
  intro freqs
  induction freqs with
  | nil =>
    intro w w' h
    simp only [sweep, Option.some.injEq] at h
    subst h
    exact ⟨[], logged_refl _ _, by simp⟩
  | cons hz rest ih =>
    intro w w' h
    rw [sweep] at h
    split at h
    · simp at h
    · rename_i w1 hstep
      obtain ⟨n1, l1, k1⟩ := sweep_freq_spec D clk fuel cfg trials save save_averages hz w w1
        hseq hstep
      obtain ⟨n2, l2, k2⟩ := ih w1 w' h
      refine ⟨n1 ++ n2, logged_trans l1 l2, ?_⟩
      rw [List.map_append, k1, k2, l1.1]
      cases save <;> cases w.csv_open <;> simp

theorem trials_ops_length (cfg : Config) (n : Nat) :
    (trials_ops cfg n).length = n * (3 + cfg.RAND_READ_ITERS) := by
  induction n with
  | zero => simp [trials_ops]
  | succ n ih =>
    simp only [trials_ops] at ih ⊢
    rw [List.range_succ, List.flatMap_append, List.length_append, ih]
    simp [trial_ops]
    ring

theorem trials_ops_count (cfg : Config) (n : Nat) (op : List Nat) :
    ((trials_ops cfg n).filter (fun p => decide (p.2 = op))).length
      = n * ((trial_ops cfg).filter (fun o => decide (o = op))).length := by
  induction n with
  | zero => simp [trials_ops]
  | succ n ih =>
    simp only [trials_ops] at ih ⊢
    rw [List.range_succ, List.flatMap_append, List.filter_append, List.length_append, ih]
    simp [List.filter_map, Function.comp_def]
    ring

theorem run_rows (D : flash.SpiDevice σ) (clk : Nat → Nat) (fuel : Nat) (cfg : Config)
    (trials : Int) (save save_averages : Bool) (fr_bench : Nat) (w w' : World σ)
    (hseq : cfg.READ_SEQ_SIZE ≤ 2 ^ 32)
    (h : run_benchmarks_with_trials D clk fuel cfg trials save save_averages fr_bench w
      = some w') :
    w'.rows.map (fun r => (r.run, r.op))
      = w.rows.map (fun r => (r.run, r.op))
        ++ if save && w.csv_open then
            cfg.SPI_FREQS.flatMap (fun _ => trials_ops cfg trials.toNat)
          else [] := by
  unfold run_benchmarks_with_trials at h
  simp only at h
  split at h
  · simp at h
  · rename_i w1 hscr
    have q1 := quiet_erase_scratch D clk fuel cfg _ _ w w1 hscr
    have q2 : Quiet (fun _ => True) w1 (on_bus (flash.read_jedec_id D) w1).1 :=
      quiet_on_bus _ _ _ trivial
    have q3 : Quiet (fun _ => True) (on_bus (flash.read_jedec_id D) w1).1
        (on_bus (flash.read_sfdp_header D) (on_bus (flash.read_jedec_id D) w1).1).1 :=
      quiet_on_bus _ _ _ trivial
    obtain ⟨_, hr, hc, _⟩ := quiet_trans (quiet_trans q1 q2) q3
    obtain ⟨new, l, k⟩ := sweep_spec D clk fuel cfg trials save _ hseq _ _ _ h
    rw [l.2.1, List.map_append, k, hr, hc]

theorem run_web_safe_rows (D : flash.SpiDevice σ) (clk : Nat → Nat) (fuel : Nat)
    (cfg : Config) (trials : Int) (save save_averages : Bool) (fr_bench : Nat)
    (w w' : World σ) (hseq : cfg.READ_SEQ_SIZE ≤ 2 ^ 32)
    (h : run_benchmarks_with_trials_web_safe D clk fuel cfg trials save save_averages true
      fr_bench w = some w') :
    w'.rows.map (fun r => (r.run, r.op))
      = w.rows.map (fun r => (r.run, r.op))
        ++ if save && w.csv_open then
            (cfg.SPI_FREQS.filter (fun hz => decide (hz ≤ (chip_limits_of
              (jedec_of (on_bus (flash.read_jedec_id D) w).2)).max_safe_read_hz))).flatMap
                (fun _ => trials_ops cfg trials.toNat)
          else [] := by
  unfold run_benchmarks_with_trials_web_safe at h
  simp only [Bool.not_true, Bool.false_eq_true, if_false] at h
  have q2 : Quiet (fun _ => True) w (on_bus (flash.read_jedec_id D) w).1 :=
    quiet_on_bus _ _ _ trivial
  have q3 : Quiet (fun _ => True) (on_bus (flash.read_jedec_id D) w).1
      (on_bus (flash.read_sfdp_header D) (on_bus (flash.read_jedec_id D) w).1).1 :=
    quiet_on_bus _ _ _ trivial
  obtain ⟨_, hr, hc, _⟩ := quiet_trans q2 q3
  obtain ⟨new, l, k⟩ := sweep_web_safe_spec D clk fuel cfg _ trials save _ hseq cfg.SPI_FREQS
    cfg.SPI_FREQS _ _ (fun _ hx => hx) h
  rw [l.2.1, List.map_append, k, hr, hc]

theorem trial_ops_counts (cfg : Config) :
    ((trial_ops cfg).filter (fun o => decide (o = bytes "ERASE_4K"))).length = 1
    ∧ ((trial_ops cfg).filter (fun o => decide (o = bytes "PROG_256B"))).length = 1
    ∧ ((trial_ops cfg).filter (fun o => decide (o = bytes "READ_SEQ"))).length = 1
    ∧ ((trial_ops cfg).filter (fun o => decide (o = bytes "READ_RAND"))).length
        = cfg.RAND_READ_ITERS := by
  have e1 : (bytes "ERASE_4K" = bytes "READ_RAND") = False := by simp; decide
  have e2 : (bytes "PROG_256B" = bytes "READ_RAND") = False := by simp; decide
  have e3 : (bytes "READ_SEQ" = bytes "READ_RAND") = False := by simp; decide
  have e4 : (bytes "READ_RAND" = bytes "ERASE_4K") = False := by simp; decide
  have e5 : (bytes "READ_RAND" = bytes "PROG_256B") = False := by simp; decide
  have e6 : (bytes "READ_RAND" = bytes "READ_SEQ") = False := by simp; decide
  have e7 : (bytes "ERASE_4K" = bytes "PROG_256B") = False := by simp; decide
  have e8 : (bytes "ERASE_4K" = bytes "READ_SEQ") = False := by simp; decide
  have e9 : (bytes "PROG_256B" = bytes "ERASE_4K") = False := by simp; decide
  have e10 : (bytes "PROG_256B" = bytes "READ_SEQ") = False := by simp; decide
  have e11 : (bytes "READ_SEQ" = bytes "ERASE_4K") = False := by simp; decide
  have e12 : (bytes "READ_SEQ" = bytes "PROG_256B") = False := by simp; decide
  refine ⟨?_, ?_, ?_, ?_⟩ <;>
    simp [trial_ops, List.filter_cons, List.filter_replicate, e1, e2, e3, e4, e5, e6, e7, e8,
      e9, e10, e11, e12]

/-- C12: with rows saved per sample and `results.csv` open, for every trial count
`n` each swept clock appends the rows of the trials `1, ..., n`, in each trial
one `ERASE_4K`, one `PROG_256B`, one `READ_SEQ` and `RAND_READ_ITERS` `READ_RAND`
rows in this order, so `n`, `n`, `n` and `n * RAND_READ_ITERS` rows per clock:
for `run_benchmarks_with_trials` (every clock of `SPI_FREQS`) and for
`run_benchmarks_with_trials_web_safe` (every clock not above the safe read
clock), on any device and with any timer readings, whatever the measurements
and status bytes are.  `run_benchmarks_with_trials` returns when every blocking
wait ends within the poll budget; the web-safe run returns on every device
when the timer advances and the poll budget covers the 5 s erase timeout. -/
theorem benchmark_rows (D : flash.SpiDevice σ) (clk : Nat → Nat) (fuel : Nat) (cfg : Config)
    (n : Nat) (save_averages : Bool) (fr_bench : Nat) (w : World σ)
    (hopen : w.csv_open = true) (hseq : cfg.READ_SEQ_SIZE ≤ 2 ^ 32) :
    (∀ w', run_benchmarks_with_trials D clk fuel cfg n true save_averages fr_bench w = some w' →
        w'.rows.map (fun r => (r.run, r.op))
          = w.rows.map (fun r => (r.run, r.op))
            ++ cfg.SPI_FREQS.flatMap (fun _ => trials_ops cfg n))
    ∧ ((n : Int) + 1 < 2 ^ 31 → cfg.SCRATCH_BASE + cfg.SCRATCH_SIZE + 4096 ≤ 2 ^ 32 →
        (∀ b : flash.Bus σ, ∃ b', flash.wait_wip_clear D fuel b = some b') →
        ∃ w', run_benchmarks_with_trials D clk fuel cfg n true save_averages fr_bench w
          = some w')
    ∧ (∀ w', run_benchmarks_with_trials_web_safe D clk fuel cfg n true save_averages true
          fr_bench w = some w' →
        w'.rows.map (fun r => (r.run, r.op))
          = w.rows.map (fun r => (r.run, r.op))
            ++ (cfg.SPI_FREQS.filter (fun hz => decide (hz ≤ (chip_limits_of
                (jedec_of (on_bus (flash.read_jedec_id D) w).2)).max_safe_read_hz))).flatMap
                  (fun _ => trials_ops cfg n))
    ∧ ((n : Int) + 1 < 2 ^ 31 → StrictMono clk → 5000000 ≤ fuel →
        ∃ w', run_benchmarks_with_trials_web_safe D clk fuel cfg n true save_averages true
          fr_bench w = some w')
    ∧ trials_ops cfg n
        = (List.range n).flatMap (fun i =>
            [((i : Int) + 1, bytes "ERASE_4K"), ((i : Int) + 1, bytes "PROG_256B"),
              ((i : Int) + 1, bytes "READ_SEQ")]
            ++ List.replicate cfg.RAND_READ_ITERS ((i : Int) + 1, bytes "READ_RAND"))
    ∧ ((trials_ops cfg n).filter (fun p => decide (p.2 = bytes "ERASE_4K"))).length = n
    ∧ ((trials_ops cfg n).filter (fun p => decide (p.2 = bytes "PROG_256B"))).length = n
    ∧ ((trials_ops cfg n).filter (fun p => decide (p.2 = bytes "READ_SEQ"))).length = n
    ∧ ((trials_ops cfg n).filter (fun p => decide (p.2 = bytes "READ_RAND"))).length
        = n * cfg.RAND_READ_ITERS := by
  obtain ⟨c1, c2, c3, c4⟩ := trial_ops_counts cfg
  refine ⟨?_, ?_, ?_, ?_, ?_, ?_, ?_, ?_, ?_⟩
  · intro w' h
    have := run_rows D clk fuel cfg n true save_averages fr_bench w w' hseq h
    simpa [hopen] using this
  · intro hint hfit hwait
    exact run_total D clk fuel cfg n true save_averages fr_bench w hfit hwait hint
  · intro w' h
    have := run_web_safe_rows D clk fuel cfg n true save_averages fr_bench w w' hseq h
    simpa [hopen] using this
  · intro hint hclk hf
    exact run_web_safe_total D clk hclk fuel cfg n true save_averages true fr_bench w hf hint
  · simp [trials_ops, trial_ops]
  · rw [trials_ops_count, c1, Nat.mul_one]
  · rw [trials_ops_count, c2, Nat.mul_one]
  · rw [trials_ops_count, c3, Nat.mul_one]
  · rw [trials_ops_count, c4]

theorem zero_device_ready (b : flash.Bus Unit) :
    ∃ b', flash.wait_wip_clear flash.zero_device 1 b = some b' := by
  have h : (flash.read_status flash.zero_device 0x05 b).2 = 0 := rfl
  rw [flash.wait_wip_clear, h]
  exact ⟨_, rfl⟩

/-- Witness for C12: one trial on a device that answers every byte with `0`, with
a timer that advances one microsecond per reading: both runs return and append
the rows of one trial per swept clock. -/
theorem benchmark_rows_witness :
    (∃ w', run_benchmarks_with_trials flash.zero_device (fun k => k) 1 tiny (1 : Nat) true
          false 0 (World.init () 12000000 true) = some w'
        ∧ w'.rows.map (fun r => (r.run, r.op))
          = (World.init () 12000000 true).rows.map (fun r => (r.run, r.op))
            ++ tiny.SPI_FREQS.flatMap (fun _ => trials_ops tiny 1))
    ∧ (∃ w', run_benchmarks_with_trials_web_safe flash.zero_device (fun k => k) 5000000 tiny
          (1 : Nat) true false true 0 (World.init () 12000000 true) = some w') :=
  ⟨((benchmark_rows flash.zero_device (fun k => k) 1 tiny 1 false 0
        (World.init () 12000000 true) rfl (by decide)).2.1
        (by decide) (by decide) zero_device_ready).elim
      (fun w' hw => ⟨w', hw, (benchmark_rows flash.zero_device (fun k => k) 1 tiny 1 false 0
        (World.init () 12000000 true) rfl (by decide)).1 w' hw⟩),
    (benchmark_rows flash.zero_device (fun k => k) 5000000 tiny 1 false 0
        (World.init () 12000000 true) rfl (by decide)).2.2.2.1
        (by decide) strictMono_id (by decide)⟩

end bench

end Firmware

namespace Firmware

namespace bench

/-! ## The averages of a clock and the trial count -/

variable {σ : Type}

/-- With `trials = 0` no trial runs, the sums stay `0.0`, and each of the four
averages of a clock is a quotient with divisor `0`. -/
theorem sweep_freq_zero_trials (D : flash.SpiDevice σ) (clk : Nat → Nat) (fuel : Nat)
    (cfg : Config) (save_per_run save_averages : Bool) (hz : Nat) (w : World σ) :
    sweep_freq D clk fuel cfg 0 save_per_run save_averages hz w
        = some (report save_averages
            { hz := hz, avg_erase_ms := none, avg_prog_mbps := none, avg_readseq_mbps := none,
              avg_readrand_mbps := none, total_verify_errs := 0 } (spi_init hz w)) := by
  simp [sweep_freq, trials_loop, averages_of, sums.zero, ddiv, fdiv]

theorem sums_zero_defined : sums.zero.defined := ⟨0, 0, 0, 0, rfl, rfl, rfl, rfl⟩

/-- The accumulated random read speed of a trial is a number. -/
theorem rand_reads_acc_defined (D : flash.SpiDevice σ) (clk : Nat → Nat) (cfg : Config)
    (save : Bool) (run : Int) (hz : Nat) :
    ∀ (n seed : Nat) (acc : ℚ) (w : World σ),
      ∃ q : ℚ, (rand_reads D clk cfg save run hz n seed (some acc) w).2.2 = some q := by
  intro n
  induction n with
  | zero => intro seed acc w; exact ⟨acc, rfl⟩
  | succ n ih =>
    intro seed acc w
    rw [rand_reads]
    simp only
    obtain ⟨m, hm, _, _⟩ := mbps_bounds 256 (timed_read_rand256 D clk cfg seed w).2.1
    rw [hm]
    exact ih _ (acc + m) _

theorem read_seq_step_defined (D : flash.SpiDevice σ) (clk : Nat → Nat) (cfg : Config)
    (save : Bool) (run : Int) (hz : Nat) (w : World σ) :
    ∃ q : ℚ, (read_seq_step D clk cfg save run hz w).2 = some q := by
  obtain ⟨m, hm, _, _⟩ := mbps_bounds cfg.READ_SEQ_SIZE
    (timed_read_seq D clk cfg.SCRATCH_BASE cfg.READ_SEQ_SIZE w).2
  unfold read_seq_step
  simp only
  split_ifs
  · exact ⟨m, hm⟩
  · exact ⟨m, hm⟩

/-- A trial adds numbers to the sums: every speed comes from `_mbps`, which never
divides by zero, and the random read speed is divided by `RAND_READ_ITERS`. -/
theorem trial_defined (D : flash.SpiDevice σ) (clk : Nat → Nat) (fuel : Nat) (cfg : Config)
    (save : Bool) (hz : Nat) (run : Int) (s : sums) (w w' : World σ) (s' : sums)
    (hit : cfg.RAND_READ_ITERS ≠ 0) (hs : s.defined)
    (h : trial D clk fuel cfg save hz run s w = some (w', s')) : s'.defined := by
  obtain ⟨se, sp, sr, srr, h1, h2, h3, h4⟩ := hs
  simp only [trial] at h
  split at h
  · simp at h
  · rename_i w1 us sr1 he
    split at h
    · simp at h
    · rename_i w4 us_p verr sr1_p hp
      simp only [Option.some.injEq, Prod.mk.injEq] at h
      obtain ⟨_, hs'⟩ := h
      obtain ⟨m, hm, _, _⟩ := mbps_bounds 256 us_p
      obtain ⟨q, hq⟩ := read_seq_step_defined D clk cfg save run hz
        (cs_high D (spi_init hz (if save then csv_row_to_sd true
          ⟨run, bytes "PROG_256B", cfg.SAFE_PROG_HZ, era_addr cfg run, 256, us_p,
            _mbps 256 us_p, verr, sr1_p⟩ w4 else w4)))
      obtain ⟨r, hr⟩ := rand_reads_acc_defined D clk cfg save run hz cfg.RAND_READ_ITERS
        (trial_seed run hz) 0
        (read_seq_step D clk cfg save run hz
          (cs_high D (spi_init hz (if save then csv_row_to_sd true
            ⟨run, bytes "PROG_256B", cfg.SAFE_PROG_HZ, era_addr cfg run, 256, us_p,
              _mbps 256 us_p, verr, sr1_p⟩ w4 else w4)))).1
      have hn : ((cfg.RAND_READ_ITERS : ℚ)) ≠ 0 := by exact_mod_cast hit
      rw [← hs']
      refine ⟨se + (us : ℚ), sp + m, sr + q, srr + r / (cfg.RAND_READ_ITERS : ℚ), ?_, ?_, ?_, ?_⟩
      · simp only [h1]; rfl
      · simp only [h2, hm]; rfl
      · simp only [h3, hq]; rfl
      · simp only [h4, hr, ddiv, fdiv, hn, Option.bind, if_false]
        rfl

theorem trials_loop_defined (body : Int → sums → World σ → Option (World σ × sums))
    (trials : Int)
    (hbody : ∀ run s w w' s', s.defined → body run s w = some (w', s') → s'.defined) :
    ∀ (n : Nat) (run : Int) (s : sums) (w w' : World σ) (s' : sums), s.defined →
      trials_loop body trials n run s w = some (w', s') → s'.defined := by
  intro n
  induction n with
  | zero => intro run s w w' s' _ h; simp [trials_loop] at h
  | succ n ih =>
    intro run s w w' s' hs h
    rw [trials_loop] at h
    by_cases hle : run ≤ trials
    · rw [if_pos hle] at h
      split at h
      · simp at h
      · rename_i w1 s1 hb
        by_cases hr : run + 1 < 2 ^ 31
        · rw [if_pos hr] at h
          exact ih _ _ _ _ _ (hbody run s w w1 s1 hs hb) h
        · rw [if_neg hr] at h
          simp at h
    · rw [if_neg hle] at h
      simp only [Option.some.injEq, Prod.mk.injEq] at h
      obtain ⟨_, rfl⟩ := h
      exact hs

/-- C11 (for a positive trial count): for a trial count `trials ≥ 1` (an `int` below `2 ^ 31 - 1`,
with `RAND_READ_ITERS` not zero) no average of a clock of
`run_benchmarks_with_trials` is the result of a division by zero.  Every run of
a clock that returns reports the averages `(sum_erase_us / trials) / 1000`,
`sum_prog_mbps / trials`, `sum_readseq_mbps / trials` and
`sum_readrand_mbps / trials` of sums that are numbers, and the clock does return
when every blocking wait of the flash ends within the poll budget.  The callers
`run_benchmarks` and `run_benchmarks_100` pass the trial counts 10 and 100. -/
theorem averages_defined_for_positive_trials (D : flash.SpiDevice σ) (clk : Nat → Nat)
    (fuel : Nat) (cfg : Config) (trials : Int) (save_per_run save_averages : Bool) (hz : Nat)
    (w : World σ) (htr : 1 ≤ trials) (hint : trials + 1 < 2 ^ 31)
    (hit : cfg.RAND_READ_ITERS ≠ 0) :
    (∀ w', sweep_freq D clk fuel cfg trials save_per_run save_averages hz w = some w' →
      ∃ (w1 : World σ) (se sp sr srr : ℚ) (verrs : Nat),
        w' = report save_averages
          { hz := hz, avg_erase_ms := some (se / (trials : ℚ) / 1000),
            avg_prog_mbps := some (sp / (trials : ℚ)),
            avg_readseq_mbps := some (sr / (trials : ℚ)),
            avg_readrand_mbps := some (srr / (trials : ℚ)),
            total_verify_errs := verrs } w1
        ∧ trials_loop (trial D clk fuel cfg save_per_run hz) trials (trials.toNat + 1) 1
            sums.zero (spi_init hz w)
          = some (w1, ⟨some se, some sp, some sr, some srr, verrs⟩))
    ∧ ((∀ b : flash.Bus σ, ∃ b', flash.wait_wip_clear D fuel b = some b') →
        ∃ w', sweep_freq D clk fuel cfg trials save_per_run save_averages hz w = some w')
    ∧ (∀ (save : Bool) (w0 : World σ),
        run_benchmarks D clk fuel cfg save w0
          = run_benchmarks_with_trials D clk fuel cfg 10 save false FR_OK w0
        ∧ run_benchmarks_100 D clk fuel cfg save w0
          = run_benchmarks_with_trials D clk fuel cfg 100 save false FR_OK w0) := by
  refine ⟨?_, ?_, fun _ _ => ⟨rfl, rfl⟩⟩
  · intro w' h
    unfold sweep_freq at h
    split at h
    · simp at h
    · rename_i w1 s hloop
      obtain rfl := Option.some.inj h
      obtain ⟨se, sp, sr, srr, h1, h2, h3, h4⟩ := trials_loop_defined
        (trial D clk fuel cfg save_per_run hz) trials
        (fun run s w w' s' hs hb => trial_defined D clk fuel cfg save_per_run hz run s w w' s'
          hit hs hb)
        _ _ _ _ _ _ sums_zero_defined hloop
      have ht : ((trials : ℚ)) ≠ 0 := by
        have : trials ≠ 0 := by omega
        exact_mod_cast this
      refine ⟨w1, se, sp, sr, srr, s.total_verify_errs, ?_, ?_⟩
      · congr 1
        simp only [averages_of, h1, h2, h3, h4, ddiv, fdiv, ht, Option.bind, if_false]
        norm_num
      · rw [hloop]
        cases s
        simp only at h1 h2 h3 h4
        rw [h1, h2, h3, h4]
  · intro hwait
    unfold sweep_freq
    obtain ⟨⟨w2, s⟩, hl⟩ := trials_loop_total (trial D clk fuel cfg save_per_run hz) trials
      (fun run s w => trial_total D clk fuel cfg save_per_run hz run s w hwait)
      hint (trials.toNat + 1) 1 sums.zero (spi_init hz w) (by omega) (by omega)
    rw [hl]
    exact ⟨_, rfl⟩

/-- C11, witness: one trial at 12 MHz on a device that answers every byte with `0`
(its status never shows a write in progress), with a timer that advances one
microsecond per reading. -/
theorem averages_defined_for_positive_trials_witness :
    ∃ w', sweep_freq flash.zero_device (fun k => k) 1 tiny 1 false true 12000000
        (World.init () 12000000 false) = some w'
      ∧ ∃ (w1 : World Unit) (se sp sr srr : ℚ) (verrs : Nat),
        w' = report true
          { hz := 12000000, avg_erase_ms := some (se / ((1 : Int) : ℚ) / 1000),
            avg_prog_mbps := some (sp / ((1 : Int) : ℚ)),
            avg_readseq_mbps := some (sr / ((1 : Int) : ℚ)),
            avg_readrand_mbps := some (srr / ((1 : Int) : ℚ)),
            total_verify_errs := verrs } w1
        ∧ trials_loop (trial flash.zero_device (fun k => k) 1 tiny false 12000000) 1
            ((1 : Int).toNat + 1) 1 sums.zero (spi_init 12000000 (World.init () 12000000 false))
          = some (w1, ⟨some se, some sp, some sr, some srr, verrs⟩) :=
  ((averages_defined_for_positive_trials flash.zero_device (fun k => k) 1 tiny 1 false true
      12000000 (World.init () 12000000 false) (by decide) (by decide) (by decide)).2.1
      zero_device_ready).elim
    (fun w' hw => ⟨w', hw,
      (averages_defined_for_positive_trials flash.zero_device (fun k => k) 1 tiny 1 false true
        12000000 (World.init () 12000000 false) (by decide) (by decide) (by decide)).1 w' hw⟩)

/-- With `trials = 0` every clock of the sweep returns and reports an aggregate
whose four averages are undefined. -/
theorem sweep_zero_trials (D : flash.SpiDevice σ) (clk : Nat → Nat) (fuel : Nat)
    (cfg : Config) (save_per_run save_averages : Bool) :
    ∀ (freqs : List Nat) (w : World σ),
      ∃ w', sweep (sweep_freq D clk fuel cfg 0 save_per_run save_averages) freqs w = some w'
        ∧ w'.reported = w.reported ++ freqs.map (fun hz =>
            { hz := hz, avg_erase_ms := none, avg_prog_mbps := none, avg_readseq_mbps := none,
              avg_readrand_mbps := none, total_verify_errs := 0 }) := by
  intro freqs
  induction freqs with
  | nil => intro w; exact ⟨w, rfl, by simp⟩
  | cons hz rest ih =>
    intro w
    obtain ⟨w', hw', hr⟩ := ih (report save_averages
      { hz := hz, avg_erase_ms := none, avg_prog_mbps := none, avg_readseq_mbps := none,
        avg_readrand_mbps := none, total_verify_errs := 0 } (spi_init hz w))
    refine ⟨w', ?_, ?_⟩
    · rw [sweep, sweep_freq_zero_trials]
      exact hw'
    · rw [hr]
      have : (report save_averages
          { hz := hz, avg_erase_ms := none, avg_prog_mbps := none, avg_readseq_mbps := none,
            avg_readrand_mbps := none, total_verify_errs := 0 } (spi_init hz w)).reported
          = w.reported ++ [(⟨hz, none, none, none, none, 0⟩ : averages)] := by
        unfold report
        split <;> rfl
      rw [this]
      simp

/-- The whole run with `trials = 0`: it returns, and for every clock of
`SPI_FREQS` it reports an aggregate whose four averages are undefined. -/
theorem run_zero_trials (D : flash.SpiDevice σ) (clk : Nat → Nat) (fuel : Nat) (cfg : Config)
    (save_per_run save_averages : Bool) (fr_bench : Nat) (w : World σ)
    (hfit : cfg.SCRATCH_BASE + cfg.SCRATCH_SIZE + 4096 ≤ 2 ^ 32)
    (hwait : ∀ b : flash.Bus σ, ∃ b', flash.wait_wip_clear D fuel b = some b') :
    ∃ w', run_benchmarks_with_trials D clk fuel cfg 0 save_per_run save_averages fr_bench w
        = some w'
      ∧ w'.reported = w.reported ++ cfg.SPI_FREQS.map (fun hz =>
          { hz := hz, avg_erase_ms := none, avg_prog_mbps := none, avg_readseq_mbps := none,
            avg_readrand_mbps := none, total_verify_errs := 0 }) := by
  obtain ⟨w1, h1⟩ := erase_scratch_total D clk fuel cfg hfit hwait (2 ^ 20 + 1)
    cfg.SCRATCH_BASE w (by omega)
  have hq := quiet_erase_scratch D clk fuel cfg _ _ _ _ h1
  obtain ⟨w', hw', hr⟩ := sweep_zero_trials D clk fuel cfg save_per_run
    (save_averages && decide (fr_bench = FR_OK)) cfg.SPI_FREQS
    (on_bus (flash.read_sfdp_header D) (on_bus (flash.read_jedec_id D) w1).1).1
  refine ⟨w', ?_, ?_⟩
  · unfold run_benchmarks_with_trials
    simp only [h1]
    exact hw'
  · rw [hr]
    have : (on_bus (flash.read_sfdp_header D) (on_bus (flash.read_jedec_id D) w1).1).1.reported
        = w1.reported := rfl
    rw [this, hq.2.2.2.1]

/-- C11, counterexample: `run_benchmarks_with_trials` has no guard for
`trials = 0`.  The call `run_benchmarks_with_trials (0, false, true)` with the
clocks 12, 24 and 36 MHz (device that answers every byte with `0`, so no wait
blocks) runs no trial, returns, and reports for each clock an aggregate whose
four averages are undefined, each the result of a division `0.0 / 0`. -/
theorem averages_zero_trials_counterexample :
    (run_benchmarks_with_trials flash.zero_device (fun k => k) 1 defaults 0 false true FR_OK
        (World.init () 12000000 false)).map
      (fun w' => w'.reported.map (fun a =>
          (a.hz, a.avg_erase_ms, a.avg_prog_mbps, a.avg_readseq_mbps, a.avg_readrand_mbps)))
      = some [(12000000, none, none, none, none), (24000000, none, none, none, none),
          (36000000, none, none, none, none)]
    ∧ fdiv 0 ((0 : Int) : ℚ) = none := by
  constructor
  · obtain ⟨w', hw', hr⟩ := run_zero_trials flash.zero_device (fun k => k) 1 defaults false
      true FR_OK (World.init () 12000000 false) (by decide) zero_device_ready
    rw [hw']
    simp only [Option.map_some', hr]
    simp [World.init, defaults]
  · simp [fdiv]

end bench

end Firmware

namespace Firmware

namespace bench

theorem sector_idx_eq (cfg : Config) (run : Int) (h1 : 1 ≤ run) (h2 : run < 2 ^ 31) :
    sector_idx cfg run = (run - 1).toNat % (cfg.SCRATCH_SIZE / 4096) := by
  unfold sector_idx
  have : (run - 1) % 2 ^ 32 = run - 1 := Int.emod_eq_of_lt (by omega) (by omega)
  rw [this]

/-- C13: with a sector-aligned `SCRATCH_BASE` and `SCRATCH_SIZE` a positive multiple
of 4096 (the window lying in the 32 bit address range), for every trial number
`run >= 1` the erase address is `SCRATCH_BASE + ((run-1) mod (SCRATCH_SIZE/4096)) * 4096`,
a multiple of 4096 inside `[SCRATCH_BASE, SCRATCH_BASE + SCRATCH_SIZE - 4096]`; trial 1
uses sector index 0 and each next trial (as long as `run + 1` is an `int`) the
next index, wrapping to 0 after `SCRATCH_SIZE/4096 - 1`. -/
theorem era_addr_rotates (cfg : Config) (run : Int)
    (hbase : 4096 ∣ cfg.SCRATCH_BASE) (hsize : 4096 ∣ cfg.SCRATCH_SIZE)
    (hpos : 0 < cfg.SCRATCH_SIZE) (hfit : cfg.SCRATCH_BASE + cfg.SCRATCH_SIZE ≤ 2 ^ 32)
    (h1 : 1 ≤ run) (h2 : run < 2 ^ 31) :
    era_addr cfg run
        = cfg.SCRATCH_BASE + ((run - 1).toNat % (cfg.SCRATCH_SIZE / 4096)) * 4096
      ∧ 4096 ∣ era_addr cfg run
      ∧ cfg.SCRATCH_BASE ≤ era_addr cfg run
      ∧ era_addr cfg run ≤ cfg.SCRATCH_BASE + cfg.SCRATCH_SIZE - 4096
      ∧ sector_idx cfg 1 = 0
      ∧ sector_idx cfg run < cfg.SCRATCH_SIZE / 4096
      ∧ (run + 1 < 2 ^ 31 →
          sector_idx cfg (run + 1)
            = if sector_idx cfg run + 1 = cfg.SCRATCH_SIZE / 4096 then 0
              else sector_idx cfg run + 1) := by
  obtain ⟨n, hn⟩ := hsize
  have hn0 : 0 < n := by omega
  have hdiv : cfg.SCRATCH_SIZE / 4096 = n := by omega
  have hidx := sector_idx_eq cfg run h1 h2
  have hlt : (run - 1).toNat % n < n := Nat.mod_lt _ hn0
  have haddr : era_addr cfg run = cfg.SCRATCH_BASE + ((run - 1).toNat % n) * 4096 := by
    unfold era_addr
    rw [hidx, hdiv]
    apply Nat.mod_eq_of_lt
    omega
  rw [hdiv] at hidx ⊢
  refine ⟨haddr, ?_, ?_, ?_, ?_, ?_, ?_⟩
  · rw [haddr]; exact Dvd.dvd.add hbase (Dvd.intro_left _ rfl)
  · omega
  · rw [haddr]; omega
  · rw [sector_idx_eq cfg 1 (by omega) (by omega)]; simp
  · rw [hidx]; exact hlt
  · intro h3
    have hidx' := sector_idx_eq cfg (run + 1) (by omega) h3
    rw [hdiv] at hidx'
    rw [hidx', hidx]
    have e : (run + 1 - 1).toNat = (run - 1).toNat + 1 := by omega
    rw [e]
    have hm : (run - 1).toNat = n * ((run - 1).toNat / n) + (run - 1).toNat % n :=
      (Nat.div_add_mod _ _).symm
    generalize (run - 1).toNat = m at hm hlt ⊢
    generalize m / n = q at hm
    generalize hr : m % n = r at hm hlt ⊢
    by_cases hc : r + 1 = n
    · rw [if_pos hc]
      have : m + 1 = n * (q + 1) := by rw [Nat.mul_add, Nat.mul_one]; omega
      rw [this, Nat.mul_mod_right]
    · rw [if_neg hc]
      have : m + 1 = r + 1 + n * q := by omega
      rw [this, Nat.add_mul_mod_self_left]
      exact Nat.mod_eq_of_lt (by omega)

/-- Witness for C13: the default window (base 0, 256 KB) at trial 65, which wraps
to sector 0. -/
theorem era_addr_rotates_witness :
    era_addr defaults 65
        = defaults.SCRATCH_BASE + ((65 - 1 : Int).toNat % (defaults.SCRATCH_SIZE / 4096)) * 4096
      ∧ 4096 ∣ era_addr defaults 65
      ∧ defaults.SCRATCH_BASE ≤ era_addr defaults 65
      ∧ era_addr defaults 65 ≤ defaults.SCRATCH_BASE + defaults.SCRATCH_SIZE - 4096
      ∧ sector_idx defaults 1 = 0
      ∧ sector_idx defaults 65 < defaults.SCRATCH_SIZE / 4096
      ∧ ((65 : Int) + 1 < 2 ^ 31 →
          sector_idx defaults (65 + 1)
            = if sector_idx defaults 65 + 1 = defaults.SCRATCH_SIZE / 4096
              then 0
              else sector_idx defaults 65 + 1) :=
  era_addr_rotates defaults 65
    (by decide) (by decide) (by decide) (by decide) (by decide) (by decide)

end bench

end Firmware

namespace Firmware

/-- Clearing the low eight bits of a 32 bit value (`off &= ~0xFFu`) rounds it down
to a multiple of 256. -/
theorem land_page_mask (off : Nat) (h : off < 2 ^ 32) :
    off &&& 0xFFFFFF00 = off / 256 * 256 := by
  apply Nat.eq_of_testBit_eq
  intro i
  have hM : (0xFFFFFF00 : Nat) = (2 ^ 24 - 1) <<< 8 := by decide
  have h256 : off / 256 * 256 = (off >>> 8) <<< 8 := by
    simp [Nat.shiftRight_eq_div_pow, Nat.shiftLeft_eq]
  rw [Nat.testBit_and, hM, h256, Nat.testBit_shiftLeft, Nat.testBit_shiftLeft,
    Nat.testBit_two_pow_sub_one, Nat.testBit_shiftRight]
  by_cases h8 : 8 ≤ i
  · have e : 8 + (i - 8) = i := by omega
    simp only [h8, ge_iff_le, decide_True, Bool.true_and, e]
    by_cases h32 : i - 8 < 24
    · simp [h32]
    · have : off < 2 ^ i := lt_of_lt_of_le h (Nat.pow_le_pow_right (by decide) (by omega))
      simp [h32, Nat.testBit_lt_two_pow this]
  · simp [h8]

namespace bench

theorem xorshift32_lt (s : Nat) (h : s < 2 ^ 32) : _xorshift32 s < 2 ^ 32 := by
  unfold _xorshift32
  have h1 : s ^^^ ((s <<< 13) % 2 ^ 32) < 2 ^ 32 :=
    Nat.xor_lt_two_pow h (Nat.mod_lt _ (by decide))
  have h2 : (s ^^^ ((s <<< 13) % 2 ^ 32)) >>> 17 < 2 ^ 32 :=
    lt_of_le_of_lt (by rw [Nat.shiftRight_eq_div_pow]; exact Nat.div_le_self _ _) h1
  exact Nat.xor_lt_two_pow (Nat.xor_lt_two_pow h1 h2) (Nat.mod_lt _ (by decide))

end bench

namespace spi_flash

theorem xors_eq (s : Nat) : _xors s = bench._xorshift32 s := rfl

end spi_flash

namespace bench

/-- C14: for every 32 bit seed, with `SCRATCH_BASE` page-aligned and `SCRATCH_SIZE`
a multiple of 256 greater than 256 (the window lying in the 32 bit address range),
the address chosen for a random 256 byte read is a multiple of 256 with
`SCRATCH_BASE <= addr` and `addr + 256 <= SCRATCH_BASE + SCRATCH_SIZE`, both for
`_rand_addr_in_scratch` of `bench.c` and for the selection in `timed_read_rand256`
of `SPI/spi_flash.c`; the address and the new seed are given by the input seed
alone: the new seed is its xorshift32 successor and the address is computed from
that value. -/
theorem rand_addr_in_scratch_bounds (cfg : Config) (seed : Nat) (hseed : seed < 2 ^ 32)
    (hbase : 256 ∣ cfg.SCRATCH_BASE) (hsize : 256 ∣ cfg.SCRATCH_SIZE)
    (hbig : 256 < cfg.SCRATCH_SIZE) (hfit : cfg.SCRATCH_BASE + cfg.SCRATCH_SIZE ≤ 2 ^ 32) :
    (256 ∣ (_rand_addr_in_scratch cfg seed).1
      ∧ cfg.SCRATCH_BASE ≤ (_rand_addr_in_scratch cfg seed).1
      ∧ (_rand_addr_in_scratch cfg seed).1 + 256 ≤ cfg.SCRATCH_BASE + cfg.SCRATCH_SIZE
      ∧ (_rand_addr_in_scratch cfg seed).2 = _xorshift32 seed
      ∧ (_rand_addr_in_scratch cfg seed).2 < 2 ^ 32
      ∧ (_rand_addr_in_scratch cfg seed).1
          = cfg.SCRATCH_BASE + _xorshift32 seed % (cfg.SCRATCH_SIZE - 256) / 256 * 256)
    ∧ (256 ∣ (spi_flash.timed_read_rand256_addr cfg.SCRATCH_BASE cfg.SCRATCH_SIZE seed).1
      ∧ cfg.SCRATCH_BASE
          ≤ (spi_flash.timed_read_rand256_addr cfg.SCRATCH_BASE cfg.SCRATCH_SIZE seed).1
      ∧ (spi_flash.timed_read_rand256_addr cfg.SCRATCH_BASE cfg.SCRATCH_SIZE seed).1 + 256
          ≤ cfg.SCRATCH_BASE + cfg.SCRATCH_SIZE
      ∧ (spi_flash.timed_read_rand256_addr cfg.SCRATCH_BASE cfg.SCRATCH_SIZE seed).2
          = spi_flash._xors seed
      ∧ (spi_flash.timed_read_rand256_addr cfg.SCRATCH_BASE cfg.SCRATCH_SIZE seed).2 < 2 ^ 32
      ∧ (spi_flash.timed_read_rand256_addr cfg.SCRATCH_BASE cfg.SCRATCH_SIZE seed).1
          = cfg.SCRATCH_BASE + spi_flash._xors seed % (cfg.SCRATCH_SIZE / 256) * 256) := by
  have hx := xorshift32_lt seed hseed
  obtain ⟨bq, hb⟩ := hbase
  obtain ⟨sq, hs⟩ := hsize
  constructor
  · have hsub : (cfg.SCRATCH_SIZE + 2 ^ 32 - 256) % 2 ^ 32 = cfg.SCRATCH_SIZE - 256 := by
      have : cfg.SCRATCH_SIZE + 2 ^ 32 - 256 = cfg.SCRATCH_SIZE - 256 + 2 ^ 32 := by omega
      rw [this, Nat.add_mod_right]
      exact Nat.mod_eq_of_lt (by omega)
    have hoff : _xorshift32 seed % (cfg.SCRATCH_SIZE - 256) < cfg.SCRATCH_SIZE - 256 :=
      Nat.mod_lt _ (by omega)
    have hmask := land_page_mask (_xorshift32 seed % (cfg.SCRATCH_SIZE - 256)) (by omega)
    have hle : _xorshift32 seed % (cfg.SCRATCH_SIZE - 256) / 256 * 256
        ≤ _xorshift32 seed % (cfg.SCRATCH_SIZE - 256) := Nat.div_mul_le_self _ _
    have haddr : (_rand_addr_in_scratch cfg seed).1
        = cfg.SCRATCH_BASE + _xorshift32 seed % (cfg.SCRATCH_SIZE - 256) / 256 * 256 := by
      simp only [_rand_addr_in_scratch, hsub, hmask]
      exact Nat.mod_eq_of_lt (by omega)
    refine ⟨?_, ?_, ?_, rfl, hx, haddr⟩
    · rw [haddr]; exact Dvd.dvd.add ⟨bq, hb⟩ (Dvd.intro_left _ rfl)
    · omega
    · omega
  · have hpages : 0 < cfg.SCRATCH_SIZE / 256 := by omega
    have hpick : spi_flash._xors seed % (cfg.SCRATCH_SIZE / 256) < cfg.SCRATCH_SIZE / 256 :=
      Nat.mod_lt _ hpages
    have hsz : cfg.SCRATCH_SIZE / 256 * 256 = cfg.SCRATCH_SIZE := by omega
    have haddr : (spi_flash.timed_read_rand256_addr cfg.SCRATCH_BASE cfg.SCRATCH_SIZE seed).1
        = cfg.SCRATCH_BASE + spi_flash._xors seed % (cfg.SCRATCH_SIZE / 256) * 256 := by
      simp only [spi_flash.timed_read_rand256_addr]
      rw [Nat.mod_eq_of_lt (a := spi_flash._xors seed % (cfg.SCRATCH_SIZE / 256) * 256)
        (by omega)]
      exact Nat.mod_eq_of_lt (by omega)
    refine ⟨?_, ?_, ?_, rfl, ?_, haddr⟩
    · rw [haddr]; exact Dvd.dvd.add ⟨bq, hb⟩ (Dvd.intro_left _ rfl)
    · omega
    · rw [haddr]; omega
    · rw [show (spi_flash.timed_read_rand256_addr cfg.SCRATCH_BASE cfg.SCRATCH_SIZE seed).2
        = spi_flash._xors seed from rfl, spi_flash.xors_eq]
      exact hx

/-- Witness for C14: the default window and seed `1`. -/
theorem rand_addr_in_scratch_bounds_witness :
    256 ∣ (_rand_addr_in_scratch defaults 1).1
      ∧ defaults.SCRATCH_BASE ≤ (_rand_addr_in_scratch defaults 1).1
      ∧ (_rand_addr_in_scratch defaults 1).1 + 256
          ≤ defaults.SCRATCH_BASE + defaults.SCRATCH_SIZE
      ∧ (spi_flash.timed_read_rand256_addr defaults.SCRATCH_BASE defaults.SCRATCH_SIZE 1).1 + 256
          ≤ defaults.SCRATCH_BASE + defaults.SCRATCH_SIZE :=
  have h := rand_addr_in_scratch_bounds defaults 1 (by decide) (by decide) (by decide)
    (by decide) (by decide)
  ⟨h.1.1, h.1.2.1, h.1.2.2.1, h.2.2.2.1⟩

end bench

end Firmware

namespace Firmware

namespace bench

variable {σ : Type}

theorem read_status_fst (D : flash.SpiDevice σ) (which : Nat) (w : World σ) :
    (read_status D which w).1
      = { w with dev := (flash.read_status D which ⟨w.dev, []⟩).1.dev,
                 trace := w.trace ++ [(w.baud, (flash.read_status D which ⟨w.dev, []⟩).1.trace)] }
    ∧ (read_status D which w).2 = (flash.read_status D which ⟨w.dev, []⟩).2 :=
  ⟨rfl, rfl⟩

theorem read_status_poll (D : flash.SpiDevice σ) (w : World σ) :
    ∃ rx, (read_status D 0x05 w).1.trace
        = w.trace ++ [(w.baud, flash.frame (flash.status_poll rx))]
      ∧ (read_status D 0x05 w).2 = rx.getD 1 0
      ∧ (read_status D 0x05 w).1.ticks = w.ticks
      ∧ (read_status D 0x05 w).1.baud = w.baud :=
  ⟨(flash.clock_bytes D (D.select w.dev) [0x05, 0]).2,
    by simp [read_status, on_bus, flash.read_status, flash.cs_low, flash.cs_high,
      flash.spi_write_read_blocking, flash.frame, flash.status_poll],
    by simp [read_status, on_bus, flash.read_status, flash.cs_low,
      flash.spi_write_read_blocking],
    rfl, rfl⟩

theorem strictMono_add_le {clk : Nat → Nat} (h : StrictMono clk) (k j : Nat) :
    clk k + j ≤ clk (k + j) := by
  induction j with
  | zero => simp
  | succ j ih =>
    have : clk (k + j) < clk (k + (j + 1)) := h (by omega)
    omega

/-- On a device whose status always shows bit 0 set, the poll loop gives up at the
first timer reading that has reached the deadline. -/
theorem wip_poll_loop_timeout (D : flash.SpiDevice σ) (clk : Nat → Nat) (deadline : Nat)
    (hbusy : ∀ b : flash.Bus σ, (flash.read_status D 0x05 b).2 &&& 1 ≠ 0) :
    ∀ (n fuel : Nat) (w : World σ), n < fuel →
      (∀ i < n, clk (w.ticks + i) < deadline) → deadline ≤ clk (w.ticks + n) →
      ∃ w', wip_poll_loop D clk fuel deadline w = some (w', false)
        ∧ w'.ticks = w.ticks + n + 1 ∧ w'.trace.length = w.trace.length + n + 1
        ∧ w'.rows = w.rows ∧ w'.baud = w.baud ∧ w'.csv_open = w.csv_open := by
  intro n
  induction n with
  | zero =>
    intro fuel w hf _ hd
    obtain ⟨f, rfl⟩ : ∃ f, fuel = f + 1 := ⟨fuel - 1, by omega⟩
    have hb : (read_status D 0x05 w).2 &&& 1 ≠ 0 := hbusy _
    refine ⟨(get_absolute_time clk (read_status D 0x05 w).1).1, ?_, ?_, ?_, rfl, rfl, rfl⟩
    · rw [wip_poll_loop]
      simp only
      rw [if_neg hb, if_pos]
      simp only [absolute_time_diff_us, get_absolute_time]
      have : (read_status D 0x05 w).1.ticks = w.ticks := rfl
      rw [this]
      simp only [Nat.add_zero] at hd
      omega
    · rfl
    · simp [get_absolute_time, read_status, on_bus]
  | succ n ih =>
    intro fuel w hf hlt hd
    obtain ⟨f, rfl⟩ : ∃ f, fuel = f + 1 := ⟨fuel - 1, by omega⟩
    have hb : (read_status D 0x05 w).2 &&& 1 ≠ 0 := hbusy _
    have h0 := hlt 0 (by omega)
    simp only [Nat.add_zero] at h0
    obtain ⟨w', hw', ht, hl, hr, hbd, hc⟩ := ih f (get_absolute_time clk (read_status D 0x05 w).1).1
      (by omega)
      (by
        intro i hi
        have := hlt (i + 1) (by omega)
        simpa [get_absolute_time, read_status, on_bus, Nat.add_assoc, Nat.add_comm 1 i]
          using this)
      (by simpa [get_absolute_time, read_status, on_bus, Nat.add_assoc, Nat.add_comm 1 n]
          using hd)
    refine ⟨w', ?_, ?_, ?_, ?_, ?_, ?_⟩
    · rw [wip_poll_loop]
      simp only
      rw [if_neg hb, if_neg]
      · exact hw'
      · simp only [absolute_time_diff_us, get_absolute_time]
        have : (read_status D 0x05 w).1.ticks = w.ticks := rfl
        rw [this]
        omega
    · rw [ht]; simp [get_absolute_time, read_status, on_bus]; omega
    · rw [hl]; simp [get_absolute_time, read_status, on_bus]; omega
    · rw [hr]; rfl
    · rw [hbd]; rfl
    · rw [hc]; rfl

/-- A poll loop that returned `true` ended on a status read with bit 0 clear. -/
theorem wip_poll_loop_true (D : flash.SpiDevice σ) (clk : Nat → Nat) (deadline : Nat) :
    ∀ (fuel : Nat) (w w' : World σ), wip_poll_loop D clk fuel deadline w = some (w', true) →
      ∃ pre rx, w'.trace = w.trace ++ pre ++ [(w.baud, flash.frame (flash.status_poll rx))]
        ∧ rx.getD 1 0 &&& 1 = 0 := by
  intro fuel
  induction fuel with
  | zero => intro w w' h; simp [wip_poll_loop] at h
  | succ f ih =>
    intro w w' h
    obtain ⟨rx, htr, hval, _, hbd⟩ := read_status_poll D w
    rw [wip_poll_loop] at h
    simp only at h
    by_cases hb : (read_status D 0x05 w).2 &&& 1 = 0
    · rw [if_pos hb] at h
      simp only [Option.some.injEq, Prod.mk.injEq, and_true] at h
      subst h
      exact ⟨[], rx, by simpa using htr, by rw [← hval]; exact hb⟩
    · rw [if_neg hb] at h
      by_cases ht : absolute_time_diff_us
          (get_absolute_time clk (read_status D 0x05 w).1).2 deadline ≤ 0
      · rw [if_pos ht] at h
        simp at h
      · rw [if_neg ht] at h
        obtain ⟨pre, rx', hp, hc⟩ := ih _ _ h
        refine ⟨(w.baud, flash.frame (flash.status_poll rx)) :: pre, rx', ?_, hc⟩
        rw [hp]
        simp only [get_absolute_time]
        rw [htr, hbd]
        simp

theorem first_deadline_poll {clk : Nat → Nat} (hclk : StrictMono clk) (k T : Nat) :
    ∃ n, n ≤ T ∧ (∀ i < n, clk (k + 1 + i) < clk k + T) ∧ clk k + T ≤ clk (k + 1 + n) := by
  have hex : ∃ n, clk k + T ≤ clk (k + 1 + n) := by
    refine ⟨T, ?_⟩
    have h1 := strictMono_add_le hclk k (1 + T)
    have e : k + (1 + T) = k + 1 + T := by omega
    rw [e] at h1
    omega
  refine ⟨Nat.find hex, ?_, ?_, Nat.find_spec hex⟩
  · by_contra hgt
    have hlt : T < Nat.find hex := by omega
    have := Nat.find_min hex hlt
    have h1 := strictMono_add_le hclk k (1 + T)
    have e : k + (1 + T) = k + 1 + T := by omega
    rw [e] at h1
    omega
  · intro i hi
    have := Nat.find_min hex hi
    omega

/-- C15: if every status register read shows bit 0 set and the microsecond timer
strictly advances from one reading to the next, `wait_wip_clear_web_safe` ends and
returns `false` at the first poll at which the timer has reached the deadline
(the entry reading plus `timeout_ms` milliseconds), after at most
`timeout_ms * 1000 + 1` polls, and `timed_erase_4k_web` then returns `-1`.  On any
device and timer, `timed_erase_4k_web` returns a non-negative elapsed time only
after a status read that showed bit 0 clear. -/
theorem wait_wip_clear_web_safe_timeout (D : flash.SpiDevice σ) (clk : Nat → Nat) :
    ((∀ b : flash.Bus σ, (flash.read_status D 0x05 b).2 &&& 1 ≠ 0) → StrictMono clk →
      (∀ (timeout_ms : Nat) (w : World σ), ∃ n, n ≤ timeout_ms * 1000
          ∧ (∀ i < n, clk (w.ticks + 1 + i) < clk w.ticks + timeout_ms * 1000)
          ∧ clk w.ticks + timeout_ms * 1000 ≤ clk (w.ticks + 1 + n)
          ∧ ∀ fuel, n < fuel →
              ∃ w', wait_wip_clear_web_safe D clk fuel timeout_ms w = some (w', false)
                ∧ w'.ticks = w.ticks + 1 + n + 1
                ∧ w'.trace.length = w.trace.length + n + 1)
      ∧ (∀ (addr : Nat) (w : World σ), ∃ n, n ≤ ERASE_WEB_TIMEOUT_MS * 1000
          ∧ (∀ i < n, clk (w.ticks + 2 + i) < clk (w.ticks + 1) + ERASE_WEB_TIMEOUT_MS * 1000)
          ∧ clk (w.ticks + 1) + ERASE_WEB_TIMEOUT_MS * 1000 ≤ clk (w.ticks + 2 + n)
          ∧ ∀ fuel, n < fuel →
              ∃ w' sr1, timed_erase_4k_web D clk fuel addr w = some (w', -1, sr1)
                ∧ w'.ticks = w.ticks + 2 + n + 1))
    ∧ (∀ (fuel addr : Nat) (w w' : World σ) (us : Int) (sr1 : Nat),
        timed_erase_4k_web D clk fuel addr w = some (w', us, sr1) → 0 ≤ us →
        ∃ pre post rx,
          w'.trace = w.trace ++ pre ++ [(w.baud, flash.frame (flash.status_poll rx))] ++ post
          ∧ rx.getD 1 0 &&& 1 = 0) := by
  constructor
  · intro hbusy hclk
    constructor
    · intro timeout_ms w
      obtain ⟨n, hn, hlt, hge⟩ := first_deadline_poll hclk w.ticks (timeout_ms * 1000)
      refine ⟨n, hn, hlt, hge, ?_⟩
      intro fuel hf
      obtain ⟨w', hw', ht, hl, _⟩ := wip_poll_loop_timeout D clk
        (clk w.ticks + timeout_ms * 1000) hbusy n fuel (get_absolute_time clk w).1 hf hlt hge
      exact ⟨w', hw', by rw [ht]; rfl, by rw [hl]; rfl⟩
    · intro addr w
      obtain ⟨n, hn, hlt, hge⟩ :=
        first_deadline_poll hclk (w.ticks + 1) (ERASE_WEB_TIMEOUT_MS * 1000)
      refine ⟨n, hn, hlt, hge, ?_⟩
      intro fuel hf
      let w1 : World σ := (on_bus (fun b => (flash.cs_high D (flash.spi_write_blocking D
        [0x20, (addr >>> 16) &&& 0xFF, (addr >>> 8) &&& 0xFF, (addr >>> 0) &&& 0xFF]
        (flash.cs_low D (flash.write_enable D b))), ())) (get_absolute_time clk w).1).1
      obtain ⟨w', hw', ht, _⟩ := wip_poll_loop_timeout D clk
        (clk (w.ticks + 1) + ERASE_WEB_TIMEOUT_MS * 1000) hbusy n fuel
        (get_absolute_time clk w1).1 hf hlt hge
      have hrun : sector_erase_4k_web_safe D clk fuel addr ERASE_WEB_TIMEOUT_MS
          (get_absolute_time clk w).1 = some (w', false) := hw'
      refine ⟨(read_status D 0x05 w').1, (read_status D 0x05 w').2, ?_, ?_⟩
      · simp only [timed_erase_4k_web, hrun]
        rfl
      · show w'.ticks = _
        rw [ht]; rfl
  · intro fuel addr w w' us sr1 h hus
    simp only [timed_erase_4k_web] at h
    split at h
    · simp at h
    · rename_i w1 ok hrun
      cases ok with
      | false =>
        simp only [Bool.not_false, if_true, Option.some.injEq, Prod.mk.injEq] at h
        omega
      | true =>
        simp only [Bool.not_true, Bool.false_eq_true, if_false, Option.some.injEq,
          Prod.mk.injEq] at h
        obtain ⟨hw, _, _⟩ := h
        obtain ⟨pre, rx, hp, hc⟩ := wip_poll_loop_true D clk _ fuel _ w1 hrun
        obtain ⟨rx2, htr2, _⟩ := read_status_poll D w1
        obtain ⟨X, hX⟩ : ∃ X, (make_timeout_time_ms clk ERASE_WEB_TIMEOUT_MS
            (on_bus (fun b => (flash.cs_high D (flash.spi_write_blocking D
              [0x20, (addr >>> 16) &&& 0xFF, (addr >>> 8) &&& 0xFF, (addr >>> 0) &&& 0xFF]
              (flash.cs_low D (flash.write_enable D b))), ()))
              (get_absolute_time clk w).1).1).1.trace = w.trace ++ [(w.baud, X)] := ⟨_, rfl⟩
        have hbd : (make_timeout_time_ms clk ERASE_WEB_TIMEOUT_MS
            (on_bus (fun b => (flash.cs_high D (flash.spi_write_blocking D
              [0x20, (addr >>> 16) &&& 0xFF, (addr >>> 8) &&& 0xFF, (addr >>> 0) &&& 0xFF]
              (flash.cs_low D (flash.write_enable D b))), ()))
              (get_absolute_time clk w).1).1).1.baud = w.baud := rfl
        rw [hX, hbd] at hp
        refine ⟨(w.baud, X) :: pre, [(w1.baud, flash.frame (flash.status_poll rx2))], rx, ?_, hc⟩
        rw [← hw]
        simp only [get_absolute_time]
        rw [htr2, hp]
        simp

end bench

end Firmware

namespace Firmware

namespace bench

theorem busy_device_busy (b : flash.Bus Unit) :
    (flash.read_status busy_device 0x05 b).2 &&& 1 ≠ 0 := by
  have h : (flash.read_status busy_device 0x05 b).2 = 255 := rfl
  rw [h]
  decide

theorem strictMono_seconds : StrictMono (fun k : Nat => 1000000 * k) :=
  fun a b h => by
    show 1000000 * a < 1000000 * b
    omega

/-- Witness for C15: a device stuck busy and a timer that advances one second per
reading; the erase gives up at the reading that shows 6 s, the entry reading of
the wait having shown 1 s. -/
theorem wait_wip_clear_web_safe_timeout_witness :
    (∃ n, n ≤ ERASE_WEB_TIMEOUT_MS * 1000
      ∧ (∀ i < n, 1000000 * ((World.init () 12000000 false).ticks + 2 + i)
          < 1000000 * ((World.init () 12000000 false).ticks + 1) + ERASE_WEB_TIMEOUT_MS * 1000)
      ∧ 1000000 * ((World.init () 12000000 false).ticks + 1) + ERASE_WEB_TIMEOUT_MS * 1000
          ≤ 1000000 * ((World.init () 12000000 false).ticks + 2 + n)
      ∧ ∀ fuel, n < fuel →
          ∃ w' sr1, timed_erase_4k_web busy_device (fun k => 1000000 * k) fuel 0
              (World.init () 12000000 false) = some (w', -1, sr1)
            ∧ w'.ticks = (World.init () 12000000 false).ticks + 2 + n + 1)
    ∧ (timed_erase_4k_web busy_device (fun k => 1000000 * k) 10 0
        (World.init () 12000000 false)).map (fun r => (r.2.1, r.2.2, r.1.ticks))
        = some (-1, 255, 7) :=
  ⟨((wait_wip_clear_web_safe_timeout busy_device (fun k => 1000000 * k)).1
      busy_device_busy strictMono_seconds).2 0 (World.init () 12000000 false),
    by decide⟩

end bench

end Firmware

namespace Firmware

namespace flash

variable {σ : Type}

theorem cmd_hdr_bytes (op a : Nat) (ha : a < 2 ^ 24) :
    cmd_hdr op a = [op, a / 65536, a / 256 % 256, a % 256] := by
  simp only [cmd_hdr, Nat.shiftRight_eq_div_pow]
  have : a / 2 ^ 16 % 256 = a / 65536 := by omega
  simp [this]
  omega

theorem page_program_sends (D : SpiDevice σ) (addr : Nat) (data : List Nat) (b : Bus σ) :
    ∃ b1 : Bus σ, b1.trace = b.trace ++ [BusEvent.cs_low, BusEvent.write [0x06],
          BusEvent.cs_high, BusEvent.cs_low, BusEvent.write (cmd_hdr 0x02 addr),
          BusEvent.write data, BusEvent.cs_high]
      ∧ ∀ fuel, page_program D fuel addr data b = wait_wip_clear D fuel b1 :=
  ⟨_, by simp [write_enable, cs_low, cs_high, spi_write_blocking], fun _ => rfl⟩

theorem sector_erase_4k_sends (D : SpiDevice σ) (addr : Nat) (b : Bus σ) :
    ∃ b1 : Bus σ, b1.trace = b.trace ++ [BusEvent.cs_low, BusEvent.write [0x06],
          BusEvent.cs_high, BusEvent.cs_low, BusEvent.write (cmd_hdr 0x20 addr),
          BusEvent.cs_high]
      ∧ ∀ fuel, sector_erase_4k D fuel addr b = wait_wip_clear D fuel b1 :=
  ⟨_, by simp [write_enable, cs_low, cs_high, spi_write_blocking], fun _ => rfl⟩

/-- C16: for every address `a < 2 ^ 24` the command header with opcode `op` is
`[op, a >> 16, a >> 8, a]` (bytes), whose three address bytes read big-endian give
`a` back.  `read_data` sends it with opcode `0x03` and then clocks in exactly `len`
bytes; `page_program` sends write enable, then the header with opcode `0x02`
followed by exactly the payload bytes in order, and `sector_erase_4k` sends write
enable and the header with opcode `0x20`, each before it starts polling the
status register. -/
theorem command_headers (a : Nat) (ha : a < 2 ^ 24) :
    (∀ op, cmd_hdr op a = [op, a / 65536, a / 256 % 256, a % 256])
    ∧ a / 65536 < 256
    ∧ a / 65536 * 65536 + a / 256 % 256 * 256 + a % 256 = a
    ∧ (∀ (σ : Type) (D : SpiDevice σ) (len : Nat) (b : Bus σ),
        (read_data D a len b).1.trace
            = b.trace ++ [BusEvent.cs_low, BusEvent.write [0x03, a / 65536, a / 256 % 256, a % 256],
                BusEvent.read 0 (read_data D a len b).2, BusEvent.cs_high]
          ∧ (read_data D a len b).2.length = len)
    ∧ (∀ (σ : Type) (D : SpiDevice σ) (data : List Nat) (b : Bus σ),
        ∃ b1 : Bus σ, b1.trace = b.trace ++ [BusEvent.cs_low, BusEvent.write [0x06],
              BusEvent.cs_high, BusEvent.cs_low,
              BusEvent.write [0x02, a / 65536, a / 256 % 256, a % 256],
              BusEvent.write data, BusEvent.cs_high]
          ∧ ∀ fuel, page_program D fuel a data b = wait_wip_clear D fuel b1)
    ∧ (∀ (σ : Type) (D : SpiDevice σ) (b : Bus σ),
        ∃ b1 : Bus σ, b1.trace = b.trace ++ [BusEvent.cs_low, BusEvent.write [0x06],
              BusEvent.cs_high, BusEvent.cs_low,
              BusEvent.write [0x20, a / 65536, a / 256 % 256, a % 256], BusEvent.cs_high]
          ∧ ∀ fuel, sector_erase_4k D fuel a b = wait_wip_clear D fuel b1) := by
  refine ⟨fun op => cmd_hdr_bytes op a ha, by omega, by omega, ?_, ?_, ?_⟩
  · intro σ D len b
    rw [← cmd_hdr_bytes 0x03 a ha]
    exact ⟨read_data_trace D a len b, read_data_length D a len b⟩
  · intro σ D data b
    rw [← cmd_hdr_bytes 0x02 a ha]
    exact page_program_sends D a data b
  · intro σ D b
    rw [← cmd_hdr_bytes 0x20 a ha]
    exact sector_erase_4k_sends D a b

/-- Witness for C16: address `0x123456`, a three byte read on a device that
answers every byte with `0`. -/
theorem command_headers_witness :
    cmd_hdr 0x20 0x123456 = [0x20, 0x12, 0x34, 0x56]
    ∧ (read_data zero_device 0x123456 3 ⟨(), []⟩).1.trace
        = [BusEvent.cs_low, BusEvent.write [0x03, 0x12, 0x34, 0x56],
            BusEvent.read 0 [0, 0, 0], BusEvent.cs_high] :=
  ⟨(command_headers 0x123456 (by decide)).1 0x20,
    ((command_headers 0x123456 (by decide)).2.2.2.1 Unit zero_device 3 ⟨(), []⟩).1⟩

end flash

end Firmware

namespace Firmware

namespace flash

variable {σ : Type}

theorem framed_nil : Framed [] [] := ⟨rfl, by simp⟩

theorem framed_append {e1 e2 : List BusEvent} {x1 x2 : List (List BusEvent)}
    (h1 : Framed e1 x1) (h2 : Framed e2 x2) : Framed (e1 ++ e2) (x1 ++ x2) := by
  refine ⟨by rw [h1.1, h2.1]; simp, ?_⟩
  intro x hx
  rcases List.mem_append.mp hx with h | h
  · exact h1.2 x h
  · exact h2.2 x h

theorem framed_one (x : List BusEvent) (hx : ∀ e ∈ x, is_transfer e = true) :
    Framed (frame x) [x] :=
  ⟨by simp, by simpa using hx⟩

theorem cs_discipline_transfers (x evs : List BusEvent) (hx : ∀ e ∈ x, is_transfer e = true) :
    cs_discipline true (x ++ evs) = cs_discipline true evs := by
  induction x with
  | nil => rfl
  | cons e es ih =>
    have he := hx e (List.mem_cons_self _ _)
    have hes : ∀ e ∈ es, is_transfer e = true := fun e h => hx e (List.mem_cons_of_mem _ h)
    cases e <;> simp_all [is_transfer, cs_discipline]

/-- A run of complete exchanges keeps the chip select discipline. -/
theorem framed_cs_discipline {evs : List BusEvent} {xs : List (List BusEvent)}
    (h : Framed evs xs) : cs_discipline false evs = true := by
  obtain ⟨rfl, hx⟩ := h
  induction xs with
  | nil => rfl
  | cons x xs ih =>
    have hx1 : ∀ e ∈ x, is_transfer e = true := hx x (List.mem_cons_self _ _)
    have hxs : ∀ y ∈ xs, ∀ e ∈ y, is_transfer e = true :=
      fun y hy => hx y (List.mem_cons_of_mem _ hy)
    have e : (List.map frame (x :: xs)).flatten
        = BusEvent.cs_low :: (x ++ (BusEvent.cs_high :: (List.map frame xs).flatten)) := by
      simp [frame]
    rw [e]
    simp only [cs_discipline, Bool.not_false, Bool.true_and]
    rw [cs_discipline_transfers x _ hx1]
    simpa [cs_discipline] using ih hxs

/-- The status polls of a completed `wait_wip_clear`: every poll but the last
showed bit 0 set, the last showed it clear. -/
theorem wait_wip_clear_polls (D : SpiDevice σ) (fuel : Nat) (b b' : Bus σ)
    (h : wait_wip_clear D fuel b = some b') :
    ∃ (polls : List (List Nat)) (last : List Nat),
      b'.trace = b.trace ++ ((polls ++ [last]).map (fun rx => frame (status_poll rx))).flatten
      ∧ (∀ rx ∈ polls, rx.getD 1 0 &&& 1 ≠ 0) ∧ last.getD 1 0 &&& 1 = 0 := by
  induction fuel generalizing b with
  | zero => simp [wait_wip_clear] at h
  | succ n ih =>
    have htr : (read_status D 0x05 b).1.trace
        = b.trace ++ frame (status_poll (clock_bytes D (D.select b.dev) [0x05, 0]).2) := by
      simp [read_status, cs_low, cs_high, spi_write_read_blocking, frame, status_poll]
    have hval : (read_status D 0x05 b).2
        = (clock_bytes D (D.select b.dev) [0x05, 0]).2.getD 1 0 := by
      simp [read_status, cs_low, spi_write_read_blocking]
    unfold wait_wip_clear at h
    by_cases hc : (read_status D 0x05 b).2 &&& 1 ≠ 0
    · rw [if_pos hc] at h
      obtain ⟨polls, last, ht, hp, hl⟩ := ih _ h
      refine ⟨(clock_bytes D (D.select b.dev) [0x05, 0]).2 :: polls, last, ?_, ?_, hl⟩
      · rw [ht, htr]; simp
      · intro rx hrx
        rcases List.mem_cons.mp hrx with rfl | hrx
        · rw [← hval]; exact hc
        · exact hp rx hrx
    · rw [if_neg hc] at h
      obtain rfl := Option.some.inj h
      refine ⟨[], (clock_bytes D (D.select b.dev) [0x05, 0]).2, ?_, by simp, ?_⟩
      · rw [htr]; simp
      · rw [← hval]; simpa using hc

theorem framed_polls (rxs : List (List Nat)) :
    Framed ((rxs.map (fun rx => frame (status_poll rx))).flatten) (rxs.map status_poll) := by
  refine ⟨by simp [List.map_map, Function.comp_def], ?_⟩
  intro x hx e he
  obtain ⟨rx, _, rfl⟩ := List.mem_map.mp hx
  simp only [status_poll, List.mem_singleton] at he
  subst he
  rfl

theorem exchanged_of_frames (b b' : Bus σ) (xs : List (List BusEvent))
    (ht : b'.trace = b.trace ++ (xs.map frame).flatten)
    (hx : ∀ x ∈ xs, ∀ e ∈ x, is_transfer e = true) : Exchanged b b' xs :=
  ⟨_, ht, ⟨rfl, hx⟩, framed_cs_discipline ⟨rfl, hx⟩⟩

theorem status_polls_transfer (rxs : List (List Nat)) :
    ∀ x ∈ rxs.map status_poll, ∀ e ∈ x, is_transfer e = true := (framed_polls rxs).2

/-- C17: what each Flash Transport operation adds to the bus trace is a sequence
of complete exchanges (chip select low, transfers, chip select high): no byte
moves while chip select is high, and chip select is high on return.  For
`page_program` and `sector_erase_4k` the first exchange is the one byte write
enable `0x06`, the second the command, and the rest are reads of status register
`0x05`, all with bit 0 set except the last one, which shows bit 0 clear. -/
theorem transport_exchanges (D : SpiDevice σ) (b : Bus σ) :
    (∃ rx, Exchanged b (read_jedec_id D b).1 [[BusEvent.write_read [0x9F, 0, 0, 0] rx]])
    ∧ (∀ which, ∃ rx, Exchanged b (read_status D which b).1
          [[BusEvent.write_read [which, 0] rx]]
        ∧ (read_status D which b).2 = rx.getD 1 0)
    ∧ (∃ hdr8, Exchanged b (read_sfdp_header D b).1
          [[BusEvent.write [0x5A, 0, 0, 0, 0], BusEvent.read 0 hdr8]])
    ∧ Exchanged b (write_enable D b) [[BusEvent.write [0x06]]]
    ∧ (∀ addr len, Exchanged b (read_data D addr len b).1
          [[BusEvent.write (cmd_hdr 0x03 addr), BusEvent.read 0 (read_data D addr len b).2]])
    ∧ Exchanged b (flash_soft_reset D b) [[BusEvent.write [0x66]], [BusEvent.write [0x99]]]
    ∧ Exchanged b (flash_release_from_dp D b) [[BusEvent.write [0xAB]]]
    ∧ (∀ fuel b', wait_wip_clear D fuel b = some b' →
        ∃ (polls : List (List Nat)) (last : List Nat),
          Exchanged b b' ((polls ++ [last]).map status_poll)
          ∧ (∀ rx ∈ polls, rx.getD 1 0 &&& 1 ≠ 0) ∧ last.getD 1 0 &&& 1 = 0)
    ∧ (∀ fuel addr data b', page_program D fuel addr data b = some b' →
        ∃ (polls : List (List Nat)) (last : List Nat),
          Exchanged b b' ([BusEvent.write [0x06]]
            :: [BusEvent.write (cmd_hdr 0x02 addr), BusEvent.write data]
            :: (polls ++ [last]).map status_poll)
          ∧ (∀ rx ∈ polls, rx.getD 1 0 &&& 1 ≠ 0) ∧ last.getD 1 0 &&& 1 = 0)
    ∧ (∀ fuel addr b', sector_erase_4k D fuel addr b = some b' →
        ∃ (polls : List (List Nat)) (last : List Nat),
          Exchanged b b' ([BusEvent.write [0x06]] :: [BusEvent.write (cmd_hdr 0x20 addr)]
            :: (polls ++ [last]).map status_poll)
          ∧ (∀ rx ∈ polls, rx.getD 1 0 &&& 1 ≠ 0) ∧ last.getD 1 0 &&& 1 = 0) := by
  refine ⟨?_, ?_, ?_, ?_, ?_, ?_, ?_, ?_, ?_, ?_⟩
  · exact ⟨(clock_bytes D (D.select b.dev) [0x9F, 0, 0, 0]).2, exchanged_of_frames _ _ _
      (by simp [read_jedec_id, cs_low, cs_high, spi_write_read_blocking, frame])
      (by simp [is_transfer])⟩
  · intro which
    exact ⟨(clock_bytes D (D.select b.dev) [which, 0]).2, exchanged_of_frames _ _ _
      (by simp [read_status, cs_low, cs_high, spi_write_read_blocking, frame])
      (by simp [is_transfer]), by simp [read_status, cs_low, spi_write_read_blocking]⟩
  · exact ⟨(spi_read_blocking D 0x00 8
        (spi_write_blocking D [0x5A, 0, 0, 0, 0] (cs_low D b))).2, exchanged_of_frames _ _ _
      (by simp [read_sfdp_header, cs_low, cs_high, spi_write_blocking, spi_read_blocking,
        frame])
      (by simp [is_transfer])⟩
  · exact exchanged_of_frames _ _ _
      (by simp [write_enable, cs_low, cs_high, spi_write_blocking, frame])
      (by simp [is_transfer])
  · intro addr len
    exact exchanged_of_frames _ _ _
      (by rw [read_data_trace]; simp [frame])
      (by simp [is_transfer])
  · exact exchanged_of_frames _ _ _
      (by simp [flash_soft_reset, cs_low, cs_high, spi_write_blocking, frame])
      (by simp [is_transfer])
  · exact exchanged_of_frames _ _ _
      (by simp [flash_release_from_dp, cs_low, cs_high, spi_write_blocking, frame])
      (by simp [is_transfer])
  · intro fuel b' h
    obtain ⟨polls, last, ht, hp, hl⟩ := wait_wip_clear_polls D fuel b b' h
    refine ⟨polls, last, exchanged_of_frames _ _ _ ?_ (status_polls_transfer _), hp, hl⟩
    rw [ht]; simp [List.map_map, Function.comp_def]
  · intro fuel addr data b' h
    obtain ⟨b1, hb1, hw⟩ := page_program_sends D addr data b
    rw [hw] at h
    obtain ⟨polls, last, ht, hp, hl⟩ := wait_wip_clear_polls D fuel b1 b' h
    refine ⟨polls, last, exchanged_of_frames _ _ _ ?_ ?_, hp, hl⟩
    · rw [ht, hb1]; simp [List.map_map, Function.comp_def, frame]
    · intro x hx
      rcases List.mem_cons.mp hx with rfl | hx
      · simp [is_transfer]
      rcases List.mem_cons.mp hx with rfl | hx
      · simp [is_transfer]
      · exact status_polls_transfer _ x hx
  · intro fuel addr b' h
    obtain ⟨b1, hb1, hw⟩ := sector_erase_4k_sends D addr b
    rw [hw] at h
    obtain ⟨polls, last, ht, hp, hl⟩ := wait_wip_clear_polls D fuel b1 b' h
    refine ⟨polls, last, exchanged_of_frames _ _ _ ?_ ?_, hp, hl⟩
    · rw [ht, hb1]; simp [List.map_map, Function.comp_def, frame]
    · intro x hx
      rcases List.mem_cons.mp hx with rfl | hx
      · simp [is_transfer]
      rcases List.mem_cons.mp hx with rfl | hx
      · simp [is_transfer]
      · exact status_polls_transfer _ x hx

/-- Witness for C17: programming the byte `1` at address `0` on a device that
answers every byte with `0`, so that the first status poll ends the wait. -/
theorem transport_exchanges_witness :
    ∃ (polls : List (List Nat)) (last : List Nat),
      Exchanged (Bus.mk () []) (Bus.mk ()
          [BusEvent.cs_low, BusEvent.write [0x06], BusEvent.cs_high,
            BusEvent.cs_low, BusEvent.write [0x02, 0, 0, 0], BusEvent.write [1],
            BusEvent.cs_high,
            BusEvent.cs_low, BusEvent.write_read [0x05, 0] [0, 0], BusEvent.cs_high])
        ([BusEvent.write [0x06]]
          :: [BusEvent.write (cmd_hdr 0x02 0), BusEvent.write [1]]
          :: (polls ++ [last]).map status_poll)
      ∧ (∀ rx ∈ polls, rx.getD 1 0 &&& 1 ≠ 0) ∧ last.getD 1 0 &&& 1 = 0 :=
  (transport_exchanges zero_device ⟨(), []⟩).2.2.2.2.2.2.2.2.1 1 0 [1] _ rfl

end flash

end Firmware

namespace Firmware

theorem land_page_mask_dvd (x : Nat) : 256 ∣ x &&& 0xFFFFFF00 := by
  apply Nat.dvd_of_mod_eq_zero
  have h := Nat.and_pow_two_sub_one_eq_mod (x &&& 0xFFFFFF00) 8
  have e : (2 : Nat) ^ 8 - 1 = 255 := by decide
  have e2 : (2 : Nat) ^ 8 = 256 := by decide
  rw [e, e2] at h
  rw [← h, Nat.and_assoc]
  have : (0xFFFFFF00 : Nat) &&& 255 = 0 := by decide
  rw [this]
  simp

namespace flash

variable {σ : Type}

/-- The bus events `evs` are complete exchanges whose page programs all stay inside
one page. -/
theorem within_page_of_issues {evs : List BusEvent} {cs : List FlashCmd}
    (h : Issues evs cs) (hcs : ∀ c ∈ cs, within_page c) :
    ∀ c ∈ commands evs, within_page c := by
  obtain ⟨xs, hx, rfl⟩ := h
  rw [emits_commands_eq hx]
  intro c hc
  by_cases ha : is_flash_access c = true
  · exact hcs c (List.mem_filter.mpr ⟨hc, ha⟩)
  · cases c <;> simp_all [is_flash_access, within_page]

theorem within_page_aligned (addr : Nat) (data : List Nat) (h256 : 256 ∣ addr)
    (h1 : 1 ≤ data.length) (h2 : data.length ≤ 256) :
    within_page (FlashCmd.program (addr % 2 ^ 24) data) := by
  obtain ⟨q, rfl⟩ := h256
  refine ⟨h1, h2, ?_⟩
  have : 256 * q % 2 ^ 24 % 256 = 0 := by omega
  omega

/-- The page loop issues page programs that stay inside one page, whatever the
buffer, as long as `base` and `off` are page-aligned. -/
theorem program_pages_within (D : SpiDevice σ) (fuel base : Nat) (buf : List Nat)
    (hbase : 256 ∣ base) :
    ∀ (n off : Nat) (b b' : Bus σ), 256 ∣ off →
      program_pages D fuel base buf n off b = some b' →
      ∃ evs cs, b'.trace = b.trace ++ evs ∧ Issues evs cs ∧ ∀ c ∈ cs, within_page c := by
  intro n
  induction n with
  | zero => intro off b b' _ h; simp [program_pages] at h
  | succ n ih =>
    intro off b b' hoff h
    rw [program_pages] at h
    by_cases hlt : off < buf.length
    · rw [if_pos hlt] at h
      simp only at h
      split at h
      · simp at h
      · rename_i b1 hp
        obtain ⟨e1, ht1, hi1⟩ := page_program_issues D fuel _ _ b b1 hp
        have hnext : 256 ∣ (off + FLASH_PAGE_SIZE) % 2 ^ 32 := by
          obtain ⟨q, rfl⟩ := hoff
          simp only [FLASH_PAGE_SIZE]
          omega
        obtain ⟨e2, c2, ht2, hi2, hc2⟩ := ih _ b1 b' hnext h
        refine ⟨e1 ++ e2, _, by rw [ht2, ht1, List.append_assoc], issues_append hi1 hi2, ?_⟩
        intro c hc
        rcases List.mem_append.mp hc with hc | hc
        · rw [List.mem_singleton] at hc
          subst hc
          apply within_page_aligned
          · obtain ⟨q, rfl⟩ := hoff
            obtain ⟨p, rfl⟩ := hbase
            omega
          · simp only [List.length_take, List.length_drop, FLASH_PAGE_SIZE]
            split <;> omega
          · simp only [List.length_take, List.length_drop, FLASH_PAGE_SIZE]
            split <;> omega
        · exact hc2 c hc
    · rw [if_neg hlt] at h
      obtain rfl := Option.some.inj h
      exact ⟨[], [], by simp, issues_nil, by simp⟩

theorem restore_loop_within (D : SpiDevice σ) (fuel : Nat) (sd : SdSource) (todo : Nat)
    (verify : Bool) :
    ∀ (n base fptr fr : Nat) (b : Bus σ) (fr' : Nat) (b' : Bus σ), 4096 ∣ base →
      restore_loop D fuel sd todo verify n base fptr fr b = some (fr', b') →
      ∃ evs cs, b'.trace = b.trace ++ evs ∧ Issues evs cs ∧ ∀ c ∈ cs, within_page c := by
  intro n
  induction n with
  | zero => intro base fptr fr b fr' b' _ h; simp [restore_loop] at h
  | succ n ih =>
    intro base fptr fr b fr' b' hbase h
    have hnext : 4096 ∣ (base + FLASH_ERASE_SIZE) % 2 ^ 32 := by
      obtain ⟨q, rfl⟩ := hbase
      simp only [FLASH_ERASE_SIZE]
      omega
    have h256 : 256 ∣ base := Dvd.dvd.trans (by decide : 256 ∣ 4096) hbase
    have stop : ∀ {x : Nat × Bus σ}, some (x.1, b) = some (fr', b') →
        ∃ evs cs, b'.trace = b.trace ++ evs ∧ Issues evs cs ∧ ∀ c ∈ cs, within_page c := by
      intro x hx
      simp only [Option.some.injEq, Prod.mk.injEq] at hx
      obtain ⟨_, rfl⟩ := hx
      exact ⟨[], [], by simp, issues_nil, by simp⟩
    rw [restore_loop] at h
    by_cases h1 : base < todo
    swap
    · rw [if_neg h1] at h
      exact stop (x := (fr, b)) h
    rw [if_pos h1] at h
    simp only at h
    generalize (if (base + FLASH_ERASE_SIZE) % 2 ^ 32 > todo then todo - base
      else FLASH_ERASE_SIZE) = want at h
    generalize sd.f_read fptr want = rd at h
    generalize List.take want rd.2 = buf at h
    by_cases h2 : rd.1 ≠ FR_OK
    · rw [if_pos h2] at h
      exact stop (x := (_, b)) h
    rw [if_neg h2] at h
    by_cases h3 : buf.length = 0
    · rw [if_pos h3] at h
      exact stop (x := (_, b)) h
    rw [if_neg h3] at h
    cases he : sector_erase_4k D fuel base b with
    | none => rw [he] at h; simp at h
    | some b1 =>
      rw [he] at h
      simp only at h
      cases hp : program_pages D fuel base buf fuel 0 b1 with
      | none => rw [hp] at h; simp at h
      | some b2 =>
        rw [hp] at h
        simp only at h
        obtain ⟨e1, ht1, hi1⟩ := sector_erase_4k_issues D fuel _ b b1 he
        obtain ⟨e2, c2, ht2, hi2, hc2⟩ := program_pages_within D fuel base _ h256 _ 0 b1 b2
          (by simp) hp
        have hec : ∀ c ∈ [FlashCmd.erase (base % 2 ^ 24)] ++ c2, within_page c := by
          intro c hc
          rcases List.mem_append.mp hc with hc | hc
          · rw [List.mem_singleton] at hc; subst hc; exact trivial
          · exact hc2 c hc
        rcases Bool.eq_false_or_eq_true verify with hv | hv <;> subst hv
        · simp only [if_true] at h
          have hr := read_data_trace D base buf.length b2
          have hir := issues_read base (read_data D base buf.length b2).2
          have hrc : ∀ c ∈ [FlashCmd.erase (base % 2 ^ 24)] ++ c2 ++ [FlashCmd.read
              (base % 2 ^ 24) (read_data D base buf.length b2).2], within_page c := by
            intro c hc
            rcases List.mem_append.mp hc with hc | hc
            · exact hec c hc
            · rw [List.mem_singleton] at hc; subst hc; exact trivial
          by_cases h4 : (read_data D base buf.length b2).2 ≠ buf
          · rw [if_pos h4] at h
            simp only [Option.some.injEq, Prod.mk.injEq] at h
            obtain ⟨_, rfl⟩ := h
            exact ⟨e1 ++ e2 ++ _, _, by rw [hr, ht2, ht1]; simp,
              issues_append (issues_append hi1 hi2) hir, hrc⟩
          · rw [if_neg h4] at h
            obtain ⟨e3, c3, ht3, hi3, hc3⟩ := ih _ _ _ _ fr' b' hnext h
            refine ⟨e1 ++ e2 ++ _ ++ e3, _, by rw [ht3, hr, ht2, ht1]; simp,
              issues_append (issues_append (issues_append hi1 hi2) hir) hi3, ?_⟩
            intro c hc
            rcases List.mem_append.mp hc with hc | hc
            · exact hrc c hc
            · exact hc3 c hc
        · simp only [Bool.false_eq_true, if_false] at h
          obtain ⟨e3, c3, ht3, hi3, hc3⟩ := ih _ _ _ b2 fr' b' hnext h
          refine ⟨e1 ++ e2 ++ e3, _, by rw [ht3, ht2, ht1]; simp,
            issues_append (issues_append hi1 hi2) hi3, ?_⟩
          intro c hc
          rcases List.mem_append.mp hc with hc | hc
          · exact hec c hc
          · exact hc3 c hc

theorem flash_restore_within (D : SpiDevice σ) (fuel : Nat) (sd : SdSource)
    (flash_bytes : Nat) (verify : Bool) (b : Bus σ) (fr : Nat) (b' : Bus σ)
    (h : flash_restore_from_file D fuel sd flash_bytes verify b = some (fr, b')) :
    ∃ evs, b'.trace = b.trace ++ evs ∧ ∀ c ∈ commands evs, within_page c := by
  have stop : ∀ {x : Nat}, some (x, b) = some (fr, b') →
      ∃ evs, b'.trace = b.trace ++ evs ∧ ∀ c ∈ commands evs, within_page c := by
    intro x hx
    simp only [Option.some.injEq, Prod.mk.injEq] at hx
    obtain ⟨_, rfl⟩ := hx
    exact ⟨[], by simp, by simp [commands, exchanges]⟩
  unfold flash_restore_from_file at h
  split_ifs at h with h1 h2 h3 h4 h5
  · exact stop h
  · exact stop h
  · exact stop h
  · exact stop h
  · obtain ⟨evs, cs, ht, hi, hc⟩ := restore_loop_within D fuel sd _ verify _ 0 0 _ b fr b'
      (by simp) h
    exact ⟨evs, ht, within_page_of_issues hi hc⟩
  · obtain ⟨evs, cs, ht, hi, hc⟩ := restore_loop_within D fuel sd _ verify _ 0 0 _ b fr b'
      (by simp) h
    exact ⟨evs, ht, within_page_of_issues hi hc⟩

end flash

namespace bench

variable {σ : Type}

theorem page256_length (page : List Nat) : (page256 page).length = 256 := by
  simp [page256]

/-- The bus actions of `timed_prog_256`: the page program at the address rounded
down to its page, a status read, and the read-back. -/
theorem timed_prog_256_trace (D : flash.SpiDevice σ) (clk : Nat → Nat) (fuel addr : Nat)
    (page : List Nat) (w : World σ) (r : World σ × Int × Nat × Nat)
    (h : timed_prog_256 D clk fuel addr page w = some r) :
    ∃ e1 e2 e3, r.1.trace = w.trace ++ [(w.baud, e1), (w.baud, e2), (w.baud, e3)]
      ∧ flash.Issues e1 [flash.FlashCmd.program ((addr &&& 0xFFFFFF00) % 2 ^ 24) (page256 page)]
      ∧ flash.Issues e2 []
      ∧ ∃ rb, flash.Issues e3 [flash.FlashCmd.read ((addr &&& 0xFFFFFF00) % 2 ^ 24) rb] := by
  simp only [timed_prog_256, on_bus_wait] at h
  cases hp : flash.page_program D fuel (addr &&& 0xFFFFFF00) (page256 page)
      ⟨(get_absolute_time clk w).1.dev, []⟩ with
  | none => rw [hp] at h; simp at h
  | some b1 =>
    rw [hp] at h
    simp only [Option.map_some', Option.some.injEq] at h
    obtain ⟨e1, ht1, hi1⟩ := flash.page_program_issues D fuel _ _ _ b1 hp
    simp only [List.nil_append] at ht1
    obtain ⟨rx, hrx⟩ := flash.read_status_trace D 0x05 (⟨b1.dev, []⟩ : flash.Bus σ)
    simp only [List.nil_append] at hrx
    have hrd := flash.read_data_trace D (addr &&& 0xFFFFFF00) 256
      (⟨(flash.read_status D 0x05 (⟨b1.dev, []⟩ : flash.Bus σ)).1.dev, []⟩ : flash.Bus σ)
    simp only [List.nil_append] at hrd
    refine ⟨b1.trace, (flash.read_status D 0x05 (⟨b1.dev, []⟩ : flash.Bus σ)).1.trace,
      (flash.read_data D (addr &&& 0xFFFFFF00) 256
        (⟨(flash.read_status D 0x05 (⟨b1.dev, []⟩ : flash.Bus σ)).1.dev, []⟩ : flash.Bus σ)).1.trace,
      ?_, ?_, ?_, ?_⟩
    · rw [← h]
      simp [on_bus, read_status, get_absolute_time]
    · rw [ht1]; exact hi1
    · rw [hrx]; exact flash.issues_status 0x05 rx
    · rw [hrd]; exact ⟨_, flash.issues_read _ _⟩

/-- C18: every page program command that `flash_restore_from_file` issues (for any
file, any `f_read` results, any flash size and device) and the page program that
`timed_prog_256` issues (for any input address) carries between 1 and 256 bytes
and lies inside a single 256 byte page: `addr mod 256 + len <= 256`.
`timed_prog_256` issues its page program at the input address rounded down to a
page, with 256 bytes. -/
theorem page_programs_stay_in_page :
    (∀ (σ : Type) (D : flash.SpiDevice σ) (fuel : Nat) (sd : flash.SdSource)
        (flash_bytes : Nat) (verify : Bool) (b : flash.Bus σ) (fr : Nat) (b' : flash.Bus σ),
      flash.flash_restore_from_file D fuel sd flash_bytes verify b = some (fr, b') →
      ∃ evs, b'.trace = b.trace ++ evs
        ∧ ∀ a data, flash.FlashCmd.program a data ∈ flash.commands evs →
            1 ≤ data.length ∧ data.length ≤ 256 ∧ a % 256 + data.length ≤ 256)
    ∧ (∀ (σ : Type) (D : flash.SpiDevice σ) (clk : Nat → Nat) (fuel addr : Nat)
        (page : List Nat) (w : World σ) (r : World σ × Int × Nat × Nat),
      timed_prog_256 D clk fuel addr page w = some r →
      ∃ segs, r.1.trace = w.trace ++ segs
        ∧ (∀ seg ∈ segs, ∀ a data, flash.FlashCmd.program a data ∈ flash.commands seg.2 →
            1 ≤ data.length ∧ data.length ≤ 256 ∧ a % 256 + data.length ≤ 256)
        ∧ (segs.flatMap (fun seg => (flash.flash_cmds seg.2).filter flash.is_erase_or_program))
            = [flash.FlashCmd.program ((addr &&& 0xFFFFFF00) % 2 ^ 24) (page256 page)]) := by
  constructor
  · intro σ D fuel sd flash_bytes verify b fr b' h
    obtain ⟨evs, ht, hc⟩ := flash.flash_restore_within D fuel sd flash_bytes verify b fr b' h
    exact ⟨evs, ht, fun a data hm => hc _ hm⟩
  · intro σ D clk fuel addr page w r h
    obtain ⟨e1, e2, e3, ht, hi1, hi2, rb, hi3⟩ := timed_prog_256_trace D clk fuel addr page w r h
    have hw : flash.within_page
        (flash.FlashCmd.program ((addr &&& 0xFFFFFF00) % 2 ^ 24) (page256 page)) :=
      flash.within_page_aligned _ _ (land_page_mask_dvd addr)
        (by rw [page256_length]; decide) (by rw [page256_length])
    refine ⟨_, ht, ?_, ?_⟩
    · intro seg hseg a data hm
      simp only [List.mem_cons, List.mem_singleton, List.not_mem_nil, or_false] at hseg
      rcases hseg with rfl | rfl | rfl
      · exact flash.within_page_of_issues hi1 (by simpa using hw) _ hm
      · exact flash.within_page_of_issues hi2 (by simp) _ hm
      · exact flash.within_page_of_issues hi3 (by simp [flash.within_page]) _ hm
    · simp [flash.issues_flash_cmds_eq hi1, flash.issues_flash_cmds_eq hi2,
        flash.issues_flash_cmds_eq hi3, flash.is_erase_or_program]

/-- Witness for C18: the restore of the one byte file `[1]` on a device that
answers every byte with `0`. -/
theorem page_programs_stay_in_page_witness :
    ∃ evs, (flash.Bus.mk () flash.one_byte_restore_trace).trace
        = (flash.Bus.mk () []).trace ++ evs
      ∧ ∀ a data, flash.FlashCmd.program a data ∈ flash.commands evs →
          1 ≤ data.length ∧ data.length ≤ 256 ∧ a % 256 + data.length ≤ 256 :=
  page_programs_stay_in_page.1 Unit flash.zero_device 2 (flash.SdSource.ofBytes [1]) 4096 true
    ⟨(), []⟩ FR_INT_ERR ⟨(), flash.one_byte_restore_trace⟩ rfl

end bench

end Firmware

namespace Firmware

namespace bench

variable {σ : Type}

theorem prog_hz_eq_min (cfg : Config) (lim : chip_limits) :
    prog_hz cfg lim = min cfg.SAFE_PROG_HZ lim.max_safe_write_hz := by
  unfold prog_hz
  split <;> omega

/-- The bus action of `page_program_web_safe` is recognised as a page program. -/
theorem page_program_web_safe_programs (D : flash.SpiDevice σ) (addr : Nat) (data : List Nat)
    (dev : σ) :
    programs_in (flash.cs_high D (flash.spi_write_blocking D (page256 data)
      (flash.spi_write_blocking D
        [(addr >>> 16) &&& 0xFF, (addr >>> 8) &&& 0xFF, (addr >>> 0) &&& 0xFF]
        (flash.spi_write_blocking D [0x02]
          (flash.cs_low D (flash.write_enable D (⟨dev, []⟩ : flash.Bus σ))))))).trace = true := by
  simp [programs_in, flash.exchanges, flash.group_step, flash.write_enable, flash.cs_low,
    flash.cs_high, flash.spi_write_blocking, opcode]

/-- C19: the identification step sets the safe read clock to 50 MHz for `EF4016`,
20 MHz for `BF2641` and 12 MHz for any other JEDEC ID.  In a returned
`run_benchmarks_with_trials_web_safe`, after the two identification reads every
bus action ran either at the program clock or at a listed clock that is not
above the safe read clock, and every bus action that carries a page program
(opcode `0x02`) ran at the program clock, which is
`min (SAFE_PROG_HZ, max_safe_write_hz)` and so never above the safe write clock;
a listed clock above the safe read clock is skipped without any effect.  The bus
action of `page_program_web_safe` is one that carries a page program. -/
theorem web_safe_clock_limits (D : flash.SpiDevice σ) (clk : Nat → Nat) (fuel : Nat)
    (cfg : Config) (trials : Int) (save_per_run save_averages : Bool) (fr_bench : Nat)
    (w w' : World σ) (hseq : cfg.READ_SEQ_SIZE ≤ 2 ^ 32)
    (h : run_benchmarks_with_trials_web_safe D clk fuel cfg trials save_per_run save_averages
      true fr_bench w = some w') :
    (chip_limits_of 0xEF4016).max_safe_read_hz = 50000000
    ∧ (chip_limits_of 0xBF2641).max_safe_read_hz = 20000000
    ∧ (∀ jedec, jedec ≠ 0xEF4016 → jedec ≠ 0xBF2641 →
        (chip_limits_of jedec).max_safe_read_hz = 12000000)
    ∧ (∃ s0 s1 segs, w'.trace = w.trace ++ s0 :: s1 :: segs
        ∧ ∀ s ∈ segs,
            (s.1 = prog_hz cfg (chip_limits_of (jedec_of (on_bus (flash.read_jedec_id D) w).2))
              ∨ (s.1 ∈ cfg.SPI_FREQS
                ∧ s.1 ≤ (chip_limits_of
                    (jedec_of (on_bus (flash.read_jedec_id D) w).2)).max_safe_read_hz))
            ∧ (programs_in s.2 = true →
                s.1 = prog_hz cfg
                  (chip_limits_of (jedec_of (on_bus (flash.read_jedec_id D) w).2))))
    ∧ (∀ lim : chip_limits, prog_hz cfg lim = min cfg.SAFE_PROG_HZ lim.max_safe_write_hz
        ∧ prog_hz cfg lim ≤ lim.max_safe_write_hz)
    ∧ (∀ (lim : chip_limits) (hz : Nat) (w0 : World σ), lim.max_safe_read_hz < hz →
        sweep_freq_web_safe D clk fuel cfg lim trials save_per_run save_averages hz w0
          = some w0)
    ∧ (∀ (addr : Nat) (data : List Nat) (dev : σ),
        programs_in (flash.cs_high D (flash.spi_write_blocking D (page256 data)
          (flash.spi_write_blocking D
            [(addr >>> 16) &&& 0xFF, (addr >>> 8) &&& 0xFF, (addr >>> 0) &&& 0xFF]
            (flash.spi_write_blocking D [0x02]
              (flash.cs_low D (flash.write_enable D (⟨dev, []⟩ : flash.Bus σ))))))).trace
          = true) := by
  refine ⟨rfl, rfl, ?_, ?_, ?_, ?_, page_program_web_safe_programs D⟩
  · intro jedec h1 h2
    simp [chip_limits_of, h1, h2]
  · unfold run_benchmarks_with_trials_web_safe at h
    simp only [Bool.not_true, Bool.false_eq_true, if_false] at h
    obtain ⟨new, l, _⟩ := sweep_web_safe_spec D clk fuel cfg _ trials save_per_run _ hseq
      cfg.SPI_FREQS cfg.SPI_FREQS _ _ (fun _ hx => hx) h
    obtain ⟨_, _, segs, ht, hp⟩ := l
    refine ⟨(w.baud, (flash.read_jedec_id D ⟨w.dev, []⟩).1.trace),
      (w.baud, (flash.read_sfdp_header D
        ⟨(flash.read_jedec_id D ⟨w.dev, []⟩).1.dev, []⟩).1.trace), segs,
      by rw [ht]; simp [on_bus], ?_⟩
    intro s hs
    obtain ⟨hz, hmem, hle, hok⟩ := hp s hs
    rcases hok with ⟨he, hno⟩ | hpr
    · refine ⟨Or.inr ⟨he ▸ hmem, he ▸ hle⟩, ?_⟩
      intro hprog
      rw [NoProgram] at hno
      rw [hno] at hprog
      exact absurd hprog (by decide)
    · exact ⟨Or.inl hpr, fun _ => hpr⟩
  · intro lim
    have := prog_hz_eq_min cfg lim
    exact ⟨this, by omega⟩
  · intro lim hz w0 hlt
    simp [sweep_freq_web_safe, hlt]

/-- Witness for C19: one trial with the example configuration on a device that
answers every byte with `0` (an unknown chip: 24 MHz is skipped), with a timer
that advances one microsecond per reading. -/
theorem web_safe_clock_limits_witness :
    ∃ w', run_benchmarks_with_trials_web_safe flash.zero_device (fun k => k) 5000000 tiny 1
        false false true 0 (World.init () 12000000 false) = some w'
      ∧ ∃ s0 s1 segs, w'.trace = (World.init () 12000000 false).trace ++ s0 :: s1 :: segs
        ∧ ∀ s ∈ segs,
            (s.1 = prog_hz tiny (chip_limits_of (jedec_of (on_bus
                (flash.read_jedec_id flash.zero_device) (World.init () 12000000 false)).2))
              ∨ (s.1 ∈ tiny.SPI_FREQS
                ∧ s.1 ≤ (chip_limits_of (jedec_of (on_bus
                    (flash.read_jedec_id flash.zero_device)
                    (World.init () 12000000 false)).2)).max_safe_read_hz))
            ∧ (programs_in s.2 = true →
                s.1 = prog_hz tiny (chip_limits_of (jedec_of (on_bus
                  (flash.read_jedec_id flash.zero_device)
                  (World.init () 12000000 false)).2))) :=
  (run_web_safe_total flash.zero_device (fun k => k) strictMono_id 5000000 tiny 1 false false
      true 0 (World.init () 12000000 false) (by decide) (by decide)).elim
    (fun w' hw => ⟨w', hw, (web_safe_clock_limits flash.zero_device (fun k => k) 5000000 tiny 1
      false false 0 (World.init () 12000000 false) w' (by decide) hw).2.2.2.1⟩)

end bench

end Firmware

namespace Firmware

namespace bench

variable {σ : Type}

/-- C20 (the code differs): the identification step derives an erase timeout
(2000 ms for `EF4016`, 4000 ms for `BF2641` and for unknown chips), but the
sweep does not depend on it: `timed_erase_4k_web` always waits with
`ERASE_WEB_TIMEOUT_MS = 5000`.  On a device stuck busy, with a timer that shows
one second more at every reading, the erase wait is entered at the reading
`1 s` and gives up at the reading `6 s` (the seventh reading), not at `3 s`. -/
theorem erase_wait_ignores_chip_timeout :
    (chip_limits_of 0xEF4016).erase_timeout_ms = 2000
    ∧ (chip_limits_of 0xBF2641).erase_timeout_ms = 4000
    ∧ (∀ jedec, jedec ≠ 0xEF4016 → jedec ≠ 0xBF2641 →
        (chip_limits_of jedec).erase_timeout_ms = 4000)
    ∧ ERASE_WEB_TIMEOUT_MS = 5000
    ∧ (∀ (σ : Type) (D : flash.SpiDevice σ) (clk : Nat → Nat) (fuel : Nat) (cfg : Config)
        (lim : chip_limits) (t : Nat) (trials : Int) (save_per_run save_averages : Bool)
        (hz : Nat) (w : World σ),
        sweep_freq_web_safe D clk fuel cfg { lim with erase_timeout_ms := t } trials
            save_per_run save_averages hz w
          = sweep_freq_web_safe D clk fuel cfg lim trials save_per_run save_averages hz w)
    ∧ (timed_erase_4k_web busy_device (fun k => 1000000 * k) 10 0
        (World.init () 12000000 false)).map (fun r => (r.2.1, r.1.ticks))
        = some (-1, 7) := by
  refine ⟨rfl, rfl, ?_, rfl, ?_, by decide⟩
  · intro jedec h1 h2
    simp [chip_limits_of, h1, h2]
  · intro σ D clk fuel cfg lim t trials save_per_run save_averages hz w
    rfl

end bench

end Firmware

namespace Firmware

namespace project_analyze

open csvlog

/-! ## The aggregate row and the positional reader -/

theorem dec_digits_scan :
    ∀ (fuel n : Nat), n < fuel → ∀ (r : List Nat) (acc : Nat),
      scan_dec (dec_digits fuel n ++ r) acc
        = scan_dec r (acc * 10 ^ (dec_digits fuel n).length + n) := by
  intro fuel
  induction fuel with
  | zero => intro n h; omega
  | succ f ih =>
    intro n hn r acc
    rw [dec_digits]
    by_cases h10 : n < 10
    · rw [if_pos h10]
      simp only [List.singleton_append, List.length_singleton, pow_one, scan_dec]
      rw [if_pos (by omega)]
      have : n + 48 - 48 = n := by omega
      rw [this]
      rfl
    · rw [if_neg h10, List.append_assoc, ih (n / 10) (by omega)]
      simp only [List.singleton_append, List.length_append, List.length_singleton, scan_dec]
      rw [if_pos (by omega)]
      congr 1
      rw [pow_succ]
      have : n % 10 + 48 - 48 = n % 10 := by omega
      rw [this]
      have h := Nat.div_add_mod n 10
      nlinarith [h]

theorem dec_digits_head :
    ∀ (fuel n : Nat), n < fuel →
      ∃ c cs, dec_digits fuel n = c :: cs ∧ 48 ≤ c ∧ c ≤ 57 := by
  intro fuel
  induction fuel with
  | zero => intro n h; omega
  | succ f ih =>
    intro n hn
    rw [dec_digits]
    by_cases h10 : n < 10
    · rw [if_pos h10]
      exact ⟨n + 48, [], rfl, by omega, by omega⟩
    · rw [if_neg h10]
      obtain ⟨c, cs, hc, h1, h2⟩ := ih (n / 10) (by omega)
      exact ⟨c, cs ++ [n % 10 + 48], by rw [hc]; rfl, h1, h2⟩

theorem dec_digits_chars :
    ∀ (fuel n : Nat), ∀ c ∈ dec_digits fuel n, 48 ≤ c ∧ c ≤ 57 := by
  intro fuel
  induction fuel with
  | zero => intro n c hc; simp [dec_digits] at hc
  | succ f ih =>
    intro n c hc
    rw [dec_digits] at hc
    by_cases h10 : n < 10
    · rw [if_pos h10] at hc
      simp only [List.mem_singleton] at hc
      omega
    · rw [if_neg h10] at hc
      rcases List.mem_append.1 hc with h | h
      · exact ih _ c h
      · simp only [List.mem_singleton] at h
        omega

/-- `strtoul` reads back a number printed with `%u` and stops at the comma behind
it. -/
theorem strtoul10_dec (n : Nat) (hn : n < 2 ^ 32) (rest : List Nat) :
    strtoul10 (dec n ++ 44 :: rest) = (n, 44 :: rest) := by
  obtain ⟨c, cs, hc, h1, h2⟩ := dec_digits_head (n + 1) n (by omega)
  have hscan := dec_digits_scan (n + 1) n (by omega) (44 :: rest) 0
  have hstop : scan_dec (44 :: rest) (0 * 10 ^ (dec_digits (n + 1) n).length + n)
      = (n, 44 :: rest) := by
    simp [scan_dec]
  rw [hstop] at hscan
  have hsp : isspace c = false := by
    simp only [isspace]
    have : (c == 32) = false := by simp; omega
    have h9 : decide (c ≤ 13) = false := by simp; omega
    simp [this, h9]
  have hcons : dec n ++ 44 :: rest = c :: (cs ++ 44 :: rest) := by
    simp only [dec, hc, List.cons_append]
  have hscan' : scan_dec (c :: (cs ++ 44 :: rest)) 0 = (n, 44 :: rest) := by
    rw [← hcons]; exact hscan
  have hne1 : c ≠ 45 := by omega
  have hne2 : c ≠ 43 := by omega
  rw [hcons]
  simp only [strtoul10, List.dropWhile_cons, hsp, Bool.false_eq_true, if_false,
    List.head?_cons, Option.some.injEq, hne1, hne2, or_self]
  rw [if_pos ⟨h1, h2⟩, hscan']
  have hlt : ¬ n ≥ 2 ^ 32 := by omega
  rw [if_neg hlt]
  simp [hne1]

theorem scan_dec_lt (l : List Nat) :
    ∀ (acc : Nat) (rest : List Nat),
      (scan_dec (l ++ 44 :: rest) acc).1 < (acc + 1) * 10 ^ l.length := by
  induction l with
  | nil =>
    intro acc rest
    simp [scan_dec]
  | cons c l ih =>
    intro acc rest
    have e : (c :: l) ++ 44 :: rest = c :: (l ++ 44 :: rest) := rfl
    rw [e, scan_dec, List.length_cons]
    by_cases hd : 48 ≤ c ∧ c ≤ 57
    · rw [if_pos hd]
      have h := ih (acc * 10 + (c - 48)) rest
      have hle : (acc * 10 + (c - 48) + 1) * 10 ^ l.length ≤ (acc + 1) * 10 ^ (l.length + 1) := by
        rw [pow_succ]
        have : acc * 10 + (c - 48) + 1 ≤ (acc + 1) * 10 := by omega
        calc (acc * 10 + (c - 48) + 1) * 10 ^ l.length
            ≤ ((acc + 1) * 10) * 10 ^ l.length := Nat.mul_le_mul_right _ this
          _ = (acc + 1) * (10 ^ l.length * 10) := by ring
      omega
    · rw [if_neg hd]
      have : 0 < 10 ^ (l.length + 1) := pow_pos (by decide) _
      show acc < (acc + 1) * 10 ^ (l.length + 1)
      nlinarith

/-- What `strtoul` reads from a field of six characters `0`-`9`, `A`-`F` is below
one million. -/
theorem strtoul10_hex6 (J rest : List Nat) (hlen : J.length = 6)
    (hJ : ∀ c ∈ J, is_upper_hex c = true) :
    (strtoul10 (J ++ 44 :: rest)).1 < 10 ^ 6 := by
  cases J with
  | nil => simp at hlen
  | cons c cs =>
    have hc : is_upper_hex c = true := hJ c (List.mem_cons_self _ _)
    simp only [is_upper_hex, Bool.or_eq_true, Bool.and_eq_true, decide_eq_true_eq] at hc
    have hsp : isspace c = false := by
      simp only [isspace]
      have : (c == 32) = false := by simp; omega
      have h9 : decide (c ≤ 13) = false := by simp; omega
      simp [this, h9]
    have hne1 : c ≠ 45 := by omega
    have hne2 : c ≠ 43 := by omega
    simp only [List.cons_append, strtoul10, List.dropWhile_cons, hsp, Bool.false_eq_true,
      if_false, List.head?_cons, Option.some.injEq, hne1, hne2, or_self]
    by_cases hd : 48 ≤ c ∧ c ≤ 57
    · rw [if_pos hd]
      have h := scan_dec_lt (c :: cs) 0 rest
      rw [hlen] at h
      simp only [List.cons_append, Nat.zero_add, Nat.one_mul] at h
      have hlt : ¬ (scan_dec (c :: (cs ++ 44 :: rest)) 0).1 ≥ 2 ^ 32 := by
        have : (10 : Nat) ^ 6 < 2 ^ 32 := by decide
        omega
      rw [if_neg hlt]
      have hneg : ((some c == some 45) = true) = False := by simp [hne1]
      simp only [hneg, if_false]
      have h6 : (10 : Nat) ^ 6 = 1000000 := by decide
      omega
    · rw [if_neg hd]
      show 0 < 10 ^ 6
      decide

theorem cstr_append (a b : List Nat) (ha : ∀ c ∈ a, c ≠ 0) : cstr (a ++ b) = a ++ cstr b := by
  induction a with
  | nil => rfl
  | cons c cs ih =>
    have hc : c ≠ 0 := ha c (List.mem_cons_self _ _)
    have hcs : ∀ x ∈ cs, x ≠ 0 := fun x hx => ha x (List.mem_cons_of_mem _ hx)
    have ih' := ih hcs
    simp only [cstr] at ih' ⊢
    simp only [List.cons_append, List.takeWhile_cons]
    rw [if_pos (by simpa using hc), ih']

/-- A row that starts with a time stamp and a six character JEDEC field is never
taken for a 12 MHz row: the clock is read from the JEDEC field. -/
theorem load_row_skips (strtod : List Nat → ℚ × List Nat) (t_ms : Nat) (J rest : List Nat)
    (st : Bool × analyze.bench_out) (ht : t_ms < 2 ^ 32) (hlen : J.length = 6)
    (hJ : ∀ c ∈ J, is_upper_hex c = true) :
    load_row strtod (dec t_ms ++ [44] ++ J ++ [44] ++ rest) st = st := by
  have hJ0 : ∀ c ∈ J, c ≠ 0 := by
    intro c hc h0
    have := hJ c hc
    rw [h0] at this
    exact absurd this (by decide)
  have hd0 : ∀ c ∈ dec t_ms ++ [44] ++ J ++ [44], c ≠ 0 := by
    intro c hc
    simp only [List.mem_append, List.mem_singleton] at hc
    rcases hc with ((h | h) | h) | h
    · have := dec_digits_chars _ _ c h; omega
    · omega
    · exact hJ0 c h
    · omega
  have hp : cstr (dec t_ms ++ [44] ++ J ++ [44] ++ rest)
      = dec t_ms ++ 44 :: (J ++ 44 :: cstr rest) := by
    rw [cstr_append _ _ hd0]
    simp
  have hhz := strtoul10_hex6 J (cstr rest) hlen hJ
  have hne : ¬ (strtoul10 (J ++ 44 :: cstr rest)).1 % 2 ^ 32 = 12000000 := by
    have : (10 : Nat) ^ 6 = 1000000 := by decide
    omega
  simp only [load_row, hp, strtoul10_dec t_ms ht, skip_comma]
  rw [if_neg hne]

theorem load_rows_one (strtod : List Nat → ℚ × List Nat) (data : List Nat) (fuel pos : Nat)
    (st : Bool × analyze.bench_out) (line : List Nat) (pos' : Nat)
    (h1 : f_gets 256 data pos = some (line, pos')) (h2 : f_gets 256 data pos' = none) :
    load_rows strtod data (fuel + 2) pos st = some (load_row strtod line st) := by
  rw [load_rows, h1]
  simp only
  rw [load_rows, h2]

/-- C21 (the code differs): `bench_csv_append_avg` writes eight columns,
`timestamp_ms,jedec_hex,spi_hz,...`, but `load_bench_12mhz` of
`Project/analyze.c` reads seven values by position, `ts, hz, e_ms, ...`, so it
takes the clock from the `jedec_hex` column.  For every row with a time stamp and
a JEDEC text of six characters `0`-`9`, `A`-`F` (what `%02X%02X%02X` prints;
`000000` stands in for a missing id), whatever follows, the clock read is below
one million and the row is not taken for a 12 MHz row.  On the file that holds
the header and the 12 MHz row `1234,EF4018,12000000,45.000,...` the function
returns `false` and leaves the outputs as they were. -/
theorem load_bench_12mhz_misses_rows :
    (∀ (strtod : List Nat → ℚ × List Nat) (fmt3 : ℚ → List Nat) (t_ms : Nat) (J : List Nat)
        (hz : Nat) (e w r rr : ℚ) (verr : Nat) (st : Bool × analyze.bench_out),
        (J = [] ∨ (J.length = 6 ∧ ∀ c ∈ J, is_upper_hex c = true)) →
        load_row strtod (bench_avg_line fmt3 t_ms J hz e w r rr verr) st = st)
    ∧ (∀ fmt3 : ℚ → List Nat, fmt3 45 = bytes "45.000" → fmt3 300 = bytes "300.000" →
        fmt3 1000 = bytes "1000.000" → fmt3 1 = bytes "1.000" →
        bench_csv_append_avg fmt3 true 1234 (bytes "EF4018") 12000000 45 300 1000 1 0
          BENCH_HEADER = BENCH_HEADER ++ row_12mhz)
    ∧ (∀ (strtod : List Nat → ℚ × List Nat) (out0 : analyze.bench_out),
        load_bench_12mhz strtod FR_OK FR_OK (BENCH_HEADER ++ row_12mhz) out0
          = some (false, out0))
    ∧ (strtoul10 (bytes "EF4018,12000000,45.000")).1 = 0 := by
  refine ⟨?_, ?_, ?_, by decide⟩
  · intro strtod fmt3 t_ms J hz e w r rr verr st hJ
    have hmod : t_ms % 2 ^ 32 < 2 ^ 32 := Nat.mod_lt _ (by decide)
    rcases hJ with rfl | ⟨hlen, hJ⟩
    · have := load_row_skips strtod (t_ms % 2 ^ 32) (bytes "000000")
        (dec (hz % 2 ^ 32) ++ [44] ++ fmt3 e ++ [44] ++ fmt3 w ++ [44] ++ fmt3 r ++ [44]
          ++ fmt3 rr ++ [44] ++ dec (verr % 2 ^ 32) ++ [13, 10]) st hmod (by decide)
        (by decide)
      simpa [bench_avg_line] using this
    · have hne : J ≠ [] := by
        intro h0; rw [h0] at hlen; simp at hlen
      have := load_row_skips strtod (t_ms % 2 ^ 32) J
        (dec (hz % 2 ^ 32) ++ [44] ++ fmt3 e ++ [44] ++ fmt3 w ++ [44] ++ fmt3 r ++ [44]
          ++ fmt3 rr ++ [44] ++ dec (verr % 2 ^ 32) ++ [13, 10]) st hmod hlen hJ
      simpa [bench_avg_line, hne] using this
  · intro fmt3 h1 h2 h3 h4
    have hline : bench_avg_line fmt3 1234 (bytes "EF4018") 12000000 45 300 1000 1 0
        = row_12mhz := by
      simp only [bench_avg_line, h1, h2, h3, h4]
      decide
    have hlen : row_12mhz.length = 54 := by decide
    simp only [bench_csv_append_avg, hline, hlen]
    simp
  · intro strtod out0
    have h1 : f_gets 256 (BENCH_HEADER ++ row_12mhz) 0 = some (BENCH_HEADER, 111) := by decide
    have h2 : f_gets 256 (BENCH_HEADER ++ row_12mhz) 111 = some (row_12mhz, 165) := by decide
    have h3 : f_gets 256 (BENCH_HEADER ++ row_12mhz) 165 = none := by decide
    have hl : (BENCH_HEADER ++ row_12mhz).length + 1 = 164 + 2 := by decide
    have hrow : row_12mhz = dec 1234 ++ [44] ++ bytes "EF4018" ++ [44]
        ++ bytes "12000000,45.000,300.000,1000.000,1.000,0\r\n" := by decide
    have hkeep := load_row_skips strtod 1234 (bytes "EF4018")
      (bytes "12000000,45.000,300.000,1000.000,1.000,0\r\n") (false, out0) (by decide)
      (by decide) (by decide)
    rw [← hrow] at hkeep
    simp only [load_bench_12mhz, FR_OK, ne_eq, not_true_eq_false, if_false, h1]
    rw [hl, load_rows_one strtod _ 164 111 (false, out0) row_12mhz 165 h2 h3, hkeep]

end project_analyze

end Firmware

namespace Firmware

namespace analyze

/-! ## Parsing the JEDEC text of a catalog row -/

theorem hexval_hex_digit (d : Nat) (hd : d < 16) : hexval (hex_digit d) = some d := by
  interval_cases d <;> rfl

theorem hex_digit_not_space (d : Nat) (hd : d < 16) : isspace (hex_digit d) = false := by
  interval_cases d <;> rfl

theorem hex_digit_ne (d : Nat) (hd : d < 16) :
    hex_digit d ≠ 45 ∧ hex_digit d ≠ 43 ∧ hex_digit d ≠ 120 ∧ hex_digit d ≠ 88 := by
  interval_cases d <;> decide

/-- A `%x` conversion reads a two-digit byte that is followed by a space or by
the end of the text, and stops behind it. -/
theorem scan_x_hex2 (b : Nat) (hb : b < 256) (rest : List Nat)
    (hrest : rest = [] ∨ ∃ t, rest = 32 :: t) :
    scan_x (hex2 b ++ rest) = some (b, rest) := by
  have h1 : b / 16 < 16 := by omega
  have h2 : b % 16 < 16 := by omega
  obtain ⟨n1, n2, n3, n4⟩ := hex_digit_ne (b / 16) h1
  obtain ⟨m1, m2, m3, m4⟩ := hex_digit_ne (b % 16) h2
  have hstop : scan_hex_digits rest ((b / 16 * 16 + b % 16) % 2 ^ 32)
      = ((b / 16 * 16 + b % 16) % 2 ^ 32, rest) := by
    rcases hrest with rfl | ⟨t, rfl⟩
    · rfl
    · rfl
  have hval : (b / 16 * 16 + b % 16) % 2 ^ 32 = b := by omega
  have hs3 : (match (hex_digit (b / 16) :: hex_digit (b % 16) :: rest) with
      | 48 :: x :: d :: t =>
        if (x = 120 ∨ x = 88) ∧ (hexval d).isSome then d :: t
        else hex_digit (b / 16) :: hex_digit (b % 16) :: rest
      | _ => hex_digit (b / 16) :: hex_digit (b % 16) :: rest)
      = hex_digit (b / 16) :: hex_digit (b % 16) :: rest := by
    split
    · rename_i x d t heq
      simp only [List.cons.injEq] at heq
      obtain ⟨_, hx, _⟩ := heq
      rw [if_neg]
      rintro ⟨hx1 | hx1, _⟩
      · exact m3 (hx.trans hx1)
      · exact m4 (hx.trans hx1)
    · rfl
  simp only [scan_x, hex2, List.cons_append, List.nil_append, List.dropWhile_cons,
    hex_digit_not_space _ h1, Bool.false_eq_true, if_false, List.head?_cons, Option.some.injEq,
    n1, n2, or_self, hs3, hexval_hex_digit _ h1, Option.isSome_some, if_true,
    scan_hex_digits, hexval_hex_digit _ h2, Nat.zero_mul, Nat.zero_add]
  have hmod : b / 16 % 2 ^ 32 = b / 16 := by omega
  rw [hmod, hstop, hval]
  simp [n1]

/-- A `%x` conversion skips a leading space. -/
theorem scan_x_space (s : List Nat) : scan_x (32 :: s) = scan_x s := by
  have hd : List.dropWhile isspace (32 :: s) = List.dropWhile isspace s := by
    rw [List.dropWhile_cons]
    rfl
  unfold scan_x
  rw [hd]

/-- C22 (the code differs): before it converts anything, `parse_jedec_bytes` skips
every leading `J`, `E`, `D`, `C`, `=`, `-` and space, and `E`, `D` and `C` are
hexadecimal digits.  For the Winbond id `EF 40 18` it therefore reads `F 40 18`
and yields `mfg = 0x0F`; for the Macronix id `C2 20 16` it yields `mfg = 0x02`;
for `DD 40 13` it skips `DD` and the space and fails.  For every manufacturer
byte whose first digit is not `C`, `D` or `E` the three bytes are parsed as
stated: `mfg = m` and `dev = (h << 8) | l`. -/
theorem parse_jedec_bytes_eats_hex_digits :
    jedec_text 0xEF 0x40 0x18 = bytes "EF 40 18"
    ∧ parse_jedec_bytes (jedec_text 0xEF 0x40 0x18) = some (0x0F, 0x4018)
    ∧ parse_jedec_bytes (jedec_text 0xC2 0x20 0x16) = some (0x02, 0x2016)
    ∧ parse_jedec_bytes (jedec_text 0xDD 0x40 0x13) = none
    ∧ parse_jedec_bytes (jedec_text 0x9D 0x40 0x13) = some (0x9D, 0x4013)
    ∧ (∀ m h l : Nat, m < 256 → h < 256 → l < 256 →
        m / 16 ≠ 12 → m / 16 ≠ 13 → m / 16 ≠ 14 →
        parse_jedec_bytes (jedec_text m h l) = some (m, (h <<< 8) ||| l)) := by
  refine ⟨by decide, by decide, by decide, by decide, by decide, ?_⟩
  intro m h l hm hh hl h12 h13 h14
  have hkeep : (jedec_text m h l).dropWhile
      (fun c => c == 32 || c == 74 || c == 69 || c == 68 || c == 67 || c == 61 || c == 45)
      = jedec_text m h l := by
    have hd : m / 16 < 16 := by omega
    have : (hex_digit (m / 16) == 32 || hex_digit (m / 16) == 74 || hex_digit (m / 16) == 69
        || hex_digit (m / 16) == 68 || hex_digit (m / 16) == 67 || hex_digit (m / 16) == 61
        || hex_digit (m / 16) == 45) = false := by
      generalize m / 16 = d at hd h12 h13 h14
      interval_cases d <;> first | rfl | omega
    simp only [jedec_text, hex2, List.cons_append, List.nil_append, List.dropWhile_cons]
    rw [this]
    simp
  have e0 : scan_x (jedec_text m h l) = some (m, 32 :: (hex2 h ++ 32 :: hex2 l)) := by
    have := scan_x_hex2 m hm (32 :: (hex2 h ++ 32 :: hex2 l)) (Or.inr ⟨_, rfl⟩)
    simpa [jedec_text] using this
  have e1 : scan_x (32 :: (hex2 h ++ 32 :: hex2 l)) = some (h, 32 :: hex2 l) := by
    have := scan_x_hex2 h hh (32 :: hex2 l) (Or.inr ⟨_, rfl⟩)
    rw [scan_x_space, this]
  have e2 : scan_x (32 :: hex2 l) = some (l, []) := by
    have := scan_x_hex2 l hl [] (Or.inl rfl)
    rw [scan_x_space, ← List.append_nil (hex2 l), this]
  simp only [parse_jedec_bytes, hkeep, e0, e1, e2]
  have hm' : m % 256 = m := by omega
  have hs : (h <<< 8) % 2 ^ 32 = h <<< 8 := by
    rw [Nat.shiftLeft_eq]
    omega
  have hlt : (h <<< 8 ||| l) < 65536 := by
    apply Nat.or_lt_two_pow (n := 16)
    · rw [Nat.shiftLeft_eq]; omega
    · omega
  rw [hm', hs, Nat.mod_eq_of_lt hlt]

end analyze

end Firmware

namespace Firmware

namespace analyze

/-! ## The splitter and double quotes -/

theorem count_dropWhile_comma (p : Nat → Bool) (hp : p 44 = false) (l : List Nat) :
    (l.dropWhile p).count 44 = l.count 44 := by
  induction l with
  | nil => rfl
  | cons c cs ih =>
    rw [List.dropWhile_cons]
    by_cases h : p c = true
    · rw [if_pos h, ih]
      have hc : c ≠ 44 := by
        intro e
        rw [e, hp] at h
        cases h
      rw [List.count_cons_of_ne (Ne.symm hc)]
    · rw [if_neg h]

theorem count_rdropWhile_comma (p : Nat → Bool) (hp : p 44 = false) (l : List Nat) :
    (l.rdropWhile p).count 44 = l.count 44 := by
  rw [List.rdropWhile, List.count_reverse, count_dropWhile_comma p hp, List.count_reverse]

theorem count_trim_comma (l : List Nat) : (trim_spaces_crlf l).count 44 = l.count 44 := by
  simp only [trim_spaces_crlf]
  rw [count_rdropWhile_comma _ (by decide), count_dropWhile_comma _ (by decide),
    count_rdropWhile_comma _ (by decide)]

theorem count_remove_quotes_comma (l : List Nat) :
    (remove_all_quotes l).count 44 = l.count 44 := by
  induction l with
  | nil => rfl
  | cons c cs ih =>
    simp only [remove_all_quotes] at ih ⊢
    by_cases h : c = 34
    · subst h
      rw [List.filter_cons_of_neg (by decide), ih, List.count_cons_of_ne (by decide)]
    · rw [List.filter_cons_of_pos (by simpa using h)]
      by_cases h2 : c = 44
      · subst h2
        rw [List.count_cons_self, List.count_cons_self, ih]
      · rw [List.count_cons_of_ne (Ne.symm h2), List.count_cons_of_ne (Ne.symm h2), ih]

theorem count_strip_bom_comma (l : List Nat) : (strip_bom l).count 44 = l.count 44 := by
  unfold strip_bom
  split
  · simp [List.count_cons]
  · rfl

theorem no_quote_rdropWhile (p : Nat → Bool) (l : List Nat) (h : 34 ∉ l) :
    34 ∉ l.rdropWhile p := fun hm => h ((List.rdropWhile_prefix p l).subset hm)

theorem no_quote_trim (l : List Nat) (h : 34 ∉ l) : 34 ∉ trim_spaces_crlf l := by
  simp only [trim_spaces_crlf]
  apply no_quote_rdropWhile
  intro hm
  exact no_quote_rdropWhile _ l h ((List.dropWhile_suffix _).subset hm)

theorem no_quote_remove (l : List Nat) : 34 ∉ remove_all_quotes l := by
  simp [remove_all_quotes]

/-- On a line without double quotes the scan never enters the quoted state and
ends a field at every comma. -/
theorem split_scan_length (l : List Nat) (h : 34 ∉ l) :
    (split_scan false l).length = 1 + l.count 44 := by
  induction l with
  | nil => rfl
  | cons c cs ih =>
    have hc : c ≠ 34 := fun e => h (by simp [e])
    have hcs : 34 ∉ cs := fun hm => h (List.mem_cons_of_mem _ hm)
    rw [split_scan, if_neg hc]
    by_cases h2 : c = 44
    · subst h2
      simp only [and_self, if_true, List.length_cons, List.count_cons_self, ih hcs]
      omega
    · have hlen : ∀ fs : List (List Nat), fs ≠ [] → (cons_field c fs).length = fs.length := by
        intro fs hfs
        cases fs with
        | nil => exact absurd rfl hfs
        | cons f fs => rfl
      have hne : split_scan false cs ≠ [] := by
        intro e
        have := ih hcs
        rw [e] at this
        simp at this
        omega
      simp only [h2, false_and, if_false]
      rw [hlen _ hne, ih hcs, List.count_cons_of_ne (Ne.symm h2)]

/-- C25 (the code differs): `csv_split_simple_keep_empty` removes every double
quote from the line before it scans it, so the scan never sees a quote and ends
a field at every comma: the number of fields is `1` plus the number of all
commas of the line, capped at `max_cols`.  The line `"a,b",c` has one comma
outside quotes, but it is split into the three fields `a`, `b` and `c`. -/
theorem split_ignores_quotes :
    (∀ (line : List Nat) (max_cols : Nat),
      (csv_split_simple_keep_empty line max_cols).length = min max_cols (1 + line.count 44))
    ∧ csv_split_simple_keep_empty quoted_line 20 = [[97], [98], [99]]
    ∧ 1 + commas_outside_quotes false quoted_line = 2
    ∧ (csv_split_simple_keep_empty quoted_line 20).length
        ≠ min 20 (1 + commas_outside_quotes false quoted_line) := by
  refine ⟨?_, by decide, by decide, by decide⟩
  intro line max_cols
  simp only [csv_split_simple_keep_empty, List.length_map, List.length_take]
  rw [split_scan_length _ (no_quote_trim _ (no_quote_remove _)), count_trim_comma,
    count_remove_quotes_comma, count_strip_bom_comma]

end analyze

end Firmware

namespace Firmware

namespace analyze

/-! ## Accepting a catalog line -/

/-- A trimmed field neither starts nor ends with white space. -/
theorem trim_spaces_crlf_trimmed (s : List Nat) :
    (∀ c, (trim_spaces_crlf s).head? = some c → isspace c = false)
    ∧ (∀ c, (trim_spaces_crlf s).getLast? = some c → isspace c = false) := by
  simp only [trim_spaces_crlf]
  generalize List.rdropWhile (fun c => c == 13 || c == 10) s = s1
  constructor
  · intro c hc
    obtain ⟨t, ht⟩ := List.rdropWhile_prefix isspace (List.dropWhile isspace s1)
    cases h3 : List.rdropWhile isspace (List.dropWhile isspace s1) with
    | nil => rw [h3] at hc; simp at hc
    | cons a l =>
      rw [h3] at hc ht
      simp only [List.head?_cons, Option.some.injEq] at hc
      subst hc
      have hne : List.dropWhile isspace s1 ≠ [] := by
        rw [← ht]; simp
      have hh := List.head_dropWhile_not isspace s1 hne
      have : (List.dropWhile isspace s1).head hne = a := by
        simp only [← ht, List.cons_append, List.head_cons]
      rw [this] at hh
      simpa using hh
  · intro c hc
    cases h3 : List.rdropWhile isspace (List.dropWhile isspace s1) with
    | nil => rw [h3] at hc; simp at hc
    | cons a l =>
      have hne : List.rdropWhile isspace (List.dropWhile isspace s1) ≠ [] := by
        rw [h3]; simp
      have hl := List.rdropWhile_last_not isspace (List.dropWhile isspace s1) hne
      rw [List.getLast?_eq_getLast _ hne, Option.some.injEq] at hc
      rw [hc] at hl
      simpa using hl

/-- C23: `parse_ref_line` accepts a catalog line shorter than 384 characters
exactly when the line splits into at least 15 comma-separated fields, that is
when it holds at least 14 commas; the fields are counted with the empty ones
(`a,,b` gives the three fields `a`, empty, `b`); every field is free of leading
and trailing white space; an accepted row has `0` in every numeric column whose
field is empty; with exactly 15 fields the voltage range is empty and the
endurance `0`, with exactly 16 fields the endurance is `0`. -/
theorem parse_ref_line_fields (strtod : List Nat → ℚ) (line : List Nat)
    (hlen : line.length < 384) :
    ((parse_ref_line strtod line).isSome = true
      ↔ 15 ≤ (csv_split_simple_keep_empty line 20).length)
    ∧ ((parse_ref_line strtod line).isSome = true ↔ 15 ≤ 1 + line.count 44)
    ∧ (csv_split_simple_keep_empty line 20).length = min 20 (1 + line.count 44)
    ∧ csv_split_simple_keep_empty (bytes "a,,b") 20 = [bytes "a", [], bytes "b"]
    ∧ (∀ f ∈ csv_split_simple_keep_empty line 20,
        (∀ c, f.head? = some c → isspace c = false)
        ∧ (∀ c, f.getLast? = some c → isspace c = false))
    ∧ to_dflt0 strtod (some []) = 0
    ∧ (∀ r, parse_ref_line strtod line = some r →
        (∀ p ∈ numeric_fields r,
          (csv_split_simple_keep_empty line 20).getD p.1 [] = [] → p.2 = 0)
        ∧ ((csv_split_simple_keep_empty line 20).length = 15 →
            r.v_range = [] ∧ r.endurance = 0)
        ∧ ((csv_split_simple_keep_empty line 20).length = 16 → r.endurance = 0)
        ∧ (15 < (csv_split_simple_keep_empty line 20).length →
            r.v_range = ((csv_split_simple_keep_empty line 20).getD 15 []).take 23)
        ∧ (16 < (csv_split_simple_keep_empty line 20).length →
            r.endurance = to_dflt0 strtod (some ((csv_split_simple_keep_empty line 20).getD 16 [])))) := by
  have hbuf : strncpy_z 384 line = line := by
    simp only [strncpy_z]
    exact List.take_of_length_le (by omega)
  have hcount : (csv_split_simple_keep_empty line 20).length = min 20 (1 + line.count 44) := by
    simp only [csv_split_simple_keep_empty, List.length_map, List.length_take]
    rw [split_scan_length _ (no_quote_trim _ (no_quote_remove _)), count_trim_comma,
      count_remove_quotes_comma, count_strip_bom_comma]
  have hsome : (parse_ref_line strtod line).isSome = true
      ↔ 15 ≤ (csv_split_simple_keep_empty line 20).length := by
    simp only [parse_ref_line, hbuf]
    by_cases h : (csv_split_simple_keep_empty line 20).length < 15
    · rw [if_pos h]
      simp only [Option.isSome_none, Bool.false_eq_true, false_iff]; omega
    · rw [if_neg h]
      simp only [Option.isSome_some, true_iff]; omega
  have hzero : ∀ (col : List (List Nat)) (i : Nat), col.getD i [] = [] →
      to_dflt0 strtod col[i]? = 0 := by
    intro col i h
    rw [List.getD_eq_getElem?_getD] at h
    cases hc : col[i]? with
    | none => rfl
    | some f =>
      rw [hc] at h
      simp only [Option.getD_some] at h
      subst h
      rfl
  refine ⟨hsome, ?_, hcount, by decide, ?_, rfl, ?_⟩
  · rw [hsome, hcount]; omega
  · intro f hf
    simp only [csv_split_simple_keep_empty, List.mem_map] at hf
    obtain ⟨g, _, rfl⟩ := hf
    exact trim_spaces_crlf_trimmed g
  · intro r hr
    simp only [parse_ref_line, hbuf] at hr
    clear hsome hcount
    generalize csv_split_simple_keep_empty line 20 = col at hr ⊢
    by_cases h : col.length < 15
    · rw [if_pos h] at hr
      cases hr
    rw [if_neg h] at hr
    have e3 : r.cap_mbit = to_dflt0 strtod col[3]? := by rw [← Option.some.inj hr]
    have e5 : r.typ_erase_ms = to_dflt0 strtod col[5]? := by rw [← Option.some.inj hr]
    have e6 : r.max_erase_ms = to_dflt0 strtod col[6]? := by rw [← Option.some.inj hr]
    have e7 : r.typ_erase32_ms = to_dflt0 strtod col[7]? := by rw [← Option.some.inj hr]
    have e8 : r.max_erase32_ms = to_dflt0 strtod col[8]? := by rw [← Option.some.inj hr]
    have e9 : r.typ_erase64_ms = to_dflt0 strtod col[9]? := by rw [← Option.some.inj hr]
    have e10 : r.max_erase64_ms = to_dflt0 strtod col[10]? := by rw [← Option.some.inj hr]
    have e11 : r.max_read_mhz = to_dflt0 strtod col[11]? := by rw [← Option.some.inj hr]
    have e12 : r.typ_prog_ms = to_dflt0 strtod col[12]? := by rw [← Option.some.inj hr]
    have e13 : r.max_prog_ms = to_dflt0 strtod col[13]? := by rw [← Option.some.inj hr]
    have e14 : r.read_50_mb_s = to_dflt0 strtod col[14]? := by rw [← Option.some.inj hr]
    have e15 : r.v_range = if col.length > 15 then strncpy_z 24 (col.getD 15 []) else [] := by
      rw [← Option.some.inj hr]
    have e16 : r.endurance = if col.length > 16 then to_dflt0 strtod col[16]? else 0 := by
      rw [← Option.some.inj hr]
    clear hr
    refine ⟨?_, ?_, ?_, ?_, ?_⟩
    · intro p hp
      simp only [numeric_fields, List.mem_cons, List.mem_singleton, List.not_mem_nil,
        or_false] at hp
      rcases hp with rfl | rfl | rfl | rfl | rfl | rfl | rfl | rfl | rfl | rfl | rfl | rfl
      · intro he; rw [e3]; exact hzero _ _ he
      · intro he; rw [e5]; exact hzero _ _ he
      · intro he; rw [e6]; exact hzero _ _ he
      · intro he; rw [e7]; exact hzero _ _ he
      · intro he; rw [e8]; exact hzero _ _ he
      · intro he; rw [e9]; exact hzero _ _ he
      · intro he; rw [e10]; exact hzero _ _ he
      · intro he; rw [e11]; exact hzero _ _ he
      · intro he; rw [e12]; exact hzero _ _ he
      · intro he; rw [e13]; exact hzero _ _ he
      · intro he; rw [e14]; exact hzero _ _ he
      · intro he
        show r.endurance = 0
        rw [e16]
        split_ifs
        · exact hzero _ _ he
        · rfl
    · intro h15
      rw [e15, e16, if_neg (by omega), if_neg (by omega)]
      exact ⟨rfl, rfl⟩
    · intro h16
      rw [e16, if_neg (by omega)]
    · intro h15
      rw [e15, if_pos h15]
      rfl
    · intro h16
      rw [e16, if_pos h16, List.getD_eq_getElem?_getD, List.getElem?_eq_getElem h16]
      rfl

/-- C23, witness: a line with fifteen fields, padded names and empty numeric
fields is accepted; the names are stored trimmed, the numeric columns are `0`,
the voltage range is empty. -/
theorem parse_ref_line_fields_witness :
    (((parse_ref_line (fun _ => 1) sparse_ref_line).isSome = true
      ↔ 15 ≤ (csv_split_simple_keep_empty sparse_ref_line 20).length)
    ∧ ((parse_ref_line (fun _ => 1) sparse_ref_line).isSome = true
      ↔ 15 ≤ 1 + sparse_ref_line.count 44)
    ∧ (csv_split_simple_keep_empty sparse_ref_line 20).length
        = min 20 (1 + sparse_ref_line.count 44)
    ∧ csv_split_simple_keep_empty (bytes "a,,b") 20 = [bytes "a", [], bytes "b"]
    ∧ (∀ f ∈ csv_split_simple_keep_empty sparse_ref_line 20,
        (∀ c, f.head? = some c → isspace c = false)
        ∧ (∀ c, f.getLast? = some c → isspace c = false))
    ∧ to_dflt0 (fun _ => (1 : ℚ)) (some []) = 0
    ∧ (∀ r, parse_ref_line (fun _ => 1) sparse_ref_line = some r →
        (∀ p ∈ numeric_fields r,
          (csv_split_simple_keep_empty sparse_ref_line 20).getD p.1 [] = [] → p.2 = 0)
        ∧ ((csv_split_simple_keep_empty sparse_ref_line 20).length = 15 →
            r.v_range = [] ∧ r.endurance = 0)
        ∧ ((csv_split_simple_keep_empty sparse_ref_line 20).length = 16 → r.endurance = 0)
        ∧ (15 < (csv_split_simple_keep_empty sparse_ref_line 20).length →
            r.v_range = ((csv_split_simple_keep_empty sparse_ref_line 20).getD 15 []).take 23)
        ∧ (16 < (csv_split_simple_keep_empty sparse_ref_line 20).length →
            r.endurance = to_dflt0 (fun _ => (1 : ℚ))
              (some ((csv_split_simple_keep_empty sparse_ref_line 20).getD 16 [])))))
    ∧ (parse_ref_line (fun _ => 1) sparse_ref_line).map
        (fun r => (r.model, r.company, r.jedec, r.jedec_mfg, r.jedec_dev))
        = some (bytes "IS25LP040", bytes "ISSI", bytes "9D 40 13", 0x9D, 0x4013) :=
  ⟨parse_ref_line_fields (fun _ => 1) sparse_ref_line (by decide), by decide⟩

end analyze

end Firmware

namespace Firmware

namespace analyze

/-! ## The weight of the program term -/

/-- The JEDEC block adds a number that does not depend on the running score: `0`,
`-0.25` or `100`. -/
theorem jedec_influence_add (live_mfg live_dev : Nat) (r : chip_ref_t) (score : ℚ) :
    jedec_influence live_mfg live_dev r score
      = score + jedec_influence live_mfg live_dev r 0 := by
  unfold jedec_influence
  split_ifs <;> ring

/-- C24: with `write_unreliable = (verify_errors != 0)` taken from the 12 MHz row,
the score of a reference row is
`1.0 * d_erase + w * d_prog + 0.7 * d_read` plus the JEDEC adjustment (`0`,
`-0.25` or `+100`), where the weight `w` of the program term is `0.15` when
`verify_errors != 0` and `1.0` when `verify_errors = 0`; this holds for every
row scored in the identification loop. -/
theorem row_score_program_weight (e_ms prog_ms_meas read50_mb_s_meas : ℚ)
    (live_mfg live_dev verify_errors : Nat) (r : chip_ref_t) (rows : List chip_ref_t) :
    row_score e_ms prog_ms_meas read50_mb_s_meas live_mfg live_dev
        (decide (verify_errors ≠ 0)) r
      = 1 * d_erase e_ms r
        + (if verify_errors ≠ 0 then 15 / 100 else 1) * d_prog prog_ms_meas r
        + 7 / 10 * d_read read50_mb_s_meas r
        + jedec_influence live_mfg live_dev r 0
    ∧ (jedec_influence live_mfg live_dev r 0 = 0
        ∨ jedec_influence live_mfg live_dev r 0 = -(1 / 4)
        ∨ jedec_influence live_mfg live_dev r 0 = 100)
    ∧ (∀ h ∈ scored e_ms prog_ms_meas read50_mb_s_meas live_mfg live_dev
          (decide (verify_errors ≠ 0)) rows,
        h.score = 1 * d_erase e_ms h.ref
          + (if verify_errors ≠ 0 then 15 / 100 else 1) * d_prog prog_ms_meas h.ref
          + 7 / 10 * d_read read50_mb_s_meas h.ref
          + jedec_influence live_mfg live_dev h.ref 0) := by
  have key : ∀ r : chip_ref_t,
      row_score e_ms prog_ms_meas read50_mb_s_meas live_mfg live_dev
          (decide (verify_errors ≠ 0)) r
        = 1 * d_erase e_ms r
          + (if verify_errors ≠ 0 then 15 / 100 else 1) * d_prog prog_ms_meas r
          + 7 / 10 * d_read read50_mb_s_meas r
          + jedec_influence live_mfg live_dev r 0 := by
    intro r
    simp only [row_score, w_erase, w_prog, w_read]
    rw [jedec_influence_add]
    by_cases hv : verify_errors = 0
    · subst hv
      simp
    · have hd : decide (verify_errors ≠ 0) = true := by simpa using hv
      rw [hd, if_pos rfl, if_pos hv]
      ring
  refine ⟨key r, ?_, ?_⟩
  · unfold jedec_influence
    split_ifs
    · right; left; ring
    · right; right; ring
    · left; rfl
    · left; rfl
  · intro h hh
    simp only [scored, List.mem_map] at hh
    obtain ⟨r', _, rfl⟩ := hh
    exact key r'

end analyze

end Firmware

namespace Firmware

namespace csvlog

/-! ## The quick undo of the current session -/

theorem step_offset (m : Module) (c : Call) (h : m.g_last_session_offset = 0) :
    (step m c).g_last_session_offset = 0 := by
  cases c with
  | csv_begin fr_mount fr_open =>
    simp only [step, csv_begin]
    split_ifs <;> exact h
  | csv_end => exact h
  | csv_row_to_sd save line =>
    simp only [step, csv_row_to_sd, _csv_append_line]
    split_ifs <;> exact h
  | csv_mark_session_start ms =>
    simp only [step, csv_mark_session_start, _csv_append_line]
    split_ifs <;> exact h
  | csv_erase_last_session fr_mount fr_open fr_lseek fr_truncate =>
    simp only [step]
    split <;> exact h
  | csv_truncate_to fr_open fr_lseek fr_truncate pos =>
    simp only [step, csv_truncate_to]
    split_ifs <;> exact h
  | csv_undo_current_session fr_open fr_lseek fr_truncate =>
    simp only [step, csv_undo_current_session, h, if_true]

theorem run_offset (calls : List Call) :
    ∀ m : Module, m.g_last_session_offset = 0 → (run calls m).g_last_session_offset = 0 := by
  induction calls with
  | nil => intro m h; exact h
  | cons c cs ih =>
    intro m h
    exact ih (step m c) (step_offset m c h)

/-- C26 (the code differs): `csv_mark_session_start` returns the offset in front of
the marker but nothing stores it: `g_last_session_offset` is `0` at start-up and
after every sequence of calls of the module, so `csv_undo_current_session` never
truncates, whatever was marked before.  In the session that saves row A, marks
the session start, saves row B and asks for the undo, the marker call returned
the offset behind row A, and after the undo the file still holds the header,
row A, the marker and row B. -/
theorem undo_current_session_never_truncates :
    (∀ (calls : List Call) (results : List Nat),
      (run calls (Module.boot results)).g_last_session_offset = 0)
    ∧ (∀ (calls : List Call) (results : List Nat) (fr_open fr_lseek fr_truncate : Nat),
        csv_undo_current_session fr_open fr_lseek fr_truncate (run calls (Module.boot results))
          = run calls (Module.boot results))
    ∧ (csv_mark_session_start 1234
        (run [Call.csv_begin FR_OK FR_OK, Call.csv_row_to_sd true (bytes "1,A\r\n")]
          (Module.boot []))).2 = (RESULTS_HEADER ++ bytes "1,A\r\n").length
    ∧ (run (undo_session (bytes "1,A\r\n") (bytes "2,B\r\n")) (Module.boot [])).results
        = RESULTS_HEADER ++ bytes "1,A\r\n" ++ bytes "# SESSION_START 1234\r\n"
            ++ bytes "2,B\r\n"
    ∧ (run (undo_session (bytes "1,A\r\n") (bytes "2,B\r\n")) (Module.boot [])).results
        ≠ RESULTS_HEADER ++ bytes "1,A\r\n" := by
  refine ⟨fun calls results => run_offset calls _ rfl, ?_, ?_, ?_, ?_⟩
  · intro calls results fr_open fr_lseek fr_truncate
    have h := run_offset calls (Module.boot results) rfl
    simp only [csv_undo_current_session, h, if_true]
  · decide
  · decide
  · decide

end csvlog

end Firmware

namespace Firmware

namespace bench

/-! ## Throughput reported by the benchmarks with output -/

variable {σ : Type}

/-- On a device whose status always shows a write in progress the timed program
gives up and returns `-1` with one verify error. -/
theorem timed_prog_256_web_busy (D : flash.SpiDevice σ) (clk : Nat → Nat)
    (hbusy : ∀ b : flash.Bus σ, (flash.read_status D 0x05 b).2 &&& 1 ≠ 0)
    (hclk : StrictMono clk) (fuel : Nat) (hf : 5000000 < fuel) (addr : Nat) (data : List Nat)
    (w : World σ) :
    ∃ w' sr1, timed_prog_256_web D clk fuel addr data w = some (w', -1, 1, sr1) := by
  obtain ⟨n, hn, hlt, hge⟩ := first_deadline_poll hclk (w.ticks + 1) (PROG_WEB_TIMEOUT_MS * 1000)
  let w1 : World σ := (on_bus (fun b => (flash.cs_high D (flash.spi_write_blocking D
    (page256 data) (flash.spi_write_blocking D
      [(addr >>> 16) &&& 0xFF, (addr >>> 8) &&& 0xFF, (addr >>> 0) &&& 0xFF]
      (flash.spi_write_blocking D [0x02] (flash.cs_low D (flash.write_enable D b))))), ()))
    (get_absolute_time clk w).1).1
  have hfn : n < fuel := by
    simp only [PROG_WEB_TIMEOUT_MS] at hn
    omega
  obtain ⟨w', hw', _⟩ := wip_poll_loop_timeout D clk
    (clk (w.ticks + 1) + PROG_WEB_TIMEOUT_MS * 1000) hbusy n fuel
    (get_absolute_time clk w1).1 hfn hlt hge
  have hrun : page_program_web_safe D clk fuel addr data PROG_WEB_TIMEOUT_MS
      (get_absolute_time clk w).1 = some (w', false) := hw'
  refine ⟨(read_status D 0x05 w').1, (read_status D 0x05 w').2, ?_⟩
  simp only [timed_prog_256_web, hrun]
  rfl

/-- On such a device the timed erase gives up and returns `-1`. -/
theorem timed_erase_4k_web_busy (D : flash.SpiDevice σ) (clk : Nat → Nat)
    (hbusy : ∀ b : flash.Bus σ, (flash.read_status D 0x05 b).2 &&& 1 ≠ 0)
    (hclk : StrictMono clk) (fuel : Nat) (hf : 5000000 < fuel) (addr : Nat) (w : World σ) :
    ∃ w' sr1, timed_erase_4k_web D clk fuel addr w = some (w', -1, sr1) := by
  obtain ⟨n, hn, hlt, hge⟩ :=
    first_deadline_poll hclk (w.ticks + 1) (ERASE_WEB_TIMEOUT_MS * 1000)
  let w1 : World σ := (on_bus (fun b => (flash.cs_high D (flash.spi_write_blocking D
    [0x20, (addr >>> 16) &&& 0xFF, (addr >>> 8) &&& 0xFF, (addr >>> 0) &&& 0xFF]
    (flash.cs_low D (flash.write_enable D b))), ())) (get_absolute_time clk w).1).1
  have hfn : n < fuel := by
    simp only [ERASE_WEB_TIMEOUT_MS] at hn
    omega
  obtain ⟨w', hw', _⟩ := wip_poll_loop_timeout D clk
    (clk (w.ticks + 1) + ERASE_WEB_TIMEOUT_MS * 1000) hbusy n fuel
    (get_absolute_time clk w1).1 hfn hlt hge
  have hrun : sector_erase_4k_web_safe D clk fuel addr ERASE_WEB_TIMEOUT_MS
      (get_absolute_time clk w).1 = some (w', false) := hw'
  refine ⟨(read_status D 0x05 w').1, (read_status D 0x05 w').2, ?_⟩
  simp only [timed_erase_4k_web, hrun]
  rfl

/-- A trial on such a device adds `-1` to the erase and to the program sum. -/
theorem output_trial_busy (D : flash.SpiDevice σ) (clk : Nat → Nat)
    (hbusy : ∀ b : flash.Bus σ, (flash.read_status D 0x05 b).2 &&& 1 ≠ 0)
    (hclk : StrictMono clk) (fuel : Nat) (hf : 5000000 < fuel) (cfg : Config)
    (hz span sector_addr : Nat) (s : output_sums) (w : World σ) :
    ∃ w' s', output_trial D clk fuel cfg hz span sector_addr s w = some (w', s')
      ∧ s'.sum_erase_us = s.sum_erase_us - 1 ∧ s'.sum_prog_us = s.sum_prog_us - 1 := by
  unfold output_trial
  simp only
  obtain ⟨w2, sr, he⟩ := timed_erase_4k_web_busy D clk hbusy hclk fuel hf sector_addr
    (cs_high D (spi_init cfg.SAFE_PROG_HZ w))
  rw [he]
  simp only
  obtain ⟨w3, sr2, hp⟩ := timed_prog_256_web_busy D clk hbusy hclk fuel hf sector_addr
    test_page w2
  rw [hp]
  simp only
  refine ⟨_, _, rfl, ?_, ?_⟩
  · simp; ring
  · simp; ring

theorem output_trials_busy
    (body : Nat → output_sums → World σ → Option (World σ × output_sums))
    (hbody : ∀ trial s w, ∃ w' s', body trial s w = some (w', s')
      ∧ s'.sum_erase_us = s.sum_erase_us - 1 ∧ s'.sum_prog_us = s.sum_prog_us - 1) :
    ∀ (n trial : Nat) (s : output_sums) (w : World σ),
      ∃ w' s', output_trials body n trial s w = some (w', s')
        ∧ s'.sum_erase_us = s.sum_erase_us - n ∧ s'.sum_prog_us = s.sum_prog_us - n := by
  intro n
  induction n with
  | zero => intro trial s w; exact ⟨w, s, rfl, by simp, by simp⟩
  | succ n ih =>
    intro trial s w
    obtain ⟨w1, s1, h1, he1, hp1⟩ := hbody trial s w
    obtain ⟨w2, s2, h2, he2, hp2⟩ := ih (trial + 1) s1 w1
    refine ⟨w2, s2, ?_, ?_, ?_⟩
    · rw [output_trials, h1]
      exact h2
    · rw [he2, he1]; push_cast; ring
    · rw [hp2, hp1]; push_cast; ring

theorem output_averages_prog (hz TRIALS read_bytes : Nat) (s : output_sums) (hT : 0 < TRIALS)
    (hs : s.sum_prog_us = -(TRIALS : ℚ)) :
    (output_averages hz TRIALS read_bytes s).hz = hz
    ∧ (output_averages hz TRIALS read_bytes s).avg_prog_kbps = some (-250000) := by
  have hT' : (TRIALS : ℚ) ≠ 0 := by exact_mod_cast (Nat.pos_iff_ne_zero.mp hT)
  refine ⟨rfl, ?_⟩
  simp only [output_averages, hs, ddiv, fdiv, Option.bind]
  have h1 : (-(TRIALS : ℚ) / 1000000) ≠ 0 := by
    intro h
    apply hT'
    have := div_eq_zero_iff.mp h
    rcases this with h | h
    · linarith
    · norm_num at h
  norm_num [h1]
  field_simp
  ring

/-- On a device stuck busy every clock of the 100-run benchmark reports the write
throughput `-250000`. -/
theorem output_freqs_100_busy (D : flash.SpiDevice σ) (clk : Nat → Nat)
    (hbusy : ∀ b : flash.Bus σ, (flash.read_status D 0x05 b).2 &&& 1 ≠ 0)
    (hclk : StrictMono clk) (fuel : Nat) (hf : 5000000 < fuel) (cfg : Config) :
    ∀ (freqs : List Nat) (w : World σ),
      ∃ w' outs, output_freqs_100 D clk fuel cfg freqs w = some (w', outs)
        ∧ outs.map (fun o => (o.hz, o.avg_prog_kbps))
            = freqs.map (fun hz => (hz, some (-250000 : ℚ))) := by
  intro freqs
  induction freqs with
  | nil => intro w; exact ⟨w, [], rfl, rfl⟩
  | cons hz rest ih =>
    intro w
    obtain ⟨w1, s, h1, _, hp⟩ := output_trials_busy
      (fun trial => output_trial D clk fuel cfg hz 2048
        ((cfg.SCRATCH_BASE + (trial % 64) * 4096) % 2 ^ 32))
      (fun trial s w => output_trial_busy D clk hbusy hclk fuel hf cfg hz 2048 _ s w)
      100 0 ⟨0, 0, 0, 0⟩ w
    obtain ⟨w2, outs, h2, ho⟩ := ih w1
    refine ⟨w2, output_averages hz 100 2048 s :: outs, ?_, ?_⟩
    · rw [output_freqs_100, h1]
      simp only [h2]
    · have hs : s.sum_prog_us = -((100 : Nat) : ℚ) := by rw [hp]; norm_num
      obtain ⟨a1, a2⟩ := output_averages_prog hz 100 2048 s (by decide) hs
      simp only [List.map_cons, ho, a1, a2]

/-- On a device stuck busy every clock of the fast benchmark reports the write
throughput `-250000`. -/
theorem output_freqs_fast_busy (D : flash.SpiDevice σ) (clk : Nat → Nat)
    (hbusy : ∀ b : flash.Bus σ, (flash.read_status D 0x05 b).2 &&& 1 ≠ 0)
    (hclk : StrictMono clk) (fuel : Nat) (hf : 5000000 < fuel) (cfg : Config) :
    ∀ (freqs : List Nat) (freq_idx total_errors : Nat) (w : World σ),
      ∃ w' outs errs,
        output_freqs_fast D clk fuel cfg freqs freq_idx total_errors w = some (w', outs, errs)
        ∧ outs.map (fun o => (o.hz, o.avg_prog_kbps))
            = freqs.map (fun hz => (hz, some (-250000 : ℚ))) := by
  intro freqs
  induction freqs with
  | nil => intro freq_idx total_errors w; exact ⟨w, [], total_errors, rfl, rfl⟩
  | cons hz rest ih =>
    intro freq_idx total_errors w
    obtain ⟨w1, s, h1, _, hp⟩ := output_trials_busy
      (fun trial => output_trial D clk fuel cfg hz 4096
        ((cfg.SCRATCH_BASE + (freq_idx * 2 + trial) * 4096) % 2 ^ 32))
      (fun trial s w => output_trial_busy D clk hbusy hclk fuel hf cfg hz 4096 _ s w)
      2 0 ⟨0, 0, 0, total_errors⟩ w
    obtain ⟨w2, outs, errs, h2, ho⟩ := ih (freq_idx + 1) s.total_errors w1
    refine ⟨w2, output_averages hz 2 4096 s :: outs, errs, ?_, ?_⟩
    · rw [output_freqs_fast, h1]
      simp only [h2]
    · have hs : s.sum_prog_us = -((2 : Nat) : ℚ) := by rw [hp]; norm_num
      obtain ⟨a1, a2⟩ := output_averages_prog hz 2 4096 s (by decide) hs
      simp only [List.map_cons, ho, a1, a2]

/-- C27 (the code differs): the two benchmarks that report through `output_func`
divide by the accumulated time without a guard.  On a device stuck busy (every
status read shows a write in progress), with a timer that shows one second more
at every reading, every erase and every program times out and returns `-1`, the
program sum of a clock is `-TRIALS`, and both benchmarks report the write
throughput `(256 * TRIALS) / (-TRIALS / 1e6) / 1024 = -250000` KB/s for every
clock, a negative number and not `0`; with a sum of `0` the same expressions
divide by zero. -/
theorem output_throughput_unguarded :
    (∃ w' outs, run_benchmark_100_with_output busy_device (fun k => 1000000 * k) 5000001
        defaults (World.init () 12000000 false) = some (w', outs)
      ∧ outs.map (fun o => (o.hz, o.avg_prog_kbps))
          = [(12000000, some (-250000)), (24000000, some (-250000)),
              (36000000, some (-250000))])
    ∧ (∃ w' outs errs, run_fast_benchmark_with_output busy_device (fun k => 1000000 * k)
          5000001 defaults (World.init () 12000000 false) = some (w', outs, errs)
      ∧ outs.map (fun o => (o.hz, o.avg_prog_kbps))
          = [(12000000, some (-250000)), (24000000, some (-250000))])
    ∧ (∀ hz TRIALS read_bytes sum_erase_us sum_read_us total_errors,
        (output_averages hz TRIALS read_bytes
          ⟨sum_erase_us, 0, sum_read_us, total_errors⟩).avg_prog_kbps = none)
    ∧ (∀ hz TRIALS read_bytes sum_erase_us sum_prog_us total_errors,
        (output_averages hz TRIALS read_bytes
          ⟨sum_erase_us, sum_prog_us, 0, total_errors⟩).avg_read_kbps = none)
    ∧ _mbps 256 (-1) = some 0 := by
  refine ⟨?_, ?_, ?_, ?_, ?_⟩
  · exact output_freqs_100_busy busy_device _ busy_device_busy strictMono_seconds 5000001
      (by decide) defaults _ _
  · exact output_freqs_fast_busy busy_device _ busy_device_busy strictMono_seconds 5000001
      (by decide) defaults _ 0 0 _
  · intro hz TRIALS read_bytes sum_erase_us sum_read_us total_errors
    simp [output_averages, ddiv, fdiv]
  · intro hz TRIALS read_bytes sum_erase_us sum_prog_us total_errors
    simp [output_averages, ddiv, fdiv]
  · simp [_mbps]

end bench

end Firmware

namespace Firmware

namespace bench

/-! ## The random read generator never reaches state zero -/

variable {σ : Type}

theorem bool_xor_cancel (a b c : Bool) (h : (a ^^ c) = (b ^^ c)) : a = b := by
  cases a <;> cases b <;> cases c <;> simp_all

/-- The step `x ^= x << k` on `uint32_t` is injective for `0 < k`. -/
theorem xor_shl_inj (k : Nat) (hk : 0 < k) (x y : Nat)
    (h : x ^^^ ((x <<< k) % 2 ^ 32) = y ^^^ ((y <<< k) % 2 ^ 32)) : x = y := by
  apply Nat.eq_of_testBit_eq
  intro i
  induction i using Nat.strong_induction_on with
  | _ i ih =>
    have hi := congrArg (fun n => Nat.testBit n i) h
    simp only [Nat.testBit_xor, Nat.testBit_mod_two_pow, Nat.testBit_shiftLeft] at hi
    by_cases hik : k ≤ i
    · have hprev := ih (i - k) (by omega)
      rw [hprev] at hi
      exact bool_xor_cancel _ _ _ hi
    · have hge : ¬ i ≥ k := hik
      simpa [hge] using hi

/-- The step `x ^= x >> k` on `uint32_t` is injective for `0 < k`. -/
theorem xor_shr_inj (k : Nat) (hk : 0 < k) (x y : Nat) (hx : x < 2 ^ 32) (hy : y < 2 ^ 32)
    (h : x ^^^ (x >>> k) = y ^^^ (y >>> k)) : x = y := by
  apply Nat.eq_of_testBit_eq
  have key : ∀ (n i : Nat), 32 ≤ i + n → x.testBit i = y.testBit i := by
    intro n
    induction n with
    | zero =>
      intro i hi
      have h32 : 2 ^ 32 ≤ 2 ^ i := Nat.pow_le_pow_right (by decide) (by omega)
      rw [Nat.testBit_eq_false_of_lt (by omega), Nat.testBit_eq_false_of_lt (by omega)]
    | succ n ih =>
      intro i hi
      have hb := congrArg (fun m => Nat.testBit m i) h
      simp only [Nat.testBit_xor, Nat.testBit_shiftRight] at hb
      have hnext := ih (k + i) (by omega)
      rw [hnext] at hb
      exact bool_xor_cancel _ _ _ hb
  intro i
  exact key 32 i (by omega)

theorem xor_shl_lt (k x : Nat) (hx : x < 2 ^ 32) : x ^^^ ((x <<< k) % 2 ^ 32) < 2 ^ 32 :=
  Nat.xor_lt_two_pow hx (Nat.mod_lt _ (by decide))

theorem xor_shr_lt (k x : Nat) (hx : x < 2 ^ 32) : x ^^^ (x >>> k) < 2 ^ 32 := by
  apply Nat.xor_lt_two_pow hx
  rw [Nat.shiftRight_eq_div_pow]
  exact lt_of_le_of_lt (Nat.div_le_self _ _) hx

theorem xorshift32_inj (x y : Nat) (hx : x < 2 ^ 32) (hy : y < 2 ^ 32)
    (h : _xorshift32 x = _xorshift32 y) : x = y := by
  unfold _xorshift32 at h
  simp only at h
  have h3 := xor_shl_inj 5 (by decide) _ _ h
  have h2 := xor_shr_inj 17 (by decide) _ _ (xor_shl_lt 13 x hx) (xor_shl_lt 13 y hy) h3
  exact xor_shl_inj 13 (by decide) _ _ h2

theorem xorshift32_zero : _xorshift32 0 = 0 := by decide

theorem xorshift32_bound (s : Nat) (hs : s < 2 ^ 32) : _xorshift32 s < 2 ^ 32 := by
  unfold _xorshift32
  exact xor_shl_lt 5 _ (xor_shr_lt 17 _ (xor_shl_lt 13 s hs))

theorem xorshift32_ne_zero (s : Nat) (hs : s < 2 ^ 32) (h0 : s ≠ 0) : _xorshift32 s ≠ 0 := by
  intro h
  apply h0
  exact xorshift32_inj s 0 hs (by decide) (by rw [h, xorshift32_zero])

theorem xorshift32_iterate (k : Nat) :
    ∀ s : Nat, s < 2 ^ 32 → s ≠ 0 → _xorshift32^[k] s < 2 ^ 32 ∧ _xorshift32^[k] s ≠ 0 := by
  induction k with
  | zero => intro s hs h0; exact ⟨hs, h0⟩
  | succ k ih =>
    intro s hs h0
    rw [Function.iterate_succ_apply]
    exact ih _ (xorshift32_bound s hs) (xorshift32_ne_zero s hs h0)

theorem trial_seed_bit31 (run : Int) (hz : Nat) (hrun0 : 0 ≤ run) (hrun : run < 2 ^ 31)
    (hhz : hz < 2 ^ 31) : (trial_seed run hz).testBit 31 = true := by
  unfold trial_seed
  have e1 : run % 2 ^ 32 = run := Int.emod_eq_of_lt hrun0 (by omega)
  have e2 : hz % 2 ^ 32 = hz := Nat.mod_eq_of_lt (by omega)
  have hr : Int.toNat run < 2 ^ 31 := by omega
  rw [e1, e2, Nat.testBit_xor, Nat.testBit_xor, Nat.testBit_eq_false_of_lt hr,
    Nat.testBit_eq_false_of_lt hhz]
  decide

theorem trial_seed_lt (run : Int) (hz : Nat) : trial_seed run hz < 2 ^ 32 := by
  unfold trial_seed
  apply Nat.xor_lt_two_pow
  · apply Nat.xor_lt_two_pow (by decide)
    have : run % 2 ^ 32 < 2 ^ 32 := Int.emod_lt_of_pos _ (by decide)
    omega
  · exact Nat.mod_lt _ (by decide)

theorem trial_seed_ne_zero (run : Int) (hz : Nat) (hrun0 : 0 ≤ run) (hrun : run < 2 ^ 31)
    (hhz : hz < 2 ^ 31) : trial_seed run hz ≠ 0 := by
  intro h
  have hb := trial_seed_bit31 run hz hrun0 hrun hhz
  rw [h] at hb
  simp at hb

/-- The seed `rand_reads` hands back after `n` random reads is the `n`-th iterate
of `_xorshift32` on the seed it was given. -/
theorem rand_reads_seed (D : flash.SpiDevice σ) (clk : Nat → Nat) (cfg : Config)
    (save : Bool) (run : Int) (hz : Nat) :
    ∀ (n seed : Nat) (acc : Option ℚ) (w : World σ),
      (rand_reads D clk cfg save run hz n seed acc w).2.1 = _xorshift32^[n] seed := by
  intro n
  induction n with
  | zero => intro seed acc w; rfl
  | succ n ih =>
    intro seed acc w
    rw [rand_reads]
    simp only
    rw [ih, Function.iterate_succ_apply]
    rfl

/-- C28: `_xorshift32` is injective on 32-bit words and maps `0` to `0`, so it maps
a non-zero state to a non-zero state; for a trial number `0 ≤ run < 2 ^ 31` and a
clock `hz < 2 ^ 31` the per-trial seed `0xC001D00D ^ run ^ hz` is non-zero (its bit
31 is set), and so is the generator state after any number `k` of draws, which is
the seed the random read loop of the trial holds after `k` reads. -/
theorem xorshift32_state_never_zero (D : flash.SpiDevice σ) (clk : Nat → Nat) (cfg : Config)
    (save : Bool) (acc : Option ℚ) (w : World σ) (x y : Nat) (run : Int) (hz k : Nat)
    (hx : x < 2 ^ 32) (hy : y < 2 ^ 32) (hrun0 : 0 ≤ run) (hrun : run < 2 ^ 31)
    (hhz : hz < 2 ^ 31) :
    (_xorshift32 x = _xorshift32 y → x = y)
    ∧ _xorshift32 0 = 0
    ∧ (x ≠ 0 → _xorshift32 x ≠ 0)
    ∧ _xorshift32 x < 2 ^ 32
    ∧ trial_seed run hz = 0xC001D00D ^^^ run.toNat ^^^ hz
    ∧ trial_seed run hz ≠ 0
    ∧ _xorshift32^[k] (trial_seed run hz) ≠ 0
    ∧ (rand_reads D clk cfg save run hz k (trial_seed run hz) acc w).2.1 ≠ 0 := by
  have hne := trial_seed_ne_zero run hz hrun0 hrun hhz
  have hit := (xorshift32_iterate k _ (trial_seed_lt run hz) hne).2
  refine ⟨xorshift32_inj x y hx hy, xorshift32_zero, xorshift32_ne_zero x hx,
    xorshift32_bound x hx, ?_, hne, hit, ?_⟩
  · unfold trial_seed
    rw [Int.emod_eq_of_lt hrun0 (by omega), Nat.mod_eq_of_lt (by omega)]
  · rw [rand_reads_seed]
    exact hit

/-- C28, witness: trial 1 at 12 MHz, three draws, on a device that answers every
byte with zero. -/
theorem xorshift32_state_never_zero_witness :
    (_xorshift32 1 = _xorshift32 2 → 1 = 2)
    ∧ _xorshift32 0 = 0
    ∧ (1 ≠ 0 → _xorshift32 1 ≠ 0)
    ∧ _xorshift32 1 < 2 ^ 32
    ∧ trial_seed 1 12000000 = 0xC001D00D ^^^ (1 : Int).toNat ^^^ 12000000
    ∧ trial_seed 1 12000000 ≠ 0
    ∧ _xorshift32^[3] (trial_seed 1 12000000) ≠ 0
    ∧ (rand_reads flash.zero_device (fun t => t) defaults false 1 12000000 3
        (trial_seed 1 12000000) (some 0) (World.init () 12000000 false)).2.1 ≠ 0 :=
  xorshift32_state_never_zero flash.zero_device (fun t => t) defaults false (some 0)
    (World.init () 12000000 false) 1 2 1 12000000 3 (by decide) (by decide) (by decide)
    (by decide) (by decide)

end bench

end Firmware

namespace Firmware

namespace flash_ben

open flash

/-! ## Addresses above 16 MiB wrap in the command header -/

variable {σ : Type}

/-- The command header only carries the low 24 bits of the address. -/
theorem cmd_hdr_mod (op addr : Nat) : cmd_hdr op addr = cmd_hdr op (addr % 2 ^ 24) := by
  have h1 : (addr >>> 16) % 256 = ((addr % 2 ^ 24) >>> 16) % 256 := by
    simp only [Nat.shiftRight_eq_div_pow]; omega
  have h2 : (addr >>> 8) % 256 = ((addr % 2 ^ 24) >>> 8) % 256 := by
    simp only [Nat.shiftRight_eq_div_pow]; omega
  have h3 : addr % 256 = addr % 2 ^ 24 % 256 := by omega
  simp only [cmd_hdr]
  rw [← h1, ← h2, ← h3]

theorem detect_chip_size_big (D : SpiDevice σ) (b : Bus σ)
    (hbig : 16 * 1024 * 1024 < (detect_chip_size D b).2) :
    (read_jedec_id D b).2.getD 1 0 = 0x40
    ∧ (((read_jedec_id D b).2.getD 2 0 = 0x20 ∧ (detect_chip_size D b).2 = 32 * 1024 * 1024)
      ∨ ((read_jedec_id D b).2.getD 2 0 = 0x21
          ∧ (detect_chip_size D b).2 = 64 * 1024 * 1024)) := by
  unfold detect_chip_size at hbig ⊢
  simp only at hbig ⊢
  split_ifs at hbig ⊢ with h1 h2 h3 h4 h5 h6 h7 h8 h9 h10 <;> simp_all

/-- The exchanges of the backup loop over a chip of `N` sectors, started at
sector `k`: one read per chunk, each for 4096 bytes, at consecutive sector
addresses; a run that ends with `success` has read every sector. -/
theorem backup_loop_exchanges (D : SpiDevice σ) (sink : SdSink) (N : Nat)
    (hN : 4096 * N < 2 ^ 32) :
    ∀ (fuel k : Nat) (file : List Nat) (b : Bus σ) (ok : Bool) (file' : List Nat) (b' : Bus σ),
      k ≤ N → backup_loop D sink (4096 * N) fuel (4096 * k) file b = some (ok, file', b') →
      ∃ (evs : List BusEvent) (ds : List (List Nat)),
        b'.trace = b.trace ++ evs
        ∧ Emits evs ((List.range ds.length).map
            (fun j => read_exchange (4096 * (k + j)) (ds.getD j [])))
        ∧ (∀ j < ds.length, (ds.getD j []).length = 4096)
        ∧ k + ds.length ≤ N
        ∧ (ok = true → k + ds.length = N) := by
  intro fuel
  induction fuel with
  | zero => intro k file b ok file' b' _ h; simp [backup_loop] at h
  | succ f ih =>
    intro k file b ok file' b' hk h
    rw [backup_loop] at h
    by_cases hlt : 4096 * k < 4096 * N
    · have hcs : (if 4096 * N - 4096 * k > 4096 then 4096 else 4096 * N - 4096 * k) = 4096 := by
        split_ifs <;> omega
      rw [if_pos hlt] at h
      simp only [hcs] at h
      have htr := read_data_trace D (4096 * k) 4096 b
      have hlen := read_data_length D (4096 * k) 4096 b
      have hone := emits_read (4096 * k) (read_data D (4096 * k) 4096 b).2
      by_cases hw : (sink.f_write file (read_data D (4096 * k) 4096 b).2).1 ≠ FR_OK
          ∨ min (sink.f_write file (read_data D (4096 * k) 4096 b).2).2 4096 ≠ 4096
      · rw [if_pos hw] at h
        simp only [Option.some.injEq, Prod.mk.injEq] at h
        obtain ⟨hok, _, hb⟩ := h
        refine ⟨[BusEvent.cs_low, BusEvent.write (cmd_hdr 0x03 (4096 * k)),
          BusEvent.read 0 (read_data D (4096 * k) 4096 b).2, BusEvent.cs_high],
          [(read_data D (4096 * k) 4096 b).2], ?_, ?_, ?_, ?_, ?_⟩
        · rw [← hb]; exact htr
        · simpa [read_exchange] using hone
        · intro j hj
          have : j = 0 := by simpa using hj
          subst this
          simpa using hlen
        · simp only [List.length_singleton]; omega
        · intro hc; rw [← hok] at hc; cases hc
      · rw [if_neg hw] at h
        have hnext : (4096 * k + 4096) % 2 ^ 32 = 4096 * (k + 1) := by omega
        rw [hnext] at h
        obtain ⟨evs, ds, ht, he, hl, hb, hfull⟩ := ih (k + 1) _ _ ok file' b' (by omega) h
        refine ⟨[BusEvent.cs_low, BusEvent.write (cmd_hdr 0x03 (4096 * k)),
          BusEvent.read 0 (read_data D (4096 * k) 4096 b).2, BusEvent.cs_high] ++ evs,
          (read_data D (4096 * k) 4096 b).2 :: ds, ?_, ?_, ?_, ?_, ?_⟩
        · rw [ht, htr, List.append_assoc]
        · have hsplit : (List.range ((read_data D (4096 * k) 4096 b).2 :: ds).length).map
              (fun j => read_exchange (4096 * (k + j))
                (((read_data D (4096 * k) 4096 b).2 :: ds).getD j []))
              = [read_exchange (4096 * k) (read_data D (4096 * k) 4096 b).2]
                ++ (List.range ds.length).map
                    (fun j => read_exchange (4096 * (k + 1 + j)) (ds.getD j [])) := by
            rw [List.length_cons, List.range_succ_eq_map, List.map_cons, List.map_map]
            simp only [List.getD_cons_zero, Nat.add_zero, List.singleton_append,
              List.cons.injEq, true_and]
            apply List.map_congr_left
            intro j _
            simp only [Function.comp, List.getD_cons_succ]
            have e : k + (j + 1) = k + 1 + j := by omega
            rw [e]
          rw [hsplit]
          exact emits_append (by simpa [read_exchange] using hone) he
        · intro j hj
          cases j with
          | zero => simpa using hlen
          | succ j =>
            simp only [List.getD_cons_succ]
            exact hl j (by simpa using hj)
        · simp only [List.length_cons]; omega
        · intro hc
          have := hfull hc
          simp only [List.length_cons]; omega
    · rw [if_neg hlt] at h
      simp only [Option.some.injEq, Prod.mk.injEq] at h
      obtain ⟨_, _, hb⟩ := h
      refine ⟨[], [], by rw [← hb]; simp, by simpa using emits_nil, by simp, by simpa using hk,
        ?_⟩
      intro _
      simp only [List.length_nil]; omega

/-- With a file that accepts every write the backup loop reads every sector and
ends with `success`. -/
theorem backup_loop_total (D : SpiDevice σ) (sink : SdSink) (N : Nat) (hN : 4096 * N < 2 ^ 32)
    (hsink : ∀ file buf, sink.f_write file buf = (FR_OK, buf.length)) :
    ∀ (fuel k : Nat) (file : List Nat) (b : Bus σ), k ≤ N → N - k < fuel →
      ∃ file' b', backup_loop D sink (4096 * N) fuel (4096 * k) file b
        = some (true, file', b') := by
  intro fuel
  induction fuel with
  | zero => intro k file b _ h; omega
  | succ f ih =>
    intro k file b hk hf
    rw [backup_loop]
    by_cases hlt : 4096 * k < 4096 * N
    · have hcs : (if 4096 * N - 4096 * k > 4096 then 4096 else 4096 * N - 4096 * k) = 4096 := by
        split_ifs <;> omega
      have hlen := read_data_length D (4096 * k) 4096 b
      have hw : ¬ ((sink.f_write file (read_data D (4096 * k) 4096 b).2).1 ≠ FR_OK
          ∨ min (sink.f_write file (read_data D (4096 * k) 4096 b).2).2 4096 ≠ 4096) := by
        rw [hsink, hlen]
        simp
      have hnext : (4096 * k + 4096) % 2 ^ 32 = 4096 * (k + 1) := by omega
      rw [if_pos hlt]
      simp only [hcs]
      rw [if_neg hw, hnext]
      exact ih (k + 1) _ _ (by omega) (by omega)
    · rw [if_neg hlt]
      exact ⟨_, _, rfl⟩

theorem sent_bytes_read_exchange (addr : Nat) (data : List Nat) :
    sent_bytes (read_exchange addr data) = chunk_request addr data.length := by
  simp [sent_bytes, read_exchange, chunk_request]

/-- C29: `read_data`, `page_program` and `sector_erase_4k` put only the low 24
bits of the address on the bus: called with `addr` they do exactly what they do
when called with `addr mod 2 ^ 24`.  `detect_chip_size` returns more than 16 MiB
only for memory type `0x40` with capacity byte `0x20` (32 MiB) or `0x21`
(64 MiB), and then every run of `backup_entire_chip` that returns consists of one
read exchange per 4096 byte chunk, where the bytes sent for the chunk at an
address `4096 * j ≥ 2 ^ 24` are those of the request for address
`4096 * j - 2 ^ 24`, the same bytes that were sent for chunk `j - 4096`. -/
theorem backup_high_chunks_alias (D : SpiDevice σ) (fuel : Nat) (sink : SdSink)
    (old : List Nat) (b : Bus σ) (ok : Bool) (file : List Nat) (b' : Bus σ)
    (fuelw op addr len : Nat) (data : List Nat)
    (hbig : 16 * 1024 * 1024 < (detect_chip_size D b).2)
    (h : backup_entire_chip D fuel sink old b = some (ok, file, b')) :
    cmd_hdr op addr = cmd_hdr op (addr % 2 ^ 24)
    ∧ read_data D addr len b = read_data D (addr % 2 ^ 24) len b
    ∧ page_program D fuelw addr data b = page_program D fuelw (addr % 2 ^ 24) data b
    ∧ sector_erase_4k D fuelw addr b = sector_erase_4k D fuelw (addr % 2 ^ 24) b
    ∧ (read_jedec_id D b).2.getD 1 0 = 0x40
    ∧ (((read_jedec_id D b).2.getD 2 0 = 0x20 ∧ (detect_chip_size D b).2 = 32 * 1024 * 1024)
      ∨ ((read_jedec_id D b).2.getD 2 0 = 0x21
          ∧ (detect_chip_size D b).2 = 64 * 1024 * 1024))
    ∧ ∃ (evs : List BusEvent) (xs : List (List BusEvent)),
        b'.trace = (detect_chip_size D b).1.trace ++ evs
        ∧ Emits evs xs
        ∧ (ok = true → xs.length = (detect_chip_size D b).2 / 4096)
        ∧ (∀ j < xs.length, ∃ rx : List Nat,
            rx.length = 4096 ∧ xs.getD j [] = read_exchange (4096 * j) rx)
        ∧ (∀ j < xs.length, 2 ^ 24 ≤ 4096 * j →
            sent_bytes (xs.getD j []) = chunk_request (4096 * j - 2 ^ 24) 4096
            ∧ sent_bytes (xs.getD j []) = sent_bytes (xs.getD (j - 4096) [])) := by
  obtain ⟨hid1, hsize⟩ := detect_chip_size_big D b hbig
  refine ⟨cmd_hdr_mod op addr, ?_, ?_, ?_, hid1, hsize, ?_⟩
  · simp only [read_data]; rw [← cmd_hdr_mod]
  · simp only [page_program]; rw [← cmd_hdr_mod]
  · simp only [sector_erase_4k]; rw [← cmd_hdr_mod]
  · obtain ⟨N, hN, hNlt⟩ : ∃ N, (detect_chip_size D b).2 = 4096 * N ∧ 4096 * N < 2 ^ 32 := by
      rcases hsize with ⟨_, hs⟩ | ⟨_, hs⟩
      · exact ⟨8192, by rw [hs], by decide⟩
      · exact ⟨16384, by rw [hs], by decide⟩
    unfold backup_entire_chip at h
    simp only at h
    by_cases hm : sink.fr_mount ≠ FR_OK
    · rw [if_pos hm] at h
      simp only [Option.some.injEq, Prod.mk.injEq] at h
      obtain ⟨hok, _, hb⟩ := h
      refine ⟨[], [], by rw [← hb]; simp, emits_nil, ?_, by simp, by simp⟩
      intro hc; rw [← hok] at hc; cases hc
    · rw [if_neg hm] at h
      by_cases ho : sink.fr_open ≠ FR_OK
      · rw [if_pos ho] at h
        simp only [Option.some.injEq, Prod.mk.injEq] at h
        obtain ⟨hok, _, hb⟩ := h
        refine ⟨[], [], by rw [← hb]; simp, emits_nil, ?_, by simp, by simp⟩
        intro hc; rw [← hok] at hc; cases hc
      · rw [if_neg ho, hN] at h
        obtain ⟨evs, ds, ht, he, hl, hb, hfull⟩ :=
          backup_loop_exchanges D sink N hNlt fuel 0 [] _ ok file b' (by omega) h
        have hget : ∀ j < ds.length,
            ((List.range ds.length).map
              (fun j => read_exchange (4096 * (0 + j)) (ds.getD j []))).getD j []
              = read_exchange (4096 * j) (ds.getD j []) := by
          intro j hj
          rw [List.getD_eq_getElem?_getD, List.getElem?_map, List.getElem?_range hj]
          simp
        refine ⟨evs, _, ht, he, ?_, ?_, ?_⟩
        · intro hc
          have := hfull hc
          rw [hN]
          simp only [List.length_map, List.length_range]
          omega
        · intro j hj
          simp only [List.length_map, List.length_range] at hj
          exact ⟨ds.getD j [], hl j hj, hget j hj⟩
        · intro j hj h24
          simp only [List.length_map, List.length_range] at hj
          have hj2 : j - 4096 < ds.length := by omega
          have hmod : (4096 * j) % 2 ^ 24 = (4096 * j - 2 ^ 24) % 2 ^ 24 := by omega
          have hmod2 : 4096 * (j - 4096) = 4096 * j - 2 ^ 24 := by omega
          rw [hget j hj, hget (j - 4096) hj2, sent_bytes_read_exchange,
            sent_bytes_read_exchange, hl j hj, hl (j - 4096) hj2, hmod2]
          have : chunk_request (4096 * j) 4096 = chunk_request (4096 * j - 2 ^ 24) 4096 := by
            simp only [chunk_request]
            rw [cmd_hdr_mod, hmod, ← cmd_hdr_mod]
          exact ⟨this, this⟩

theorem backup_entire_chip_eq (D : SpiDevice σ) (fuel : Nat) (sink : SdSink) (old : List Nat)
    (b : Bus σ) (hm : sink.fr_mount = FR_OK) (ho : sink.fr_open = FR_OK) :
    backup_entire_chip D fuel sink old b
      = backup_loop D sink (detect_chip_size D b).2 fuel 0 [] (detect_chip_size D b).1 := by
  unfold backup_entire_chip
  simp [hm, ho]

theorem w25q256_detected :
    (detect_chip_size w25q256_id_device ⟨0, []⟩).2 = 4096 * 8192 := by decide

/-- C29, witness: the backup of a part that identifies as 32 MiB, to a file that
accepts every write: all 8192 chunks are read, and the 4096 chunks from 16 MiB
on are requested with the bytes of the chunks 16 MiB below. -/
theorem backup_high_chunks_alias_witness :
    ∃ (file : List Nat) (b' : Bus Nat),
      backup_entire_chip w25q256_id_device 8193 accepting_sink [] ⟨0, []⟩
        = some (true, file, b')
      ∧ ∃ (evs : List BusEvent) (xs : List (List BusEvent)),
        b'.trace = (detect_chip_size w25q256_id_device ⟨0, []⟩).1.trace ++ evs
        ∧ Emits evs xs
        ∧ (true = true → xs.length = (detect_chip_size w25q256_id_device ⟨0, []⟩).2 / 4096)
        ∧ (∀ j < xs.length, ∃ rx : List Nat,
            rx.length = 4096 ∧ xs.getD j [] = read_exchange (4096 * j) rx)
        ∧ (∀ j < xs.length, 2 ^ 24 ≤ 4096 * j →
            sent_bytes (xs.getD j []) = chunk_request (4096 * j - 2 ^ 24) 4096
            ∧ sent_bytes (xs.getD j []) = sent_bytes (xs.getD (j - 4096) [])) := by
  obtain ⟨file, b', hrun⟩ := backup_loop_total w25q256_id_device accepting_sink 8192
    (by decide) (fun _ _ => rfl) 8193 0 []
    (detect_chip_size w25q256_id_device ⟨0, []⟩).1 (by decide) (by decide)
  have h : backup_entire_chip w25q256_id_device 8193 accepting_sink [] ⟨0, []⟩
      = some (true, file, b') := by
    rw [backup_entire_chip_eq _ _ _ _ _ rfl rfl, w25q256_detected]
    exact hrun
  exact ⟨file, b', h,
    (backup_high_chunks_alias w25q256_id_device 8193 accepting_sink [] ⟨0, []⟩ true file b'
      0 0x03 0 0 [] (by rw [w25q256_detected]; decide) h).2.2.2.2.2.2⟩

end flash_ben

end Firmware

namespace Firmware

namespace flash

/-! ## A restore touches whole sectors -/

/-- C30: with `todo = min (file size, flash_bytes)` (file smaller than 4 GiB, flash
of at most `2 ^ 24` bytes, intact file), on any device every flash access of
`flash_restore_from_file`, so every sector erase and page program, has an address
below `ceil (todo / 4096) * 4096`.  On the ideal NOR device the restore of a
non-empty file ends with `FR_OK` and leaves the first `todo` cells holding the
file, the cells from `todo` up to the end of the last sector touched erased
(`0xFF`) whatever they held before, and every cell from there on unchanged. -/
theorem restore_erases_whole_sectors {σ : Type} (D : SpiDevice σ) (fuel : Nat)
    (file : List Nat) (flash_bytes : Nat) (verify : Bool) (b : Bus σ) (fr : Nat) (b' : Bus σ)
    (tE tP fuelN : Nat) (bN : Bus Nor)
    (hfb : flash_bytes ≤ 2 ^ 24) (hsize : file.length < 2 ^ 32) (hne : file ≠ [])
    (hbytes : ∀ v ∈ file, v < 256)
    (hfE : tE < fuelN) (hfP : tP < fuelN) (hfp : 16 < fuelN)
    (hfn : (min file.length flash_bytes + 4095) / 4096 < fuelN)
    (h : flash_restore_from_file D fuel (SdSource.ofBytes file) flash_bytes verify b
      = some (fr, b')) :
    (∃ evs, b'.trace = b.trace ++ evs
      ∧ ∀ c ∈ flash_cmds evs,
          cmd_addr c < (min file.length flash_bytes + 4095) / 4096 * 4096)
    ∧ ∃ bN', flash_restore_from_file (nor tE tP) fuelN (SdSource.ofBytes file) flash_bytes
          verify bN = some (FR_OK, bN')
        ∧ (∀ x, x < min file.length flash_bytes → bN'.dev.mem x = cell_of file x)
        ∧ (∀ x, min file.length flash_bytes ≤ x →
            x < (min file.length flash_bytes + 4095) / 4096 * 4096 → bN'.dev.mem x = 255)
        ∧ (∀ x, (min file.length flash_bytes + 4095) / 4096 * 4096 ≤ x →
            bN'.dev.mem x = bN.dev.mem x) := by
  constructor
  · obtain ⟨evs, htr, hcase⟩ := flash_restore_issues D fuel file flash_bytes verify b fr b' hfb
      hsize h
    refine ⟨evs, htr, ?_⟩
    rcases hcase with ⟨_, _, hevs⟩ | ⟨_, _, hi⟩ | ⟨_, _, _, m, rb, hm, _, hi⟩
    · subst hevs
      intro c hc
      simp [flash_cmds, commands, exchanges] at hc
    · rw [issues_flash_cmds_eq hi]
      intro c hc
      have := restore_cmds_addr_lt verify file _ 0 _ c hc
      omega
    · rw [issues_flash_cmds_eq hi]
      intro c hc
      rcases List.mem_append.1 hc with hc | hc
      · have := restore_cmds_addr_lt true file _ 0 m c hc
        omega
      · have := sector_cmds_addr_lt true (4096 * m) _ rb (sector_buf_length_le _ _ _) c hc
        omega
  · obtain ⟨bN', hrun, hmem⟩ := nor_flash_restore tE tP fuelN file flash_bytes verify bN hfb
      hsize hne hbytes hfE hfP hfp hfn
    refine ⟨bN', hrun, ?_, ?_, ?_⟩
    · intro x hx
      rw [hmem]
      simp only [restored]
      rw [if_pos hx]
    · intro x hx1 hx2
      rw [hmem]
      simp only [restored]
      rw [if_neg (by omega), if_pos hx2]
    · intro x hx
      rw [hmem]
      simp only [restored]
      rw [if_neg (by omega), if_neg (by omega)]

/-- C30, witness: the one byte file `[1]` restored with verification, on a device
that answers every byte with `0` (the read-back fails after the erase and the
program of sector 0) and on an ideal NOR device whose cells all hold `0x5A`
(cells 1 to 4095 end up `0xFF`). -/
theorem restore_erases_whole_sectors_witness :
    (∃ evs, (Bus.mk () one_byte_restore_trace).trace = (Bus.mk () []).trace ++ evs
      ∧ ∀ c ∈ flash_cmds evs, cmd_addr c < (min [1].length 4096 + 4095) / 4096 * 4096)
    ∧ ∃ bN', flash_restore_from_file (nor 3 1) 17 (SdSource.ofBytes [1]) 4096 true
          ⟨⟨fun _ => 0x5A, false, 0, []⟩, []⟩ = some (FR_OK, bN')
        ∧ (∀ x, x < min [1].length 4096 → bN'.dev.mem x = cell_of [1] x)
        ∧ (∀ x, min [1].length 4096 ≤ x →
            x < (min [1].length 4096 + 4095) / 4096 * 4096 → bN'.dev.mem x = 255)
        ∧ (∀ x, (min [1].length 4096 + 4095) / 4096 * 4096 ≤ x →
            bN'.dev.mem x = (Bus.mk (Nor.mk (fun _ => 0x5A) false 0 []) []).dev.mem x) :=
  restore_erases_whole_sectors zero_device 2 [1] 4096 true ⟨(), []⟩ FR_INT_ERR
    ⟨(), one_byte_restore_trace⟩ 3 1 17 ⟨⟨fun _ => 0x5A, false, 0, []⟩, []⟩
    (by decide) (by decide) (by decide) (by decide) (by decide) (by decide) (by decide)
    (by decide) rfl

end flash

end Firmware
